import Mathlib

/-! # pproxy: a shallow embedding of the proxy library and its connection machine

The definitions follow `src/pproxy.c`, `src/callbacks.c` and
`src/pproxy_connection.c` function by function and keep their names.

Conventions of the embedding

* A byte is a natural number; a buffer content is a list of bytes.
* An `evbuffer` (libevent) is the list of its extents (chain nodes), front
  first.  An `evbuffer_ptr` is kept as what lies from the pointer to the end
  of the buffer, extent by extent; the empty list is the pointer past the
  last byte.
* The output side of a `bufferevent` is the sequence of all bytes queued on
  it so far, oldest first.  Queueing never fails (no allocation failure).
* The HTTP parser library (`http_parser`) is not part of the repository.  Its
  automaton is a parameter (`HttpLib`): one byte at a time, it says what the
  next automaton state is and which callback, if any, that byte triggers.
  `http_parser_execute` below is the library's driver loop around that
  automaton, with the callback protocol of the library (a callback that
  returns nonzero or pauses the parser ends the call).
* A C pointer that may be null is an `Option`.  An `assert` that fails, or a
  null bufferevent that is written to, ends the run with a `Fault`.
* Loops that the code does not bound take a fuel argument; running out of
  fuel is the outcome `timeout`.
-/

namespace Pproxy

/-! ## Bytes and libevent buffers -/

/-- One octet of a byte stream. -/
abbrev Byte := Nat

/-- The chain of extents of a libevent evbuffer, front first. -/
abbrev evbuffer := List (List Byte)

/-- The evbuffer_ptr of libevent, kept as the part of the buffer from the
pointer to the end; the first extent is the rest of the chain node the
pointer is in. -/
abbrev evbuffer_ptr := List (List Byte)

/-- All bytes of the buffer in order. -/
def evbuffer_bytes (b : evbuffer) : List Byte := b.flatten

/-- Number of bytes stored: evbuffer_get_length. -/
def evbuffer_get_length (b : evbuffer) : Nat := (evbuffer_bytes b).length

/-- Remove the first n bytes: evbuffer_drain.  Whole chain nodes are freed
while they fit in n, the next one is cut at the front. -/
def evbuffer_drain : evbuffer → Nat → evbuffer
  | [], _ => []
  | e :: rest, n =>
    if e.length ≤ n then evbuffer_drain rest (n - e.length) else e.drop n :: rest

/-- The two modes of evbuffer_ptr_set. -/
inductive evbuffer_ptr_how
  | EVBUFFER_PTR_SET
  | EVBUFFER_PTR_ADD
  deriving DecidableEq, Repr

/-- Move a pointer: evbuffer_ptr_set.  SET counts from the start of the
buffer, ADD from the pointer.  Returns 0 and the new pointer when the
position is inside the data or just past its last byte, and -1 beyond. -/
def evbuffer_ptr_set (buffer : evbuffer) (pos : evbuffer_ptr) (position : Nat)
    (how : evbuffer_ptr_how) : Int × evbuffer_ptr :=
  let start := match how with
    | .EVBUFFER_PTR_SET => buffer
    | .EVBUFFER_PTR_ADD => pos
  if position ≤ evbuffer_get_length start then (0, evbuffer_drain start position)
  else (-1, [])

/-- Look at the extents from a pointer on without copying: evbuffer_peek with
len = -1.  Returns how many extents hold the data from the pointer to the
end, and the first n_vec of them. -/
def evbuffer_peek (start_at : evbuffer_ptr) (n_vec : Nat) : Nat × List (List Byte) :=
  (start_at.length, start_at.take n_vec)

/-- The extent an iovec slot describes; a slot that was not filled is empty. -/
def iovec (extents : List (List Byte)) (i : Nat) : List Byte := extents.getD i []

/-- Which read callback a bufferevent carries. -/
inductive read_cb_t
  | none
  | source_read_cb
  | target_read_cb
  | direct_source_read_cb
  | direct_target_read_cb
  deriving DecidableEq, Repr

/-- Which write callback a bufferevent carries. -/
inductive write_cb_t
  | none
  | source_last_write_cb
  deriving DecidableEq, Repr

/-- Which event callback a bufferevent carries. -/
inductive event_cb_t
  | none
  | connect_event_cb
  | target_event_cb
  | source_event_cb
  | direct_source_event_cb
  | direct_target_event_cb
  deriving DecidableEq, Repr

/-- A libevent bufferevent: pending input, bytes queued for output, the
installed callbacks and the enabled directions. -/
structure bufferevent where
  input : evbuffer
  output : List Byte
  readcb : read_cb_t
  writecb : write_cb_t
  eventcb : event_cb_t
  ev_read : Bool
  ev_write : Bool
  deriving DecidableEq, Repr

/-- A fresh socket bufferevent: bufferevent_socket_new. -/
def bufferevent_socket_new : bufferevent :=
  { input := [], output := [], readcb := .none, writecb := .none, eventcb := .none,
    ev_read := false, ev_write := false }

/-- Install callbacks: bufferevent_setcb. -/
def bufferevent_setcb (bev : bufferevent) (r : read_cb_t) (w : write_cb_t)
    (e : event_cb_t) : bufferevent :=
  { bev with readcb := r, writecb := w, eventcb := e }

/-- Enable directions: bufferevent_enable. -/
def bufferevent_enable (bev : bufferevent) (rd wr : Bool) : bufferevent :=
  { bev with ev_read := bev.ev_read || rd, ev_write := bev.ev_write || wr }

/-- Disable directions: bufferevent_disable. -/
def bufferevent_disable (bev : bufferevent) (rd wr : Bool) : bufferevent :=
  { bev with ev_read := bev.ev_read && !rd, ev_write := bev.ev_write && !wr }

/-- Queue bytes for output: bufferevent_write. -/
def bufferevent_write (bev : bufferevent) (data : List Byte) : bufferevent :=
  { bev with output := bev.output ++ data }

/-- Queue a whole buffer for output and leave it empty:
bufferevent_write_buffer.  Returns the bufferevent and the emptied buffer. -/
def bufferevent_write_buffer (bev : bufferevent) (buf : evbuffer) : bufferevent × evbuffer :=
  ({ bev with output := bev.output ++ evbuffer_bytes buf }, [])

/-- Move the whole pending input to the end of a buffer:
bufferevent_read_buffer.  Returns the bufferevent and the grown buffer. -/
def bufferevent_read_buffer (bev : bufferevent) (buf : evbuffer) : bufferevent × evbuffer :=
  ({ bev with input := [] }, buf ++ bev.input)

/-! ## The proxy handle: pproxy.c and callbacks.c -/

/-- States that the server run loop can be in. -/
inductive proxy_server_state
  | PROXY_INIT
  | PROXY_RUNNING
  | PROXY_TERMINATED
  deriving DecidableEq, Repr

/-- The callback table of callbacks.h; a hook is a function pointer, kept as
an optional identifier of the function. -/
structure pproxy_callbacks where
  on_connect : Option Nat
  on_direct_connect : Option Nat
  on_request_complete : Option Nat
  deriving DecidableEq, Repr

/-- The table after memset to zero. -/
def pproxy_callbacks_zero : pproxy_callbacks :=
  { on_connect := none, on_direct_connect := none, on_request_complete := none }

/-- The library handle, struct pproxy of pproxy-internal.h.  The fields
base, dns_base and listener only record whether the object exists.  The
field callbacks is the one pproxy_set_callbacks stores into; the header
under src/ does not declare it, its type is the table of callbacks.h. -/
structure pproxy where
  port : Int
  base : Bool
  dns_base : Bool
  listener : Bool
  run_state : proxy_server_state
  callbacks : pproxy_callbacks
  deriving DecidableEq, Repr

/-- Conversion of an unsigned 16-bit value to int16_t. -/
def to_int16 (n : Nat) : Int :=
  if n % 65536 < 32768 then ((n % 65536 : Nat) : Int) else ((n % 65536 : Nat) : Int) - 65536

/-- Conversion of an int16_t to uint16_t. -/
def to_uint16 (i : Int) : Nat := (i % 65536).toNat

/-- What the operating system and libevent answer during pproxy_init. -/
structure init_env where
  socket_ok : Bool
  nonblocking_ok : Bool
  reuseable_ok : Bool
  inet_pton_ok : Bool
  bind_ok : Bool
  getsockname_ok : Bool
  assigned_port : Nat
  base_ok : Bool
  dns_base_ok : Bool
  listener_ok : Bool
  deriving DecidableEq, Repr

/-- The port the kernel binds the listener to: the requested one, or the one
it assigns when the request is port 0. -/
def bound_port (env : init_env) (port : Int) : Nat :=
  if to_uint16 port = 0 then env.assigned_port % 65536 else to_uint16 port

/-- The function get_state of pproxy.c. -/
def get_state (handle : pproxy) : proxy_server_state := handle.run_state

/-- The function terminated of pproxy.c. -/
def terminated (handle : pproxy) : Bool := get_state handle = .PROXY_TERMINATED

/-- The function pproxy_init.  handle_out says whether the out pointer is
non-null, bind_address is the address string or null.  Returns the return
code and the handle stored through the out pointer. -/
def pproxy_init (env : init_env) (handle_out : Bool) (bind_address : Option (List Byte))
    (port : Int) : Int × Option pproxy :=
  if !handle_out then (-1, none)
  else if bind_address.isNone then (-1, none)
  else
    let ret : pproxy :=
      { port := 0, base := false, dns_base := false, listener := false,
        run_state := .PROXY_INIT, callbacks := pproxy_callbacks_zero }
    if !env.socket_ok then (-1, none)
    else if !env.nonblocking_ok then (-1, none)
    else if !env.reuseable_ok then (-1, none)
    else if !env.inet_pton_ok then (-1, none)
    else if !env.bind_ok then (-1, none)
    else if !env.getsockname_ok then (-1, none)
    else
      let ret := { ret with port := to_int16 (bound_port env port) }
      if !env.base_ok then (-1, none)
      else
        let ret := { ret with base := true }
        if !env.dns_base_ok then (-1, none)
        else
          let ret := { ret with dns_base := true }
          if !env.listener_ok then (-1, none)
          else
            let ret := { ret with listener := true }
            (0, some ret)

/-- The function pproxy_get_port.  port_out says whether the out pointer is
non-null.  Returns the return code and the value stored through it. -/
def pproxy_get_port (handle : Option pproxy) (port_out : Bool) : Int × Option Int :=
  match handle with
  | none => (-1, none)
  | some h =>
    if !port_out then (-1, none)
    else if terminated h then (-1, none)
    else (0, some h.port)

/-- The function pproxy_running. -/
def pproxy_running (handle : Option pproxy) : Int :=
  match handle with
  | none => 0
  | some h => if get_state h = .PROXY_RUNNING then 1 else 0

/-- The function terminate of pproxy.c. -/
def terminate (handle : pproxy) : pproxy := { handle with run_state := .PROXY_TERMINATED }

/-- The function pproxy_stop. -/
def pproxy_stop (handle : Option pproxy) : Option pproxy :=
  match handle with
  | none => none
  | some h => some (terminate h)

/-- The function pproxy_start up to its store to run_state: the error code
when it returns early, else the handle as the dispatch loop finds it. -/
def pproxy_start_entry (handle : Option pproxy) : Except Int pproxy :=
  match handle with
  | none => .error (-1)
  | some h =>
    if pproxy_running (some h) ≠ 0 then .error (-1)
    else .ok { h with run_state := .PROXY_RUNNING }

/-- The dispatch loop of pproxy_start.  Each list entry is one return of
event_base_dispatch and tells whether pproxy_stop ran before it.  none: the
thread is still inside the loop when the list ends. -/
def pproxy_start_dispatch : pproxy → List Bool → Option (Int × pproxy)
  | _, [] => none
  | h, stopped :: more =>
    let h1 := if stopped then terminate h else h
    if terminated h1 then some (0, h1) else pproxy_start_dispatch h1 more

/-- The function pproxy_start. -/
def pproxy_start (handle : Option pproxy) (dispatch : List Bool) : Option (Int × Option pproxy) :=
  match pproxy_start_entry handle with
  | .error rc => some (rc, handle)
  | .ok h => (pproxy_start_dispatch h dispatch).map (fun r => (r.1, some r.2))

/-- The function pproxy_set_callbacks.  Returns the return code and the
handle afterwards. -/
def pproxy_set_callbacks (handle : Option pproxy) (callbacks : Option pproxy_callbacks) :
    Int × Option pproxy :=
  match handle with
  | none => (-1, none)
  | some h =>
    match callbacks with
    | none => (0, some { h with callbacks := pproxy_callbacks_zero })
    | some cbs => (0, some { h with callbacks := cbs })

/-- A duration, struct timeval. -/
structure timeval where
  tv_sec : Int
  tv_usec : Int
  deriving DecidableEq, Repr

/-- Modelled from the spec: struct pproxy_connection_handle is declared in no
file under src/.  It is given the two fields callbacks.c reads and writes:
delay, the duration stored on the connection, and timer, the optional
one-shot timer (an identifier of the event when one exists). -/
structure pproxy_connection_handle where
  delay : timeval
  timer : Option Nat
  deriving DecidableEq, Repr

/-- The function pproxy_connection_handle_init: memset to zero. -/
def pproxy_connection_handle_init : pproxy_connection_handle :=
  { delay := { tv_sec := 0, tv_usec := 0 }, timer := none }

/-- The function pproxy_conn_insert_pause.  Both pointers are asserted
non-null; none is the failed assertion. -/
def pproxy_conn_insert_pause (handle : Option pproxy_connection_handle) (tv : Option timeval) :
    Option pproxy_connection_handle :=
  match handle, tv with
  | some h, some t => some { h with delay := t }
  | _, _ => none

/-- The function pproxy_connection_handle_has_delay. -/
def pproxy_connection_handle_has_delay (handle : Option pproxy_connection_handle) : Int :=
  match handle with
  | none => 0
  | some h => if h.delay.tv_sec ≠ 0 ∨ h.delay.tv_usec ≠ 0 then 1 else 0

/-! ## The HTTP parser library (external): automaton and driver loop -/

/-- Error codes of the parser.  HPE_INVALID stands for every code other than
the four the proxy can tell apart. -/
inductive http_errno
  | HPE_OK
  | HPE_CB_url
  | HPE_CB_message_complete
  | HPE_PAUSED
  | HPE_INVALID (code : Nat)
  deriving DecidableEq, Repr

/-- Request methods; HTTP_DELETE is the value 0 of the enumeration. -/
inductive http_method
  | HTTP_DELETE
  | HTTP_GET
  | HTTP_HEAD
  | HTTP_POST
  | HTTP_PUT
  | HTTP_CONNECT
  | HTTP_OTHER (n : Nat)
  deriving DecidableEq, Repr

/-- Parser kinds. -/
inductive http_parser_type
  | HTTP_REQUEST
  | HTTP_RESPONSE
  | HTTP_BOTH
  deriving DecidableEq, Repr

/-- The struct http_parser: kind, automaton state (private to the library),
method, error code.  consumed is a history variable: the bytes this parser
has consumed since it was initialised. -/
structure http_parser_t where
  type : http_parser_type
  state : Nat
  method : http_method
  http_errno : http_errno
  consumed : List Byte
  deriving DecidableEq, Repr

/-- Data callbacks the proxy registers. -/
inductive http_data_cb
  | url_cb
  deriving DecidableEq, Repr

/-- Notification callbacks the proxy registers. -/
inductive http_cb
  | source_message_complete
  | target_message_complete
  deriving DecidableEq, Repr

/-- The struct http_parser_settings, restricted to the two slots the proxy
ever fills; every other slot is 0. -/
structure http_parser_settings where
  on_url : Option http_data_cb
  on_message_complete : Option http_cb
  deriving DecidableEq, Repr

/-- What one input byte triggers in the automaton. -/
inductive parse_event
  | pe_none
  | pe_url
  | pe_message_complete
  | pe_error (code : Nat)
  deriving DecidableEq, Repr

/-- Result of one automaton step. -/
structure parse_step where
  state : Nat
  method : http_method
  event : parse_event
  deriving DecidableEq, Repr

/-- Result of http_parser_parse_url: which fields are set (bit UF_HOST = 1,
bit UF_PORT = 2) and where host and port lie in the url. -/
structure http_parser_url where
  field_set : Nat
  host_off : Nat
  host_len : Nat
  port_off : Nat
  port_len : Nat
  deriving DecidableEq, Repr

/-- Index of the host field. -/
def UF_HOST : Nat := 1

/-- Index of the port field. -/
def UF_PORT : Nat := 2

/-- Everything outside the repository that the connection code calls and
whose answer is not fixed by the code: the parser automaton, the url
splitter, socket creation, the start of the connect, and the bytes a read
finds in memory behind the end of an extent. -/
structure Env where
  start_state : http_parser_type → Nat
  step : http_parser_type → Nat → http_method → Byte → parse_step
  in_url : Nat → Bool
  parse_url : List Byte → Bool → Int × http_parser_url
  socket_new_ok : Bool
  connect_hostname : List Byte → Nat → Int
  beyond : List Byte → Nat → Byte

/-- The function http_parser_init. -/
def http_parser_init (E : Env) (t : http_parser_type) : http_parser_t :=
  { type := t, state := E.start_state t, method := .HTTP_DELETE, http_errno := .HPE_OK,
    consumed := [] }

/-- A parser struct after memset to zero. -/
def http_parser_zero : http_parser_t :=
  { type := .HTTP_REQUEST, state := 0, method := .HTTP_DELETE, http_errno := .HPE_OK,
    consumed := [] }

/-- Settings after memset to zero. -/
def http_parser_settings_zero : http_parser_settings :=
  { on_url := none, on_message_complete := none }

/-- What can end a run abnormally: a failed assert (named by its line in
pproxy_connection.c), the assert inside http_parser_pause, or a call on a
null bufferevent. -/
inductive Fault
  | assertion (line : Nat)
  | pause_in_error_state
  | null_bufferevent
  deriving DecidableEq, Repr

/-- The function http_parser_pause: allowed only when the error code is OK or
PAUSED. -/
def http_parser_pause (p : http_parser_t) (paused : Bool) : Except Fault http_parser_t :=
  if p.http_errno = .HPE_OK ∨ p.http_errno = .HPE_PAUSED then
    .ok { p with http_errno := if paused then .HPE_PAUSED else .HPE_OK }
  else .error .pause_in_error_state

/-- What n bytes read from the start of an extent are: its own bytes and,
when n runs past its end, what memory holds behind it. -/
def mem_read (E : Env) (ext : List Byte) (n : Nat) : List Byte :=
  ext.take n ++ (List.range (n - ext.length)).map (E.beyond ext)

/-- The C string starting at a memory position: the bytes before the first
NUL. -/
def c_string (mem : List Byte) : List Byte := mem.takeWhile (fun b => b ≠ 0)

/-- Digits of atoi, most significant first. -/
def atoi_digits : List Byte → Nat → Nat
  | [], acc => acc
  | b :: rest, acc => if 48 ≤ b ∧ b ≤ 57 then atoi_digits rest (acc * 10 + (b - 48)) else acc

/-- The function atoi on a string that starts with a digit. -/
def atoi (s : List Byte) : Nat := atoi_digits s 0

/-! ## The connection: pproxy-internal.h -/

/-- Phases of a connection, enum pproxy_connection_state. -/
inductive pproxy_connection_state
  | CONN_RECV
  | CONN_CONNECTING
  | CONN_RECV_FORWARD
  | CONN_FORWARD
  | CONN_COMPLETE
  | CONN_DIRECT_PARSING
  | CONN_DIRECT
  deriving DecidableEq, Repr

/-- Source side of the proxy connection.  bev and buffer are non-null from
pproxy_connection_init on. -/
structure pproxy_source_state where
  bev : bufferevent
  buffer : evbuffer
  peek_offset : Nat
  parser : http_parser_t
  parser_settings : http_parser_settings
  deriving DecidableEq, Repr

/-- Target side of the proxy connection. -/
structure pproxy_target_state where
  bev : Option bufferevent
  parser : http_parser_t
  parser_settings : http_parser_settings
  deriving DecidableEq, Repr

/-- A connect attempt in flight: the bufferevent that
set_connection_state_connecting created and gave to the reactor, and the
host and port it was started with. -/
structure connect_attempt where
  bev : bufferevent
  host : List Byte
  port : Nat
  deriving DecidableEq, Repr

/-- The struct pproxy_connection.  connecting is not a field of the struct:
it is the reactor's record of the connect attempt, which the code keeps in
no variable of its own. -/
structure pproxy_connection where
  state : pproxy_connection_state
  source_state : pproxy_source_state
  target_state : pproxy_target_state
  connecting : Option connect_attempt
  deriving DecidableEq, Repr

/-- How a callback of the reactor ends: it returns with the connection
alive, it returns after pproxy_connection_free, it stops at a fault, or the
fuel ran out. -/
inductive Outcome (α : Type)
  | ok (a : α)
  | freed
  | fault (f : Fault)
  | timeout
  deriving DecidableEq, Repr

/-- The two parsers of a connection. -/
inductive Side
  | source
  | target
  deriving DecidableEq, Repr

/-- The parser struct a parser pointer designates. -/
def parser_of (side : Side) (c : pproxy_connection) : http_parser_t :=
  match side with
  | .source => c.source_state.parser
  | .target => c.target_state.parser

/-- Store through a parser pointer. -/
def with_parser_of (side : Side) (c : pproxy_connection) (p : http_parser_t) :
    pproxy_connection :=
  match side with
  | .source => { c with source_state := { c.source_state with parser := p } }
  | .target => { c with target_state := { c.target_state with parser := p } }

/-- The settings passed along with a parser. -/
def settings_of (side : Side) (c : pproxy_connection) : http_parser_settings :=
  match side with
  | .source => c.source_state.parser_settings
  | .target => c.target_state.parser_settings

/-- Pause or resume the parser a pointer designates. -/
def pause_parser_of (side : Side) (c : pproxy_connection) (paused : Bool) :
    Except Fault pproxy_connection :=
  match http_parser_pause (parser_of side c) paused with
  | .error f => .error f
  | .ok p => .ok (with_parser_of side c p)

/-! ## pproxy_connection.c: phase setters and parser callbacks -/

/-- The constant source_parser_settings. -/
def source_parser_settings : http_parser_settings :=
  { on_url := some .url_cb, on_message_complete := some .source_message_complete }

/-- The constant target_parser_settings. -/
def target_parser_settings : http_parser_settings :=
  { on_url := none, on_message_complete := some .target_message_complete }

/-- The function reset_source_state. -/
def reset_source_state (E : Env) (source : pproxy_source_state) : pproxy_source_state :=
  { source with parser := http_parser_init E .HTTP_REQUEST,
                parser_settings := source_parser_settings }

/-- The function init_target_state. -/
def init_target_state (E : Env) (bev : bufferevent) : pproxy_target_state :=
  { bev := some bev, parser := http_parser_init E .HTTP_RESPONSE,
    parser_settings := target_parser_settings }

/-- The function set_connection_state_recv. -/
def set_connection_state_recv (E : Env) (c : pproxy_connection) : pproxy_connection :=
  let source := reset_source_state E c.source_state
  let bev := bufferevent_setcb source.bev .source_read_cb .none .source_event_cb
  let bev := bufferevent_enable bev true true
  { c with state := .CONN_RECV, source_state := { source with bev := bev } }

/-- The function set_connection_state_connecting.  Returns the connection
and the return code. -/
def set_connection_state_connecting (E : Env) (c : pproxy_connection) (host : List Byte)
    (port : Nat) : Except Fault (pproxy_connection × Int) :=
  if c.state ≠ .CONN_RECV then .error (.assertion 185)
  else
    let c := { c with state := .CONN_CONNECTING,
                      source_state := { c.source_state with
                        bev := bufferevent_disable c.source_state.bev true false } }
    if !E.socket_new_ok then .ok (c, -1)
    else
      let bev := bufferevent_setcb bufferevent_socket_new .none .none .connect_event_cb
      let bev := bufferevent_enable bev true true
      .ok ({ c with connecting := some { bev := bev, host := host, port := port } },
           E.connect_hostname host port)

/-- The function set_connection_state_recv_forward. -/
def set_connection_state_recv_forward (E : Env) (c : pproxy_connection) (bev : bufferevent) :
    Except Fault pproxy_connection :=
  if c.state ≠ .CONN_CONNECTING then .error (.assertion 215)
  else
    let c := { c with target_state := init_target_state E bev, state := .CONN_RECV_FORWARD }
    match pause_parser_of .source c false with
    | .error f => .error f
    | .ok c =>
      let bev := bufferevent_setcb bev .target_read_cb .none .target_event_cb
      let c := { c with target_state := { c.target_state with bev := some bev } }
      .ok { c with source_state := { c.source_state with
              bev := bufferevent_enable c.source_state.bev true true } }

/-- The function set_connection_state_forward. -/
def set_connection_state_forward (c : pproxy_connection) : Except Fault pproxy_connection :=
  if c.state ≠ .CONN_RECV_FORWARD then .error (.assertion 242)
  else .ok { c with state := .CONN_FORWARD }

/-- The function set_connection_state_complete. -/
def set_connection_state_complete (c : pproxy_connection) : Except Fault pproxy_connection :=
  if c.state ≠ .CONN_FORWARD then .error (.assertion 249)
  else
    match c.target_state.bev with
    | none => .error .null_bufferevent
    | some bev =>
      .ok { c with state := .CONN_COMPLETE,
                   target_state := { c.target_state with
                     bev := some (bufferevent_disable bev true true) } }

/-- The function set_connection_state_direct_parsing. -/
def set_connection_state_direct_parsing (c : pproxy_connection) (bev : bufferevent) :
    Except Fault pproxy_connection :=
  if c.state ≠ .CONN_CONNECTING then .error (.assertion 259)
  else if c.target_state.bev.isSome then .error (.assertion 260)
  else
    let c := { c with state := .CONN_DIRECT_PARSING,
                      target_state := { c.target_state with bev := some bev } }
    pause_parser_of .source c false

/-- The function set_connection_state_direct. -/
def set_connection_state_direct (c : pproxy_connection) : Except Fault pproxy_connection :=
  if c.state ≠ .CONN_DIRECT_PARSING then .error (.assertion 271)
  else
    match c.target_state.bev with
    | none => .error (.assertion 272)
    | some tbev =>
      let sbev := bufferevent_setcb c.source_state.bev .direct_source_read_cb .none
        .direct_source_event_cb
      let sbev := bufferevent_enable sbev true true
      let tbev := bufferevent_setcb tbev .direct_target_read_cb .none .direct_target_event_cb
      let tbev := bufferevent_enable tbev true true
      .ok { c with state := .CONN_DIRECT,
                   source_state := { c.source_state with bev := sbev },
                   target_state := { c.target_state with bev := some tbev } }

/-- The function set_connection_target.  mem is the memory from the host
pointer on.  The byte behind the host is overwritten with NUL for the
duration of the call and then restored.  Returns the connection, the return
code and the memory as it is left. -/
def set_connection_target (E : Env) (c : pproxy_connection) (mem : List Byte)
    (host_len : Nat) (port : Nat) : Except Fault (pproxy_connection × Int × List Byte) :=
  let save := mem.getD host_len 0
  let tmphost := mem.set host_len 0
  match set_connection_state_connecting E c (c_string tmphost) port with
  | .error f => .error f
  | .ok (c, rc) => .ok (c, rc, tmphost.set host_len save)

/-- The function target_message_complete. -/
def target_message_complete (parser : Side) (c : pproxy_connection) :
    Except Fault (pproxy_connection × Int) :=
  if c.state = .CONN_FORWARD then
    match set_connection_state_complete c with
    | .error f => .error f
    | .ok c =>
      match pause_parser_of parser c true with
      | .error f => .error f
      | .ok c => .ok (c, 0)
  else if c.state ≠ .CONN_RECV_FORWARD then .error (.assertion 312)
  else .ok (c, 0)

/-- The function source_message_complete. -/
def source_message_complete (parser : Side) (c : pproxy_connection) :
    Except Fault (pproxy_connection × Int) :=
  let r : Except Fault pproxy_connection :=
    match c.state with
    | .CONN_RECV_FORWARD => set_connection_state_forward c
    | .CONN_DIRECT_PARSING => set_connection_state_direct c
    | _ => .error (.assertion 329)
  match r with
  | .error f => .error f
  | .ok c =>
    match pause_parser_of parser c true with
    | .error f => .error f
    | .ok c => .ok (c, 0)

/-- The function url_cb.  data is the memory from the url pointer on, len the
length the parser reports. -/
def url_cb (E : Env) (parser : Side) (c : pproxy_connection) (data : List Byte) (len : Nat) :
    Except Fault (pproxy_connection × Int) :=
  let r := E.parse_url (data.take len) ((parser_of parser c).method = .HTTP_CONNECT)
  let rc := r.1
  let url := r.2
  if rc ≠ 0 then .ok (c, rc)
  else if !(url.field_set.testBit UF_HOST) then .ok (c, -1)
  else
    let port : Nat :=
      if url.field_set.testBit UF_PORT then atoi (data.drop url.port_off) % 65536 else 80
    match set_connection_target E c (data.drop url.host_off) url.host_len port with
    | .error f => .error f
    | .ok (c, rc, _) =>
      if rc ≠ 0 then .ok (c, rc)
      else
        match pause_parser_of parser c true with
        | .error f => .error f
        | .ok c => .ok (c, 0)

/-- Invocation of the on_url slot of the settings by the library.  An empty
slot counts as a callback that returned 0. -/
def call_on_url (E : Env) (side : Side) (c : pproxy_connection) (data : List Byte)
    (len : Nat) : Except Fault (pproxy_connection × Int) :=
  match (settings_of side c).on_url with
  | none => .ok (c, 0)
  | some .url_cb => url_cb E side c data len

/-- Invocation of the on_message_complete slot of the settings by the
library. -/
def call_on_message_complete (side : Side) (c : pproxy_connection) :
    Except Fault (pproxy_connection × Int) :=
  match (settings_of side c).on_message_complete with
  | none => .ok (c, 0)
  | some .source_message_complete => source_message_complete side c
  | some .target_message_complete => target_message_complete side c

/-- The library's rule after a callback: a nonzero return value becomes the
callback error code of the parser. -/
def note_callback_result (side : Side) (c : pproxy_connection) (rc : Int) (e : http_errno) :
    pproxy_connection :=
  if rc ≠ 0 then with_parser_of side c { parser_of side c with http_errno := e } else c

/-- The automaton takes one byte: new state and method, the byte joins the
consumed history. -/
def parser_advance (side : Side) (c : pproxy_connection) (st : parse_step) (b : Byte) :
    pproxy_connection :=
  with_parser_of side c
    { parser_of side c with state := st.state, method := st.method,
                            consumed := (parser_of side c).consumed ++ [b] }

/-- The byte loop of http_parser_execute.  ext is the whole extent, p the
index of the next byte, mark the index where the url began in this extent
when the automaton is inside the url, rest the bytes from p on.  Returns the
connection and the number of bytes parsed. -/
def http_parser_scan (E : Env) (side : Side) (ext : List Byte) :
    List Byte → Nat → Option Nat → pproxy_connection → Except Fault (pproxy_connection × Nat)
  | [], p, mark, c =>
    match mark with
    | none => .ok (c, p)
    | some m =>
      match call_on_url E side c (ext.drop m) (p - m) with
      | .error f => .error f
      | .ok (c, rc) => .ok (note_callback_result side c rc .HPE_CB_url, p)
  | b :: rest, p, mark, c =>
    let ps := parser_of side c
    let st := E.step ps.type ps.state ps.method b
    match st.event with
    | .pe_error code => .ok (with_parser_of side c { ps with http_errno := .HPE_INVALID code }, p)
    | .pe_none =>
      let mark := if mark.isNone && E.in_url st.state then some p else mark
      http_parser_scan E side ext rest (p + 1) mark (parser_advance side c st b)
    | .pe_url =>
      let c := parser_advance side c st b
      let m := mark.getD p
      match call_on_url E side c (ext.drop m) (p - m) with
      | .error f => .error f
      | .ok (c, rc) =>
        let c := note_callback_result side c rc .HPE_CB_url
        if (parser_of side c).http_errno ≠ .HPE_OK then .ok (c, p + 1)
        else http_parser_scan E side ext rest (p + 1) none c
    | .pe_message_complete =>
      let c := parser_advance side c st b
      match call_on_message_complete side c with
      | .error f => .error f
      | .ok (c, rc) =>
        let c := note_callback_result side c rc .HPE_CB_message_complete
        if (parser_of side c).http_errno ≠ .HPE_OK then .ok (c, p + 1)
        else http_parser_scan E side ext rest (p + 1) mark c

/-- The function http_parser_execute of the library on one extent: nothing is
parsed while the error code is not OK. -/
def http_parser_execute (E : Env) (side : Side) (c : pproxy_connection) (data : List Byte) :
    Except Fault (pproxy_connection × Nat) :=
  let ps := parser_of side c
  if ps.http_errno ≠ .HPE_OK then .ok (c, 0)
  else http_parser_scan E side data data 0 (if E.in_url ps.state then some 0 else none) c

/-- The function is_http_error. -/
def is_http_error (parser : http_parser_t) : Int :=
  match parser.http_errno with
  | .HPE_OK => 0
  | .HPE_PAUSED => 0
  | _ => 1

/-! ## pproxy_connection.c: the request driver -/

/-- Queue bytes on a bufferevent pointer that may be null. -/
def bev_write (bev : Option bufferevent) (data : List Byte) : Except Fault bufferevent :=
  match bev with
  | none => .error .null_bufferevent
  | some b => .ok (bufferevent_write b data)

/-- The function is_direct_state. -/
def is_direct_state (state : pproxy_connection_state) : Bool :=
  state = .CONN_DIRECT_PARSING || state = .CONN_DIRECT

/-- The function xplat_min. -/
def xplat_min (x y : Nat) : Nat := if x > y then y else x

/-- The while loop of write_atmost on the variables buffer, remain and bev.
Returns remain, the buffer and the bufferevent as the loop leaves them. -/
def write_atmost_loop (E : Env) :
    Nat → evbuffer → Nat → Option bufferevent → Outcome (Nat × evbuffer × Option bufferevent)
  | fuel, buffer, remain, bev =>
    if remain = 0 then .ok (remain, buffer, bev)
    else
      match fuel with
      | 0 => .timeout
      | fuel + 1 =>
        let pk := evbuffer_peek buffer 2
        let cnt := pk.1
        let extents := pk.2
        if cnt = 0 then .ok (remain, buffer, bev)
        else if cnt = 1 ∧ (iovec extents 0).length ≤ remain then
          match bev with
          | none => .fault .null_bufferevent
          | some b =>
            let r := bufferevent_write_buffer b buffer
            .ok (remain - (iovec extents 0).length, r.2, some r.1)
        else
          let orig := remain
          let w0 := xplat_min (iovec extents 0).length remain
          match bev_write bev (mem_read E (iovec extents 0) w0) with
          | .error f => .fault f
          | .ok b =>
            let remain := remain - w0
            if remain = 0 then
              write_atmost_loop E fuel (evbuffer_drain buffer (orig - remain)) remain (some b)
            else
              let w1 := xplat_min (iovec extents 1).length remain
              let b := bufferevent_write b (mem_read E (iovec extents 0) w1)
              let remain := remain - w1
              write_atmost_loop E fuel (evbuffer_drain buffer (orig - remain)) remain (some b)

/-- The function write_atmost.  Returns the number written, the buffer and
the bufferevent afterwards. -/
def write_atmost (E : Env) (fuel : Nat) (buffer : evbuffer) (len : Nat)
    (bev : Option bufferevent) : Outcome (Nat × evbuffer × Option bufferevent) :=
  match write_atmost_loop E fuel buffer len bev with
  | .ok (remain, buffer, bev) => .ok (len - remain, buffer, bev)
  | .freed => .freed
  | .fault f => .fault f
  | .timeout => .timeout

/-- The 39 bytes of kOk: HTTP/1.1 200 Connection established CR LF CR LF. -/
def kOk : List Byte :=
  [72, 84, 84, 80, 47, 49, 46, 49, 32, 50, 48, 48, 32,
   67, 111, 110, 110, 101, 99, 116, 105, 111, 110, 32,
   101, 115, 116, 97, 98, 108, 105, 115, 104, 101, 100, 13, 10, 13, 10]

/-- The function send_direct_ok_response. -/
def send_direct_ok_response (c : pproxy_connection) : pproxy_connection :=
  { c with source_state := { c.source_state with
      bev := bufferevent_write c.source_state.bev kOk } }

/-- The first part of drive_request: the bytes counted by peek_offset are
written to the target, or skipped in a direct phase, and peek_offset is
reset. -/
def drive_replay (E : Env) (fuel : Nat) (c : pproxy_connection) : Outcome pproxy_connection :=
  if c.source_state.peek_offset > 0 then
    if !is_direct_state c.state then
      match write_atmost E fuel c.source_state.buffer c.source_state.peek_offset
          c.target_state.bev with
      | .ok (written, buffer, bev) =>
        if written ≠ c.source_state.peek_offset then .fault (.assertion 627)
        else
          .ok { c with source_state := { c.source_state with buffer := buffer, peek_offset := 0 },
                       target_state := { c.target_state with bev := bev } }
      | .freed => .freed
      | .fault f => .fault f
      | .timeout => .timeout
    else
      .ok { c with source_state := { c.source_state with
              buffer := evbuffer_drain c.source_state.buffer c.source_state.peek_offset,
              peek_offset := 0 } }
  else .ok c

/-- The switch of drive_request on the phase: the values of write_data and
loop it leaves. -/
def drive_switch (state : pproxy_connection_state) : Except Fault (Bool × Bool) :=
  match state with
  | .CONN_RECV => .ok (false, true)
  | .CONN_CONNECTING => .ok (false, false)
  | .CONN_RECV_FORWARD => .ok (true, true)
  | .CONN_FORWARD => .ok (true, false)
  | .CONN_DIRECT_PARSING => .ok (false, true)
  | .CONN_DIRECT => .ok (true, true)
  | .CONN_COMPLETE => .error (.assertion 705)

/-- The part of the loop body of drive_request after parsed is known: the
switch and the write or the local advance.  Returns the connection, the
pointer, skip and loop. -/
def drive_act (E : Env) (c : pproxy_connection) (peek : evbuffer_ptr) (skip : Nat)
    (ext0 : List Byte) (parsed : Nat) :
    Except Fault (pproxy_connection × evbuffer_ptr × Nat × Bool) :=
  match drive_switch c.state with
  | .error f => .error f
  | .ok (write_data, loop) =>
    if write_data then
      match bev_write c.target_state.bev (mem_read E ext0 parsed) with
      | .error f => .error f
      | .ok b =>
        let buffer := evbuffer_drain c.source_state.buffer (skip + parsed)
        let c := { c with target_state := { c.target_state with bev := some b },
                          source_state := { c.source_state with buffer := buffer } }
        let r := evbuffer_ptr_set buffer peek 0 .EVBUFFER_PTR_SET
        .ok (c, r.2, 0, if r.1 ≠ 0 then false else loop)
    else
      let r := evbuffer_ptr_set c.source_state.buffer peek parsed .EVBUFFER_PTR_ADD
      .ok (c, r.2, skip + parsed, if r.1 ≠ 0 then false else loop)

/-- The do-while loop of drive_request on the variables peek and skip.
Returns the connection and skip when the loop is left. -/
def drive_loop (E : Env) :
    Nat → pproxy_connection → evbuffer_ptr → Nat → Outcome (pproxy_connection × Nat)
  | 0, _, _, _ => .timeout
  | fuel + 1, c, peek, skip =>
    let pk := evbuffer_peek peek 1
    let eavail := pk.1
    let ext0 := iovec pk.2 0
    if eavail = 0 then .ok (c, skip)
    else if c.state ≠ .CONN_DIRECT then
      match http_parser_execute E .source c ext0 with
      | .error f => .fault f
      | .ok (c, parsed) =>
        if is_http_error c.source_state.parser ≠ 0 then .freed
        else if c.state = .CONN_DIRECT then
          let buffer := evbuffer_drain c.source_state.buffer (parsed + skip)
          let c := { c with source_state := { c.source_state with buffer := buffer } }
          let r := evbuffer_ptr_set buffer peek 0 .EVBUFFER_PTR_SET
          if r.1 ≠ 0 then .ok (c, 0) else drive_loop E fuel c r.2 0
        else
          match drive_act E c peek skip ext0 parsed with
          | .error f => .fault f
          | .ok (c, peek, skip, loop) =>
            if loop then drive_loop E fuel c peek skip else .ok (c, skip)
    else
      match drive_act E c peek skip ext0 ext0.length with
      | .error f => .fault f
      | .ok (c, peek, skip, loop) =>
        if loop then drive_loop E fuel c peek skip else .ok (c, skip)

/-- The function drive_request. -/
def drive_request (E : Env) (fuel : Nat) (c : pproxy_connection) : Outcome pproxy_connection :=
  match drive_replay E fuel c with
  | .freed => .freed
  | .fault f => .fault f
  | .timeout => .timeout
  | .ok c =>
    let r := evbuffer_ptr_set c.source_state.buffer [] c.source_state.peek_offset
      .EVBUFFER_PTR_SET
    match drive_loop E fuel c r.2 0 with
    | .freed => .freed
    | .fault f => .fault f
    | .timeout => .timeout
    | .ok (c, skip) =>
      let c := { c with source_state := { c.source_state with peek_offset := skip } }
      if c.state = .CONN_DIRECT then .ok (send_direct_ok_response c) else .ok c

/-- The function source_read_cb. -/
def source_read_cb (E : Env) (fuel : Nat) (c : pproxy_connection) : Outcome pproxy_connection :=
  let r := bufferevent_read_buffer c.source_state.bev c.source_state.buffer
  drive_request E fuel
    { c with source_state := { c.source_state with bev := r.1, buffer := r.2 } }

/-! ## pproxy_connection.c: the origin read path and the remaining callbacks -/

/-- One round of the forwarding step of target_read_cb: with nothing left
behind the parsed bytes the whole input buffer is queued on the source
bufferevent, else the parsed bytes are queued and drained. -/
def target_forward (E : Env) (c : pproxy_connection) (be : bufferevent) (cur : List Byte)
    (parsed : Nat) (eavail : Nat) : pproxy_connection :=
  if eavail = 0 ∧ parsed = cur.length then
    let r := bufferevent_write_buffer c.source_state.bev be.input
    { c with source_state := { c.source_state with bev := r.1 },
             target_state := { c.target_state with bev := some { be with input := r.2 } } }
  else
    let sbev := bufferevent_write c.source_state.bev (mem_read E cur parsed)
    { c with source_state := { c.source_state with bev := sbev },
             target_state := { c.target_state with
               bev := some { be with input := evbuffer_drain be.input parsed } } }

/-- The do-while loop of target_read_cb on the variables peek and
extents[0]; the buffer is the input of the target bufferevent. -/
def target_read_loop (E : Env) :
    Nat → pproxy_connection → evbuffer_ptr → List Byte → Outcome pproxy_connection
  | 0, _, _, _ => .timeout
  | fuel + 1, c, peek, ext0 =>
    match http_parser_execute E .target c ext0 with
    | .error f => .fault f
    | .ok (c, parsed) =>
      if is_http_error c.source_state.parser ≠ 0 then .freed
      else if parsed < ext0.length ∧ c.state ≠ .CONN_COMPLETE then .freed
      else
        match c.target_state.bev with
        | none => .fault .null_bufferevent
        | some be =>
          let r := evbuffer_ptr_set be.input peek parsed .EVBUFFER_PTR_ADD
          let pk := if r.1 = 0 then evbuffer_peek r.2 1 else (0, [ext0])
          let eavail := pk.1
          let c := target_forward E c be ext0 parsed eavail
          if c.state = .CONN_COMPLETE then .ok c
          else if eavail ≠ 0 then target_read_loop E fuel c r.2 (iovec pk.2 0)
          else .ok c

/-- The function target_read_cb; be is the target bufferevent of the
connection. -/
def target_read_cb (E : Env) (fuel : Nat) (c : pproxy_connection) : Outcome pproxy_connection :=
  match c.target_state.bev with
  | none => .fault .null_bufferevent
  | some be =>
    let r := evbuffer_ptr_set be.input [] 0 .EVBUFFER_PTR_SET
    let pk := evbuffer_peek r.2 1
    if pk.1 = 0 then .fault (.assertion 461)
    else
      match target_read_loop E fuel c r.2 (iovec pk.2 0) with
      | .freed => .freed
      | .fault f => .fault f
      | .timeout => .timeout
      | .ok c =>
        if c.state = .CONN_COMPLETE then
          .ok { c with source_state := { c.source_state with
                  bev := bufferevent_setcb c.source_state.bev .none .source_last_write_cb
                    .source_event_cb } }
        else .ok c

/-- The function move_buffers on two bufferevents: returns src and dst
afterwards. -/
def move_buffers (src dst : bufferevent) : bufferevent × bufferevent :=
  let r := bufferevent_write_buffer dst src.input
  ({ src with input := r.2 }, r.1)

/-- The function direct_source_read_cb. -/
def direct_source_read_cb (c : pproxy_connection) : Outcome pproxy_connection :=
  match c.target_state.bev with
  | none => .fault .null_bufferevent
  | some tbev =>
    let r := move_buffers c.source_state.bev tbev
    .ok { c with source_state := { c.source_state with bev := r.1 },
                 target_state := { c.target_state with bev := some r.2 } }

/-- The function direct_target_read_cb. -/
def direct_target_read_cb (c : pproxy_connection) : Outcome pproxy_connection :=
  match c.target_state.bev with
  | none => .fault .null_bufferevent
  | some tbev =>
    let r := move_buffers tbev c.source_state.bev
    .ok { c with source_state := { c.source_state with bev := r.2 },
                 target_state := { c.target_state with bev := some r.1 } }

/-- The event a bufferevent reports to its event callback. -/
inductive bev_event
  | BEV_EVENT_CONNECTED
  | BEV_EVENT_EOF
  | BEV_EVENT_ERROR
  | BEV_EVENT_TIMEOUT
  deriving DecidableEq, Repr

/-- The common body of target_event_cb, source_event_cb,
direct_source_event_cb and direct_target_event_cb: EOF and error free the
connection, anything else fails the assert on the given line. -/
def close_event_cb (line : Nat) (what : bev_event) : Outcome pproxy_connection :=
  match what with
  | .BEV_EVENT_EOF => .freed
  | .BEV_EVENT_ERROR => .freed
  | _ => .fault (.assertion line)

/-- The function target_event_cb. -/
def target_event_cb (what : bev_event) : Outcome pproxy_connection := close_event_cb 427 what

/-- The function source_event_cb. -/
def source_event_cb (what : bev_event) : Outcome pproxy_connection := close_event_cb 579 what

/-- The function direct_source_event_cb. -/
def direct_source_event_cb (what : bev_event) : Outcome pproxy_connection :=
  close_event_cb 530 what

/-- The function direct_target_event_cb. -/
def direct_target_event_cb (what : bev_event) : Outcome pproxy_connection :=
  close_event_cb 553 what

/-- The function source_last_write_cb. -/
def source_last_write_cb : Outcome pproxy_connection := .freed

/-- The function connect_event_cb; bev is the bufferevent of the connect
attempt. -/
def connect_event_cb (E : Env) (fuel : Nat) (bev : bufferevent) (what : bev_event)
    (c : pproxy_connection) : Outcome pproxy_connection :=
  match what with
  | .BEV_EVENT_CONNECTED =>
    let r : Except Fault pproxy_connection :=
      match c.source_state.parser.method with
      | .HTTP_CONNECT => set_connection_state_direct_parsing c bev
      | _ => set_connection_state_recv_forward E c bev
    match r with
    | .error f => .fault f
    | .ok c => drive_request E fuel c
  | .BEV_EVENT_EOF =>
    if c.target_state.bev.isNone then .fault (.assertion 409) else .freed
  | .BEV_EVENT_ERROR =>
    if c.target_state.bev.isNone then .fault (.assertion 409) else .freed
  | .BEV_EVENT_TIMEOUT => .ok c

/-- The function pproxy_connection_init.  conn_out says whether the out
pointer is non-null; the other flags say whether malloc, making the socket
nonblocking, bufferevent_socket_new and evbuffer_new succeed.  Returns the
return code and the connection stored through the out pointer. -/
def pproxy_connection_init (E : Env) (conn_out malloc_ok nonblocking_ok bev_ok buffer_ok : Bool) :
    Int × Option pproxy_connection :=
  if !conn_out then (-1, none)
  else if !malloc_ok then (-1, none)
  else if !nonblocking_ok then (-1, none)
  else if !bev_ok then (-1, none)
  else if !buffer_ok then (-1, none)
  else
    let source : pproxy_source_state :=
      reset_source_state E
        { bev := bufferevent_socket_new, buffer := [], peek_offset := 0,
          parser := http_parser_zero, parser_settings := http_parser_settings_zero }
    let ret : pproxy_connection :=
      { state := .CONN_RECV, source_state := source,
        target_state := { bev := none, parser := http_parser_zero,
                          parser_settings := http_parser_settings_zero },
        connecting := none }
    (0, some (set_connection_state_recv E ret))

/-! ## The reactor: which callback an event of the loop runs -/

/-- What the event loop can report for one connection: bytes read from the
client socket, an event on the client socket, the client output queue
running empty, the result of the connect attempt, bytes read from the origin
socket, an event on the origin socket. -/
inductive reactor_event
  | source_data (data : evbuffer)
  | source_what (what : bev_event)
  | source_drained
  | connect_what (what : bev_event)
  | target_data (data : evbuffer)
  | target_what (what : bev_event)
  deriving DecidableEq, Repr

/-- One dispatch of the event loop for a connection.  Bytes are read from a
socket only while reading is enabled on its bufferevent; they are appended
to its input, and the read callback installed at that moment runs.  Read
callbacks run only for a read that brought bytes. -/
def reactor_step (E : Env) (fuel : Nat) (ev : reactor_event) (c : pproxy_connection) :
    Outcome pproxy_connection :=
  match ev with
  | .source_data data =>
    if !c.source_state.bev.ev_read || evbuffer_get_length data = 0 then .ok c
    else
      let bev := { c.source_state.bev with input := c.source_state.bev.input ++ data }
      let c := { c with source_state := { c.source_state with bev := bev } }
      match bev.readcb with
      | .source_read_cb => source_read_cb E fuel c
      | .direct_source_read_cb => direct_source_read_cb c
      | _ => .ok c
  | .source_what what =>
    match c.source_state.bev.eventcb with
    | .source_event_cb => source_event_cb what
    | .direct_source_event_cb => direct_source_event_cb what
    | _ => .ok c
  | .source_drained =>
    match c.source_state.bev.writecb with
    | .source_last_write_cb => source_last_write_cb
    | .none => .ok c
  | .connect_what what =>
    match c.connecting with
    | none => .ok c
    | some a => connect_event_cb E fuel a.bev what { c with connecting := none }
  | .target_data data =>
    match c.target_state.bev with
    | none => .ok c
    | some tbev =>
      if !tbev.ev_read || evbuffer_get_length data = 0 then .ok c
      else
        let tbev := { tbev with input := tbev.input ++ data }
        let c := { c with target_state := { c.target_state with bev := some tbev } }
        match tbev.readcb with
        | .target_read_cb => target_read_cb E fuel c
        | .direct_target_read_cb => direct_target_read_cb c
        | _ => .ok c
  | .target_what what =>
    match c.target_state.bev with
    | none => .ok c
    | some tbev =>
      match tbev.eventcb with
      | .connect_event_cb => connect_event_cb E fuel tbev what c
      | .target_event_cb => target_event_cb what
      | .direct_target_event_cb => direct_target_event_cb what
      | _ => .ok c

/-- A run of the event loop: the events in order, until the connection is
gone. -/
def reactor_run (E : Env) (fuel : Nat) : List reactor_event → Outcome pproxy_connection →
    Outcome pproxy_connection
  | [], o => o
  | ev :: evs, .ok c => reactor_run E fuel evs (reactor_step E fuel ev c)
  | _ :: _, o => o

/-- The connection as pproxy_connection_init leaves it when every allocation
succeeds. -/
def accepted (E : Env) : Outcome pproxy_connection :=
  match (pproxy_connection_init E true true true true true).2 with
  | some c => .ok c
  | none => .fault .null_bufferevent

/-! ## Relations used to state what a parser call does -/

/-- The parser struct after the automaton took the bytes bs: new automaton
state and method, error code e, history grown by bs. -/
def parser_after (p : http_parser_t) (st : Nat) (m : http_method) (bs : List Byte)
    (e : http_errno) : http_parser_t :=
  { p with state := st, method := m, http_errno := e, consumed := p.consumed ++ bs }

/-- The bufferevent of a connect attempt as set_connection_state_connecting
hands it to the reactor. -/
def connecting_bev : bufferevent :=
  bufferevent_enable (bufferevent_setcb bufferevent_socket_new .none .none .connect_event_cb)
    true true

/-- The client bufferevent as set_connection_state_direct leaves it. -/
def direct_source_bev (bev : bufferevent) : bufferevent :=
  bufferevent_enable (bufferevent_setcb bev .direct_source_read_cb .none .direct_source_event_cb)
    true true

/-- The origin bufferevent as set_connection_state_direct leaves it. -/
def direct_target_bev (bev : bufferevent) : bufferevent :=
  bufferevent_enable (bufferevent_setcb bev .direct_target_read_cb .none .direct_target_event_cb)
    true true

/-- The ways a call of the request parser that started with error code OK
and consumed the bytes bs can leave the connection: nothing but the parser
moved on (more); the parser is in an error state (failed); url_cb started a
connect and paused (connecting); message-complete in RecvForward (forward) or
in DirectParsing (direct). -/
inductive SourceRan (c : pproxy_connection) (bs : List Byte) : pproxy_connection → Prop
  | more (st : Nat) (m : http_method) :
    SourceRan c bs { c with source_state := { c.source_state with
      parser := parser_after c.source_state.parser st m bs .HPE_OK } }
  | failed (c' : pproxy_connection) (h : is_http_error c'.source_state.parser ≠ 0) :
    SourceRan c bs c'
  | connecting (st : Nat) (m : http_method) (a : connect_attempt)
    (hs : c.state = .CONN_RECV) (ha : a.bev = connecting_bev) :
    SourceRan c bs { c with
      state := .CONN_CONNECTING,
      source_state := { c.source_state with
        bev := bufferevent_disable c.source_state.bev true false,
        parser := parser_after c.source_state.parser st m bs .HPE_PAUSED },
      connecting := some a }
  | forward (st : Nat) (m : http_method) (hs : c.state = .CONN_RECV_FORWARD) :
    SourceRan c bs { c with
      state := .CONN_FORWARD,
      source_state := { c.source_state with
        parser := parser_after c.source_state.parser st m bs .HPE_PAUSED } }
  | direct (st : Nat) (m : http_method) (tb : bufferevent)
    (hs : c.state = .CONN_DIRECT_PARSING) (hb : c.target_state.bev = some tb) :
    SourceRan c bs { c with
      state := .CONN_DIRECT,
      source_state := { c.source_state with
        bev := direct_source_bev c.source_state.bev,
        parser := parser_after c.source_state.parser st m bs .HPE_PAUSED },
      target_state := { c.target_state with bev := some (direct_target_bev tb) } }

/-- The ways a call of the response parser that started with error code OK
and consumed the bytes bs can leave the connection: nothing but the parser
moved on (more); a parse error (failed); message-complete in Forward
(complete). -/
inductive TargetRan (c : pproxy_connection) (bs : List Byte) : pproxy_connection → Prop
  | more (st : Nat) (m : http_method) :
    TargetRan c bs { c with target_state := { c.target_state with
      parser := parser_after c.target_state.parser st m bs .HPE_OK } }
  | failed (st : Nat) (m : http_method) (code : Nat) :
    TargetRan c bs { c with target_state := { c.target_state with
      parser := parser_after c.target_state.parser st m bs (.HPE_INVALID code) } }
  | complete (st : Nat) (m : http_method) (tb : bufferevent)
    (hs : c.state = .CONN_FORWARD) (hb : c.target_state.bev = some tb) :
    TargetRan c bs { c with
      state := .CONN_COMPLETE,
      target_state := { c.target_state with
        bev := some (bufferevent_disable tb true true),
        parser := parser_after c.target_state.parser st m bs .HPE_PAUSED } }

/-- The connection c after the request parser consumed data without leaving
phase DirectParsing: only the parser moved on. -/
def StillParsing (c : pproxy_connection) (data : List Byte) (c' : pproxy_connection) : Prop :=
  ∃ (st : Nat) (m : http_method),
    c' = { c with source_state := { c.source_state with
      parser := parser_after c.source_state.parser st m data .HPE_OK } }

/-- The connection c, with origin bufferevent tb, after the driver loop took
data from the client buffer and reached phase Direct: the parser consumed a
first part H of data and is paused, the rest X is queued on the origin, the
client buffer holds no byte, and the relay callbacks are installed. -/
def DirectReached (c : pproxy_connection) (tb : bufferevent) (data : List Byte)
    (c' : pproxy_connection) : Prop :=
  ∃ (st : Nat) (m : http_method) (H X : List Byte) (B : evbuffer),
    H ++ X = data ∧ evbuffer_bytes B = [] ∧
    c' = { c with
      state := .CONN_DIRECT,
      source_state := { c.source_state with
        bev := direct_source_bev c.source_state.bev,
        buffer := B,
        parser := parser_after c.source_state.parser st m H .HPE_PAUSED },
      target_state := { c.target_state with
        bev := some { direct_target_bev tb with output := tb.output ++ X } } }

/-- What target_read_cb has done when it returns with the connection alive:
a first part Q of the bytes pending on the origin bufferevent be has been
consumed by the response parser, queued on the client and removed from the
origin input; the phase is as before or went from Forward to Complete;
nothing else of the request side, of the origin output or of the origin
callbacks changed. -/
def ResponseRelayed (c : pproxy_connection) (be : bufferevent) (c' : pproxy_connection) :
    Prop :=
  ∃ (Q : List Byte) (be' : bufferevent),
    c'.target_state.bev = some be' ∧
    evbuffer_bytes be.input = Q ++ evbuffer_bytes be'.input ∧
    c'.source_state.bev.output = c.source_state.bev.output ++ Q ∧
    c'.target_state.parser.consumed = c.target_state.parser.consumed ++ Q ∧
    be'.output = be.output ∧ be'.readcb = be.readcb ∧ be'.eventcb = be.eventcb ∧
    (c'.state = c.state ∨ (c.state = .CONN_FORWARD ∧ c'.state = .CONN_COMPLETE)) ∧
    c'.connecting = c.connecting ∧
    c'.source_state.parser_settings = c.source_state.parser_settings ∧
    c'.target_state.parser_settings = c.target_state.parser_settings ∧
    c'.source_state.buffer = c.source_state.buffer ∧
    c'.source_state.peek_offset = c.source_state.peek_offset ∧
    c'.source_state.parser = c.source_state.parser ∧
    c'.source_state.bev.input = c.source_state.bev.input

/-! ## A small parser automaton to run the definitions on

Requests: method letters, blank, url, blank, then lines up to the empty line.
Responses: lines up to the empty line.  States: 0 before the method, 1 in the
method, 2 blanks before the url, 3 in the url, 4 inside a line, 5 after CR,
6 at the start of a line, 7 after CR at the start of a line. -/

/-- The method a first letter announces. -/
def sample_method (b : Byte) : http_method :=
  if b = 67 then .HTTP_CONNECT
  else if b = 71 then .HTTP_GET
  else .HTTP_OTHER b

/-- The step function of the sample automaton. -/
def sample_step (t : http_parser_type) (st : Nat) (m : http_method) (b : Byte) : parse_step :=
  let start : Nat := if t = .HTTP_REQUEST then 0 else 4
  match st with
  | 0 =>
    if 65 ≤ b ∧ b ≤ 90 then { state := 1, method := sample_method b, event := .pe_none }
    else { state := 0, method := m, event := .pe_error 1 }
  | 1 =>
    if b = 32 then { state := 2, method := m, event := .pe_none }
    else if 65 ≤ b ∧ b ≤ 90 then { state := 1, method := m, event := .pe_none }
    else { state := 1, method := m, event := .pe_error 1 }
  | 2 =>
    if b = 32 then { state := 2, method := m, event := .pe_none }
    else { state := 3, method := m, event := .pe_none }
  | 3 =>
    if b = 32 then { state := 4, method := m, event := .pe_url }
    else { state := 3, method := m, event := .pe_none }
  | 4 =>
    if b = 13 then { state := 5, method := m, event := .pe_none }
    else { state := 4, method := m, event := .pe_none }
  | 5 =>
    if b = 10 then { state := 6, method := m, event := .pe_none }
    else { state := 5, method := m, event := .pe_error 2 }
  | 6 =>
    if b = 13 then { state := 7, method := m, event := .pe_none }
    else { state := 4, method := m, event := .pe_none }
  | _ =>
    if b = 10 then { state := start, method := m, event := .pe_message_complete }
    else { state := st, method := m, event := .pe_error 2 }

/-- The url splitter of the sample: host:port for CONNECT, else
http://host/path with an optional :port; no host, no field. -/
def sample_parse_url (url : List Byte) (is_connect : Bool) : Int × http_parser_url :=
  let off : Nat := if is_connect then 0 else 7
  let host := (url.drop off).takeWhile (fun b => b ≠ 58 ∧ b ≠ 47)
  let has_port : Bool := (url.drop (off + host.length)).head? = some 58
  let port := (url.drop (off + host.length + 1)).takeWhile (fun b => 48 ≤ b ∧ b ≤ 57)
  if url = [] then (1, { field_set := 0, host_off := 0, host_len := 0, port_off := 0, port_len := 0 })
  else
    (0, { field_set := (if host = [] then 0 else 2) + (if has_port then 4 else 0),
          host_off := off, host_len := host.length,
          port_off := off + host.length + 1, port_len := port.length })

/-- The sample environment: the sample automaton, sockets and connects that
start without error, zero bytes behind every extent. -/
def sample_env : Env :=
  { start_state := fun t => if t = .HTTP_REQUEST then 0 else 4,
    step := sample_step,
    in_url := fun st => st = 3,
    parse_url := sample_parse_url,
    socket_new_ok := true,
    connect_hostname := fun _ _ => 0,
    beyond := fun _ _ => 0 }

/-! ## Sample inputs -/

/-- An environment for pproxy_init in which every call succeeds and the
kernel assigns the given port. -/
def sample_init_env (assigned : Nat) : init_env :=
  { socket_ok := true, nonblocking_ok := true, reuseable_ok := true, inet_pton_ok := true,
    bind_ok := true, getsockname_ok := true, assigned_port := assigned, base_ok := true,
    dns_base_ok := true, listener_ok := true }

/-- The address 127.0.0.1 as bytes. -/
def sample_address : List Byte := [49, 50, 55, 46, 48, 46, 48, 46, 49]

/-- The handle pproxy_init returns in the sample environment for a request
of port 0. -/
def sample_handle (assigned : Nat) : pproxy :=
  { port := to_int16 assigned, base := true, dns_base := true, listener := true,
    run_state := .PROXY_INIT, callbacks := pproxy_callbacks_zero }

/-- The bytes queued on the origin bufferevent of a live connection. -/
def origin_output (o : Outcome pproxy_connection) : Option (List Byte) :=
  match o with
  | .ok c => c.target_state.bev.map (fun b => b.output)
  | _ => none

/-- The bytes queued on the client bufferevent of a live connection. -/
def client_output (o : Outcome pproxy_connection) : Option (List Byte) :=
  match o with
  | .ok c => some c.source_state.bev.output
  | _ => none

/-- The phase of a live connection. -/
def phase_of (o : Outcome pproxy_connection) : Option pproxy_connection_state :=
  match o with
  | .ok c => some c.state
  | _ => none

/-- First extent of the sample request: PROPFIND and a blank. -/
def sample_req_head : List Byte := [80, 82, 79, 80, 70, 73, 78, 68, 32]

/-- Second extent of the sample request: http://h, a blank, HTTP/1.1 and the
empty line. -/
def sample_req_tail : List Byte :=
  [104, 116, 116, 112, 58, 47, 47, 104, 32, 72, 84, 84, 80, 47, 49, 46, 49, 13, 10, 13, 10]

/-- A whole request in one extent: GET http://h/ HTTP/1.1 and the empty
line. -/
def sample_get : List Byte :=
  [71, 69, 84, 32, 104, 116, 116, 112, 58, 47, 47, 104, 47, 32,
   72, 84, 84, 80, 47, 49, 46, 49, 13, 10, 13, 10]

/-- Modelled from the spec: a connection together with the handle its hooks
are given.  No file under src/ declares the handle struct or the macro
pproxy_cb_handle_connection that leads from one to the other; the spec keeps
the delay on the connection. -/
structure hooked_connection where
  handle : pproxy_connection_handle
  conn : pproxy_connection
  deriving DecidableEq, Repr

/-- One dispatch of the event loop for a connection with its handle.  The
callbacks of pproxy_connection.c receive the connection only and read no
field of the handle. -/
def hooked_step (E : Env) (fuel : Nat) (ev : reactor_event) (hc : hooked_connection) :
    Outcome hooked_connection :=
  match reactor_step E fuel ev hc.conn with
  | .ok c => .ok { hc with conn := c }
  | .freed => .freed
  | .fault f => .fault f
  | .timeout => .timeout

/-- A connection in phase Direct with bytes pending on both sides: the
client has sent 1 2 3 in two extents, the origin 7 8 9; 5 is already queued
to the origin and 6 to the client. -/
def sample_tunnel : pproxy_connection :=
  { state := .CONN_DIRECT,
    source_state :=
      { bev := { input := [[1, 2], [3]], output := [6], readcb := .direct_source_read_cb,
                 writecb := .none, eventcb := .direct_source_event_cb,
                 ev_read := true, ev_write := true },
        buffer := [], peek_offset := 0,
        parser := { type := .HTTP_REQUEST, state := 0, method := .HTTP_CONNECT,
                    http_errno := .HPE_PAUSED, consumed := [] },
        parser_settings := source_parser_settings },
    target_state :=
      { bev := some { input := [[7], [8, 9]], output := [5], readcb := .direct_target_read_cb,
                      writecb := .none, eventcb := .direct_target_event_cb,
                      ev_read := true, ev_write := true },
        parser := http_parser_zero, parser_settings := http_parser_settings_zero },
    connecting := none }

/-- A run of the event loop for a connection with its handle. -/
def hooked_run (E : Env) (fuel : Nat) : List reactor_event → Outcome hooked_connection →
    Outcome hooked_connection
  | [], o => o
  | ev :: evs, .ok hc => hooked_run E fuel evs (hooked_step E fuel ev hc)
  | _ :: _, o => o

/-- A freshly accepted connection whose handle carries the delay a hook
stored with pproxy_conn_insert_pause. -/
def hooked_accept (E : Env) (tv : timeval) : Outcome hooked_connection :=
  match accepted E, pproxy_conn_insert_pause (some pproxy_connection_handle_init) (some tv) with
  | .ok c, some h => .ok { handle := h, conn := c }
  | _, _ => .fault .null_bufferevent

/-- The bytes the driver has left in the client buffer, the bytes queued on
the origin, and the handle, of a live connection with its handle. -/
def hooked_view (o : Outcome hooked_connection) :
    Option (List Byte × Option (List Byte) × pproxy_connection_handle) :=
  match o with
  | .ok hc => some (evbuffer_bytes hc.conn.source_state.buffer,
      hc.conn.target_state.bev.map (fun b => b.output), hc.handle)
  | _ => none

/-- A client bufferevent as the request phases keep it: source_read_cb
installed, nothing pending, nothing queued. -/
def sample_source_bev (rd : Bool) : bufferevent :=
  { input := [], output := [], readcb := .source_read_cb, writecb := .none,
    eventcb := .source_event_cb, ev_read := rd, ev_write := true }

/-- A request parser struct with the given automaton state, method, error
code and history. -/
def sample_parser_struct (st : Nat) (m : http_method) (e : http_errno) (consumed : List Byte) :
    http_parser_t :=
  { type := .HTTP_REQUEST, state := st, method := m, http_errno := e, consumed := consumed }

/-- The target side before any connect: all zero. -/
def sample_target_zero : pproxy_target_state :=
  { bev := none, parser := http_parser_zero, parser_settings := http_parser_settings_zero }

/-- The connect attempt url_cb starts for host h, port 80. -/
def sample_attempt : connect_attempt :=
  { bev := { input := [], output := [], readcb := .none, writecb := .none,
             eventcb := .connect_event_cb, ev_read := true, ev_write := true },
    host := [104], port := 80 }

/-- The target side after the connect of a plain request, with the given
bytes queued on the origin. -/
def sample_target_connected (out : List Byte) : pproxy_target_state :=
  { bev := some { input := [], output := out, readcb := .target_read_cb, writecb := .none,
                  eventcb := .target_event_cb, ev_read := true, ev_write := true },
    parser := { type := .HTTP_RESPONSE, state := 4, method := .HTTP_DELETE,
                http_errno := .HPE_OK, consumed := [] },
    parser_settings := target_parser_settings }

/-- The connection pproxy_connection_init returns in the sample
environment. -/
def sample_accepted : pproxy_connection :=
  { state := .CONN_RECV,
    source_state := { bev := sample_source_bev true, buffer := [], peek_offset := 0,
                      parser := sample_parser_struct 0 .HTTP_DELETE .HPE_OK [],
                      parser_settings := source_parser_settings },
    target_state := sample_target_zero, connecting := none }

/-- The sample connection after one read of the GET request. -/
def sample_get_connecting : pproxy_connection :=
  { state := .CONN_CONNECTING,
    source_state := { bev := sample_source_bev false, buffer := [sample_get], peek_offset := 14,
                      parser := sample_parser_struct 4 .HTTP_GET .HPE_PAUSED
                        (sample_get.take 14),
                      parser_settings := source_parser_settings },
    target_state := sample_target_zero, connecting := some sample_attempt }

/-- The sample connection after the GET request and the connect. -/
def sample_get_forward : pproxy_connection :=
  { state := .CONN_FORWARD,
    source_state := { bev := sample_source_bev true, buffer := [], peek_offset := 0,
                      parser := sample_parser_struct 0 .HTTP_GET .HPE_PAUSED sample_get,
                      parser_settings := source_parser_settings },
    target_state := sample_target_connected sample_get, connecting := none }

/-- A CONNECT request followed by the payload X Y Z W, in four extents:
CONNECT h:443 HT, TP/1.1 CR LF CR, LF X Y Z, W. -/
def sample_connect_req : evbuffer :=
  [[67, 79, 78, 78, 69, 67, 84, 32, 104, 58, 52, 52, 51, 32, 72, 84],
   [84, 80, 47, 49, 46, 49, 13, 10, 13],
   [10, 88, 89, 90],
   [87]]

/-- The connect attempt url_cb starts for host h, port 443. -/
def sample_connect_attempt : connect_attempt :=
  { sample_attempt with port := 443 }

/-- The sample connection after one read of the CONNECT request: phase
Connecting, the 14 bytes up to the end of the url parsed. -/
def sample_connect_connecting : pproxy_connection :=
  { state := .CONN_CONNECTING,
    source_state := { bev := sample_source_bev false, buffer := sample_connect_req,
                      peek_offset := 14,
                      parser := sample_parser_struct 4 .HTTP_CONNECT .HPE_PAUSED
                        [67, 79, 78, 78, 69, 67, 84, 32, 104, 58, 52, 52, 51, 32],
                      parser_settings := source_parser_settings },
    target_state := sample_target_zero, connecting := some sample_connect_attempt }

/-- The sample connection as set_connection_state_direct_parsing leaves it
when the origin has connected, before the driver runs. -/
def sample_connect_parsing : pproxy_connection :=
  { sample_connect_connecting with
    state := .CONN_DIRECT_PARSING,
    source_state := { sample_connect_connecting.source_state with
      parser := sample_parser_struct 4 .HTTP_CONNECT .HPE_OK
        [67, 79, 78, 78, 69, 67, 84, 32, 104, 58, 52, 52, 51, 32] },
    target_state := { sample_target_zero with bev := some sample_connect_attempt.bev },
    connecting := none }

/-- The sample connection after the driver ran on it: phase Direct, X Y Z W
queued on the origin, kOk queued on the client. -/
def sample_connect_direct : pproxy_connection :=
  { state := .CONN_DIRECT,
    source_state :=
      { bev := { input := [], output := kOk, readcb := .direct_source_read_cb,
                 writecb := .none, eventcb := .direct_source_event_cb,
                 ev_read := true, ev_write := true },
        buffer := [], peek_offset := 0,
        parser := sample_parser_struct 0 .HTTP_CONNECT .HPE_PAUSED
          [67, 79, 78, 78, 69, 67, 84, 32, 104, 58, 52, 52, 51, 32,
           72, 84, 84, 80, 47, 49, 46, 49, 13, 10, 13, 10],
        parser_settings := source_parser_settings },
    target_state :=
      { bev := some { input := [], output := [88, 89, 90, 87], readcb := .direct_target_read_cb,
                      writecb := .none, eventcb := .direct_target_event_cb,
                      ev_read := true, ev_write := true },
        parser := http_parser_zero, parser_settings := http_parser_settings_zero },
    connecting := none }

/-- The sample connection after the origin then sent 7 8 9 in two extents:
they are queued on the client behind kOk. -/
def sample_connect_relayed : pproxy_connection :=
  { sample_connect_direct with
    source_state := { sample_connect_direct.source_state with
      bev := { sample_connect_direct.source_state.bev with output := kOk ++ [7, 8, 9] } } }

/-- A response in two extents with two bytes behind its end: HTTP/1.1 204
CR LF, then CR LF z z. -/
def sample_response : evbuffer :=
  [[72, 84, 84, 80, 47, 49, 46, 49, 32, 50, 48, 52, 13, 10], [13, 10, 122, 122]]

/-- The origin bufferevent of the GET connection with the sample response
pending. -/
def sample_response_bev : bufferevent :=
  { input := sample_response, output := sample_get, readcb := .target_read_cb,
    writecb := .none, eventcb := .target_event_cb, ev_read := true, ev_write := true }

/-- The sample connection in phase Forward with the sample response pending
on the origin bufferevent. -/
def sample_get_pending : pproxy_connection :=
  { sample_get_forward with
    target_state := { sample_get_forward.target_state with bev := some sample_response_bev } }

/-- The sample connection after target_read_cb ran on the pending response:
phase Complete, the 16 bytes of the response queued on the client, z z left
in the origin input. -/
def sample_get_complete : pproxy_connection :=
  { state := .CONN_COMPLETE,
    source_state :=
      { bev := { input := [], output := sample_response.flatten.take 16,
                 readcb := .none, writecb := .source_last_write_cb,
                 eventcb := .source_event_cb, ev_read := true, ev_write := true },
        buffer := [], peek_offset := 0,
        parser := sample_parser_struct 0 .HTTP_GET .HPE_PAUSED sample_get,
        parser_settings := source_parser_settings },
    target_state :=
      { bev := some { input := [[122, 122]], output := sample_get, readcb := .target_read_cb,
                      writecb := .none, eventcb := .target_event_cb,
                      ev_read := false, ev_write := false },
        parser := { type := .HTTP_RESPONSE, state := 4, method := .HTTP_DELETE,
                    http_errno := .HPE_PAUSED, consumed := sample_response.flatten.take 16 },
        parser_settings := target_parser_settings },
    connecting := none }

/-! ## What a run of the event loop preserves -/

/-- A bufferevent with what it has queued for output left out. -/
def without_output (b : bufferevent) : bufferevent := { b with output := [] }

/-- What a call of the driver that starts outside the direct phases leaves
alone: it ends outside the direct phases, both parser settings and what is
queued on the client are as before, the origin bufferevent is there or not as
before and differs at most in what it has queued, and a connect attempt is as
before or a fresh one. -/
def PlainDriven (c c' : pproxy_connection) : Prop :=
  c'.state ≠ .CONN_DIRECT_PARSING ∧ c'.state ≠ .CONN_DIRECT ∧
  c'.source_state.parser_settings = c.source_state.parser_settings ∧
  c'.target_state.parser_settings = c.target_state.parser_settings ∧
  c'.source_state.bev.output = c.source_state.bev.output ∧
  c'.target_state.bev.map without_output = c.target_state.bev.map without_output ∧
  (c'.connecting = c.connecting ∨ ∃ a, c'.connecting = some a ∧ a.bev = connecting_bev)

/-- The bytes the reactor reads from the origin socket on an event: the data
of a target_data event that finds an origin bufferevent with reading
enabled. -/
def origin_read (ev : reactor_event) (c : pproxy_connection) : List Byte :=
  match ev with
  | .target_data data =>
    match c.target_state.bev with
    | none => []
    | some tbev =>
      if !tbev.ev_read || evbuffer_get_length data = 0 then [] else evbuffer_bytes data
  | _ => []

/-- Every byte read from the origin socket along a run of the event loop, in
order. -/
def origin_received (E : Env) (fuel : Nat) :
    List reactor_event → Outcome pproxy_connection → List Byte
  | ev :: evs, .ok c => origin_read ev c ++ origin_received E fuel evs (reactor_step E fuel ev c)
  | _, _ => []

/-- What holds of a connection the event loop has driven from its start,
with rx the bytes read from the origin so far: the request parser settings
are the constant ones; a connect attempt with the reactor holds the
bufferevent set_connection_state_connecting made; without an origin
bufferevent nothing is queued on the client and nothing was read from the
origin; in DirectParsing nothing is queued on the client, the origin bytes
are all pending and the parser runs; in Direct the client has been queued kOk
and then origin bytes R, the remaining origin bytes are pending, and the
relay callbacks are installed; an origin bufferevent with target_read_cb
comes with the constant response parser settings. -/
structure TunnelInv (c : pproxy_connection) (rx : List Byte) : Prop where
  settings : c.source_state.parser_settings = source_parser_settings
  attempt : ∀ a, c.connecting = some a → a.bev = connecting_bev
  closed : c.target_state.bev = none → c.source_state.bev.output = [] ∧ rx = []
  parsing : c.state = .CONN_DIRECT_PARSING →
    ∃ tb, c.target_state.bev = some tb ∧ c.source_state.bev.output = [] ∧
      evbuffer_bytes tb.input = rx ∧ tb.readcb = .none ∧
      c.source_state.parser.http_errno = .HPE_OK
  direct : c.state = .CONN_DIRECT →
    ∃ tb R, c.target_state.bev = some tb ∧ c.source_state.bev.output = kOk ++ R ∧
      R ++ evbuffer_bytes tb.input = rx ∧ tb.readcb = .direct_target_read_cb ∧
      c.source_state.bev.readcb = .direct_source_read_cb
  response : ∀ tb, c.target_state.bev = some tb → tb.readcb = .target_read_cb →
    c.target_state.parser_settings = target_parser_settings

/-! ## The numeric value of a port, sample urls and sample error states -/

/-- The number a run of decimal digits denotes, the numeric value of the port
component of a url. -/
def port_component_value (digits : List Byte) : Nat :=
  digits.foldl (fun acc b => acc * 10 + (b - 48)) 0

/-- A url with host h and port 8080, followed by the rest of the request
line: http://h:8080/ HTTP/1.1 CR LF. -/
def sample_url_port : List Byte :=
  [104, 116, 116, 112, 58, 47, 47, 104, 58, 56, 48, 56, 48, 47, 32,
   72, 84, 84, 80, 47, 49, 46, 49, 13, 10]

/-- A url without a host, followed by the rest of the request line:
http:/// HTTP/1.1 CR LF. -/
def sample_url_nohost : List Byte :=
  [104, 116, 116, 112, 58, 47, 47, 47, 32, 72, 84, 84, 80, 47, 49, 46, 49, 13, 10]

/-- The sample connection in phase Forward with a broken response pending on
the origin bufferevent: A CR X, where LF must follow CR. -/
def sample_get_garbled : pproxy_connection :=
  { sample_get_forward with
    target_state := { sample_get_forward.target_state with
      bev := some { sample_response_bev with input := [[65, 13, 88]] } } }

/-- The sample connection after the response parser ran on A CR X: it took
A CR and rejected X. -/
def sample_get_rejected : pproxy_connection :=
  { sample_get_garbled with
    target_state := { sample_get_garbled.target_state with
      parser := { type := .HTTP_RESPONSE, state := 5, method := .HTTP_DELETE,
                  http_errno := .HPE_INVALID 2, consumed := [65, 13] } } }

/-- The freshly accepted sample connection after the request parser rejected
a first byte that is no capital letter. -/
def sample_rejected : pproxy_connection :=
  { sample_accepted with
    source_state := { sample_accepted.source_state with
      parser := sample_parser_struct 0 .HTTP_DELETE (.HPE_INVALID 1) [] } }

/-- The bound on peek_offset: it counts bytes of the client buffer. -/
def peek_within (c : pproxy_connection) : Prop :=
  c.source_state.peek_offset ≤ evbuffer_get_length c.source_state.buffer

/-- What holds of the phase of a connection the event loop has driven from
its start: the request parser settings are the constant ones; there is no
origin bufferevent in Recv and Connecting and there is one in every other
phase; the request parser runs in Recv, RecvForward and DirectParsing and is
paused in Connecting, Forward, Complete and Direct. -/
structure PhaseInv (c : pproxy_connection) : Prop where
  settings : c.source_state.parser_settings = source_parser_settings
  absent : c.state = .CONN_RECV ∨ c.state = .CONN_CONNECTING → c.target_state.bev = none
  present : c.state ≠ .CONN_RECV → c.state ≠ .CONN_CONNECTING →
    ∃ tb, c.target_state.bev = some tb
  running : c.state = .CONN_RECV ∨ c.state = .CONN_RECV_FORWARD ∨
    c.state = .CONN_DIRECT_PARSING → c.source_state.parser.http_errno = .HPE_OK
  paused : c.state = .CONN_CONNECTING ∨ c.state = .CONN_FORWARD ∨
    c.state = .CONN_COMPLETE ∨ c.state = .CONN_DIRECT →
    c.source_state.parser.http_errno = .HPE_PAUSED

/-! ## Sample states of the later evaluations -/

/-- The request target of a GET for http://a/ up to the end of that url: GET
http://a/. -/
def sample_url_a : List Byte := [71, 69, 84, 32, 104, 116, 116, 112, 58, 47, 47, 97, 47]

/-- The rest of a request whose url goes on with http://b/: http://b/
HTTP/1.1 and the empty line. -/
def sample_url_b : List Byte :=
  [104, 116, 116, 112, 58, 47, 47, 98, 47, 32, 72, 84, 84, 80, 47, 49, 46, 49, 13, 10, 13, 10]

/-- The sample connection after a first read that brought only G E: still in
Recv, the two bytes buffered and counted by peek_offset. -/
def sample_ge_recv : pproxy_connection :=
  { sample_accepted with
    source_state := { sample_accepted.source_state with
      buffer := [[71, 69]], peek_offset := 2,
      parser := sample_parser_struct 1 .HTTP_GET .HPE_OK [71, 69] } }

/-- The sample connection in Forward after the client sent one more byte x:
the byte sits in the client buffer. -/
def sample_get_forward_more : pproxy_connection :=
  { sample_get_forward with
    source_state := { sample_get_forward.source_state with buffer := [[120]] } }

/-- The sample connection after a read that ended inside the url, behind GET
http://a/: url_cb has started a connect to host a. -/
def sample_url_a_connecting : pproxy_connection :=
  { state := .CONN_CONNECTING,
    source_state := { bev := sample_source_bev false, buffer := [sample_url_a],
                      peek_offset := 13,
                      parser := sample_parser_struct 3 .HTTP_GET .HPE_PAUSED sample_url_a,
                      parser_settings := source_parser_settings },
    target_state := sample_target_zero,
    connecting := some { sample_attempt with host := [97] } }

/-- That connection after the connect: RecvForward, the 13 bytes replayed to
the origin, the request parser still inside the url. -/
def sample_url_a_forward : pproxy_connection :=
  { state := .CONN_RECV_FORWARD,
    source_state := { bev := sample_source_bev true, buffer := [], peek_offset := 0,
                      parser := sample_parser_struct 3 .HTTP_GET .HPE_OK sample_url_a,
                      parser_settings := source_parser_settings },
    target_state := sample_target_connected sample_url_a,
    connecting := none }

/-- The first part of a CONNECT request, without the empty line: CONNECT
h:443 HTTP/1.1 CR LF. -/
def sample_connect_head : List Byte :=
  [67, 79, 78, 78, 69, 67, 84, 32, 104, 58, 52, 52, 51, 32, 72, 84, 84, 80, 47, 49, 46, 49,
   13, 10]

/-- The sample connection after the read of that first part: Connecting. -/
def sample_head_connecting : pproxy_connection :=
  { sample_connect_connecting with
    source_state := { sample_connect_connecting.source_state with
      buffer := [sample_connect_head] } }

/-- That connection after the connect: DirectParsing, the request line
parsed up to its end, reading from the client still disabled. -/
def sample_head_parsing : pproxy_connection :=
  { state := .CONN_DIRECT_PARSING,
    source_state := { bev := sample_source_bev false,
                      buffer := [sample_connect_head.drop 14], peek_offset := 10,
                      parser := sample_parser_struct 6 .HTTP_CONNECT .HPE_OK sample_connect_head,
                      parser_settings := source_parser_settings },
    target_state := { sample_target_zero with bev := some sample_connect_attempt.bev },
    connecting := none }

/-! ## The end of a message in a byte sequence -/

/-- Where the message ends: the parser automaton of type t, in state st with
method m, is run on bs; the result is the number of bytes up to and including
the first byte at which it reports message-complete, and none when it rejects
a byte before that or the bytes run out. -/
def message_end (E : Env) (t : http_parser_type) : Nat → http_method → List Byte → Option Nat
  | _, _, [] => none
  | st, m, b :: rest =>
    match (E.step t st m b).event with
    | .pe_message_complete => some 1
    | .pe_error _ => none
    | .pe_none =>
      (message_end E t (E.step t st m b).state (E.step t st m b).method rest).map (· + 1)
    | .pe_url =>
      (message_end E t (E.step t st m b).state (E.step t st m b).method rest).map (· + 1)

/-! ## The callbacks installed in each phase -/

/-- What holds of the callbacks of a connection the event loop has driven
from its start: in Complete the client bufferevent has no read callback; in
RecvForward, Forward and Complete the origin bufferevent is there with
target_event_cb as its event callback; a connect attempt is with the reactor
only in Connecting. -/
structure CallbackInv (c : pproxy_connection) : Prop where
  detached : c.state = .CONN_COMPLETE → c.source_state.bev.readcb = .none
  replaced : c.state = .CONN_RECV_FORWARD ∨ c.state = .CONN_FORWARD ∨
    c.state = .CONN_COMPLETE →
    ∃ tb, c.target_state.bev = some tb ∧ tb.eventcb = .target_event_cb
  pending : ∀ a, c.connecting = some a → c.state = .CONN_CONNECTING

/-! ## How far the response parser gets in a byte sequence -/

/-- How many bytes the parser automaton of type t, in state st with method m,
takes from bs: it takes byte after byte, stops behind the first byte at which
it reports message-complete when stop is set, and takes them all otherwise;
none when it rejects a byte before that. -/
def response_span (E : Env) (t : http_parser_type) (stop : Bool) :
    Nat → http_method → List Byte → Option Nat
  | _, _, [] => some 0
  | st, m, b :: rest =>
    match (E.step t st m b).event with
    | .pe_error _ => none
    | .pe_message_complete =>
      if stop then some 1
      else (response_span E t stop (E.step t st m b).state (E.step t st m b).method rest).map
        (· + 1)
    | .pe_none =>
      (response_span E t stop (E.step t st m b).state (E.step t st m b).method rest).map (· + 1)
    | .pe_url =>
      (response_span E t stop (E.step t st m b).state (E.step t st m b).method rest).map (· + 1)

/-- The sample connection in phase Forward with only the first two bytes of
a response pending on the origin bufferevent: H T. -/
def sample_get_begun : pproxy_connection :=
  { sample_get_forward with
    target_state := { sample_get_forward.target_state with
      bev := some { sample_response_bev with input := [[72, 84]] } } }

/-! # Theorems -/

/-! ## The control API: run state, port, callbacks, delay -/

/-- An error branch of pproxy_init is not the one a successful call took. -/
theorem init_branch_skip {c : Prop} [Decidable c] {x : Int × Option pproxy} {h0 : pproxy}
    (h : (if c then ((-1 : Int), (none : Option pproxy)) else x) = (0, some h0)) :
    x = (0, some h0) := by
  by_cases hc : c
  · rw [if_pos hc] at h
    have h1 : (-1 : Int) = 0 := congrArg Prod.fst h
    exact absurd h1 (by decide)
  · rwa [if_neg hc] at h

/-- What a successful pproxy_init returns. -/
theorem pproxy_init_ok (env : init_env) (handle_out : Bool) (addr : Option (List Byte))
    (port : Int) (h0 : pproxy) (hinit : pproxy_init env handle_out addr port = (0, some h0)) :
    h0 = { port := to_int16 (bound_port env port), base := true, dns_base := true,
           listener := true, run_state := .PROXY_INIT, callbacks := pproxy_callbacks_zero } := by
  simp only [pproxy_init] at hinit
  have h := init_branch_skip (init_branch_skip (init_branch_skip (init_branch_skip
    (init_branch_skip (init_branch_skip (init_branch_skip (init_branch_skip
    (init_branch_skip (init_branch_skip (init_branch_skip hinit))))))))))
  exact ((Option.some.injEq _ _).mp (congrArg Prod.snd h)).symm

/-- The dispatch loop of pproxy_start returns only with 0 and a terminated
handle. -/
theorem pproxy_start_dispatch_ret (l : List Bool) (g : pproxy) (q : Int × pproxy)
    (hq : pproxy_start_dispatch g l = some q) :
    q.1 = 0 ∧ q.2.run_state = .PROXY_TERMINATED := by
  induction l generalizing g with
  | nil => simp [pproxy_start_dispatch] at hq
  | cons b more ih =>
    simp only [pproxy_start_dispatch] at hq
    by_cases ht : terminated (if b = true then terminate g else g) = true
    · rw [if_pos ht] at hq
      simp only [Option.some.injEq] at hq
      subst hq
      exact ⟨rfl, by simpa [terminated, get_state] using ht⟩
    · rw [if_neg ht] at hq
      exact ih _ hq

/-- C6: pproxy_running is 0 on the handle a successful pproxy_init returns;
pproxy_start accepts that handle and sets run_state to PROXY_RUNNING, after
which pproxy_running is 1; after pproxy_stop it is 0 again, also when
pproxy_start has returned; it is 0 for a null handle; and for every handle it
is nonzero exactly when run_state is PROXY_RUNNING. -/
theorem C6_running_tracks_run_state (env : init_env) (addr : List Byte) (port : Int)
    (h0 h : pproxy) (dispatch : List Bool) (r : Int × Option pproxy)
    (hinit : pproxy_init env true (some addr) port = (0, some h0))
    (hret : pproxy_start (some h0) dispatch = some r) :
    pproxy_running (some h0) = 0 ∧
    pproxy_start_entry (some h0) = .ok { h0 with run_state := .PROXY_RUNNING } ∧
    pproxy_running (some { h0 with run_state := .PROXY_RUNNING }) = 1 ∧
    pproxy_running (pproxy_stop (some { h0 with run_state := .PROXY_RUNNING })) = 0 ∧
    (r.1 = 0 ∧ pproxy_running r.2 = 0) ∧
    pproxy_running (pproxy_stop (some h)) = 0 ∧
    pproxy_running none = 0 ∧
    (pproxy_running (some h) ≠ 0 ↔ h.run_state = .PROXY_RUNNING) := by
  have hrs : h0.run_state = .PROXY_INIT := by
    rw [pproxy_init_ok _ _ _ _ _ hinit]
  have hentry : pproxy_start_entry (some h0) = .ok { h0 with run_state := .PROXY_RUNNING } := by
    simp [pproxy_start_entry, pproxy_running, get_state, hrs]
  refine ⟨by simp [pproxy_running, get_state, hrs], hentry, by simp [pproxy_running, get_state],
    by simp [pproxy_running, pproxy_stop, terminate, get_state], ?_,
    by simp [pproxy_running, pproxy_stop, terminate, get_state], rfl, ?_⟩
  · simp only [pproxy_start, hentry, Option.map_eq_some'] at hret
    obtain ⟨q, hq, rfl⟩ := hret
    obtain ⟨h1, h2⟩ := pproxy_start_dispatch_ret _ _ _ hq
    exact ⟨h1, by simp [pproxy_running, get_state, h2]⟩
  · simp [pproxy_running, get_state]

/-- C6, on an input: init in the sample environment, start, one return of the
dispatch loop after a stop. -/
theorem C6_running_tracks_run_state_witness :
    pproxy_init (sample_init_env 8080) true (some sample_address) 0
        = (0, some (sample_handle 8080)) ∧
    pproxy_start (some (sample_handle 8080)) [false, true]
        = some (0, some { sample_handle 8080 with run_state := .PROXY_TERMINATED }) ∧
    pproxy_running (some (sample_handle 8080)) = 0 ∧
    pproxy_running (some { sample_handle 8080 with run_state := .PROXY_RUNNING }) = 1 :=
  have h := C6_running_tracks_run_state (sample_init_env 8080) sample_address 0
    (sample_handle 8080) (sample_handle 8080) [false, true]
    (0, some { sample_handle 8080 with run_state := .PROXY_TERMINATED }) (by decide) (by decide)
  ⟨by decide, by decide, h.1, h.2.2.1⟩

/-- Conversion to int16_t and back gives the port again. -/
theorem to_uint16_to_int16 (n : Nat) (hn : n < 65536) : to_uint16 (to_int16 n) = n := by
  unfold to_uint16 to_int16
  split_ifs <;> omega

/-- The bound port is a 16-bit value. -/
theorem bound_port_lt (env : init_env) (port : Int) : bound_port env port < 65536 := by
  unfold bound_port to_uint16
  split_ifs <;> omega

/-- C7, as stated, fails: the kernel assigns port 40000 to a request of port
0, pproxy_init succeeds, and pproxy_get_port on the fresh handle returns 0
and stores -25536, which is not 40000. -/
theorem C7_port_40000_counterexample :
    bound_port (sample_init_env 40000) 0 = 40000 ∧
    pproxy_init (sample_init_env 40000) true (some sample_address) 0
      = (0, some (sample_handle 40000)) ∧
    pproxy_get_port (some (sample_handle 40000)) true = (0, some (-25536)) ∧
    ((-25536 : Int) ≠ ((40000 : Nat) : Int)) := by
  decide

/-- C7, amended: after a successful pproxy_init with the listener bound to
port p, pproxy_get_port on the handle in any run state other than terminated
returns 0 and stores p converted to int16_t: a value that is p again when
read as an unsigned 16-bit number, equal to p when p is below 32768 and to
p - 65536 from 32768 on. -/
theorem C7_get_port_stores_int16 (env : init_env) (addr : List Byte) (port : Int) (h0 : pproxy)
    (rs : proxy_server_state)
    (hinit : pproxy_init env true (some addr) port = (0, some h0))
    (hrs : rs ≠ .PROXY_TERMINATED) :
    pproxy_get_port (some { h0 with run_state := rs }) true
      = (0, some (to_int16 (bound_port env port))) ∧
    to_uint16 (to_int16 (bound_port env port)) = bound_port env port ∧
    (bound_port env port < 32768 →
      to_int16 (bound_port env port) = ((bound_port env port : Nat) : Int)) ∧
    (32768 ≤ bound_port env port →
      to_int16 (bound_port env port) = ((bound_port env port : Nat) : Int) - 65536) := by
  have hb := bound_port_lt env port
  refine ⟨?_, to_uint16_to_int16 _ hb, ?_, ?_⟩
  · rw [pproxy_init_ok _ _ _ _ _ hinit]
    simp [pproxy_get_port, terminated, get_state, hrs]
  · intro h
    unfold to_int16
    rw [if_pos (by omega)]
    congr 1
    omega
  · intro h
    unfold to_int16
    rw [if_neg (by omega)]
    congr 2
    omega

/-- C7, amended, on inputs: port 40000 is stored as -25536. -/
theorem C7_get_port_stores_int16_witness :
    pproxy_init (sample_init_env 40000) true (some sample_address) 0
      = (0, some (sample_handle 40000)) ∧
    pproxy_get_port (some { sample_handle 40000 with run_state := .PROXY_RUNNING }) true
      = (0, some (to_int16 (bound_port (sample_init_env 40000) 0))) ∧
    to_uint16 (to_int16 (bound_port (sample_init_env 40000) 0)) = 40000 :=
  have h := C7_get_port_stores_int16 (sample_init_env 40000) sample_address 0
    (sample_handle 40000) .PROXY_RUNNING (by decide) (by decide)
  ⟨by decide, h.1, h.2.1⟩

/-- C8: pproxy_set_callbacks returns -1 exactly when the handle is null, and
then there is no handle to change; on a handle it returns 0 and leaves the
handle with the supplied table, or with three null hooks when the table
pointer is null, every other field as before. -/
theorem C8_set_callbacks (handle : Option pproxy) (h : pproxy)
    (callbacks : Option pproxy_callbacks) (table : pproxy_callbacks) :
    ((pproxy_set_callbacks handle callbacks).1 = -1 ↔ handle = none) ∧
    ((pproxy_set_callbacks handle callbacks).1 = 0 ↔ handle ≠ none) ∧
    pproxy_set_callbacks none callbacks = (-1, none) ∧
    pproxy_set_callbacks (some h) (some table) = (0, some { h with callbacks := table }) ∧
    pproxy_set_callbacks (some h) none
      = (0, some { h with callbacks :=
          { on_connect := none, on_direct_connect := none, on_request_complete := none } }) := by
  refine ⟨?_, ?_, rfl, rfl, rfl⟩
  · cases handle <;> cases callbacks <;> simp [pproxy_set_callbacks]
  · cases handle <;> cases callbacks <;> simp [pproxy_set_callbacks]

/-- C9: pproxy_conn_insert_pause stores tv as the delay of the handle and
changes nothing else; pproxy_connection_handle_has_delay is then nonzero
exactly when tv is not the zero duration; it is 0 on a freshly initialised
handle and on a null handle. -/
theorem C9_insert_pause_stores_delay (h : pproxy_connection_handle) (tv : timeval) :
    pproxy_conn_insert_pause (some h) (some tv) = some { h with delay := tv } ∧
    (pproxy_connection_handle_has_delay (pproxy_conn_insert_pause (some h) (some tv)) ≠ 0
      ↔ tv ≠ { tv_sec := 0, tv_usec := 0 }) ∧
    pproxy_connection_handle_has_delay (some pproxy_connection_handle_init) = 0 ∧
    pproxy_connection_handle_has_delay none = 0 := by
  refine ⟨rfl, ?_, by decide, rfl⟩
  obtain ⟨s, u⟩ := tv
  simp only [pproxy_conn_insert_pause, pproxy_connection_handle_has_delay, ne_eq,
    timeval.mk.injEq]
  by_cases hs : s = 0 <;> by_cases hu : u = 0 <;> simp [hs, hu]

/-! ## Phase Direct: the opaque relay -/

/-- C5: with an origin bufferevent tb in place, direct_source_read_cb leaves
the connection as it was except that the whole pending client input is
appended, unchanged and in order, to the origin output and the client input
is empty; direct_target_read_cb does the same in the other direction; neither
changes a parser, the phase or the request buffer.  A readable event of the
loop in phase Direct (callbacks as set_connection_state_direct installs them)
relays in this way everything pending together with the bytes just read. -/
theorem C5_direct_relay (E : Env) (fuel : Nat) (c : pproxy_connection) (tb : bufferevent)
    (data : evbuffer) (hb : c.target_state.bev = some tb)
    (hdata : evbuffer_get_length data ≠ 0) :
    direct_source_read_cb c = .ok { c with
      source_state := { c.source_state with bev := { c.source_state.bev with input := [] } },
      target_state := { c.target_state with bev := some { tb with
        output := tb.output ++ evbuffer_bytes c.source_state.bev.input } } } ∧
    direct_target_read_cb c = .ok { c with
      source_state := { c.source_state with bev := { c.source_state.bev with
        output := c.source_state.bev.output ++ evbuffer_bytes tb.input } },
      target_state := { c.target_state with bev := some { tb with input := [] } } } ∧
    (c.source_state.bev.readcb = .direct_source_read_cb → c.source_state.bev.ev_read = true →
      reactor_step E fuel (.source_data data) c = .ok { c with
        source_state := { c.source_state with bev := { c.source_state.bev with input := [] } },
        target_state := { c.target_state with bev := some { tb with
          output := tb.output ++ (evbuffer_bytes c.source_state.bev.input
            ++ evbuffer_bytes data) } } }) ∧
    (tb.readcb = .direct_target_read_cb → tb.ev_read = true →
      reactor_step E fuel (.target_data data) c = .ok { c with
        source_state := { c.source_state with bev := { c.source_state.bev with
          output := c.source_state.bev.output ++ (evbuffer_bytes tb.input
            ++ evbuffer_bytes data) } },
        target_state := { c.target_state with bev := some { tb with input := [] } } }) := by
  refine ⟨?_, ?_, ?_, ?_⟩
  · simp [direct_source_read_cb, hb, move_buffers, bufferevent_write_buffer]
  · simp [direct_target_read_cb, hb, move_buffers, bufferevent_write_buffer]
  · intro hcb hrd
    simp [reactor_step, hrd, hdata, hcb, direct_source_read_cb, hb, move_buffers,
      bufferevent_write_buffer, evbuffer_bytes]
  · intro hcb hrd
    simp [reactor_step, hrd, hdata, hcb, direct_target_read_cb, hb, move_buffers,
      bufferevent_write_buffer, evbuffer_bytes]

/-- C5, on an input: the sample tunnel relays 1 2 3 to the origin behind the
5 queued before, and 7 8 9 to the client behind the 6. -/
theorem C5_direct_relay_witness :
    origin_output (direct_source_read_cb sample_tunnel) = some [5, 1, 2, 3] ∧
    client_output (direct_target_read_cb sample_tunnel) = some [6, 7, 8, 9] ∧
    origin_output (reactor_step sample_env 0 (.source_data [[4]]) sample_tunnel)
      = some [5, 1, 2, 3, 4] :=
  have h := C5_direct_relay sample_env 0 sample_tunnel
    { input := [[7], [8, 9]], output := [5], readcb := .direct_target_read_cb,
      writecb := .none, eventcb := .direct_target_event_cb, ev_read := true, ev_write := true }
    [[4]] rfl (by decide)
  ⟨by rw [h.1]; rfl, by rw [h.2.1]; rfl, by rw [h.2.2.1 rfl rfl]; rfl⟩

/-! ## Evaluations of the driver on sample inputs -/

/-- A run takes the events one at a time. -/
theorem reactor_run_cons (E : Env) (fuel : Nat) (ev : reactor_event) (evs : List reactor_event)
    (c : pproxy_connection) :
    reactor_run E fuel (ev :: evs) (.ok c) = reactor_run E fuel evs (reactor_step E fuel ev c) :=
  rfl

/-- A run without events changes nothing. -/
theorem reactor_run_nil (E : Env) (fuel : Nat) (o : Outcome pproxy_connection) :
    reactor_run E fuel [] o = o := rfl

/-- A run with a handle takes the events one at a time. -/
theorem hooked_run_cons (E : Env) (fuel : Nat) (ev : reactor_event) (evs : List reactor_event)
    (hc : hooked_connection) :
    hooked_run E fuel (ev :: evs) (.ok hc) = hooked_run E fuel evs (hooked_step E fuel ev hc) :=
  rfl

/-- A run with a handle and without events changes nothing. -/
theorem hooked_run_nil (E : Env) (fuel : Nat) (o : Outcome hooked_connection) :
    hooked_run E fuel [] o = o := rfl

/-- A step with a handle is the step of the connection. -/
theorem hooked_step_ok (E : Env) (fuel : Nat) (ev : reactor_event) (hc : hooked_connection)
    (c : pproxy_connection) (h : reactor_step E fuel ev hc.conn = .ok c) :
    hooked_step E fuel ev hc = .ok { hc with conn := c } := by
  unfold hooked_step
  rw [h]

/-- The connection accepted in the sample environment. -/
theorem accepted_sample : accepted sample_env = .ok sample_accepted := by decide

set_option maxRecDepth 100000 in
/-- The read of the GET request. -/
theorem step_get_read :
    reactor_step sample_env 4 (.source_data [sample_get]) sample_accepted
      = .ok sample_get_connecting := by decide

set_option maxRecDepth 100000 in
/-- The connect after the GET request. -/
theorem step_get_connect :
    reactor_step sample_env 4 (.connect_what .BEV_EVENT_CONNECTED) sample_get_connecting
      = .ok sample_get_forward := by decide

/-- C10, the code at the failing input.  A hook has stored a delay of 30
seconds on the handle of a freshly accepted connection; no timer exists and
none fires.  The next readable event is parsed at once (phase Connecting,
14 bytes parsed) and, when the origin connects, the whole request is taken
from the client buffer and queued on the origin, while the handle still
holds the delay. -/
theorem C10_driver_ignores_delay :
    hooked_accept sample_env { tv_sec := 30, tv_usec := 0 }
      = .ok { handle := { delay := { tv_sec := 30, tv_usec := 0 }, timer := none },
              conn := sample_accepted } ∧
    pproxy_connection_handle_has_delay
      (some { delay := { tv_sec := 30, tv_usec := 0 }, timer := none }) = 1 ∧
    hooked_run sample_env 4 [.source_data [sample_get]]
      (hooked_accept sample_env { tv_sec := 30, tv_usec := 0 })
      = .ok { handle := { delay := { tv_sec := 30, tv_usec := 0 }, timer := none },
              conn := sample_get_connecting } ∧
    hooked_run sample_env 4 [.source_data [sample_get], .connect_what .BEV_EVENT_CONNECTED]
      (hooked_accept sample_env { tv_sec := 30, tv_usec := 0 })
      = .ok { handle := { delay := { tv_sec := 30, tv_usec := 0 }, timer := none },
              conn := sample_get_forward } ∧
    sample_get_forward.source_state.buffer = [] ∧
    sample_get_forward.target_state.bev.map (fun b => b.output) = some sample_get := by
  have h0 : hooked_accept sample_env { tv_sec := 30, tv_usec := 0 }
      = .ok { handle := { delay := { tv_sec := 30, tv_usec := 0 }, timer := none },
              conn := sample_accepted } := by
    simp only [hooked_accept, accepted_sample, pproxy_conn_insert_pause,
      pproxy_connection_handle_init]
  refine ⟨h0, by decide, ?_, ?_, rfl, rfl⟩
  · rw [h0, hooked_run_cons, hooked_step_ok _ _ _ _ _ step_get_read, hooked_run_nil]
  · rw [h0, hooked_run_cons, hooked_step_ok _ _ _ _ _ step_get_read, hooked_run_cons,
      hooked_step_ok _ _ _ _ _ step_get_connect, hooked_run_nil]

/-! ## Buffers -/

/-- Draining keeps the bytes behind the first n. -/
theorem evbuffer_bytes_drain (b : evbuffer) (n : Nat) :
    evbuffer_bytes (evbuffer_drain b n) = (evbuffer_bytes b).drop n := by
  induction b generalizing n with
  | nil => simp [evbuffer_drain, evbuffer_bytes]
  | cons e rest ih =>
    unfold evbuffer_drain
    by_cases h : e.length ≤ n
    · rw [if_pos h, ih]
      simp only [evbuffer_bytes, List.flatten_cons]
      rw [List.drop_append_eq_append_drop, List.drop_eq_nil_of_le h, List.nil_append]
    · rw [if_neg h]
      simp only [evbuffer_bytes, List.flatten_cons]
      rw [List.drop_append_of_le_length (by omega)]

/-- Draining twice is draining the sum. -/
theorem evbuffer_drain_drain (b : evbuffer) (m n : Nat) :
    evbuffer_drain (evbuffer_drain b m) n = evbuffer_drain b (m + n) := by
  induction b generalizing m n with
  | nil => simp [evbuffer_drain]
  | cons e rest ih =>
    by_cases h : e.length ≤ m
    · have h2 : e.length ≤ m + n := by omega
      rw [evbuffer_drain, if_pos h, ih, evbuffer_drain, if_pos h2]
      congr 1
      omega
    · rw [evbuffer_drain, if_neg h]
      by_cases h2 : e.length ≤ m + n
      · rw [evbuffer_drain, if_pos (by simp only [List.length_drop]; omega),
          evbuffer_drain, if_pos h2]
        congr 1
        simp only [List.length_drop]
        omega
      · rw [evbuffer_drain, if_neg (by simp only [List.length_drop]; omega),
          evbuffer_drain, if_neg h2, List.drop_drop]

/-- Draining does not add chain nodes. -/
theorem evbuffer_drain_length_le (b : evbuffer) (n : Nat) :
    (evbuffer_drain b n).length ≤ b.length := by
  induction b generalizing n with
  | nil => simp [evbuffer_drain]
  | cons e rest ih =>
    unfold evbuffer_drain
    split_ifs
    · exact Nat.le_succ_of_le (ih _)
    · simp

/-- Draining a whole first extent leaves at most the chain nodes behind it. -/
theorem evbuffer_drain_head_length (e : List Byte) (rest : evbuffer) :
    (evbuffer_drain (e :: rest) e.length).length ≤ rest.length := by
  rw [evbuffer_drain, if_pos (Nat.le_refl _)]
  exact evbuffer_drain_length_le _ _

/-- A read of at most the length of an extent returns its first bytes. -/
theorem mem_read_of_le (E : Env) (ext : List Byte) (n : Nat) (h : n ≤ ext.length) :
    mem_read E ext n = ext.take n := by
  unfold mem_read
  rw [Nat.sub_eq_zero_of_le h]
  simp

/-! ## The parser callbacks -/

/-- What set_connection_state_connecting leaves when it returns: the phase
went from Recv to Connecting, reading from the client is disabled, and with
return code 0 a connect attempt is with the reactor. -/
theorem set_connection_state_connecting_spec (E : Env) (c c1 : pproxy_connection)
    (host : List Byte) (port : Nat) (rc : Int)
    (h : set_connection_state_connecting E c host port = .ok (c1, rc)) :
    c.state = .CONN_RECV ∧ ∃ att : Option connect_attempt,
      c1 = { c with
        state := .CONN_CONNECTING,
        source_state := { c.source_state with
          bev := bufferevent_disable c.source_state.bev true false },
        connecting := att } ∧
      (rc = 0 → ∃ a, att = some a ∧ a.bev = connecting_bev) := by
  unfold set_connection_state_connecting at h
  by_cases hs : c.state = .CONN_RECV
  · rw [if_neg (by simpa using hs)] at h
    simp only at h
    by_cases hk : E.socket_new_ok = true
    · rw [if_neg (by simpa using hk)] at h
      simp only [Except.ok.injEq, Prod.mk.injEq] at h
      exact ⟨hs, _, h.1.symm, fun _ => ⟨_, rfl, rfl⟩⟩
    · rw [if_pos (by simpa using hk)] at h
      simp only [Except.ok.injEq, Prod.mk.injEq] at h
      refine ⟨hs, c.connecting, h.1.symm, fun h0 => ?_⟩
      rw [h0] at h
      exact absurd h.2 (by decide)
  · rw [if_pos (by simpa using hs)] at h
    cases h

/-- Pausing a parser whose error code is OK or PAUSED. -/
theorem pause_parser_of_ok (side : Side) (c : pproxy_connection) (paused : Bool)
    (h : (parser_of side c).http_errno = .HPE_OK ∨ (parser_of side c).http_errno = .HPE_PAUSED) :
    pause_parser_of side c paused = .ok (with_parser_of side c
      { parser_of side c with http_errno := if paused then .HPE_PAUSED else .HPE_OK }) := by
  unfold pause_parser_of http_parser_pause
  rw [if_pos h]

/-- What url_cb leaves when it returns 0: the phase went from Recv to
Connecting, reading from the client is disabled, a connect attempt is with
the reactor, the parser is paused. -/
theorem url_cb_spec (E : Env) (c c2 : pproxy_connection) (d : List Byte) (l : Nat)
    (hok : c.source_state.parser.http_errno = .HPE_OK)
    (h : url_cb E .source c d l = .ok (c2, 0)) :
    c.state = .CONN_RECV ∧ ∃ a : connect_attempt, a.bev = connecting_bev ∧
      c2 = { c with
        state := .CONN_CONNECTING,
        source_state := { c.source_state with
          bev := bufferevent_disable c.source_state.bev true false,
          parser := { c.source_state.parser with http_errno := .HPE_PAUSED } },
        connecting := some a } := by
  unfold url_cb at h
  simp only at h
  generalize (E.parse_url (List.take l d)
    (decide ((parser_of Side.source c).method = http_method.HTTP_CONNECT))) = pu at h
  by_cases h1 : pu.1 = 0
  · rw [if_neg (by simpa using h1)] at h
    by_cases h2 : pu.2.field_set.testBit UF_HOST = true
    · rw [if_neg (by simpa using h2)] at h
      unfold set_connection_target at h
      simp only at h
      generalize (if pu.2.field_set.testBit UF_PORT = true then
        atoi (List.drop pu.2.port_off d) % 65536 else 80) = port at h
      generalize c_string ((List.drop pu.2.host_off d).set pu.2.host_len 0) = host at h
      cases hc : set_connection_state_connecting E c host port with
      | error f => rw [hc] at h; cases h
      | ok r =>
        obtain ⟨c1, rc1⟩ := r
        rw [hc] at h
        simp only at h
        obtain ⟨hs, att, hc1, hatt⟩ := set_connection_state_connecting_spec E c c1 host port rc1 hc
        by_cases h3 : rc1 = 0
        · rw [if_neg (by simpa using h3)] at h
          obtain ⟨a, rfl, ha⟩ := hatt h3
          have hp : (parser_of .source c1).http_errno = .HPE_OK ∨
              (parser_of .source c1).http_errno = .HPE_PAUSED := by
            left; rw [hc1]; exact hok
          rw [pause_parser_of_ok _ _ _ hp] at h
          simp only [Except.ok.injEq, Prod.mk.injEq, and_true] at h
          refine ⟨hs, a, ha, ?_⟩
          rw [← h, hc1]
          rfl
        · rw [if_pos (by simpa using h3)] at h
          simp only [Except.ok.injEq, Prod.mk.injEq] at h
          exact absurd h.2 h3
    · rw [if_pos (by simpa using h2)] at h
      simp only [Except.ok.injEq, Prod.mk.injEq] at h
      exact absurd h.2 (by decide)
  · rw [if_pos (by simpa using h1)] at h
    simp only [Except.ok.injEq, Prod.mk.injEq] at h
    exact absurd h.2 h1

/-- What source_message_complete leaves when it returns: return code 0, the
parser paused, and the phase moved from RecvForward to Forward, or from
DirectParsing to Direct with the relay callbacks installed. -/
theorem source_message_complete_spec (c c2 : pproxy_connection) (rc : Int)
    (hok : c.source_state.parser.http_errno = .HPE_OK)
    (h : source_message_complete .source c = .ok (c2, rc)) :
    rc = 0 ∧
    ((c.state = .CONN_RECV_FORWARD ∧
      c2 = { c with
        state := .CONN_FORWARD,
        source_state := { c.source_state with
          parser := { c.source_state.parser with http_errno := .HPE_PAUSED } } }) ∨
     (c.state = .CONN_DIRECT_PARSING ∧ ∃ tb, c.target_state.bev = some tb ∧
      c2 = { c with
        state := .CONN_DIRECT,
        source_state := { c.source_state with
          bev := direct_source_bev c.source_state.bev,
          parser := { c.source_state.parser with http_errno := .HPE_PAUSED } },
        target_state := { c.target_state with bev := some (direct_target_bev tb) } })) := by
  unfold source_message_complete at h
  cases hs : c.state <;> rw [hs] at h <;> simp only at h
  case CONN_RECV_FORWARD =>
    unfold set_connection_state_forward at h
    rw [if_neg (by simp [hs])] at h
    simp only at h
    rw [pause_parser_of_ok .source { c with state := .CONN_FORWARD } true (Or.inl hok)] at h
    simp only [Except.ok.injEq, Prod.mk.injEq] at h
    exact ⟨h.2.symm, Or.inl ⟨rfl, h.1.symm⟩⟩
  case CONN_DIRECT_PARSING =>
    unfold set_connection_state_direct at h
    rw [if_neg (by simp [hs])] at h
    cases hb : c.target_state.bev with
    | none => rw [hb] at h; cases h
    | some tb =>
      rw [hb] at h
      simp only at h
      rw [pause_parser_of_ok .source _ true (Or.inl (by exact hok))] at h
      simp only [Except.ok.injEq, Prod.mk.injEq] at h
      exact ⟨h.2.symm, Or.inr ⟨rfl, tb, rfl, h.1.symm⟩⟩
  all_goals cases h

/-! ## The request parser on one extent -/

/-- A parser call that consumed nothing and left the error code OK changed
nothing. -/
theorem source_ran_refl (c : pproxy_connection)
    (hok : c.source_state.parser.http_errno = .HPE_OK) : SourceRan c [] c := by
  have h := @SourceRan.more c [] c.source_state.parser.state c.source_state.parser.method
  have e : ({ c with source_state := { c.source_state with
      parser := parser_after c.source_state.parser c.source_state.parser.state
        c.source_state.parser.method [] .HPE_OK } } : pproxy_connection) = c := by
    obtain ⟨s, ⟨bev, buf, po, ⟨t, st, m, e, cons⟩, ps⟩, ts, cn⟩ := c
    simp only at hok
    subst hok
    simp [parser_after]
  rw [e] at h
  exact h

/-- One byte taken by the automaton before a parser call adds to what the
call consumed. -/
theorem source_ran_prepend (c c' : pproxy_connection) (stp : parse_step) (b : Byte)
    (bs : List Byte) (h : SourceRan (parser_advance .source c stp b) bs c') :
    SourceRan c (b :: bs) c' := by
  cases h with
  | more st m =>
    have h := @SourceRan.more c (b :: bs) st m
    simpa [parser_advance, with_parser_of, parser_of, parser_after] using h
  | failed _ hf => exact SourceRan.failed _ hf
  | connecting st m a hs ha =>
    have h := @SourceRan.connecting c (b :: bs) st m a
      (by simpa [parser_advance, with_parser_of] using hs) ha
    simpa [parser_advance, with_parser_of, parser_of, parser_after] using h
  | forward st m hs =>
    have h := @SourceRan.forward c (b :: bs) st m
      (by simpa [parser_advance, with_parser_of] using hs)
    simpa [parser_advance, with_parser_of, parser_of, parser_after] using h
  | direct st m tb hs hb =>
    have h := @SourceRan.direct c (b :: bs) st m tb
      (by simpa [parser_advance, with_parser_of] using hs)
      (by simpa [parser_advance, with_parser_of] using hb)
    simpa [parser_advance, with_parser_of, parser_of, parser_after] using h

/-- The connection after a url callback that returned 0, seen from before
the callback. -/
theorem source_ran_url (E : Env) (c c2 : pproxy_connection) (d : List Byte) (l : Nat)
    (hok : c.source_state.parser.http_errno = .HPE_OK)
    (h : url_cb E .source c d l = .ok (c2, 0)) :
    SourceRan c [] c2 ∧ c2.source_state.parser.http_errno = .HPE_PAUSED := by
  obtain ⟨hs, a, ha, rfl⟩ := url_cb_spec E c c2 d l hok h
  refine ⟨?_, rfl⟩
  have h := @SourceRan.connecting c [] c.source_state.parser.state
    c.source_state.parser.method a hs ha
  simpa [parser_after] using h

/-- The connection after a message-complete callback of the request parser,
seen from before the callback. -/
theorem source_ran_message_complete (c c2 : pproxy_connection) (rc : Int)
    (hok : c.source_state.parser.http_errno = .HPE_OK)
    (h : source_message_complete .source c = .ok (c2, rc)) :
    rc = 0 ∧ SourceRan c [] c2 ∧ c2.source_state.parser.http_errno = .HPE_PAUSED := by
  obtain ⟨hrc, hcase⟩ := source_message_complete_spec c c2 rc hok h
  refine ⟨hrc, ?_⟩
  rcases hcase with ⟨hs, rfl⟩ | ⟨hs, tb, hb, rfl⟩
  · refine ⟨?_, rfl⟩
    have h := @SourceRan.forward c [] c.source_state.parser.state
      c.source_state.parser.method hs
    simpa [parser_after] using h
  · refine ⟨?_, rfl⟩
    have h := @SourceRan.direct c [] c.source_state.parser.state
      c.source_state.parser.method tb hs hb
    simpa [parser_after] using h

/-- A callback that returned nonzero leaves the parser in an error state. -/
theorem note_callback_result_error (c : pproxy_connection) (rc : Int) (hrc : rc ≠ 0) :
    is_http_error (note_callback_result .source c rc .HPE_CB_url).source_state.parser ≠ 0 := by
  simp [note_callback_result, hrc, with_parser_of, is_http_error]

/-- A callback that returned 0 leaves the connection as it made it. -/
theorem note_callback_result_zero (side : Side) (c : pproxy_connection) (e : http_errno) :
    note_callback_result side c 0 e = c := by
  simp [note_callback_result]

/-- The byte loop on a byte the automaton rejects. -/
theorem http_parser_scan_error (E : Env) (side : Side) (ext rest : List Byte) (b : Byte)
    (p : Nat) (mark : Option Nat) (c : pproxy_connection) (code : Nat)
    (hev : (E.step (parser_of side c).type (parser_of side c).state (parser_of side c).method
      b).event = .pe_error code) :
    http_parser_scan E side ext (b :: rest) p mark c
      = .ok (with_parser_of side c { parser_of side c with http_errno := .HPE_INVALID code },
          p) := by
  unfold http_parser_scan
  simp only [hev]

/-- The byte loop on a byte that triggers nothing. -/
theorem http_parser_scan_none (E : Env) (side : Side) (ext rest : List Byte) (b : Byte)
    (p : Nat) (mark : Option Nat) (c : pproxy_connection)
    (hev : (E.step (parser_of side c).type (parser_of side c).state (parser_of side c).method
      b).event = .pe_none) :
    http_parser_scan E side ext (b :: rest) p mark c
      = http_parser_scan E side ext rest (p + 1)
          (if mark.isNone && E.in_url (E.step (parser_of side c).type (parser_of side c).state
              (parser_of side c).method b).state then some p else mark)
          (parser_advance side c (E.step (parser_of side c).type (parser_of side c).state
              (parser_of side c).method b) b) := by
  conv_lhs => unfold http_parser_scan
  simp only [hev]

/-- The byte loop on a byte that ends the url. -/
theorem http_parser_scan_url (E : Env) (side : Side) (ext rest : List Byte) (b : Byte)
    (p : Nat) (mark : Option Nat) (c : pproxy_connection)
    (hev : (E.step (parser_of side c).type (parser_of side c).state (parser_of side c).method
      b).event = .pe_url) :
    http_parser_scan E side ext (b :: rest) p mark c
      = match call_on_url E side (parser_advance side c (E.step (parser_of side c).type
            (parser_of side c).state (parser_of side c).method b) b)
            (ext.drop (mark.getD p)) (p - mark.getD p) with
        | .error f => .error f
        | .ok (c2, rc) =>
          if (parser_of side (note_callback_result side c2 rc .HPE_CB_url)).http_errno ≠ .HPE_OK
          then .ok (note_callback_result side c2 rc .HPE_CB_url, p + 1)
          else http_parser_scan E side ext rest (p + 1) none
            (note_callback_result side c2 rc .HPE_CB_url) := by
  conv_lhs => unfold http_parser_scan
  simp only [hev]

/-- The byte loop on a byte that completes the message. -/
theorem http_parser_scan_message_complete (E : Env) (side : Side) (ext rest : List Byte)
    (b : Byte) (p : Nat) (mark : Option Nat) (c : pproxy_connection)
    (hev : (E.step (parser_of side c).type (parser_of side c).state (parser_of side c).method
      b).event = .pe_message_complete) :
    http_parser_scan E side ext (b :: rest) p mark c
      = match call_on_message_complete side (parser_advance side c (E.step
            (parser_of side c).type (parser_of side c).state (parser_of side c).method b) b) with
        | .error f => .error f
        | .ok (c2, rc) =>
          if (parser_of side (note_callback_result side c2 rc .HPE_CB_message_complete)).http_errno
              ≠ .HPE_OK
          then .ok (note_callback_result side c2 rc .HPE_CB_message_complete, p + 1)
          else http_parser_scan E side ext rest (p + 1) mark
            (note_callback_result side c2 rc .HPE_CB_message_complete) := by
  conv_lhs => unfold http_parser_scan
  simp only [hev]

/-- The byte loop of the request parser: it consumes k of the bytes it is
given, leaves the connection in one of the ways of SourceRan, and when the
error code is still OK it has consumed them all. -/
theorem source_scan_spec (E : Env) (ext : List Byte) :
    ∀ (rest : List Byte) (p : Nat) (mark : Option Nat) (c c' : pproxy_connection) (n : Nat),
      c.source_state.parser_settings = source_parser_settings →
      c.source_state.parser.http_errno = .HPE_OK →
      http_parser_scan E .source ext rest p mark c = .ok (c', n) →
      ∃ k, n = p + k ∧ k ≤ rest.length ∧ SourceRan c (rest.take k) c' ∧
        (c'.source_state.parser.http_errno = .HPE_OK → k = rest.length) := by
  intro rest
  induction rest with
  | nil =>
    intro p mark c c' n hset hok h
    unfold http_parser_scan at h
    cases mark with
    | none =>
      simp only [Except.ok.injEq, Prod.mk.injEq] at h
      obtain ⟨rfl, rfl⟩ := h
      exact ⟨0, rfl, Nat.le_refl _, source_ran_refl _ hok, fun _ => rfl⟩
    | some m =>
      simp only [call_on_url, settings_of, hset, source_parser_settings] at h
      cases hu : url_cb E .source c (List.drop m ext) (p - m) with
      | error f => rw [hu] at h; cases h
      | ok r =>
        obtain ⟨c2, rc⟩ := r
        rw [hu] at h
        simp only [Except.ok.injEq, Prod.mk.injEq] at h
        obtain ⟨rfl, rfl⟩ := h
        refine ⟨0, rfl, Nat.le_refl _, ?_, fun _ => rfl⟩
        by_cases hrc : rc = 0
        · subst hrc
          rw [note_callback_result_zero]
          exact (source_ran_url E c c2 _ _ hok hu).1
        · exact SourceRan.failed _ (note_callback_result_error _ _ hrc)
  | cons b rest ih =>
    intro p mark c c' n hset hok h
    have hset1 : ∀ st, (parser_advance .source c st b).source_state.parser_settings
        = source_parser_settings := by
      intro st
      simpa [parser_advance, with_parser_of] using hset
    have hok1 : ∀ st, (parser_advance .source c st b).source_state.parser.http_errno
        = .HPE_OK := by
      intro st
      simpa [parser_advance, with_parser_of, parser_of] using hok
    cases hev : (E.step (parser_of .source c).type (parser_of .source c).state
        (parser_of .source c).method b).event with
    | pe_error code =>
      rw [http_parser_scan_error _ _ _ _ _ _ _ _ _ hev] at h
      simp only [Except.ok.injEq, Prod.mk.injEq] at h
      obtain ⟨rfl, rfl⟩ := h
      refine ⟨0, rfl, Nat.zero_le _, SourceRan.failed _ ?_, ?_⟩
      · simp [with_parser_of, is_http_error]
      · intro hc
        simp [with_parser_of] at hc
    | pe_none =>
      rw [http_parser_scan_none _ _ _ _ _ _ _ _ hev] at h
      obtain ⟨k, hn, hk, hran, hall⟩ := ih _ _ _ _ _ (hset1 _) (hok1 _) h
      refine ⟨k + 1, by omega, by simpa using hk, ?_, ?_⟩
      · rw [List.take_succ_cons]
        exact source_ran_prepend _ _ _ _ _ hran
      · intro hc
        simp [hall hc]
    | pe_url =>
      rw [http_parser_scan_url _ _ _ _ _ _ _ _ hev] at h
      simp only [call_on_url, settings_of, hset1, source_parser_settings] at h
      cases hu : url_cb E .source (parser_advance .source c (E.step (parser_of .source c).type
          (parser_of .source c).state (parser_of .source c).method b) b)
          (List.drop (mark.getD p) ext) (p - mark.getD p) with
      | error f => rw [hu] at h; cases h
      | ok r =>
        obtain ⟨c2, rc⟩ := r
        rw [hu] at h
        simp only at h
        by_cases hrc : rc = 0
        · subst hrc
          rw [note_callback_result_zero] at h
          obtain ⟨hran, hp⟩ := source_ran_url E _ c2 _ _ (hok1 _) hu
          rw [parser_of, hp] at h
          simp only [ne_eq, reduceCtorEq, not_false_eq_true, if_true, Except.ok.injEq,
            Prod.mk.injEq] at h
          obtain ⟨rfl, rfl⟩ := h
          refine ⟨1, rfl, by simp, ?_, ?_⟩
          · simpa using source_ran_prepend _ _ _ _ _ hran
          · intro hc
            rw [hp] at hc
            cases hc
        · have herr := note_callback_result_error c2 rc hrc
          have hne : (parser_of .source (note_callback_result .source c2 rc .HPE_CB_url)).http_errno
              ≠ .HPE_OK := by
            simp [note_callback_result, hrc, with_parser_of, parser_of]
          rw [if_pos hne] at h
          simp only [Except.ok.injEq, Prod.mk.injEq] at h
          obtain ⟨rfl, rfl⟩ := h
          refine ⟨1, rfl, by simp, SourceRan.failed _ herr, ?_⟩
          intro hc
          exact absurd hc hne
    | pe_message_complete =>
      rw [http_parser_scan_message_complete _ _ _ _ _ _ _ _ hev] at h
      simp only [call_on_message_complete, settings_of, hset1, source_parser_settings] at h
      cases hu : source_message_complete .source (parser_advance .source c
          (E.step (parser_of .source c).type (parser_of .source c).state
            (parser_of .source c).method b) b) with
      | error f => rw [hu] at h; cases h
      | ok r =>
        obtain ⟨c2, rc⟩ := r
        rw [hu] at h
        simp only at h
        obtain ⟨hrc, hran, hp⟩ := source_ran_message_complete _ c2 rc (hok1 _) hu
        subst hrc
        rw [note_callback_result_zero, parser_of, hp] at h
        simp only [ne_eq, reduceCtorEq, not_false_eq_true, if_true, Except.ok.injEq,
          Prod.mk.injEq] at h
        obtain ⟨rfl, rfl⟩ := h
        refine ⟨1, rfl, by simp, ?_, ?_⟩
        · simpa using source_ran_prepend _ _ _ _ _ hran
        · intro hc
          rw [hp] at hc
          cases hc

/-- The request parser on one extent: with an error code other than OK it
does nothing and reports 0 bytes; else it consumes the first parsed bytes of
the extent and leaves the connection in one of the ways of SourceRan, having
consumed the whole extent when the error code is still OK. -/
theorem source_execute_spec (E : Env) (c c' : pproxy_connection) (ext : List Byte)
    (parsed : Nat)
    (hset : c.source_state.parser_settings = source_parser_settings)
    (h : http_parser_execute E .source c ext = .ok (c', parsed)) :
    (c.source_state.parser.http_errno ≠ .HPE_OK ∧ c' = c ∧ parsed = 0) ∨
    (c.source_state.parser.http_errno = .HPE_OK ∧ parsed ≤ ext.length ∧
      SourceRan c (ext.take parsed) c' ∧
      (c'.source_state.parser.http_errno = .HPE_OK → parsed = ext.length)) := by
  unfold http_parser_execute at h
  simp only [parser_of] at h
  by_cases hok : c.source_state.parser.http_errno = .HPE_OK
  · right
    rw [if_neg (by simpa using hok)] at h
    obtain ⟨k, hn, hk, hran, hall⟩ := source_scan_spec E ext ext 0 _ c c' parsed hset hok h
    have : parsed = k := by omega
    subst this
    exact ⟨hok, hk, hran, hall⟩
  · left
    rw [if_pos hok] at h
    simp only [Except.ok.injEq, Prod.mk.injEq] at h
    exact ⟨hok, h.1.symm, h.2.symm⟩

/-! ## The driver in the direct phases -/

/-- Draining nothing keeps the bytes. -/
theorem evbuffer_bytes_drain_zero (b : evbuffer) :
    evbuffer_bytes (evbuffer_drain b 0) = evbuffer_bytes b := by
  rw [evbuffer_bytes_drain, List.drop_zero]

/-- Setting a pointer to the start of a buffer always succeeds. -/
theorem evbuffer_ptr_set_zero (buffer : evbuffer) (pos : evbuffer_ptr) :
    evbuffer_ptr_set buffer pos 0 .EVBUFFER_PTR_SET = (0, evbuffer_drain buffer 0) := by
  simp [evbuffer_ptr_set]

/-- Advancing a pointer by at most the bytes behind it succeeds. -/
theorem evbuffer_ptr_set_add (buffer : evbuffer) (pos : evbuffer_ptr) (n : Nat)
    (h : n ≤ (evbuffer_bytes pos).length) :
    evbuffer_ptr_set buffer pos n .EVBUFFER_PTR_ADD = (0, evbuffer_drain pos n) := by
  simp [evbuffer_ptr_set, evbuffer_get_length, h]

/-- The driver loop in phase Direct: with one unit of fuel per extent and one
more it does not run out of fuel; when it returns, every extent left in the
buffer has been queued on the origin in order, the buffer holds no byte, skip
is 0 and nothing else changed. -/
theorem drive_loop_direct (E : Env) :
    ∀ (fuel : Nat) (c : pproxy_connection) (tb : bufferevent),
      c.state = .CONN_DIRECT → c.target_state.bev = some tb →
      ((evbuffer_drain c.source_state.buffer 0).length < fuel →
        drive_loop E fuel c (evbuffer_drain c.source_state.buffer 0) 0 ≠ .timeout) ∧
      ∀ r, drive_loop E fuel c (evbuffer_drain c.source_state.buffer 0) 0 = .ok r →
        ∃ B, evbuffer_bytes B = [] ∧
          r = ({ c with
              source_state := { c.source_state with buffer := B },
              target_state := { c.target_state with bev := some { tb with
                output := tb.output ++ evbuffer_bytes c.source_state.buffer } } }, 0) := by
  intro fuel
  induction fuel with
  | zero =>
    intro c tb _ _
    exact ⟨fun h => absurd h (Nat.not_lt_zero _), fun r h => by simp [drive_loop] at h⟩
  | succ fuel ih =>
    intro c tb hs hb
    have hbytes := evbuffer_bytes_drain_zero c.source_state.buffer
    cases hpk : evbuffer_drain c.source_state.buffer 0 with
    | nil =>
      rw [hpk] at hbytes
      unfold drive_loop
      simp only [evbuffer_peek, List.length_nil, if_true]
      refine ⟨fun _ => by simp, ?_⟩
      intro r hr
      simp only [Outcome.ok.injEq] at hr
      subst hr
      refine ⟨c.source_state.buffer, hbytes.symm, ?_⟩
      obtain ⟨s, ss, ⟨tbev, tp, tps⟩, cn⟩ := c
      simp only at hb hbytes
      subst hb
      have hf : List.flatten ss.buffer = [] := by simpa [evbuffer_bytes] using hbytes.symm
      simp [hf, evbuffer_bytes]
    | cons ext0 tail =>
      rw [hpk] at hbytes
      unfold drive_loop
      simp only [evbuffer_peek, List.length_cons, Nat.add_one_ne_zero, if_false, hs,
        ne_eq, not_true_eq_false, List.take_succ_cons, List.take_zero, iovec,
        List.getD_cons_zero]
      simp only [drive_act, hs, drive_switch, if_true, hb, bev_write,
        mem_read_of_le E ext0 ext0.length (Nat.le_refl _), List.take_length, Nat.zero_add,
        evbuffer_ptr_set_zero, ne_eq, not_true_eq_false, if_false, eq_self_iff_true]
      have hd : evbuffer_drain (evbuffer_drain c.source_state.buffer ext0.length) 0
          = evbuffer_drain (ext0 :: tail) ext0.length := by
        rw [← hpk, evbuffer_drain_drain, evbuffer_drain_drain]
        simp
      obtain ⟨hnt, hres⟩ := ih
        { c with
          state := .CONN_DIRECT,
          target_state := { c.target_state with bev := some (bufferevent_write tb ext0) },
          source_state := { c.source_state with
            buffer := evbuffer_drain c.source_state.buffer ext0.length } }
        (bufferevent_write tb ext0) rfl rfl
      constructor
      · intro hlen
        apply hnt
        simp only
        rw [hd]
        have := evbuffer_drain_head_length ext0 tail
        omega
      · intro r hr
        obtain ⟨B, hB, hrun⟩ := hres r hr
        refine ⟨B, hB, hrun.trans ?_⟩
        have hb2 : evbuffer_bytes c.source_state.buffer = ext0 ++ evbuffer_bytes tail := by
          rw [← hbytes]; simp [evbuffer_bytes]
        simp [bufferevent_write, evbuffer_bytes_drain, hb2]

/-- The bytes of a buffer whose first extent is known. -/
theorem evbuffer_bytes_cons (e : List Byte) (rest : evbuffer) :
    evbuffer_bytes (e :: rest) = e ++ evbuffer_bytes rest := by
  simp [evbuffer_bytes]

/-- The driver loop in phase DirectParsing, entered with the parser running
and the pointer skip bytes into the buffer: it does not run out of fuel; when
it returns it has either parsed everything behind the pointer and stayed in
DirectParsing, or reached Direct as DirectReached says. -/
theorem drive_loop_direct_parsing (E : Env) :
    ∀ (fuel : Nat) (c : pproxy_connection) (peek : evbuffer_ptr) (skip : Nat) (tb : bufferevent),
      c.state = .CONN_DIRECT_PARSING → c.target_state.bev = some tb →
      c.source_state.parser_settings = source_parser_settings →
      c.source_state.parser.http_errno = .HPE_OK →
      peek = evbuffer_drain c.source_state.buffer skip →
      (2 * peek.length + 2 ≤ fuel → drive_loop E fuel c peek skip ≠ .timeout) ∧
      ∀ c' skip', drive_loop E fuel c peek skip = .ok (c', skip') →
        (StillParsing c (evbuffer_bytes peek) c' ∧ skip' = skip + (evbuffer_bytes peek).length) ∨
        (DirectReached c tb (evbuffer_bytes peek) c' ∧ skip' = 0) := by
  intro fuel
  induction fuel with
  | zero =>
    intro c peek skip tb _ _ _ _ _
    exact ⟨fun h => by omega, fun c' skip' h => by simp [drive_loop] at h⟩
  | succ fuel ih =>
    intro c peek skip tb hs hb hset hok hpeek
    cases peek with
    | nil =>
      unfold drive_loop
      simp only [evbuffer_peek, List.length_nil, if_true]
      refine ⟨fun _ => by simp, ?_⟩
      intro c' skip' h
      simp only [Outcome.ok.injEq, Prod.mk.injEq] at h
      obtain ⟨rfl, rfl⟩ := h
      left
      refine ⟨⟨c.source_state.parser.state, c.source_state.parser.method, ?_⟩, by simp [evbuffer_bytes]⟩
      obtain ⟨s, ⟨bev, buf, po, ⟨t, st, m, e, cons⟩, ps⟩, ts, cn⟩ := c
      simp only at hok
      subst hok
      simp [parser_after, evbuffer_bytes]
    | cons ext0 tail =>
      unfold drive_loop
      simp only [evbuffer_peek, List.length_cons, Nat.add_one_ne_zero, if_false, hs,
        ne_eq, reduceCtorEq, not_false_eq_true, if_true, List.take_succ_cons, List.take_zero,
        iovec, List.getD_cons_zero]
      cases hex : http_parser_execute E .source c ext0 with
      | error f => simp
      | ok r =>
        obtain ⟨c1, parsed⟩ := r
        simp only
        rcases source_execute_spec E c c1 ext0 parsed hset hex with
          ⟨hne, _, _⟩ | ⟨_, hple, hran, hall⟩
        · exact absurd hok hne
        · cases hran with
          | more st m =>
            have hp : parsed = ext0.length := hall rfl
            subst hp
            simp only [is_http_error, parser_after, ne_eq, not_true_eq_false, if_false, hs,
              reduceCtorEq, drive_act, drive_switch, Bool.false_eq_true]
            rw [evbuffer_ptr_set_add _ _ _ (by simp [evbuffer_bytes])]
            simp only [ne_eq, not_true_eq_false, if_false, if_true]
            have hpk : evbuffer_drain (ext0 :: tail) ext0.length
                = evbuffer_drain c.source_state.buffer (skip + ext0.length) := by
              rw [hpeek, evbuffer_drain_drain]
            have hlen := evbuffer_drain_head_length ext0 tail
            obtain ⟨hnt, hres⟩ := ih
              { c with
                state := .CONN_DIRECT_PARSING,
                source_state := { c.source_state with
                  parser := parser_after c.source_state.parser st m (ext0.take ext0.length)
                    .HPE_OK } }
              (evbuffer_drain (ext0 :: tail) ext0.length) (skip + ext0.length) tb rfl hb hset rfl
              hpk
            refine ⟨fun hfuel => hnt (by omega), ?_⟩
            intro c' skip' h
            have hbt : evbuffer_bytes (evbuffer_drain (ext0 :: tail) ext0.length)
                = evbuffer_bytes tail := by
              rw [evbuffer_bytes_drain, evbuffer_bytes_cons]
              simp
            rcases hres c' skip' h with ⟨⟨st', m', hc'⟩, hsk⟩ | ⟨⟨st', m', H, X, B, hHX, hB, hc'⟩, hsk⟩
            · left
              rw [hbt] at hc' hsk
              refine ⟨⟨st', m', ?_⟩, ?_⟩
              · rw [hc', evbuffer_bytes_cons]
                simp [parser_after, hs]
              · rw [hsk, evbuffer_bytes_cons]
                simp
                omega
            · right
              rw [hbt] at hHX
              refine ⟨⟨st', m', ext0 ++ H, X, B, ?_, hB, ?_⟩, hsk⟩
              · rw [evbuffer_bytes_cons, ← hHX]
                simp
              · rw [hc']
                simp [parser_after]
          | failed c1 hf =>
            simp [hf]
          | connecting st m a hs' ha => rw [hs] at hs'; cases hs'
          | forward st m hs' => rw [hs] at hs'; cases hs'
          | direct st m tb' hs' hb' =>
            rw [hb] at hb'
            cases hb'
            simp only [is_http_error, parser_after, ne_eq, not_true_eq_false, if_false, if_true,
              evbuffer_ptr_set_zero]
            have hbuf : evbuffer_drain c.source_state.buffer (parsed + skip)
                = evbuffer_drain (ext0 :: tail) parsed := by
              rw [hpeek, evbuffer_drain_drain, Nat.add_comm]
            have hlen : 2 * (ext0 :: tail).length + 2 ≤ fuel + 1 →
                (evbuffer_drain (evbuffer_drain c.source_state.buffer (parsed + skip))
                0).length < fuel := by
              intro hfuel
              rw [hbuf]
              have h1 := evbuffer_drain_length_le (evbuffer_drain (ext0 :: tail) parsed) 0
              have h2 := evbuffer_drain_length_le (ext0 :: tail) parsed
              simp only [List.length_cons] at hfuel h2
              omega
            obtain ⟨hntd, hresd⟩ := drive_loop_direct E fuel
              { c with
                state := .CONN_DIRECT,
                source_state := { c.source_state with
                  bev := direct_source_bev c.source_state.bev,
                  buffer := evbuffer_drain c.source_state.buffer (parsed + skip),
                  parser := parser_after c.source_state.parser st m (ext0.take parsed)
                    .HPE_PAUSED },
                target_state := { c.target_state with bev := some (direct_target_bev tb) } }
              (direct_target_bev tb) rfl rfl
            simp only at hntd hresd
            simp only [parser_after] at hntd hresd ⊢
            refine ⟨fun hfuel => hntd (hlen hfuel), ?_⟩
            intro c' skip' h
            obtain ⟨B, hB, hr⟩ := hresd _ h
            simp only [Prod.mk.injEq] at hr
            obtain ⟨rfl, rfl⟩ := hr
            right
            refine ⟨⟨st, m, ext0.take parsed,
              evbuffer_bytes (evbuffer_drain c.source_state.buffer (parsed + skip)), B, ?_, hB,
              ?_⟩, rfl⟩
            · rw [hbuf, evbuffer_bytes_drain, evbuffer_bytes_cons]
              rw [← List.take_append_of_le_length hple]
              exact List.take_append_drop _ _
            · simp [parser_after, direct_target_bev, bufferevent_enable, bufferevent_setcb]

/-- The replay pass in a direct phase: the bytes counted by peek_offset are
dropped from the buffer and peek_offset is reset; nothing is written. -/
theorem drive_replay_direct (E : Env) (fuel : Nat) (c : pproxy_connection)
    (hs : is_direct_state c.state = true) :
    ∃ B : evbuffer,
      drive_replay E fuel c
        = .ok { c with source_state := { c.source_state with buffer := B, peek_offset := 0 } } ∧
      evbuffer_bytes B = (evbuffer_bytes c.source_state.buffer).drop c.source_state.peek_offset ∧
      B.length ≤ c.source_state.buffer.length := by
  unfold drive_replay
  by_cases hpo : c.source_state.peek_offset > 0
  · rw [if_pos hpo]
    simp only [hs, Bool.not_true, Bool.false_eq_true, if_false]
    exact ⟨_, rfl, evbuffer_bytes_drain _ _, evbuffer_drain_length_le _ _⟩
  · rw [if_neg hpo]
    have h0 : c.source_state.peek_offset = 0 := by omega
    refine ⟨c.source_state.buffer, ?_, by simp [h0], Nat.le_refl _⟩
    obtain ⟨s, ⟨bev, buf, po, ps, pss⟩, ts, cn⟩ := c
    simp only at h0
    subst h0
    rfl

/-- The driver on a connection in phase DirectParsing whose parser runs and
whose origin bufferevent is tb: it does not run out of fuel, and it returns
either still in DirectParsing, having parsed every byte behind the first
peek_offset ones and written nothing, or in Direct, having split those bytes
into a part H the parser consumed and a part X queued on the origin, with the
buffer holding no byte, peek_offset 0, the relay callbacks installed and kOk
queued on the client. -/
theorem drive_request_direct_parsing (E : Env) (fuel : Nat) (c : pproxy_connection)
    (tb : bufferevent)
    (hs : c.state = .CONN_DIRECT_PARSING) (hb : c.target_state.bev = some tb)
    (hset : c.source_state.parser_settings = source_parser_settings)
    (hok : c.source_state.parser.http_errno = .HPE_OK) :
    (2 * c.source_state.buffer.length + 2 ≤ fuel → drive_request E fuel c ≠ .timeout) ∧
    ∀ c', drive_request E fuel c = .ok c' →
      (∃ (st : Nat) (m : http_method) (B : evbuffer),
        evbuffer_bytes B
          = (evbuffer_bytes c.source_state.buffer).drop c.source_state.peek_offset ∧
        c' = { c with source_state := { c.source_state with
          buffer := B, peek_offset := (evbuffer_bytes B).length,
          parser := parser_after c.source_state.parser st m (evbuffer_bytes B) .HPE_OK } }) ∨
      (∃ (st : Nat) (m : http_method) (H X : List Byte) (B : evbuffer),
        H ++ X = (evbuffer_bytes c.source_state.buffer).drop c.source_state.peek_offset ∧
        evbuffer_bytes B = [] ∧
        c' = { c with
          state := .CONN_DIRECT,
          source_state := { c.source_state with
            bev := bufferevent_write (direct_source_bev c.source_state.bev) kOk,
            buffer := B, peek_offset := 0,
            parser := parser_after c.source_state.parser st m H .HPE_PAUSED },
          target_state := { c.target_state with
            bev := some { direct_target_bev tb with output := tb.output ++ X } } }) := by
  obtain ⟨B, hrep, hB, hBlen⟩ := drive_replay_direct E fuel c (by simp [is_direct_state, hs])
  have hlen : 2 * c.source_state.buffer.length + 2 ≤ fuel →
      2 * (evbuffer_drain B 0).length + 2 ≤ fuel := by
    intro hfuel
    have := evbuffer_drain_length_le B 0
    omega
  obtain ⟨hnt, hres⟩ := drive_loop_direct_parsing E fuel
    { c with source_state := { c.source_state with buffer := B, peek_offset := 0 } }
    (evbuffer_drain B 0) 0 tb hs hb hset hok rfl
  unfold drive_request
  rw [hrep]
  simp only [evbuffer_ptr_set_zero]
  cases hloop : drive_loop E fuel
      { c with source_state := { c.source_state with buffer := B, peek_offset := 0 } }
      (evbuffer_drain B 0) 0 with
  | timeout => exact ⟨fun hfuel => absurd hloop (hnt (hlen hfuel)), by simp⟩
  | freed => simp
  | fault f => simp
  | ok r =>
    obtain ⟨c2, skip⟩ := r
    simp only
    refine ⟨fun _ => by split_ifs <;> simp, ?_⟩
    intro c' hc'
    rcases hres c2 skip hloop with ⟨⟨st, m, hc2⟩, hsk⟩ | ⟨⟨st, m, H, X, B', hHX, hB', hc2⟩, hsk⟩
    · subst hc2
      simp only [hs, reduceCtorEq, if_false, Outcome.ok.injEq] at hc'
      subst hc'
      left
      refine ⟨st, m, B, hB, ?_⟩
      rw [hsk, evbuffer_bytes_drain_zero]
      simp [hs]
    · subst hc2 hsk
      simp only [if_true, Outcome.ok.injEq] at hc'
      subst hc'
      right
      refine ⟨st, m, H, X, B', ?_, hB', ?_⟩
      · rw [← hB, ← evbuffer_bytes_drain_zero B, hHX]
      · simp [send_direct_ok_response]

/-- C4: drive_request on a connection in phase DirectParsing (the origin is
connected, the request parser runs) does not run out of fuel, and when it
returns in phase Direct: the client bytes behind the first peek_offset ones
split into H, which the request parser consumed as the rest of the CONNECT
request, and X; the origin has been queued exactly X behind what it held, so
no byte of the request line or headers; the client buffer holds no byte;
peek_offset is 0; and the client has been queued the 39 bytes of kOk. -/
theorem C4_connect_residual (E : Env) (fuel : Nat) (c : pproxy_connection) (tb : bufferevent)
    (hs : c.state = .CONN_DIRECT_PARSING) (hb : c.target_state.bev = some tb)
    (hset : c.source_state.parser_settings = source_parser_settings)
    (hok : c.source_state.parser.http_errno = .HPE_OK)
    (hfuel : 2 * c.source_state.buffer.length + 2 ≤ fuel) :
    drive_request E fuel c ≠ .timeout ∧
    ∀ c', drive_request E fuel c = .ok c' → c'.state = .CONN_DIRECT →
      ∃ H X : List Byte,
        (evbuffer_bytes c.source_state.buffer).drop c.source_state.peek_offset = H ++ X ∧
        c'.source_state.parser.consumed = c.source_state.parser.consumed ++ H ∧
        c'.target_state.bev.map (fun b => b.output) = some (tb.output ++ X) ∧
        evbuffer_get_length c'.source_state.buffer = 0 ∧
        c'.source_state.peek_offset = 0 ∧
        c'.source_state.bev.output = c.source_state.bev.output ++ kOk := by
  obtain ⟨hnt, hres⟩ := drive_request_direct_parsing E fuel c tb hs hb hset hok
  refine ⟨hnt hfuel, ?_⟩
  intro c' hc' hd
  rcases hres c' hc' with ⟨st, m, B, _, rfl⟩ | ⟨st, m, H, X, B, hHX, hB, rfl⟩
  · simp [hs] at hd
  · refine ⟨H, X, hHX.symm, ?_, ?_, ?_, rfl, ?_⟩
    · simp [parser_after]
    · simp
    · simp [evbuffer_get_length, hB]
    · simp [bufferevent_write, direct_source_bev, bufferevent_enable, bufferevent_setcb]

set_option maxRecDepth 100000 in
/-- The driver on the sample CONNECT connection. -/
theorem step_connect_drive :
    drive_request sample_env 10 sample_connect_parsing = .ok sample_connect_direct := by
  decide

/-- C4, on an input: the buffer holds the CONNECT request in three extents
with X Y Z behind it and W in a fourth, 14 bytes already parsed; the driver
reaches Direct and the origin is queued X Y Z W. -/
theorem C4_connect_residual_witness :
    drive_request sample_env 10 sample_connect_parsing = .ok sample_connect_direct ∧
    sample_connect_direct.target_state.bev.map (fun b => b.output) = some [88, 89, 90, 87] ∧
    ∃ H X : List Byte,
      (evbuffer_bytes sample_connect_parsing.source_state.buffer).drop
        sample_connect_parsing.source_state.peek_offset = H ++ X ∧
      sample_connect_direct.source_state.parser.consumed
        = sample_connect_parsing.source_state.parser.consumed ++ H ∧
      sample_connect_direct.target_state.bev.map (fun b => b.output)
        = some (sample_connect_attempt.bev.output ++ X) ∧
      evbuffer_get_length sample_connect_direct.source_state.buffer = 0 ∧
      sample_connect_direct.source_state.peek_offset = 0 ∧
      sample_connect_direct.source_state.bev.output
        = sample_connect_parsing.source_state.bev.output ++ kOk :=
  ⟨step_connect_drive, rfl,
    (C4_connect_residual sample_env 10 sample_connect_parsing sample_connect_attempt.bev
      rfl rfl rfl rfl (by decide)).2 sample_connect_direct step_connect_drive rfl⟩

/-! ## The response parser on one extent -/

/-- What target_message_complete leaves when it returns: return code 0, and
either the phase moved from Forward to Complete, the origin bufferevent is
disabled and the response parser is paused, or the phase is RecvForward and
nothing changed. -/
theorem target_message_complete_spec (c c2 : pproxy_connection) (rc : Int)
    (hok : c.target_state.parser.http_errno = .HPE_OK)
    (h : target_message_complete .target c = .ok (c2, rc)) :
    rc = 0 ∧
    ((c.state = .CONN_FORWARD ∧ ∃ tb, c.target_state.bev = some tb ∧
      c2 = { c with
        state := .CONN_COMPLETE,
        target_state := { c.target_state with
          bev := some (bufferevent_disable tb true true),
          parser := { c.target_state.parser with http_errno := .HPE_PAUSED } } }) ∨
     (c.state = .CONN_RECV_FORWARD ∧ c2 = c)) := by
  unfold target_message_complete at h
  by_cases hs : c.state = .CONN_FORWARD
  · rw [if_pos hs] at h
    unfold set_connection_state_complete at h
    rw [if_neg (by simp [hs])] at h
    cases hb : c.target_state.bev with
    | none => rw [hb] at h; cases h
    | some tb =>
      rw [hb] at h
      simp only at h
      rw [pause_parser_of_ok .target _ true (Or.inl (by exact hok))] at h
      simp only [Except.ok.injEq, Prod.mk.injEq] at h
      exact ⟨h.2.symm, Or.inl ⟨hs, tb, rfl, h.1.symm⟩⟩
  · rw [if_neg hs] at h
    by_cases hs2 : c.state = .CONN_RECV_FORWARD
    · rw [if_neg (by simp [hs2])] at h
      simp only [Except.ok.injEq, Prod.mk.injEq] at h
      exact ⟨h.2.symm, Or.inr ⟨hs2, h.1.symm⟩⟩
    · rw [if_pos hs2] at h
      cases h

/-- A response parser call that consumed nothing and left the error code OK
changed nothing. -/
theorem target_ran_refl (c : pproxy_connection)
    (hok : c.target_state.parser.http_errno = .HPE_OK) : TargetRan c [] c := by
  have h := @TargetRan.more c [] c.target_state.parser.state c.target_state.parser.method
  have e : ({ c with target_state := { c.target_state with
      parser := parser_after c.target_state.parser c.target_state.parser.state
        c.target_state.parser.method [] .HPE_OK } } : pproxy_connection) = c := by
    obtain ⟨s, ss, ⟨bev, ⟨t, st, m, e, cons⟩, ps⟩, cn⟩ := c
    simp only at hok
    subst hok
    simp [parser_after]
  rw [e] at h
  exact h

/-- One byte taken by the automaton before a response parser call adds to
what the call consumed. -/
theorem target_ran_prepend (c c' : pproxy_connection) (stp : parse_step) (b : Byte)
    (bs : List Byte) (h : TargetRan (parser_advance .target c stp b) bs c') :
    TargetRan c (b :: bs) c' := by
  cases h with
  | more st m =>
    have h := @TargetRan.more c (b :: bs) st m
    simpa [parser_advance, with_parser_of, parser_of, parser_after] using h
  | failed st m code =>
    have h := @TargetRan.failed c (b :: bs) st m code
    simpa [parser_advance, with_parser_of, parser_of, parser_after] using h
  | complete st m tb hs hb =>
    have h := @TargetRan.complete c (b :: bs) st m tb
      (by simpa [parser_advance, with_parser_of] using hs)
      (by simpa [parser_advance, with_parser_of] using hb)
    simpa [parser_advance, with_parser_of, parser_of, parser_after] using h

/-- The byte loop of the response parser: it consumes k of the bytes it is
given, leaves the connection in one of the ways of TargetRan, has consumed
them all when the error code is still OK, and not all when it failed. -/
theorem target_scan_spec (E : Env) (ext : List Byte) :
    ∀ (rest : List Byte) (p : Nat) (mark : Option Nat) (c c' : pproxy_connection) (n : Nat),
      c.target_state.parser_settings = target_parser_settings →
      c.target_state.parser.http_errno = .HPE_OK →
      http_parser_scan E .target ext rest p mark c = .ok (c', n) →
      ∃ k, n = p + k ∧ k ≤ rest.length ∧ TargetRan c (rest.take k) c' ∧
        (c'.target_state.parser.http_errno = .HPE_OK → k = rest.length) := by
  intro rest
  induction rest with
  | nil =>
    intro p mark c c' n hset hok h
    unfold http_parser_scan at h
    cases mark with
    | none =>
      simp only [Except.ok.injEq, Prod.mk.injEq] at h
      obtain ⟨rfl, rfl⟩ := h
      exact ⟨0, rfl, Nat.le_refl _, target_ran_refl _ hok, fun _ => rfl⟩
    | some m =>
      simp only [call_on_url, settings_of, hset, target_parser_settings,
        note_callback_result_zero, Except.ok.injEq, Prod.mk.injEq] at h
      obtain ⟨rfl, rfl⟩ := h
      exact ⟨0, rfl, Nat.le_refl _, target_ran_refl _ hok, fun _ => rfl⟩
  | cons b rest ih =>
    intro p mark c c' n hset hok h
    have hset1 : ∀ st, (parser_advance .target c st b).target_state.parser_settings
        = target_parser_settings := by
      intro st
      simpa [parser_advance, with_parser_of] using hset
    have hok1 : ∀ st, (parser_advance .target c st b).target_state.parser.http_errno
        = .HPE_OK := by
      intro st
      simpa [parser_advance, with_parser_of, parser_of] using hok
    cases hev : (E.step (parser_of .target c).type (parser_of .target c).state
        (parser_of .target c).method b).event with
    | pe_error code =>
      rw [http_parser_scan_error _ _ _ _ _ _ _ _ _ hev] at h
      simp only [Except.ok.injEq, Prod.mk.injEq] at h
      obtain ⟨rfl, rfl⟩ := h
      refine ⟨0, rfl, Nat.zero_le _, ?_, ?_⟩
      · have h := @TargetRan.failed c [] c.target_state.parser.state
          c.target_state.parser.method code
        simpa [with_parser_of, parser_of, parser_after] using h
      · intro hc
        simp [with_parser_of] at hc
    | pe_none =>
      rw [http_parser_scan_none _ _ _ _ _ _ _ _ hev] at h
      obtain ⟨k, hn, hk, hran, hall⟩ := ih _ _ _ _ _ (hset1 _) (hok1 _) h
      refine ⟨k + 1, by omega, by simpa using hk, ?_, ?_⟩
      · rw [List.take_succ_cons]
        exact target_ran_prepend _ _ _ _ _ hran
      · intro hc
        simp [hall hc]
    | pe_url =>
      rw [http_parser_scan_url _ _ _ _ _ _ _ _ hev] at h
      simp only [call_on_url, settings_of, hset1, target_parser_settings,
        note_callback_result_zero] at h
      rw [if_neg (by simpa [parser_of] using hok1 _)] at h
      obtain ⟨k, hn, hk, hran, hall⟩ := ih _ _ _ _ _ (hset1 _) (hok1 _) h
      refine ⟨k + 1, by omega, by simpa using hk, ?_, ?_⟩
      · rw [List.take_succ_cons]
        exact target_ran_prepend _ _ _ _ _ hran
      · intro hc
        simp [hall hc]
    | pe_message_complete =>
      rw [http_parser_scan_message_complete _ _ _ _ _ _ _ _ hev] at h
      simp only [call_on_message_complete, settings_of, hset1, target_parser_settings] at h
      cases hu : target_message_complete .target (parser_advance .target c
          (E.step (parser_of .target c).type (parser_of .target c).state
            (parser_of .target c).method b) b) with
      | error f => rw [hu] at h; cases h
      | ok r =>
        obtain ⟨c2, rc⟩ := r
        rw [hu] at h
        simp only at h
        obtain ⟨hrc, hcase⟩ := target_message_complete_spec _ c2 rc (hok1 _) hu
        subst hrc
        rw [note_callback_result_zero] at h
        rcases hcase with ⟨hs, tb, hb, rfl⟩ | ⟨hs, rfl⟩
        · simp only [parser_of, ne_eq, reduceCtorEq, not_false_eq_true, if_true,
            Except.ok.injEq, Prod.mk.injEq] at h
          obtain ⟨rfl, rfl⟩ := h
          refine ⟨1, rfl, by simp, ?_, ?_⟩
          · have h := @TargetRan.complete (parser_advance .target c
              (E.step (parser_of .target c).type (parser_of .target c).state
                (parser_of .target c).method b) b) []
              (parser_advance .target c (E.step (parser_of .target c).type
                (parser_of .target c).state (parser_of .target c).method b)
                b).target_state.parser.state
              (parser_advance .target c (E.step (parser_of .target c).type
                (parser_of .target c).state (parser_of .target c).method b)
                b).target_state.parser.method tb hs hb
            have h2 := target_ran_prepend _ _ _ _ _ (by simpa [parser_after] using h)
            simpa using h2
          · intro hc
            simp at hc
        · rw [if_neg (by simpa [parser_of] using hok1 _)] at h
          obtain ⟨k, hn, hk, hran, hall⟩ := ih _ _ _ _ _ (hset1 _) (hok1 _) h
          refine ⟨k + 1, by omega, by simpa using hk, ?_, ?_⟩
          · rw [List.take_succ_cons]
            exact target_ran_prepend _ _ _ _ _ hran
          · intro hc
            simp [hall hc]

/-- The response parser on one extent: with an error code other than OK it
does nothing and reports 0 bytes; else it consumes the first parsed bytes of
the extent and leaves the connection in one of the ways of TargetRan, having
consumed the whole extent when the error code is still OK. -/
theorem target_execute_spec (E : Env) (c c' : pproxy_connection) (ext : List Byte)
    (parsed : Nat)
    (hset : c.target_state.parser_settings = target_parser_settings)
    (h : http_parser_execute E .target c ext = .ok (c', parsed)) :
    (c.target_state.parser.http_errno ≠ .HPE_OK ∧ c' = c ∧ parsed = 0) ∨
    (c.target_state.parser.http_errno = .HPE_OK ∧ parsed ≤ ext.length ∧
      TargetRan c (ext.take parsed) c' ∧
      (c'.target_state.parser.http_errno = .HPE_OK → parsed = ext.length)) := by
  unfold http_parser_execute at h
  simp only [parser_of] at h
  by_cases hok : c.target_state.parser.http_errno = .HPE_OK
  · right
    rw [if_neg (by simpa using hok)] at h
    obtain ⟨k, hn, hk, hran, hall⟩ := target_scan_spec E ext ext 0 _ c c' parsed hset hok h
    have : parsed = k := by omega
    subst this
    exact ⟨hok, hk, hran, hall⟩
  · left
    rw [if_pos hok] at h
    simp only [Except.ok.injEq, Prod.mk.injEq] at h
    exact ⟨hok, h.1.symm, h.2.symm⟩

/-! ## The origin read path -/

/-- The response parser on one extent, field by field: it consumes the first
parsed bytes, leaves the request side and the connect attempt alone, and
either keeps the phase and the origin bufferevent or, on message-complete in
Forward, moves to Complete and disables the origin bufferevent. -/
theorem target_execute_frame (E : Env) (c c1 : pproxy_connection) (ext : List Byte)
    (parsed : Nat) (be : bufferevent)
    (hset : c.target_state.parser_settings = target_parser_settings)
    (hb : c.target_state.bev = some be)
    (h : http_parser_execute E .target c ext = .ok (c1, parsed)) :
    parsed ≤ ext.length ∧
    c1.target_state.parser.consumed = c.target_state.parser.consumed ++ ext.take parsed ∧
    c1.source_state = c.source_state ∧ c1.connecting = c.connecting ∧
    c1.target_state.parser_settings = c.target_state.parser_settings ∧
    ((c1.state = c.state ∧ c1.target_state.bev = some be) ∨
     (c.state = .CONN_FORWARD ∧ c1.state = .CONN_COMPLETE ∧
      c1.target_state.bev = some (bufferevent_disable be true true))) ∧
    (c1.state ≠ .CONN_COMPLETE → parsed < ext.length →
      c1.target_state.parser.http_errno ≠ .HPE_OK) := by
  rcases target_execute_spec E c c1 ext parsed hset h with
    ⟨hne, rfl, rfl⟩ | ⟨hok, hple, hran, hall⟩
  · exact ⟨Nat.zero_le _, by simp, rfl, rfl, rfl, Or.inl ⟨rfl, hb⟩, fun _ _ => hne⟩
  · cases hran with
    | more st m =>
      refine ⟨hple, by simp [parser_after], rfl, rfl, rfl, Or.inl ⟨rfl, hb⟩, ?_⟩
      intro _ hlt
      have := hall rfl
      omega
    | failed st m code =>
      exact ⟨hple, by simp [parser_after], rfl, rfl, rfl, Or.inl ⟨rfl, hb⟩,
        fun _ _ => by simp [parser_after]⟩
    | complete st m tb hs hb' =>
      rw [hb] at hb'
      cases hb'
      exact ⟨hple, by simp [parser_after], rfl, rfl, rfl, Or.inr ⟨hs, rfl, rfl⟩,
        fun hc _ => absurd rfl hc⟩

/-- The forwarding step of target_read_cb after the parser took parsed bytes
of the first extent of the origin input: exactly those bytes are queued on
the client and removed from the origin input; nothing else changes. -/
theorem target_forward_spec (E : Env) (c1 : pproxy_connection) (be1 : bufferevent)
    (ext0 : List Byte) (tail : evbuffer) (parsed : Nat)
    (hple : parsed ≤ ext0.length)
    (hbytes : evbuffer_bytes be1.input = evbuffer_bytes (ext0 :: tail)) :
    ∃ be2 : bufferevent,
      (target_forward E c1 be1 ext0 parsed
        (evbuffer_drain (ext0 :: tail) parsed).length).target_state.bev = some be2 ∧
      evbuffer_bytes be2.input = evbuffer_bytes (evbuffer_drain (ext0 :: tail) parsed) ∧
      evbuffer_bytes be1.input = ext0.take parsed ++ evbuffer_bytes be2.input ∧
      be2.output = be1.output ∧ be2.readcb = be1.readcb ∧ be2.eventcb = be1.eventcb ∧
      (target_forward E c1 be1 ext0 parsed
        (evbuffer_drain (ext0 :: tail) parsed).length).source_state.bev.output
        = c1.source_state.bev.output ++ ext0.take parsed ∧
      (target_forward E c1 be1 ext0 parsed
        (evbuffer_drain (ext0 :: tail) parsed).length).state = c1.state ∧
      (target_forward E c1 be1 ext0 parsed
        (evbuffer_drain (ext0 :: tail) parsed).length).connecting = c1.connecting ∧
      (target_forward E c1 be1 ext0 parsed
        (evbuffer_drain (ext0 :: tail) parsed).length).target_state.parser
        = c1.target_state.parser ∧
      (target_forward E c1 be1 ext0 parsed
        (evbuffer_drain (ext0 :: tail) parsed).length).target_state.parser_settings
        = c1.target_state.parser_settings ∧
      (target_forward E c1 be1 ext0 parsed
        (evbuffer_drain (ext0 :: tail) parsed).length).source_state.parser_settings
        = c1.source_state.parser_settings ∧
      (target_forward E c1 be1 ext0 parsed
        (evbuffer_drain (ext0 :: tail) parsed).length).source_state.buffer
        = c1.source_state.buffer ∧
      (target_forward E c1 be1 ext0 parsed
        (evbuffer_drain (ext0 :: tail) parsed).length).source_state.peek_offset
        = c1.source_state.peek_offset ∧
      (target_forward E c1 be1 ext0 parsed
        (evbuffer_drain (ext0 :: tail) parsed).length).source_state.parser
        = c1.source_state.parser ∧
      (target_forward E c1 be1 ext0 parsed
        (evbuffer_drain (ext0 :: tail) parsed).length).source_state.bev.input
        = c1.source_state.bev.input := by
  have hdrop : evbuffer_bytes (evbuffer_drain (ext0 :: tail) parsed)
      = (evbuffer_bytes be1.input).drop parsed := by
    rw [evbuffer_bytes_drain, hbytes]
  have hsplit : evbuffer_bytes be1.input
      = ext0.take parsed ++ (evbuffer_bytes be1.input).drop parsed := by
    conv_lhs => rw [← List.take_append_drop parsed (evbuffer_bytes be1.input)]
    rw [hbytes, evbuffer_bytes_cons, List.take_append_of_le_length hple]
  unfold target_forward
  by_cases hA : (evbuffer_drain (ext0 :: tail) parsed).length = 0 ∧ parsed = ext0.length
  · rw [if_pos hA]
    have hnil : evbuffer_drain (ext0 :: tail) parsed = [] := List.length_eq_zero.mp hA.1
    have hd0 : (evbuffer_bytes be1.input).drop parsed = [] := by
      rw [← hdrop, hnil]; rfl
    have hall : evbuffer_bytes be1.input = ext0.take parsed := by
      have h := hsplit
      rw [hd0, List.append_nil] at h
      exact h
    refine ⟨{ be1 with input := [] }, rfl, ?_, ?_, rfl, rfl, rfl, ?_, rfl, rfl, rfl, rfl, rfl,
      rfl, rfl, rfl, rfl⟩
    · rw [hnil]
    · simpa [evbuffer_bytes] using hall
    · simp [bufferevent_write_buffer, hall]
  · rw [if_neg hA]
    refine ⟨{ be1 with input := evbuffer_drain be1.input parsed }, rfl, ?_, ?_, rfl, rfl, rfl,
      ?_, rfl, rfl, rfl, rfl, rfl, rfl, rfl, rfl, rfl⟩
    · simp only
      rw [hdrop, evbuffer_bytes_drain]
    · simp only
      rw [evbuffer_bytes_drain]
      exact hsplit
    · simp [bufferevent_write, mem_read_of_le E ext0 parsed hple]

/-- The loop of target_read_cb, started on the first extent of the origin
input: when it returns with the connection alive, ResponseRelayed holds. -/
theorem target_read_loop_spec (E : Env) :
    ∀ (fuel : Nat) (c : pproxy_connection) (ext0 : List Byte) (tail : evbuffer)
      (be : bufferevent) (c' : pproxy_connection),
      c.target_state.parser_settings = target_parser_settings →
      c.target_state.bev = some be →
      evbuffer_bytes be.input = evbuffer_bytes (ext0 :: tail) →
      target_read_loop E fuel c (ext0 :: tail) ext0 = .ok c' →
      ResponseRelayed c be c' := by
  intro fuel
  induction fuel with
  | zero => intro c ext0 tail be c' _ _ _ h; simp [target_read_loop] at h
  | succ fuel ih =>
    intro c ext0 tail be c' hset hb hbytes h
    unfold target_read_loop at h
    cases hex : http_parser_execute E .target c ext0 with
    | error f => rw [hex] at h; cases h
    | ok r =>
      obtain ⟨c1, parsed⟩ := r
      rw [hex] at h
      simp only at h
      obtain ⟨hple, hcons, hsrc, hconn, hsets, hcase, _⟩ :=
        target_execute_frame E c c1 ext0 parsed be hset hb hex
      have hbe1 : ∃ be1 : bufferevent, c1.target_state.bev = some be1 ∧ be1.input = be.input ∧
          be1.output = be.output ∧ be1.readcb = be.readcb ∧ be1.eventcb = be.eventcb ∧
          (c1.state = c.state ∨ (c.state = .CONN_FORWARD ∧ c1.state = .CONN_COMPLETE)) := by
        rcases hcase with ⟨h1, h2⟩ | ⟨h1, h2, h3⟩
        · exact ⟨be, h2, rfl, rfl, rfl, rfl, Or.inl h1⟩
        · exact ⟨_, h3, rfl, rfl, rfl, rfl, Or.inr ⟨h1, h2⟩⟩
      obtain ⟨be1, hb1, hin1, hout1, hrcb1, hecb1, hst1⟩ := hbe1
      by_cases herr : is_http_error c1.source_state.parser ≠ 0
      · rw [if_pos herr] at h; cases h
      rw [if_neg herr] at h
      by_cases hshort : parsed < ext0.length ∧ c1.state ≠ .CONN_COMPLETE
      · rw [if_pos hshort] at h; cases h
      rw [if_neg hshort, hb1] at h
      simp only at h
      have hlenp : parsed ≤ (evbuffer_bytes (ext0 :: tail)).length := by
        rw [evbuffer_bytes_cons, List.length_append]
        omega
      rw [evbuffer_ptr_set_add _ _ _ hlenp] at h
      simp only [if_true, evbuffer_peek] at h
      have hbytes1 : evbuffer_bytes be1.input = evbuffer_bytes (ext0 :: tail) := by
        rw [hin1, hbytes]
      obtain ⟨be2, hb2, hin2, hsplit, hout2, hrcb2, hecb2, hsout, hst2, hconn2, htp2, hts2,
        hss2, hbuf2, hpo2, hsp2, hsin2⟩ :=
        target_forward_spec E c1 be1 ext0 tail parsed hple hbytes1
      have hstep : ResponseRelayed c be (target_forward E c1 be1 ext0 parsed
          (evbuffer_drain (ext0 :: tail) parsed).length) := by
        refine ⟨ext0.take parsed, be2, hb2, ?_, ?_, ?_, ?_, ?_, ?_, ?_, ?_, ?_, ?_, ?_, ?_, ?_,
          ?_⟩
        · rw [← hin1]; exact hsplit
        · rw [hsout, hsrc]
        · rw [htp2, hcons]
        · rw [hout2, hout1]
        · rw [hrcb2, hrcb1]
        · rw [hecb2, hecb1]
        · rw [hst2]; exact hst1
        · rw [hconn2, hconn]
        · rw [hss2, hsrc]
        · rw [hts2, hsets]
        · rw [hbuf2, hsrc]
        · rw [hpo2, hsrc]
        · rw [hsp2, hsrc]
        · rw [hsin2, hsrc]
      obtain ⟨c2, hc2⟩ : ∃ c2, c2 = target_forward E c1 be1 ext0 parsed
          (evbuffer_drain (ext0 :: tail) parsed).length := ⟨_, rfl⟩
      rw [← hc2] at h hstep hb2 hst2 hts2
      by_cases hcomp : c2.state = .CONN_COMPLETE
      · rw [if_pos hcomp] at h
        simp only [Outcome.ok.injEq] at h
        rw [← h]
        exact hstep
      rw [if_neg hcomp] at h
      cases hP : evbuffer_drain (ext0 :: tail) parsed with
      | nil =>
        rw [hP] at h
        simp only [List.length_nil, ne_eq, not_true_eq_false, if_false, Outcome.ok.injEq] at h
        rw [← h]
        exact hstep
      | cons e' t' =>
        rw [hP] at h hin2
        simp only [List.length_cons, ne_eq, Nat.add_one_ne_zero, not_false_eq_true, if_true,
          List.take_succ_cons, List.take_zero, iovec, List.getD_cons_zero] at h
        have hset2 : c2.target_state.parser_settings = target_parser_settings := by
          rw [hts2, hsets, hset]
        obtain ⟨Q', be', hb', hin', hout', hcons', hbo', hbr', hbe', hst', hcn', hss', hts',
          hbuf', hpo', hsp', hsin'⟩ := ih c2 e' t' be2 c' hset2 hb2 hin2 h
        obtain ⟨Q, be2', hb2', hinq, houtq, hconsq, hboq, hbrq, hbeq, hstq, hcnq, hssq, htsq,
          hbufq, hpoq, hspq, hsinq⟩ := hstep
        rw [hb2] at hb2'
        cases hb2'
        refine ⟨Q ++ Q', be', hb', ?_, ?_, ?_, ?_, ?_, ?_, ?_, ?_, ?_, ?_, ?_, ?_, ?_, ?_⟩
        · rw [hinq, hin', List.append_assoc]
        · rw [hout', houtq, List.append_assoc]
        · rw [hcons', hconsq, List.append_assoc]
        · rw [hbo', hboq]
        · rw [hbr', hbrq]
        · rw [hbe', hbeq]
        · rcases hst' with h1 | ⟨h1, h2⟩
          · rw [h1]; exact hstq
          · rcases hstq with h3 | ⟨h3, h4⟩
            · right; exact ⟨h3 ▸ h1, h2⟩
            · exact absurd h4 hcomp
        · rw [hcn', hcnq]
        · rw [hss', hssq]
        · rw [hts', htsq]
        · rw [hbuf', hbufq]
        · rw [hpo', hpoq]
        · rw [hsp', hspq]
        · rw [hsin', hsinq]

/-- In phase RecvForward or Forward with an origin bufferevent in place, the
byte loop of the response parser ends without a fault. -/
theorem target_scan_total (E : Env) (ext : List Byte) :
    ∀ (rest : List Byte) (p : Nat) (mark : Option Nat) (c : pproxy_connection),
      c.target_state.parser_settings = target_parser_settings →
      c.target_state.parser.http_errno = .HPE_OK →
      (c.state = .CONN_RECV_FORWARD ∨ c.state = .CONN_FORWARD) →
      c.target_state.bev.isSome = true →
      ∃ r, http_parser_scan E .target ext rest p mark c = .ok r := by
  intro rest
  induction rest with
  | nil =>
    intro p mark c hset hok hs hb
    unfold http_parser_scan
    cases mark with
    | none => exact ⟨_, rfl⟩
    | some m =>
      simp only [call_on_url, settings_of, hset, target_parser_settings]
      exact ⟨_, rfl⟩
  | cons b rest ih =>
    intro p mark c hset hok hs hb
    have hset1 : ∀ st, (parser_advance .target c st b).target_state.parser_settings
        = target_parser_settings := by
      intro st
      simpa [parser_advance, with_parser_of] using hset
    have hok1 : ∀ st, (parser_advance .target c st b).target_state.parser.http_errno
        = .HPE_OK := by
      intro st
      simpa [parser_advance, with_parser_of, parser_of] using hok
    have hs1 : ∀ st, (parser_advance .target c st b).state = c.state := by
      intro st
      simp [parser_advance, with_parser_of]
    have hb1 : ∀ st, (parser_advance .target c st b).target_state.bev = c.target_state.bev := by
      intro st
      simp [parser_advance, with_parser_of]
    cases hev : (E.step (parser_of .target c).type (parser_of .target c).state
        (parser_of .target c).method b).event with
    | pe_error code =>
      rw [http_parser_scan_error _ _ _ _ _ _ _ _ _ hev]
      exact ⟨_, rfl⟩
    | pe_none =>
      rw [http_parser_scan_none _ _ _ _ _ _ _ _ hev]
      exact ih _ _ _ (hset1 _) (hok1 _) (by rw [hs1]; exact hs) (by rw [hb1]; exact hb)
    | pe_url =>
      rw [http_parser_scan_url _ _ _ _ _ _ _ _ hev]
      simp only [call_on_url, settings_of, hset1, target_parser_settings,
        note_callback_result_zero]
      rw [if_neg (by simpa [parser_of] using hok1 _)]
      exact ih _ _ _ (hset1 _) (hok1 _) (by rw [hs1]; exact hs) (by rw [hb1]; exact hb)
    | pe_message_complete =>
      rw [http_parser_scan_message_complete _ _ _ _ _ _ _ _ hev]
      simp only [call_on_message_complete, settings_of, hset1, target_parser_settings]
      rcases hs with hs | hs
      · have e : target_message_complete .target (parser_advance .target c
            (E.step (parser_of .target c).type (parser_of .target c).state
              (parser_of .target c).method b) b)
            = .ok (parser_advance .target c (E.step (parser_of .target c).type
                (parser_of .target c).state (parser_of .target c).method b) b, 0) := by
          unfold target_message_complete
          rw [if_neg (by rw [hs1, hs]; simp), if_neg (by rw [hs1, hs]; simp)]
        rw [e]
        simp only [note_callback_result_zero]
        rw [if_neg (by simpa [parser_of] using hok1 _)]
        exact ih _ _ _ (hset1 _) (hok1 _) (by rw [hs1]; exact Or.inl hs)
          (by rw [hb1]; exact hb)
      · obtain ⟨tb, htb⟩ := Option.isSome_iff_exists.mp hb
        have e : ∃ c2, target_message_complete .target (parser_advance .target c
            (E.step (parser_of .target c).type (parser_of .target c).state
              (parser_of .target c).method b) b) = .ok (c2, 0) ∧
            (parser_of .target c2).http_errno = .HPE_PAUSED := by
          unfold target_message_complete
          rw [if_pos (by rw [hs1, hs])]
          unfold set_connection_state_complete
          rw [if_neg (by rw [hs1, hs]; simp), hb1, htb]
          simp only
          rw [pause_parser_of_ok .target _ true (Or.inl (by exact hok1 _))]
          exact ⟨_, rfl, rfl⟩
        obtain ⟨c2, e, hp⟩ := e
        rw [e]
        simp only [note_callback_result_zero]
        rw [if_pos (by rw [hp]; simp)]
        exact ⟨_, rfl⟩

/-- In phase RecvForward or Forward with an origin bufferevent in place, a
call of the response parser ends without a fault. -/
theorem target_execute_total (E : Env) (c : pproxy_connection) (ext : List Byte)
    (hset : c.target_state.parser_settings = target_parser_settings)
    (hs : c.state = .CONN_RECV_FORWARD ∨ c.state = .CONN_FORWARD)
    (hb : c.target_state.bev.isSome = true) :
    ∃ r, http_parser_execute E .target c ext = .ok r := by
  unfold http_parser_execute
  simp only [parser_of]
  by_cases hok : c.target_state.parser.http_errno = .HPE_OK
  · rw [if_neg (by simpa using hok)]
    exact target_scan_total E ext ext 0 _ c hset hok hs hb
  · rw [if_pos hok]
    exact ⟨_, rfl⟩

/-- In phase RecvForward or Forward, the loop of target_read_cb ends within
as many rounds as the origin input has extents, with the connection freed or
alive, never at a fault. -/
theorem target_read_loop_total (E : Env) :
    ∀ (fuel : Nat) (c : pproxy_connection) (ext0 : List Byte) (tail : evbuffer)
      (be : bufferevent),
      c.target_state.parser_settings = target_parser_settings →
      c.target_state.bev = some be →
      evbuffer_bytes be.input = evbuffer_bytes (ext0 :: tail) →
      (c.state = .CONN_RECV_FORWARD ∨ c.state = .CONN_FORWARD) →
      (ext0 :: tail).length ≤ fuel →
      target_read_loop E fuel c (ext0 :: tail) ext0 = .freed ∨
      ∃ c', target_read_loop E fuel c (ext0 :: tail) ext0 = .ok c' := by
  intro fuel
  induction fuel with
  | zero => intro c ext0 tail be _ _ _ _ h; simp at h
  | succ fuel ih =>
    intro c ext0 tail be hset hb hbytes hs hfuel
    unfold target_read_loop
    obtain ⟨r, hex⟩ := target_execute_total E c ext0 hset hs (by simp [hb])
    obtain ⟨c1, parsed⟩ := r
    rw [hex]
    simp only
    obtain ⟨hple, hcons, hsrc, hconn, hsets, hcase, _⟩ :=
      target_execute_frame E c c1 ext0 parsed be hset hb hex
    have hbe1 : ∃ be1 : bufferevent, c1.target_state.bev = some be1 ∧ be1.input = be.input ∧
        (c1.state = c.state ∨ c1.state = .CONN_COMPLETE) := by
      rcases hcase with ⟨h1, h2⟩ | ⟨h1, h2, h3⟩
      · exact ⟨be, h2, rfl, Or.inl h1⟩
      · exact ⟨_, h3, rfl, Or.inr h2⟩
    obtain ⟨be1, hb1, hin1, hst1⟩ := hbe1
    by_cases herr : is_http_error c1.source_state.parser ≠ 0
    · rw [if_pos herr]; exact Or.inl rfl
    rw [if_neg herr]
    by_cases hshort : parsed < ext0.length ∧ c1.state ≠ .CONN_COMPLETE
    · rw [if_pos hshort]; exact Or.inl rfl
    rw [if_neg hshort, hb1]
    simp only
    have hlenp : parsed ≤ (evbuffer_bytes (ext0 :: tail)).length := by
      rw [evbuffer_bytes_cons, List.length_append]
      omega
    rw [evbuffer_ptr_set_add _ _ _ hlenp]
    simp only [if_true, evbuffer_peek]
    have hbytes1 : evbuffer_bytes be1.input = evbuffer_bytes (ext0 :: tail) := by
      rw [hin1, hbytes]
    obtain ⟨be2, hb2, hin2, hsplit, hout2, hrcb2, hecb2, hsout, hst2, hconn2, htp2, hts2,
      hss2, hbuf2, hpo2, hsp2, hsin2⟩ :=
      target_forward_spec E c1 be1 ext0 tail parsed hple hbytes1
    obtain ⟨c2, hc2⟩ : ∃ c2, c2 = target_forward E c1 be1 ext0 parsed
        (evbuffer_drain (ext0 :: tail) parsed).length := ⟨_, rfl⟩
    rw [← hc2] at hb2 hst2 hts2 ⊢
    by_cases hcomp : c2.state = .CONN_COMPLETE
    · rw [if_pos hcomp]; exact Or.inr ⟨_, rfl⟩
    rw [if_neg hcomp]
    cases hP : evbuffer_drain (ext0 :: tail) parsed with
    | nil =>
      simp only [List.length_nil, ne_eq, not_true_eq_false, if_false]
      exact Or.inr ⟨_, rfl⟩
    | cons e' t' =>
      rw [hP] at hin2
      simp only [List.length_cons, ne_eq, Nat.add_one_ne_zero, not_false_eq_true, if_true,
        List.take_succ_cons, List.take_zero, iovec, List.getD_cons_zero]
      have hset2 : c2.target_state.parser_settings = target_parser_settings := by
        rw [hts2, hsets, hset]
      have hs2 : c2.state = .CONN_RECV_FORWARD ∨ c2.state = .CONN_FORWARD := by
        rw [hst2] at hcomp ⊢
        rcases hst1 with h1 | h1
        · rw [h1]; exact hs
        · exact absurd h1 hcomp
      have hpl : parsed = ext0.length := by
        rw [hst2] at hcomp
        by_contra hne
        exact hshort ⟨by omega, hcomp⟩
      have hl : (e' :: t').length ≤ fuel := by
        rw [← hP, hpl]
        have := evbuffer_drain_head_length ext0 tail
        simp only [List.length_cons] at hfuel
        omega
      exact ih c2 e' t' be2 hset2 hb2 hin2 hs2 hl

/-- What target_read_cb has done when it returns with the connection alive. -/
theorem target_read_cb_spec (E : Env) (fuel : Nat) (c c' : pproxy_connection)
    (be : bufferevent)
    (hset : c.target_state.parser_settings = target_parser_settings)
    (hb : c.target_state.bev = some be)
    (h : target_read_cb E fuel c = .ok c') :
    ResponseRelayed c be c' := by
  unfold target_read_cb at h
  rw [hb] at h
  simp only [evbuffer_ptr_set_zero, evbuffer_peek] at h
  cases hP : evbuffer_drain be.input 0 with
  | nil => rw [hP] at h; simp at h
  | cons ext0 tail =>
    rw [hP] at h
    simp only [List.length_cons, Nat.add_one_ne_zero, if_false, List.take_succ_cons,
      List.take_zero, iovec, List.getD_cons_zero] at h
    have hbytes : evbuffer_bytes be.input = evbuffer_bytes (ext0 :: tail) := by
      rw [← hP, evbuffer_bytes_drain_zero]
    cases hl : target_read_loop E fuel c (ext0 :: tail) ext0 with
    | freed => rw [hl] at h; cases h
    | fault f => rw [hl] at h; cases h
    | timeout => rw [hl] at h; cases h
    | ok c2 =>
      rw [hl] at h
      simp only at h
      have hrel := target_read_loop_spec E fuel c ext0 tail be c2 hset hb hbytes hl
      by_cases hcomp : c2.state = .CONN_COMPLETE
      · rw [if_pos hcomp] at h
        simp only [Outcome.ok.injEq] at h
        subst h
        obtain ⟨Q, be', h1, h2, h3, h4, h5, h6, h7, h8, h9, h10, h11, h12, h13, h14, h15⟩ := hrel
        exact ⟨Q, be', h1, h2, h3, h4, h5, h6, h7, h8, h9, h10, h11, h12, h13, h14, h15⟩
      · rw [if_neg hcomp] at h
        simp only [Outcome.ok.injEq] at h
        subst h
        exact hrel

set_option maxRecDepth 100000 in
/-- The origin read callback on the sample connection. -/
theorem step_response_read :
    target_read_cb sample_env 2 sample_get_pending = .ok sample_get_complete := by
  decide

/-! ## The driver outside the direct phases -/

/-- PlainDriven holds of a connection outside the direct phases and itself. -/
theorem plain_driven_refl (c : pproxy_connection) (h1 : c.state ≠ .CONN_DIRECT_PARSING)
    (h2 : c.state ≠ .CONN_DIRECT) : PlainDriven c c :=
  ⟨h1, h2, rfl, rfl, rfl, rfl, Or.inl rfl⟩

/-- PlainDriven composes. -/
theorem plain_driven_trans (a b c : pproxy_connection) (hab : PlainDriven a b)
    (hbc : PlainDriven b c) : PlainDriven a c := by
  obtain ⟨_, _, a3, a4, a5, a6, a7⟩ := hab
  obtain ⟨b1, b2, b3, b4, b5, b6, b7⟩ := hbc
  refine ⟨b1, b2, b3.trans a3, b4.trans a4, b5.trans a5, b6.trans a6, ?_⟩
  rcases b7 with h | h
  · rw [h]; exact a7
  · exact Or.inr h

/-- The loop of write_atmost changes the bufferevent at most in what it has
queued. -/
theorem write_atmost_loop_frame (E : Env) :
    ∀ (fuel : Nat) (buffer : evbuffer) (remain : Nat) (bev : Option bufferevent)
      (r : Nat × evbuffer × Option bufferevent),
      write_atmost_loop E fuel buffer remain bev = .ok r →
      r.2.2.map without_output = bev.map without_output := by
  intro fuel
  induction fuel with
  | zero =>
    intro buffer remain bev r h
    unfold write_atmost_loop at h
    split_ifs at h with h0
    simp only [Outcome.ok.injEq] at h
    subst h
    rfl
  | succ fuel ih =>
    intro buffer remain bev r h
    unfold write_atmost_loop at h
    by_cases h0 : remain = 0
    · rw [if_pos h0] at h
      simp only [Outcome.ok.injEq] at h
      subst h
      rfl
    · rw [if_neg h0] at h
      simp only at h
      by_cases h1 : (evbuffer_peek buffer 2).1 = 0
      · rw [if_pos h1] at h
        simp only [Outcome.ok.injEq] at h
        subst h
        rfl
      · rw [if_neg h1] at h
        by_cases h2 : (evbuffer_peek buffer 2).1 = 1 ∧
            (iovec (evbuffer_peek buffer 2).2 0).length ≤ remain
        · rw [if_pos h2] at h
          cases bev with
          | none => simp at h
          | some b =>
            simp only [Outcome.ok.injEq] at h
            subst h
            simp [without_output, bufferevent_write_buffer]
        · rw [if_neg h2] at h
          cases bev with
          | none => simp [bev_write] at h
          | some b =>
            simp only [bev_write] at h
            split_ifs at h with h3
            · rw [ih _ _ _ _ h]
              simp [without_output, bufferevent_write]
            · rw [ih _ _ _ _ h]
              simp [without_output, bufferevent_write]

/-- The switch and write of one round of the driver loop change the
connection only in the client buffer and in what the origin has queued. -/
theorem drive_act_frame (E : Env) (c c2 : pproxy_connection) (peek pk : evbuffer_ptr)
    (skip sk : Nat) (ext0 : List Byte) (parsed : Nat) (lp : Bool)
    (h : drive_act E c peek skip ext0 parsed = .ok (c2, pk, sk, lp)) :
    ∃ (B : evbuffer) (tbv : Option bufferevent),
      tbv.map without_output = c.target_state.bev.map without_output ∧
      c2 = { c with source_state := { c.source_state with buffer := B },
                    target_state := { c.target_state with bev := tbv } } := by
  unfold drive_act at h
  cases hsw : drive_switch c.state with
  | error f => simp [hsw] at h
  | ok r =>
    obtain ⟨wd, l⟩ := r
    simp only [hsw] at h
    cases wd with
    | false =>
      simp only [Bool.false_eq_true, if_false, Except.ok.injEq, Prod.mk.injEq] at h
      exact ⟨c.source_state.buffer, c.target_state.bev, rfl, h.1.symm⟩
    | true =>
      simp only [if_true] at h
      cases hb : c.target_state.bev with
      | none => simp [hb, bev_write] at h
      | some b =>
        simp only [hb, bev_write, Except.ok.injEq, Prod.mk.injEq] at h
        refine ⟨_, _, ?_, h.1.symm⟩
        simp [without_output, bufferevent_write]

/-- A call of the request parser outside the direct phases that leaves no
parse error leaves the connection PlainDriven. -/
theorem source_execute_plain (E : Env) (c c1 : pproxy_connection) (ext : List Byte)
    (parsed : Nat)
    (h1 : c.state ≠ .CONN_DIRECT_PARSING) (h2 : c.state ≠ .CONN_DIRECT)
    (hset : c.source_state.parser_settings = source_parser_settings)
    (hex : http_parser_execute E .source c ext = .ok (c1, parsed))
    (herr : is_http_error c1.source_state.parser = 0) :
    PlainDriven c c1 := by
  rcases source_execute_spec E c c1 ext parsed hset hex with ⟨_, rfl, _⟩ | ⟨_, _, hran, _⟩
  · exact plain_driven_refl _ h1 h2
  · cases hran with
    | more st m => exact ⟨h1, h2, rfl, rfl, rfl, rfl, Or.inl rfl⟩
    | failed c1 hf => exact absurd herr hf
    | connecting st m a hs ha =>
      exact ⟨by simp, by simp, rfl, rfl, by simp [bufferevent_disable], rfl, Or.inr ⟨a, rfl, ha⟩⟩
    | forward st m hs => exact ⟨by simp, by simp, rfl, rfl, rfl, rfl, Or.inl rfl⟩
    | direct st m tb hs hb => exact absurd hs h1

/-- The driver loop outside the direct phases leaves the connection
PlainDriven. -/
theorem drive_loop_plain (E : Env) :
    ∀ (fuel : Nat) (c : pproxy_connection) (peek : evbuffer_ptr) (skip : Nat)
      (c' : pproxy_connection) (skip' : Nat),
      c.state ≠ .CONN_DIRECT_PARSING → c.state ≠ .CONN_DIRECT →
      c.source_state.parser_settings = source_parser_settings →
      drive_loop E fuel c peek skip = .ok (c', skip') → PlainDriven c c' := by
  intro fuel
  induction fuel with
  | zero => intro c peek skip c' skip' _ _ _ h; simp [drive_loop] at h
  | succ fuel ih =>
    intro c peek skip c' skip' h1 h2 hset h
    unfold drive_loop at h
    simp only at h
    by_cases he : (evbuffer_peek peek 1).1 = 0
    · rw [if_pos he] at h
      simp only [Outcome.ok.injEq, Prod.mk.injEq] at h
      rw [← h.1]
      exact plain_driven_refl c h1 h2
    · rw [if_neg he, if_pos h2] at h
      cases hex : http_parser_execute E .source c (iovec (evbuffer_peek peek 1).2 0) with
      | error f => simp [hex] at h
      | ok r =>
        obtain ⟨c1, parsed⟩ := r
        simp only [hex] at h
        by_cases herr : is_http_error c1.source_state.parser = 0
        · have hp1 := source_execute_plain E c c1 _ parsed h1 h2 hset hex herr
          rw [if_neg (by simpa using herr), if_neg hp1.2.1] at h
          cases hact : drive_act E c1 peek skip (iovec (evbuffer_peek peek 1).2 0) parsed with
          | error f => simp [hact] at h
          | ok q =>
            obtain ⟨c2, pk, sk, lp⟩ := q
            simp only [hact] at h
            obtain ⟨B, tbv, htbv, hc2⟩ := drive_act_frame E c1 c2 peek pk skip sk _ parsed lp hact
            have hp2 : PlainDriven c1 c2 := by
              rw [hc2]
              exact ⟨hp1.1, hp1.2.1, rfl, rfl, rfl, htbv, Or.inl rfl⟩
            have hp := plain_driven_trans c c1 c2 hp1 hp2
            cases lp with
            | false =>
              simp only [Bool.false_eq_true, if_false, Outcome.ok.injEq, Prod.mk.injEq] at h
              rw [← h.1]
              exact hp
            | true =>
              simp only [if_true] at h
              exact plain_driven_trans c c2 c' hp
                (ih c2 pk sk c' skip' hp.1 hp.2.1 (hp.2.2.1.trans hset) h)
        · rw [if_pos herr] at h
          simp at h

/-- The replay pass outside the direct phases leaves the connection
PlainDriven. -/
theorem drive_replay_plain (E : Env) (fuel : Nat) (c c0 : pproxy_connection)
    (h1 : c.state ≠ .CONN_DIRECT_PARSING) (h2 : c.state ≠ .CONN_DIRECT)
    (h : drive_replay E fuel c = .ok c0) : PlainDriven c c0 := by
  unfold drive_replay at h
  by_cases hpo : c.source_state.peek_offset > 0
  · rw [if_pos hpo] at h
    have hd : is_direct_state c.state = false := by simp [is_direct_state, h1, h2]
    simp only [hd, Bool.not_false, if_true] at h
    unfold write_atmost at h
    cases hw : write_atmost_loop E fuel c.source_state.buffer c.source_state.peek_offset
        c.target_state.bev with
    | freed => simp [hw] at h
    | fault f => simp [hw] at h
    | timeout => simp [hw] at h
    | ok r =>
      obtain ⟨remain, buffer, bev⟩ := r
      have hfr := write_atmost_loop_frame E fuel _ _ _ _ hw
      simp only [hw] at h
      split_ifs at h with hne
      simp only [Outcome.ok.injEq] at h
      rw [← h]
      exact ⟨h1, h2, rfl, rfl, rfl, hfr, Or.inl rfl⟩
  · rw [if_neg hpo] at h
    simp only [Outcome.ok.injEq] at h
    rw [← h]
    exact plain_driven_refl c h1 h2

/-- The driver outside the direct phases leaves the connection PlainDriven:
in particular it queues nothing on the client. -/
theorem drive_request_plain (E : Env) (fuel : Nat) (c c' : pproxy_connection)
    (h1 : c.state ≠ .CONN_DIRECT_PARSING) (h2 : c.state ≠ .CONN_DIRECT)
    (hset : c.source_state.parser_settings = source_parser_settings)
    (h : drive_request E fuel c = .ok c') : PlainDriven c c' := by
  unfold drive_request at h
  cases hrep : drive_replay E fuel c with
  | freed => simp [hrep] at h
  | fault f => simp [hrep] at h
  | timeout => simp [hrep] at h
  | ok c0 =>
    have hp0 := drive_replay_plain E fuel c c0 h1 h2 hrep
    simp only [hrep] at h
    cases hloop : drive_loop E fuel c0
        (evbuffer_ptr_set c0.source_state.buffer [] c0.source_state.peek_offset
          .EVBUFFER_PTR_SET).2 0 with
    | freed => simp [hloop] at h
    | fault f => simp [hloop] at h
    | timeout => simp [hloop] at h
    | ok r =>
      obtain ⟨c2, skip⟩ := r
      have hp2 := drive_loop_plain E fuel c0 _ 0 c2 skip hp0.1 hp0.2.1 (hp0.2.2.1.trans hset)
        hloop
      have hp := plain_driven_trans c c0 c2 hp0 hp2
      simp only [hloop] at h
      rw [if_neg hp.2.1] at h
      simp only [Outcome.ok.injEq] at h
      rw [← h]
      exact ⟨hp.1, hp.2.1, hp.2.2.1, hp.2.2.2.1, hp.2.2.2.2.1, hp.2.2.2.2.2.1, hp.2.2.2.2.2.2⟩

/-! ## What every reachable connection satisfies -/

/-- Two optional bufferevents that agree but for what they have queued: when
one is there so is the other, with the same pending input and read
callback. -/
theorem without_output_some (a : Option bufferevent) (tb : bufferevent)
    (h : a.map without_output = (some tb).map without_output) :
    ∃ tb', a = some tb' ∧ tb'.input = tb.input ∧ tb'.readcb = tb.readcb := by
  cases a with
  | none => simp at h
  | some tb' =>
    simp only [Option.map_some', Option.some.injEq] at h
    exact ⟨tb', rfl, congrArg (fun b => b.input) h, congrArg (fun b => b.readcb) h⟩

/-- TunnelInv looks only at the phase, the parser settings, the connect
attempt, the pending input and read callback of the origin bufferevent, what
is queued on the client, the client read callback and the error code of the
request parser. -/
theorem tunnel_inv_frame (c c' : pproxy_connection) (rx : List Byte) (hinv : TunnelInv c rx)
    (hst : c'.state = c.state)
    (hps : c'.source_state.parser_settings = c.source_state.parser_settings)
    (hts : c'.target_state.parser_settings = c.target_state.parser_settings)
    (hcn : ∀ a, c'.connecting = some a → c.connecting = some a)
    (htg : c'.target_state.bev.map without_output = c.target_state.bev.map without_output)
    (hout : c'.source_state.bev.output = c.source_state.bev.output)
    (hrcb : c'.source_state.bev.readcb = c.source_state.bev.readcb)
    (herr : c'.source_state.parser.http_errno = c.source_state.parser.http_errno) :
    TunnelInv c' rx where
  settings := hps.trans hinv.settings
  attempt := fun a ha => hinv.attempt a (hcn a ha)
  closed := by
    intro hb
    rw [hb] at htg
    have hn : c.target_state.bev = none := by
      cases hc : c.target_state.bev with
      | none => rfl
      | some b => simp [hc] at htg
    exact ⟨hout.trans (hinv.closed hn).1, (hinv.closed hn).2⟩
  parsing := by
    intro hs
    obtain ⟨tb, hb, ho, hin, hrc, hok⟩ := hinv.parsing (hst ▸ hs)
    rw [hb] at htg
    obtain ⟨tb', hb', hin', hrc'⟩ := without_output_some _ tb htg
    exact ⟨tb', hb', hout.trans ho, by rw [hin']; exact hin, hrc'.trans hrc, herr.trans hok⟩
  direct := by
    intro hs
    obtain ⟨tb, R, hb, ho, hin, hrc, hsrc⟩ := hinv.direct (hst ▸ hs)
    rw [hb] at htg
    obtain ⟨tb', hb', hin', hrc'⟩ := without_output_some _ tb htg
    exact ⟨tb', R, hb', hout.trans ho, by rw [hin']; exact hin, hrc'.trans hrc, hrcb.trans hsrc⟩
  response := by
    intro tb' hb' hr
    rw [hb'] at htg
    obtain ⟨tb, hb, _, hrc⟩ := without_output_some _ tb' htg.symm
    exact hts.trans (hinv.response tb hb (hrc.trans hr))

/-- TunnelInv survives a call of the driver outside the direct phases. -/
theorem tunnel_inv_plain (c c' : pproxy_connection) (rx : List Byte) (hinv : TunnelInv c rx)
    (hp : PlainDriven c c') : TunnelInv c' rx where
  settings := hp.2.2.1.trans hinv.settings
  attempt := by
    intro a ha
    rcases hp.2.2.2.2.2.2 with h | ⟨a', ha', hb⟩
    · exact hinv.attempt a (h ▸ ha)
    · rw [ha'] at ha
      cases ha
      exact hb
  closed := by
    intro hb
    have htg := hp.2.2.2.2.2.1
    rw [hb] at htg
    have hn : c.target_state.bev = none := by
      cases hc : c.target_state.bev with
      | none => rfl
      | some b => simp [hc] at htg
    exact ⟨hp.2.2.2.2.1.trans (hinv.closed hn).1, (hinv.closed hn).2⟩
  parsing := fun hs => absurd hs hp.1
  direct := fun hs => absurd hs hp.2.1
  response := by
    intro tb' hb' hr
    have htg := hp.2.2.2.2.2.1
    rw [hb'] at htg
    obtain ⟨tb, hb, _, hrc⟩ := without_output_some _ tb' htg.symm
    exact hp.2.2.2.1.trans (hinv.response tb hb (hrc.trans hr))

/-- TunnelInv survives a call of the driver that does not start in phase
Direct: from DirectParsing the driver either queues nothing or queues kOk on
a client that has been queued nothing. -/
theorem tunnel_inv_drive_request (E : Env) (fuel : Nat) (c c' : pproxy_connection)
    (rx : List Byte) (hinv : TunnelInv c rx) (hnd : c.state ≠ .CONN_DIRECT)
    (h : drive_request E fuel c = .ok c') : TunnelInv c' rx := by
  by_cases hs : c.state = .CONN_DIRECT_PARSING
  · obtain ⟨tb, hb, ho, hin, hrc, hok⟩ := hinv.parsing hs
    rcases (drive_request_direct_parsing E fuel c tb hs hb hinv.settings hok).2 c' h with
      ⟨st, m, B, hB, rfl⟩ | ⟨st, m, H, X, B, hHX, hB, rfl⟩
    · exact tunnel_inv_frame c _ rx hinv rfl rfl rfl (fun a ha => ha) rfl rfl rfl
        (by simp [parser_after, hok])
    · exact {
        settings := hinv.settings
        attempt := hinv.attempt
        closed := by intro hb'; simp at hb'
        parsing := by intro hd; simp at hd
        direct := fun _ => ⟨_, [], rfl,
          by simp [bufferevent_write, direct_source_bev, bufferevent_enable, bufferevent_setcb,
            ho],
          by simpa [direct_target_bev, bufferevent_enable, bufferevent_setcb] using hin,
          rfl, rfl⟩
        response := by
          intro tb' hb' hr
          simp only [Option.some.injEq] at hb'
          subst hb'
          simp [direct_target_bev, bufferevent_enable, bufferevent_setcb] at hr }
  · exact tunnel_inv_plain c c' rx hinv (drive_request_plain E fuel c c' hs hnd hinv.settings h)

/-- What set_connection_state_direct_parsing leaves when it returns. -/
theorem set_connection_state_direct_parsing_spec (c c2 : pproxy_connection) (bev : bufferevent)
    (h : set_connection_state_direct_parsing c bev = .ok c2) :
    c.target_state.bev = none ∧
    c2 = { c with
      state := .CONN_DIRECT_PARSING,
      source_state := { c.source_state with
        parser := { c.source_state.parser with http_errno := .HPE_OK } },
      target_state := { c.target_state with bev := some bev } } := by
  unfold set_connection_state_direct_parsing at h
  split_ifs at h with h1 h2
  refine ⟨by simpa using h2, ?_⟩
  unfold pause_parser_of http_parser_pause at h
  simp only [parser_of, Bool.false_eq_true, if_false] at h
  split_ifs at h with h3
  simp only [with_parser_of, Except.ok.injEq] at h
  exact h.symm

/-- What set_connection_state_recv_forward leaves when it returns. -/
theorem set_connection_state_recv_forward_spec (E : Env) (c c2 : pproxy_connection)
    (bev : bufferevent) (h : set_connection_state_recv_forward E c bev = .ok c2) :
    c2 = { c with
      state := .CONN_RECV_FORWARD,
      source_state := { c.source_state with
        bev := bufferevent_enable c.source_state.bev true true,
        parser := { c.source_state.parser with http_errno := .HPE_OK } },
      target_state := { init_target_state E bev with
        bev := some (bufferevent_setcb bev .target_read_cb .none .target_event_cb) } } := by
  unfold set_connection_state_recv_forward at h
  split_ifs at h with h1
  unfold pause_parser_of http_parser_pause at h
  simp only [parser_of, Bool.false_eq_true, if_false] at h
  split_ifs at h with h3
  simp only [with_parser_of, Except.ok.injEq] at h
  exact h.symm

/-- TunnelInv survives connect_event_cb, called with the bufferevent of the
connect attempt when the connection has no origin bufferevent yet. -/
theorem tunnel_inv_connect_event_cb (E : Env) (fuel : Nat) (bev : bufferevent)
    (what : bev_event) (c c' : pproxy_connection) (rx : List Byte) (hinv : TunnelInv c rx)
    (hbev : c.target_state.bev = none → bev = connecting_bev)
    (h : connect_event_cb E fuel bev what c = .ok c') : TunnelInv c' rx := by
  cases what with
  | BEV_EVENT_CONNECTED =>
    simp only [connect_event_cb] at h
    have hcases : ∃ c2, (set_connection_state_direct_parsing c bev = .ok c2 ∨
        set_connection_state_recv_forward E c bev = .ok c2) ∧
        drive_request E fuel c2 = .ok c' := by
      cases hm : c.source_state.parser.method <;> simp only [hm] at h <;>
        first
        | (cases hr : set_connection_state_recv_forward E c bev with
           | error f => simp [hr] at h
           | ok c2 => exact ⟨c2, Or.inr rfl, by simpa [hr] using h⟩)
        | (cases hr : set_connection_state_direct_parsing c bev with
           | error f => simp [hr] at h
           | ok c2 => exact ⟨c2, Or.inl rfl, by simpa [hr] using h⟩)
    obtain ⟨c2, hc2, hdrive⟩ := hcases
    rcases hc2 with hc2 | hc2
    · obtain ⟨hnone, rfl⟩ := set_connection_state_direct_parsing_spec c c2 bev hc2
      have hb := hbev hnone
      subst hb
      obtain ⟨ho, hrx⟩ := hinv.closed hnone
      refine tunnel_inv_drive_request E fuel _ c' rx ?_ (by simp) hdrive
      exact {
        settings := hinv.settings
        attempt := hinv.attempt
        closed := by intro hb'; simp at hb'
        parsing := fun _ => ⟨connecting_bev, rfl, ho, by rw [hrx]; rfl, rfl, rfl⟩
        direct := by intro hd; simp at hd
        response := by
          intro tb' hb' hr
          simp only [Option.some.injEq] at hb'
          subst hb'
          simp [connecting_bev, bufferevent_enable, bufferevent_setcb, bufferevent_socket_new]
            at hr }
    · have hc := set_connection_state_recv_forward_spec E c c2 bev hc2
      subst hc
      refine tunnel_inv_drive_request E fuel _ c' rx ?_ (by simp) hdrive
      exact {
        settings := hinv.settings
        attempt := hinv.attempt
        closed := by intro hb'; simp at hb'
        parsing := by intro hd; simp at hd
        direct := by intro hd; simp at hd
        response := fun _ _ _ => rfl }
  | BEV_EVENT_EOF =>
    simp only [connect_event_cb] at h
    split_ifs at h
  | BEV_EVENT_ERROR =>
    simp only [connect_event_cb] at h
    split_ifs at h
  | BEV_EVENT_TIMEOUT =>
    simp only [connect_event_cb, Outcome.ok.injEq] at h
    subst h
    exact hinv

/-- The bytes of two buffers put together. -/
theorem evbuffer_bytes_append (a b : evbuffer) :
    evbuffer_bytes (a ++ b) = evbuffer_bytes a ++ evbuffer_bytes b := by
  simp [evbuffer_bytes]

/-- TunnelInv survives every dispatch of the event loop that leaves the
connection alive, with the bytes read from the origin on that dispatch added
to those read before. -/
theorem tunnel_inv_reactor_step (E : Env) (fuel : Nat) (ev : reactor_event)
    (c c' : pproxy_connection) (rx : List Byte) (hinv : TunnelInv c rx)
    (h : reactor_step E fuel ev c = .ok c') : TunnelInv c' (rx ++ origin_read ev c) := by
  cases ev with
  | source_data data =>
    simp only [origin_read, List.append_nil]
    simp only [reactor_step] at h
    split_ifs at h with hcond
    · simp only [Outcome.ok.injEq] at h
      exact h ▸ hinv
    · cases hr : c.source_state.bev.readcb with
      | source_read_cb =>
        simp only [hr] at h
        unfold source_read_cb at h
        refine tunnel_inv_drive_request E fuel _ c' rx ?_ ?_ h
        · exact tunnel_inv_frame c _ rx hinv rfl rfl rfl (fun a ha => ha) rfl rfl hr.symm rfl
        · intro hd
          obtain ⟨_, _, _, _, _, _, hsrc⟩ := hinv.direct hd
          rw [hr] at hsrc
          cases hsrc
      | direct_source_read_cb =>
        simp only [hr] at h
        unfold direct_source_read_cb at h
        cases hb : c.target_state.bev with
        | none => simp [hb] at h
        | some tb =>
          simp only [hb, Outcome.ok.injEq] at h
          subst h
          exact tunnel_inv_frame c _ rx hinv rfl rfl rfl (fun a ha => ha)
            (by simp [hb, move_buffers, bufferevent_write_buffer, without_output]) rfl
            (by first | rfl | exact hr.symm) rfl
      | none =>
        simp only [hr, Outcome.ok.injEq] at h
        subst h
        exact tunnel_inv_frame c _ rx hinv rfl rfl rfl (fun a ha => ha) rfl rfl hr.symm rfl
      | target_read_cb =>
        simp only [hr, Outcome.ok.injEq] at h
        subst h
        exact tunnel_inv_frame c _ rx hinv rfl rfl rfl (fun a ha => ha) rfl rfl hr.symm rfl
      | direct_target_read_cb =>
        simp only [hr, Outcome.ok.injEq] at h
        subst h
        exact tunnel_inv_frame c _ rx hinv rfl rfl rfl (fun a ha => ha) rfl rfl hr.symm rfl
  | source_what what =>
    simp only [origin_read, List.append_nil]
    simp only [reactor_step] at h
    cases he : c.source_state.bev.eventcb <;> simp only [he] at h <;>
      first
      | (simp only [Outcome.ok.injEq] at h; exact h ▸ hinv)
      | (cases what <;>
          simp [source_event_cb, direct_source_event_cb, close_event_cb] at h)
  | source_drained =>
    simp only [origin_read, List.append_nil]
    simp only [reactor_step] at h
    cases hw : c.source_state.bev.writecb with
    | none =>
      simp only [hw, Outcome.ok.injEq] at h
      exact h ▸ hinv
    | source_last_write_cb => simp [hw, source_last_write_cb] at h
  | connect_what what =>
    simp only [origin_read, List.append_nil]
    simp only [reactor_step] at h
    cases hc : c.connecting with
    | none =>
      simp only [hc, Outcome.ok.injEq] at h
      exact h ▸ hinv
    | some a =>
      simp only [hc] at h
      refine tunnel_inv_connect_event_cb E fuel a.bev what _ c' rx ?_ ?_ h
      · exact tunnel_inv_frame c _ rx hinv rfl rfl rfl (fun a ha => by simp at ha) rfl rfl rfl
          rfl
      · intro _
        exact hinv.attempt a hc
  | target_what what =>
    simp only [origin_read, List.append_nil]
    simp only [reactor_step] at h
    cases hb : c.target_state.bev with
    | none =>
      simp only [hb, Outcome.ok.injEq] at h
      exact h ▸ hinv
    | some tb =>
      simp only [hb] at h
      cases he : tb.eventcb <;> simp only [he] at h <;>
        first
        | (simp only [Outcome.ok.injEq] at h; exact h ▸ hinv)
        | exact tunnel_inv_connect_event_cb E fuel tb what c c' rx hinv
            (fun hn => by simp [hb] at hn) h
        | (cases what <;>
            simp [target_event_cb, direct_target_event_cb, close_event_cb] at h)
  | target_data data =>
    simp only [reactor_step] at h
    cases hb : c.target_state.bev with
    | none =>
      simp only [hb, Outcome.ok.injEq] at h
      simp only [origin_read, hb, List.append_nil]
      exact h ▸ hinv
    | some tb =>
      simp only [hb] at h
      by_cases hcond : (!tb.ev_read || decide (evbuffer_get_length data = 0)) = true
      · rw [if_pos hcond] at h
        simp only [Outcome.ok.injEq] at h
        simp only [origin_read, hb, hcond, if_true, List.append_nil]
        exact h ▸ hinv
      · rw [if_neg hcond] at h
        simp only [origin_read, hb, hcond, if_false]
        cases hr : tb.readcb with
        | target_read_cb =>
          simp only [hr] at h
          have hspec := target_read_cb_spec E fuel
            { c with target_state := { c.target_state with
                bev := some { tb with input := tb.input ++ data, readcb := .target_read_cb } } }
            c' { tb with input := tb.input ++ data, readcb := .target_read_cb }
            (hinv.response tb hb hr) rfl h
          obtain ⟨Q, be', hb', hin', hout', _, _, hrc', _, hph, hcn, hps, hts, _⟩ := hspec
          have hstate : c'.state = .CONN_DIRECT_PARSING ∨ c'.state = .CONN_DIRECT →
              c.state = c'.state := by
            intro hs
            rcases hph with hph | ⟨_, hph⟩
            · exact hph.symm
            · rw [hph] at hs
              rcases hs with hs | hs <;> cases hs
          exact {
            settings := hps.trans hinv.settings
            attempt := fun a ha => hinv.attempt a (hcn ▸ ha)
            closed := by intro hn; rw [hb'] at hn; cases hn
            parsing := by
              intro hs
              obtain ⟨tb0, hb0, _, _, hrc0, _⟩ := hinv.parsing ((hstate (Or.inl hs)).trans hs)
              rw [hb] at hb0
              cases hb0
              rw [hr] at hrc0
              cases hrc0
            direct := by
              intro hs
              obtain ⟨tb0, _, hb0, _, _, hrc0, _⟩ := hinv.direct ((hstate (Or.inr hs)).trans hs)
              rw [hb] at hb0
              cases hb0
              rw [hr] at hrc0
              cases hrc0
            response := fun _ _ _ => hts.trans (hinv.response tb hb hr) }
        | direct_target_read_cb =>
          simp only [hr] at h
          unfold direct_target_read_cb at h
          simp only [Outcome.ok.injEq] at h
          subst h
          exact {
            settings := hinv.settings
            attempt := hinv.attempt
            closed := by intro hn; simp at hn
            parsing := by
              intro hs
              obtain ⟨tb0, hb0, _, _, hrc0, _⟩ := hinv.parsing hs
              rw [hb] at hb0
              cases hb0
              rw [hr] at hrc0
              cases hrc0
            direct := by
              intro hs
              obtain ⟨tb0, R, hb0, ho, hin, hrc0, hsrc⟩ := hinv.direct hs
              rw [hb] at hb0
              cases hb0
              refine ⟨_, R ++ evbuffer_bytes (tb.input ++ data), rfl, ?_, ?_, rfl, hsrc⟩
              · simp only [move_buffers, bufferevent_write_buffer]
                rw [ho, List.append_assoc]
              · simp only [move_buffers, bufferevent_write_buffer]
                rw [← hin, evbuffer_bytes_append]
                simp [evbuffer_bytes]
            response := by
              intro tb' hb' hr'
              simp only [Option.some.injEq] at hb'
              subst hb'
              simp only [move_buffers, bufferevent_write_buffer] at hr'
              cases hr' }
        | none =>
          simp only [hr, Outcome.ok.injEq] at h
          subst h
          exact {
            settings := hinv.settings
            attempt := hinv.attempt
            closed := by intro hn; simp at hn
            parsing := by
              intro hs
              obtain ⟨tb0, hb0, ho, hin, hrc0, hok⟩ := hinv.parsing hs
              rw [hb] at hb0
              cases hb0
              exact ⟨_, rfl, ho, by rw [← hin]; exact evbuffer_bytes_append _ _, rfl, hok⟩
            direct := by
              intro hs
              obtain ⟨tb0, _, hb0, _, _, hrc0, _⟩ := hinv.direct hs
              rw [hb] at hb0
              cases hb0
              rw [hr] at hrc0
              cases hrc0
            response := by
              intro tb' hb' hr'
              simp only [Option.some.injEq] at hb'
              subst hb'
              simp only at hr'
              cases hr' }
        | source_read_cb =>
          simp only [hr, Outcome.ok.injEq] at h
          subst h
          exact {
            settings := hinv.settings
            attempt := hinv.attempt
            closed := by intro hn; simp at hn
            parsing := by
              intro hs
              obtain ⟨tb0, hb0, _, _, hrc0, _⟩ := hinv.parsing hs
              rw [hb] at hb0
              cases hb0
              rw [hr] at hrc0
              cases hrc0
            direct := by
              intro hs
              obtain ⟨tb0, _, hb0, _, _, hrc0, _⟩ := hinv.direct hs
              rw [hb] at hb0
              cases hb0
              rw [hr] at hrc0
              cases hrc0
            response := by
              intro tb' hb' hr'
              simp only [Option.some.injEq] at hb'
              subst hb'
              simp only at hr'
              cases hr' }
        | direct_source_read_cb =>
          simp only [hr, Outcome.ok.injEq] at h
          subst h
          exact {
            settings := hinv.settings
            attempt := hinv.attempt
            closed := by intro hn; simp at hn
            parsing := by
              intro hs
              obtain ⟨tb0, hb0, _, _, hrc0, _⟩ := hinv.parsing hs
              rw [hb] at hb0
              cases hb0
              rw [hr] at hrc0
              cases hrc0
            direct := by
              intro hs
              obtain ⟨tb0, _, hb0, _, _, hrc0, _⟩ := hinv.direct hs
              rw [hb] at hb0
              cases hb0
              rw [hr] at hrc0
              cases hrc0
            response := by
              intro tb' hb' hr'
              simp only [Option.some.injEq] at hb'
              subst hb'
              simp only at hr'
              cases hr' }

/-- A run of the event loop from a connection that is gone stays there. -/
theorem reactor_run_gone (E : Env) (fuel : Nat) (evs : List reactor_event)
    (o : Outcome pproxy_connection) (c' : pproxy_connection)
    (ho : ∀ c, o ≠ .ok c) : reactor_run E fuel evs o ≠ .ok c' := by
  cases evs with
  | nil => exact ho c'
  | cons ev evs =>
    cases o with
    | ok c => exact absurd rfl (ho c)
    | freed => simp [reactor_run]
    | fault f => simp [reactor_run]
    | timeout => simp [reactor_run]

/-- The bytes read from the origin along a run that starts with an event. -/
theorem origin_received_cons (E : Env) (fuel : Nat) (ev : reactor_event)
    (evs : List reactor_event) (c : pproxy_connection) :
    origin_received E fuel (ev :: evs) (.ok c)
      = origin_read ev c ++ origin_received E fuel evs (reactor_step E fuel ev c) := rfl

/-- The bytes read from the origin along a run of no event. -/
theorem origin_received_nil (E : Env) (fuel : Nat) (o : Outcome pproxy_connection) :
    origin_received E fuel [] o = [] := by
  cases o <;> rfl

/-- TunnelInv survives a run of the event loop that leaves the connection
alive. -/
theorem tunnel_inv_reactor_run (E : Env) (fuel : Nat) :
    ∀ (evs : List reactor_event) (c c' : pproxy_connection) (rx : List Byte),
      TunnelInv c rx → reactor_run E fuel evs (.ok c) = .ok c' →
      TunnelInv c' (rx ++ origin_received E fuel evs (.ok c)) := by
  intro evs
  induction evs with
  | nil =>
    intro c c' rx hinv h
    simp only [reactor_run, Outcome.ok.injEq] at h
    subst h
    simpa [origin_received] using hinv
  | cons ev evs ih =>
    intro c c' rx hinv h
    rw [reactor_run_cons] at h
    rw [origin_received_cons]
    cases hstep : reactor_step E fuel ev c with
    | ok c1 =>
      rw [hstep] at h
      have h1 := tunnel_inv_reactor_step E fuel ev c c1 rx hinv hstep
      have h2 := ih c1 c' _ h1 h
      rw [List.append_assoc] at h2
      exact h2
    | freed =>
      rw [hstep] at h
      exact absurd h (reactor_run_gone E fuel evs _ c' (by simp))
    | fault f =>
      rw [hstep] at h
      exact absurd h (reactor_run_gone E fuel evs _ c' (by simp))
    | timeout =>
      rw [hstep] at h
      exact absurd h (reactor_run_gone E fuel evs _ c' (by simp))

/-- A freshly accepted connection satisfies TunnelInv with nothing read from
the origin. -/
theorem tunnel_inv_accepted (E : Env) :
    ∃ c0, accepted E = .ok c0 ∧ TunnelInv c0 [] := by
  refine ⟨_, rfl, ?_⟩
  exact {
    settings := rfl
    attempt := by intro a ha; cases ha
    closed := fun _ => ⟨rfl, rfl⟩
    parsing := by intro hs; cases hs
    direct := by intro hs; cases hs
    response := by intro tb hb; cases hb }

/-- C3: take any run of the event loop on a freshly accepted connection,
with any parser automaton, that leaves the connection alive in phase Direct.
The constant kOk is the 39 bytes of the text HTTP/1.1 200 Connection
established followed by CR LF CR LF, and everything that has been queued on
the client over the life of the connection is those 39 bytes followed by bytes
R, where R followed by the bytes still pending on the origin bufferevent is
exactly what was read from the origin: the reply was queued once, ahead of
every relayed origin byte, and nothing else was queued by the proxy itself. -/
theorem C3_connect_reply_once (E : Env) (fuel : Nat) (evs : List reactor_event)
    (c : pproxy_connection)
    (hrun : reactor_run E fuel evs (accepted E) = .ok c) (hd : c.state = .CONN_DIRECT) :
    kOk = "HTTP/1.1 200 Connection established\r\n\r\n".toList.map Char.toNat ∧
    kOk.length = 39 ∧
    ∃ (tb : bufferevent) (R : List Byte),
      c.target_state.bev = some tb ∧
      c.source_state.bev.output
        = "HTTP/1.1 200 Connection established\r\n\r\n".toList.map Char.toNat ++ R ∧
      c.source_state.bev.output = kOk ++ R ∧
      R ++ evbuffer_bytes tb.input = origin_received E fuel evs (accepted E) := by
  obtain ⟨c0, hc0, hinv0⟩ := tunnel_inv_accepted E
  rw [hc0] at hrun ⊢
  have hinv := tunnel_inv_reactor_run E fuel evs c0 c [] hinv0 hrun
  obtain ⟨tb, R, hb, ho, hin, _, _⟩ := hinv.direct hd
  have hk : kOk = "HTTP/1.1 200 Connection established\r\n\r\n".toList.map Char.toNat := by
    decide
  exact ⟨hk, rfl, tb, R, hb, hk ▸ ho, ho, by simpa using hin⟩

set_option maxRecDepth 100000 in
/-- The read of the CONNECT request. -/
theorem step_connect_read :
    reactor_step sample_env 10 (.source_data sample_connect_req) sample_accepted
      = .ok sample_connect_connecting := by decide

set_option maxRecDepth 100000 in
/-- The origin connects on the CONNECT connection. -/
theorem step_connect_connected :
    reactor_step sample_env 10 (.connect_what .BEV_EVENT_CONNECTED) sample_connect_connecting
      = .ok sample_connect_direct := by decide

set_option maxRecDepth 100000 in
/-- The read from the origin of the tunnel. -/
theorem step_connect_relay :
    reactor_step sample_env 10 (.target_data [[7], [8, 9]]) sample_connect_direct
      = .ok sample_connect_relayed := by decide

/-- The run of the CONNECT connection: the request is read, the origin
connects, three bytes arrive from the origin. -/
theorem run_connect_relayed :
    reactor_run sample_env 10
      [.source_data sample_connect_req, .connect_what .BEV_EVENT_CONNECTED,
        .target_data [[7], [8, 9]]]
      (accepted sample_env) = .ok sample_connect_relayed := by
  rw [accepted_sample, reactor_run_cons, step_connect_read, reactor_run_cons,
    step_connect_connected, reactor_run_cons, step_connect_relay, reactor_run_nil]

/-- The bytes read from the origin on that run: 7 8 9. -/
theorem received_connect_relayed :
    origin_received sample_env 10
      [.source_data sample_connect_req, .connect_what .BEV_EVENT_CONNECTED,
        .target_data [[7], [8, 9]]]
      (accepted sample_env) = [7, 8, 9] := by
  rw [accepted_sample, origin_received_cons, step_connect_read, origin_received_cons,
    step_connect_connected, origin_received_cons, step_connect_relay, origin_received_nil]
  rfl

/-- C3, on an input: the CONNECT request is read in four extents, the origin
connects, then 7 8 9 arrive from the origin; the client has been queued the
39 bytes of the reply and then 7 8 9. -/
theorem C3_connect_reply_once_witness :
    reactor_run sample_env 10
      [.source_data sample_connect_req, .connect_what .BEV_EVENT_CONNECTED,
        .target_data [[7], [8, 9]]]
      (accepted sample_env) = .ok sample_connect_relayed ∧
    sample_connect_relayed.state = .CONN_DIRECT ∧
    sample_connect_relayed.source_state.bev.output
      = "HTTP/1.1 200 Connection established\r\n\r\n".toList.map Char.toNat ++ [7, 8, 9] ∧
    sample_connect_relayed.source_state.bev.output = kOk ++ [7, 8, 9] ∧
    origin_received sample_env 10
      [.source_data sample_connect_req, .connect_what .BEV_EVENT_CONNECTED,
        .target_data [[7], [8, 9]]]
      (accepted sample_env) = [7, 8, 9] ∧
    (kOk = "HTTP/1.1 200 Connection established\r\n\r\n".toList.map Char.toNat ∧
    kOk.length = 39 ∧
    ∃ (tb : bufferevent) (R : List Byte),
      sample_connect_relayed.target_state.bev = some tb ∧
      sample_connect_relayed.source_state.bev.output
        = "HTTP/1.1 200 Connection established\r\n\r\n".toList.map Char.toNat ++ R ∧
      sample_connect_relayed.source_state.bev.output = kOk ++ R ∧
      R ++ evbuffer_bytes tb.input
        = origin_received sample_env 10
          [.source_data sample_connect_req, .connect_what .BEV_EVENT_CONNECTED,
            .target_data [[7], [8, 9]]]
          (accepted sample_env)) :=
  ⟨run_connect_relayed, rfl, by decide, rfl, received_connect_relayed,
    C3_connect_reply_once sample_env 10 _ sample_connect_relayed run_connect_relayed rfl⟩

/-! ## url_cb: the target of the connect -/

/-- The digits atoi reads are those up to the first byte that is no digit. -/
theorem atoi_digits_append (ds rest : List Byte) (acc : Nat)
    (hds : ∀ b ∈ ds, 48 ≤ b ∧ b ≤ 57)
    (hrest : ∀ b, rest.head? = some b → ¬(48 ≤ b ∧ b ≤ 57)) :
    atoi_digits (ds ++ rest) acc = ds.foldl (fun a b => a * 10 + (b - 48)) acc := by
  induction ds generalizing acc with
  | nil =>
    cases rest with
    | nil => rfl
    | cons b r =>
      have := hrest b rfl
      simp [atoi_digits, this]
  | cons d ds ih =>
    have hd := hds d (List.mem_cons_self _ _)
    simp only [List.cons_append, atoi_digits, hd, and_self, if_true, List.foldl_cons]
    exact ih _ (fun b hb => hds b (List.mem_cons_of_mem _ hb))

/-- The C string at a position whose first n bytes are not NUL and whose
byte n has been overwritten with NUL: the first n bytes. -/
theorem c_string_set (mem : List Byte) (n : Nat) (hn : n < mem.length)
    (hnz : ∀ b ∈ mem.take n, b ≠ 0) :
    c_string (mem.set n 0) = mem.take n := by
  induction mem generalizing n with
  | nil => simp at hn
  | cons a rest ih =>
    cases n with
    | zero => simp [c_string]
    | succ n =>
      have ha : a ≠ 0 := hnz a (by simp)
      have hn2 : n < rest.length := by simpa using hn
      have := ih n hn2 (fun b hb => hnz b (by simp [hb]))
      simp only [List.set_cons_succ, List.take_succ_cons]
      unfold c_string at this ⊢
      rw [List.takeWhile_cons_of_pos (by simpa using ha), this]

/-- C14: url_cb is called in phase Recv with the parser running, on memory
data whose first len bytes are a url that http_parser_parse_url accepts with a
host field; the host field holds no NUL and a byte follows it in the extent;
a port field, when there is one, consists of digits, is followed in the
extent by a byte that is no digit, and denotes a value up to 65535; and a
socket can be made.  Then url_cb starts a connect attempt whose host is
exactly the bytes of the host field and whose port is 80 when the url has no
port field and the numeric value of the port field otherwise; its return code
is the one of the start of the connect. -/
theorem C14_url_cb_connect_target (E : Env) (c : pproxy_connection) (data : List Byte)
    (len : Nat) (url : http_parser_url)
    (hs : c.state = .CONN_RECV)
    (hok : c.source_state.parser.http_errno = .HPE_OK)
    (hsock : E.socket_new_ok = true)
    (hparse : E.parse_url (data.take len)
      (decide (c.source_state.parser.method = .HTTP_CONNECT)) = (0, url))
    (hhost : url.field_set.testBit UF_HOST = true)
    (hin : url.host_off + url.host_len < data.length)
    (hnz : ∀ b ∈ (data.drop url.host_off).take url.host_len, b ≠ 0)
    (hport : url.field_set.testBit UF_PORT = true →
      (∀ b ∈ (data.drop url.port_off).take url.port_len, 48 ≤ b ∧ b ≤ 57) ∧
      (∃ b, (data.drop (url.port_off + url.port_len)).head? = some b ∧ ¬(48 ≤ b ∧ b ≤ 57)) ∧
      port_component_value ((data.drop url.port_off).take url.port_len) ≤ 65535) :
    ∃ c2, url_cb E .source c data len
        = .ok (c2, E.connect_hostname ((data.drop url.host_off).take url.host_len)
            (if url.field_set.testBit UF_PORT = true
              then port_component_value ((data.drop url.port_off).take url.port_len)
              else 80)) ∧
      c2.state = .CONN_CONNECTING ∧
      c2.connecting = some
        { bev := connecting_bev,
          host := (data.drop url.host_off).take url.host_len,
          port := if url.field_set.testBit UF_PORT = true
            then port_component_value ((data.drop url.port_off).take url.port_len)
            else 80 } := by
  have hportv : (if url.field_set.testBit UF_PORT = true
      then atoi (data.drop url.port_off) % 65536 else 80)
      = (if url.field_set.testBit UF_PORT = true
        then port_component_value ((data.drop url.port_off).take url.port_len) else 80) := by
    by_cases hp : url.field_set.testBit UF_PORT = true
    · obtain ⟨hd, ⟨b, hb, hnd⟩, hle⟩ := hport hp
      rw [if_pos hp, if_pos hp]
      have hsplit : data.drop url.port_off
          = (data.drop url.port_off).take url.port_len
            ++ data.drop (url.port_off + url.port_len) := by
        rw [← List.drop_drop, List.take_append_drop]
      have hat : atoi (data.drop url.port_off)
          = port_component_value ((data.drop url.port_off).take url.port_len) := by
        unfold atoi port_component_value
        conv_lhs => rw [hsplit]
        exact atoi_digits_append _ _ 0 hd
          (by intro b' hb'; rw [hb] at hb'; cases hb'; exact hnd)
      rw [hat]
      exact Nat.mod_eq_of_lt (by omega)
    · rw [if_neg hp, if_neg hp]
  have hstr : c_string ((data.drop url.host_off).set url.host_len 0)
      = (data.drop url.host_off).take url.host_len :=
    c_string_set _ _ (by rw [List.length_drop]; omega) hnz
  unfold url_cb
  simp only [parser_of, hparse, ne_eq, not_true_eq_false, if_false, hhost, Bool.not_true,
    Bool.false_eq_true]
  rw [hportv]
  unfold set_connection_target set_connection_state_connecting
  simp only [hs, ne_eq, not_true_eq_false, if_false, hsock, Bool.not_true, Bool.false_eq_true,
    hstr]
  by_cases hrc : E.connect_hostname ((data.drop url.host_off).take url.host_len)
      (if url.field_set.testBit UF_PORT = true
        then port_component_value ((data.drop url.port_off).take url.port_len) else 80) = 0
  · simp only [hrc, not_true_eq_false, if_false]
    rw [pause_parser_of_ok .source _ true (Or.inl (by exact hok))]
    exact ⟨_, rfl, rfl, rfl⟩
  · simp only [hrc, not_false_eq_true, if_true]
    exact ⟨_, rfl, rfl, rfl⟩

/-- C14, on an input: the url http://h:8080/ in a request line; the connect
attempt goes to host h, port 8080. -/
theorem C14_url_cb_connect_target_witness :
    ∃ c2, url_cb sample_env .source sample_accepted sample_url_port 14 = .ok (c2, 0) ∧
      c2.state = .CONN_CONNECTING ∧
      c2.connecting = some { bev := connecting_bev, host := [104], port := 8080 } :=
  C14_url_cb_connect_target sample_env sample_accepted sample_url_port 14
    { field_set := 6, host_off := 7, host_len := 1, port_off := 9, port_len := 4 }
    rfl rfl rfl (by decide) (by decide) (by decide) (by decide) (by decide)

/-- C15: when http_parser_parse_url rejects the url, or accepts it without a
host field, url_cb returns a nonzero value and the connection exactly as it
was: no connect attempt is started and the phase is unchanged.  The parser
library turns that return value into the error code HPE_CB_url, which
is_http_error reports as an error. -/
theorem C15_url_cb_rejects (E : Env) (c : pproxy_connection) (data : List Byte) (len : Nat)
    (h : (E.parse_url (data.take len)
        (decide (c.source_state.parser.method = .HTTP_CONNECT))).1 ≠ 0 ∨
      (E.parse_url (data.take len)
        (decide (c.source_state.parser.method = .HTTP_CONNECT))).2.field_set.testBit UF_HOST
        = false) :
    ∃ rc : Int, rc ≠ 0 ∧ url_cb E .source c data len = .ok (c, rc) ∧
      is_http_error (note_callback_result .source c rc .HPE_CB_url).source_state.parser
        ≠ 0 := by
  unfold url_cb
  simp only [parser_of]
  by_cases h1 : (E.parse_url (data.take len)
      (decide (c.source_state.parser.method = .HTTP_CONNECT))).1 = 0
  · have h2 : (E.parse_url (data.take len)
        (decide (c.source_state.parser.method = .HTTP_CONNECT))).2.field_set.testBit UF_HOST
        = false := by
      rcases h with h | h
      · exact absurd h1 h
      · exact h
    refine ⟨-1, by decide, ?_, note_callback_result_error c (-1) (by decide)⟩
    simp [h1, h2]
  · refine ⟨_, h1, ?_, note_callback_result_error c _ h1⟩
    simp [h1]

set_option maxRecDepth 100000 in
/-- A request whose url has no host, read in one extent: the driver frees
the connection. -/
theorem step_nohost_read :
    reactor_step sample_env 4
      (.source_data [[71, 69, 84, 32] ++ sample_url_nohost ++ [13, 10]]) sample_accepted
      = .freed := by decide

/-- C15, on an input: the url http:/// has no host; url_cb returns -1 and
leaves the freshly accepted connection as it was, in phase Recv without a
connect attempt; the read that brings the request frees the connection. -/
theorem C15_url_cb_rejects_witness :
    sample_accepted.state = .CONN_RECV ∧ sample_accepted.connecting = none ∧
    (∃ rc : Int, rc ≠ 0 ∧
      url_cb sample_env .source sample_accepted sample_url_nohost 8 = .ok (sample_accepted, rc) ∧
      is_http_error
        (note_callback_result .source sample_accepted rc .HPE_CB_url).source_state.parser
        ≠ 0) ∧
    reactor_step sample_env 4
      (.source_data [[71, 69, 84, 32] ++ sample_url_nohost ++ [13, 10]]) sample_accepted
      = .freed :=
  ⟨rfl, rfl,
    C15_url_cb_rejects sample_env sample_accepted sample_url_nohost 8 (Or.inr (by decide)),
    step_nohost_read⟩

/-! ## pproxy_start: the dispatch loop -/

/-- The dispatch loop on a running handle: while no stop was requested it
stays in the loop; the first return of dispatch after a stop ends it with 0
and the handle terminated. -/
theorem pproxy_start_dispatch_spec (g : pproxy) (hg : g.run_state = .PROXY_RUNNING)
    (pre post : List Bool) (hpre : ∀ b ∈ pre, b = false) :
    pproxy_start_dispatch g pre = none ∧
    pproxy_start_dispatch g (pre ++ true :: post) = some (0, terminate g) := by
  induction pre with
  | nil =>
    refine ⟨rfl, ?_⟩
    simp [pproxy_start_dispatch, terminated, terminate, get_state]
  | cons b pre ih =>
    have hb : b = false := hpre b (List.mem_cons_self _ _)
    subst hb
    have ih2 := ih (fun b hb => hpre b (List.mem_cons_of_mem _ hb))
    simp only [List.cons_append, pproxy_start_dispatch, Bool.false_eq_true, if_false,
      terminated, get_state, hg, reduceCtorEq, decide_False]
    exact ih2

/-- The dispatch loop on a running handle ends only when a stop was
requested. -/
theorem pproxy_start_dispatch_stop (g : pproxy) (hg : g.run_state = .PROXY_RUNNING)
    (d : List Bool) (r : Int × pproxy) (h : pproxy_start_dispatch g d = some r) :
    true ∈ d := by
  induction d with
  | nil => simp [pproxy_start_dispatch] at h
  | cons b d ih =>
    cases b with
    | true => simp
    | false =>
      simp only [pproxy_start_dispatch, Bool.false_eq_true, if_false, terminated, get_state,
        hg, reduceCtorEq, decide_False] at h
      simp [ih h]

/-- C18: pproxy_start on a null handle, or on a handle whose run_state is
Running, returns -1 at once and leaves the handle as it was.  On any other
handle it stores Running and enters the dispatch loop: while dispatch returns
without a stop having been requested (the returns pre), it is still inside
the loop; on the first return after a stop it returns 0 with run_state
Terminated; and whenever it returns 0, a stop was requested before one of the
returns of dispatch. -/
theorem C18_start_blocks_until_stop (h : pproxy) (d pre post : List Bool)
    (hpre : ∀ b ∈ pre, b = false) :
    pproxy_start none d = some (-1, none) ∧
    (h.run_state = .PROXY_RUNNING → pproxy_start (some h) d = some (-1, some h)) ∧
    (h.run_state ≠ .PROXY_RUNNING →
      pproxy_start_entry (some h) = .ok { h with run_state := .PROXY_RUNNING } ∧
      pproxy_start (some h) pre = none ∧
      pproxy_start (some h) (pre ++ true :: post)
        = some (0, some { h with run_state := .PROXY_TERMINATED }) ∧
      ∀ r, pproxy_start (some h) d = some (0, r) → true ∈ d) := by
  refine ⟨rfl, ?_, ?_⟩
  · intro hr
    simp [pproxy_start, pproxy_start_entry, pproxy_running, get_state, hr]
  · intro hr
    have hentry : pproxy_start_entry (some h) = .ok { h with run_state := .PROXY_RUNNING } := by
      simp [pproxy_start_entry, pproxy_running, get_state, hr]
    obtain ⟨h1, h2⟩ := pproxy_start_dispatch_spec { h with run_state := .PROXY_RUNNING } rfl
      pre post hpre
    refine ⟨hentry, ?_, ?_, ?_⟩
    · simp [pproxy_start, hentry, h1]
    · simp [pproxy_start, hentry, h2, terminate]
    · intro r hd
      simp only [pproxy_start, hentry] at hd
      cases hq : pproxy_start_dispatch { h with run_state := .PROXY_RUNNING } d with
      | none => simp [hq] at hd
      | some q => exact pproxy_start_dispatch_stop _ rfl d q hq

/-- C18, on an input: dispatch returns twice before a stop and once after
it. -/
theorem C18_start_blocks_until_stop_witness :
    pproxy_start (some (sample_handle 8080)) [false, false] = none ∧
    pproxy_start (some (sample_handle 8080)) [false, false, true, false]
      = some (0, some { sample_handle 8080 with run_state := .PROXY_TERMINATED }) ∧
    pproxy_start (some { sample_handle 8080 with run_state := .PROXY_RUNNING }) [true]
      = some (-1, some { sample_handle 8080 with run_state := .PROXY_RUNNING }) :=
  ⟨((C18_start_blocks_until_stop (sample_handle 8080) [] [false, false] [false]
      (by decide)).2.2 (by decide)).2.1,
    ((C18_start_blocks_until_stop (sample_handle 8080) [] [false, false] [false]
      (by decide)).2.2 (by decide)).2.2.1,
    (C18_start_blocks_until_stop { sample_handle 8080 with run_state := .PROXY_RUNNING } [true]
      [] [] (by decide)).2.1 rfl⟩

/-! ## The end of the response -/

/-- C20: target_message_complete, called by the running response parser.  In
phase Forward with origin bufferevent tb it returns 0 and leaves the phase
Complete, reading and writing disabled on the origin bufferevent and the
response parser paused, all else as it was.  In phase RecvForward it returns 0
and leaves the whole connection as it was, the response parser still running.
And whenever target_read_cb returns with the connection in phase Complete,
the write callback of the client bufferevent is source_last_write_cb, so that
the next drained event of the client frees the connection. -/
theorem C20_response_complete (E : Env) (fuel : Nat) (c : pproxy_connection)
    (tb : bufferevent) (hok : c.target_state.parser.http_errno = .HPE_OK) :
    (c.state = .CONN_FORWARD → c.target_state.bev = some tb →
      target_message_complete .target c
        = .ok ({ c with
            state := .CONN_COMPLETE,
            target_state := { c.target_state with
              bev := some (bufferevent_disable tb true true),
              parser := { c.target_state.parser with http_errno := .HPE_PAUSED } } }, 0) ∧
      (bufferevent_disable tb true true).ev_read = false) ∧
    (c.state = .CONN_RECV_FORWARD → target_message_complete .target c = .ok (c, 0)) ∧
    (∀ c', target_read_cb E fuel c = .ok c' → c'.state = .CONN_COMPLETE →
      c'.source_state.bev.writecb = .source_last_write_cb ∧
      reactor_step E fuel .source_drained c' = .freed) := by
  refine ⟨?_, ?_, ?_⟩
  · intro hs hb
    refine ⟨?_, by simp [bufferevent_disable]⟩
    unfold target_message_complete set_connection_state_complete
    simp only [hs, if_true, ne_eq, not_true_eq_false, if_false, hb]
    rw [pause_parser_of_ok .target _ true (Or.inl (by exact hok))]
    rfl
  · intro hs
    unfold target_message_complete
    simp [hs]
  · intro c' h hc'
    have hw : c'.source_state.bev.writecb = .source_last_write_cb := by
      unfold target_read_cb at h
      cases hb : c.target_state.bev with
      | none => simp [hb] at h
      | some be =>
        simp only [hb] at h
        split_ifs at h with h0
        cases hl : target_read_loop E fuel c
            (evbuffer_ptr_set be.input [] 0 .EVBUFFER_PTR_SET).2
            (iovec (evbuffer_peek (evbuffer_ptr_set be.input [] 0 .EVBUFFER_PTR_SET).2 1).2 0)
          with
        | freed => simp [hl] at h
        | fault f => simp [hl] at h
        | timeout => simp [hl] at h
        | ok c1 =>
          simp only [hl] at h
          by_cases hc1 : c1.state = .CONN_COMPLETE
          · rw [if_pos hc1] at h
            simp only [Outcome.ok.injEq] at h
            rw [← h]
            rfl
          · rw [if_neg hc1] at h
            simp only [Outcome.ok.injEq] at h
            rw [h] at hc1
            exact absurd hc' hc1
    refine ⟨hw, ?_⟩
    simp [reactor_step, hw, source_last_write_cb]

set_option maxRecDepth 100000 in
/-- The parser struct of the origin side of the sample connection runs. -/
theorem sample_get_pending_running :
    sample_get_pending.target_state.parser.http_errno = .HPE_OK := by decide

/-- C20, on an input: the sample connection in phase Forward with a complete
response pending; target_message_complete moves it to Complete with reading
on the origin disabled, and after target_read_cb the drained event of the
client frees the connection. -/
theorem C20_response_complete_witness :
    sample_get_pending.state = .CONN_FORWARD ∧
    (target_message_complete .target sample_get_pending
      = .ok ({ sample_get_pending with
          state := .CONN_COMPLETE,
          target_state := { sample_get_pending.target_state with
            bev := some (bufferevent_disable sample_response_bev true true),
            parser := { sample_get_pending.target_state.parser with
              http_errno := .HPE_PAUSED } } }, 0) ∧
      (bufferevent_disable sample_response_bev true true).ev_read = false) ∧
    target_read_cb sample_env 2 sample_get_pending = .ok sample_get_complete ∧
    (sample_get_complete.source_state.bev.writecb = .source_last_write_cb ∧
      reactor_step sample_env 2 .source_drained sample_get_complete = .freed) :=
  ⟨rfl,
    (C20_response_complete sample_env 2 sample_get_pending sample_response_bev
      sample_get_pending_running).1 rfl rfl,
    step_response_read,
    (C20_response_complete sample_env 2 sample_get_pending sample_response_bev
      sample_get_pending_running).2.2 sample_get_complete step_response_read rfl⟩

/-! ## Parse errors of the response -/

/-- The byte loop of the response parser, when it leaves an error: it has
not consumed all the bytes it was given, and only the response parser
changed. -/
theorem target_scan_error_lt (E : Env) (ext : List Byte) :
    ∀ (rest : List Byte) (p : Nat) (mark : Option Nat) (c c' : pproxy_connection) (n : Nat),
      c.target_state.parser_settings = target_parser_settings →
      c.target_state.parser.http_errno = .HPE_OK →
      http_parser_scan E .target ext rest p mark c = .ok (c', n) →
      is_http_error c'.target_state.parser ≠ 0 →
      n < p + rest.length := by
  intro rest
  induction rest with
  | nil =>
    intro p mark c c' n hset hok h herr
    obtain ⟨k, _, _, hran, _⟩ := target_scan_spec E ext [] p mark c c' n hset hok h
    cases hran with
    | more st m => simp [is_http_error, parser_after] at herr
    | failed st m code =>
      exfalso
      unfold http_parser_scan at h
      cases mark with
      | none =>
        simp only [Except.ok.injEq, Prod.mk.injEq] at h
        have := congrArg (fun x => x.target_state.parser.http_errno) h.1
        simp [parser_after, hok] at this
      | some m =>
        simp only [call_on_url, settings_of, hset, target_parser_settings,
          note_callback_result_zero, Except.ok.injEq, Prod.mk.injEq] at h
        have := congrArg (fun x => x.target_state.parser.http_errno) h.1
        simp [parser_after, hok] at this
    | complete st m tb hs hb => simp [is_http_error, parser_after] at herr
  | cons b rest ih =>
    intro p mark c c' n hset hok h herr
    have hset1 : ∀ st, (parser_advance .target c st b).target_state.parser_settings
        = target_parser_settings := by
      intro st
      simpa [parser_advance, with_parser_of] using hset
    have hok1 : ∀ st, (parser_advance .target c st b).target_state.parser.http_errno
        = .HPE_OK := by
      intro st
      simpa [parser_advance, with_parser_of, parser_of] using hok
    cases hev : (E.step (parser_of .target c).type (parser_of .target c).state
        (parser_of .target c).method b).event with
    | pe_error code =>
      rw [http_parser_scan_error _ _ _ _ _ _ _ _ _ hev] at h
      simp only [Except.ok.injEq, Prod.mk.injEq] at h
      rw [← h.2]
      simp
    | pe_none =>
      rw [http_parser_scan_none _ _ _ _ _ _ _ _ hev] at h
      have := ih _ _ _ _ _ (hset1 _) (hok1 _) h herr
      simp only [List.length_cons]
      omega
    | pe_url =>
      rw [http_parser_scan_url _ _ _ _ _ _ _ _ hev] at h
      simp only [call_on_url, settings_of, hset1, target_parser_settings,
        note_callback_result_zero] at h
      rw [if_neg (by simpa [parser_of] using hok1 _)] at h
      have := ih _ _ _ _ _ (hset1 _) (hok1 _) h herr
      simp only [List.length_cons]
      omega
    | pe_message_complete =>
      rw [http_parser_scan_message_complete _ _ _ _ _ _ _ _ hev] at h
      simp only [call_on_message_complete, settings_of, hset1, target_parser_settings] at h
      cases hu : target_message_complete .target (parser_advance .target c
          (E.step (parser_of .target c).type (parser_of .target c).state
            (parser_of .target c).method b) b) with
      | error f => rw [hu] at h; cases h
      | ok r =>
        obtain ⟨c2, rc⟩ := r
        rw [hu] at h
        simp only at h
        obtain ⟨hrc, hcase⟩ := target_message_complete_spec _ c2 rc (hok1 _) hu
        subst hrc
        rw [note_callback_result_zero] at h
        rcases hcase with ⟨hs, tb, hb, rfl⟩ | ⟨hs, rfl⟩
        · simp only [parser_of, ne_eq, reduceCtorEq, not_false_eq_true, if_true,
            Except.ok.injEq, Prod.mk.injEq] at h
          rw [← h.1] at herr
          simp [is_http_error] at herr
        · rw [if_neg (by simpa [parser_of] using hok1 _)] at h
          have := ih _ _ _ _ _ (hset1 _) (hok1 _) h herr
          simp only [List.length_cons]
          omega

/-- C13: in phase RecvForward or Forward, take any round of the loop of
target_read_cb, on the extent ext0, in which the call of the response parser
leaves an error code other than OK and PAUSED (the parser was running when
called, or the extent is not empty).  That call left the client side of the
connection as it was, so queued nothing on the client, and the round frees
the connection before anything of the extent is forwarded; in particular
target_read_cb frees the connection when this happens on the first extent of
the origin input. -/
theorem C13_response_error_fatal (E : Env) (fuel : Nat) (c c1 : pproxy_connection)
    (peek : evbuffer_ptr) (ext0 : List Byte) (parsed : Nat)
    (hs : c.state = .CONN_RECV_FORWARD ∨ c.state = .CONN_FORWARD)
    (hset : c.target_state.parser_settings = target_parser_settings)
    (hentry : c.target_state.parser.http_errno = .HPE_OK ∨ ext0 ≠ [])
    (hex : http_parser_execute E .target c ext0 = .ok (c1, parsed))
    (herr : is_http_error c1.target_state.parser ≠ 0) :
    c1.source_state = c.source_state ∧
    target_read_loop E (fuel + 1) c peek ext0 = .freed ∧
    (∀ be tail, c.target_state.bev = some be → evbuffer_drain be.input 0 = ext0 :: tail →
      target_read_cb E (fuel + 1) c = .freed) := by
  have hfacts : c1.source_state = c.source_state ∧ c1.state = c.state ∧
      parsed < ext0.length := by
    rcases target_execute_spec E c c1 ext0 parsed hset hex with
      ⟨hne, rfl, rfl⟩ | ⟨hok, _, hran, _⟩
    · refine ⟨rfl, rfl, ?_⟩
      rcases hentry with h | h
      · exact absurd h hne
      · exact List.length_pos.mpr h
    · have hlt : parsed < ext0.length := by
        unfold http_parser_execute at hex
        simp only [parser_of] at hex
        rw [if_neg (by simpa using hok)] at hex
        simpa using target_scan_error_lt E ext0 ext0 0 _ c c1 parsed hset hok hex herr
      cases hran with
      | more st m => simp [is_http_error, parser_after] at herr
      | failed st m code => exact ⟨rfl, rfl, hlt⟩
      | complete st m tb hs' hb => simp [is_http_error, parser_after] at herr
  obtain ⟨hsrc, hst, hlt⟩ := hfacts
  have hnc : c1.state ≠ .CONN_COMPLETE := by
    rw [hst]
    rcases hs with h | h <;> simp [h]
  have hloop : ∀ pk, target_read_loop E (fuel + 1) c pk ext0 = .freed := by
    intro pk
    unfold target_read_loop
    simp only [hex]
    by_cases h1 : is_http_error c1.source_state.parser ≠ 0
    · rw [if_pos h1]
    · rw [if_neg h1, if_pos ⟨hlt, hnc⟩]
  refine ⟨hsrc, hloop peek, ?_⟩
  intro be tail hb hpk
  unfold target_read_cb
  simp only [hb, evbuffer_ptr_set_zero, hpk, evbuffer_peek, List.length_cons,
    Nat.add_one_ne_zero, if_false, List.take_succ_cons, List.take_zero, iovec,
    List.getD_cons_zero]
  rw [hloop]

set_option maxRecDepth 100000 in
/-- The response parser on the broken sample response. -/
theorem step_garbled_execute :
    http_parser_execute sample_env .target sample_get_garbled [65, 13, 88]
      = .ok (sample_get_rejected, 2) := by rfl

/-- C13, on an input: the origin sends A CR X; the response parser rejects X
after two bytes, and target_read_cb frees the connection with nothing queued
on the client. -/
theorem C13_response_error_fatal_witness :
    sample_get_rejected.target_state.parser.http_errno = .HPE_INVALID 2 ∧
    sample_get_rejected.source_state = sample_get_garbled.source_state ∧
    target_read_loop sample_env 1 sample_get_garbled [[65, 13, 88]] [65, 13, 88] = .freed ∧
    target_read_cb sample_env 1 sample_get_garbled = .freed :=
  have h := C13_response_error_fatal sample_env 0 sample_get_garbled sample_get_rejected
    [[65, 13, 88]] [65, 13, 88] 2 (Or.inr rfl) rfl (Or.inl rfl) step_garbled_execute
    (by decide)
  ⟨rfl, h.1, h.2.1, h.2.2 _ [] rfl rfl⟩

/-! ## Parse errors of the request -/

/-- Pausing or resuming the request parser changes nothing but that parser. -/
theorem pause_parser_of_source_frame (c c2 : pproxy_connection) (paused : Bool)
    (h : pause_parser_of .source c paused = .ok c2) :
    c2.target_state = c.target_state ∧
    c2.source_state.parser_settings = c.source_state.parser_settings ∧
    c2.state = c.state := by
  unfold pause_parser_of at h
  cases hp : http_parser_pause (parser_of .source c) paused with
  | error f => simp [hp] at h
  | ok p =>
    simp only [hp, with_parser_of, Except.ok.injEq] at h
    rw [← h]
    exact ⟨rfl, rfl, rfl⟩

/-- The function set_connection_target never touches the origin side of the
connection nor the parser settings. -/
theorem set_connection_target_frame (E : Env) (c c1 : pproxy_connection) (mem m : List Byte)
    (host_len port : Nat) (rc : Int)
    (h : set_connection_target E c mem host_len port = .ok (c1, rc, m)) :
    c1.target_state = c.target_state ∧
    c1.source_state.parser_settings = c.source_state.parser_settings := by
  unfold set_connection_target set_connection_state_connecting at h
  simp only at h
  split_ifs at h with h3 h4
  · simp only [Except.ok.injEq, Prod.mk.injEq] at h
    rw [← h.1]
    exact ⟨rfl, rfl⟩
  · simp only [Except.ok.injEq, Prod.mk.injEq] at h
    rw [← h.1]
    exact ⟨rfl, rfl⟩

/-- The function url_cb never touches the origin side of the connection nor
the parser settings. -/
theorem url_cb_frame (E : Env) (c c2 : pproxy_connection) (data : List Byte) (len : Nat)
    (rc : Int) (h : url_cb E .source c data len = .ok (c2, rc)) :
    c2.target_state = c.target_state ∧
    c2.source_state.parser_settings = c.source_state.parser_settings := by
  unfold url_cb at h
  simp only at h
  generalize (E.parse_url (List.take len data)
    (decide ((parser_of Side.source c).method = http_method.HTTP_CONNECT))) = pu at h
  generalize (if pu.2.field_set.testBit UF_PORT = true then
    atoi (List.drop pu.2.port_off data) % 65536 else 80) = port at h
  by_cases h1 : pu.1 = 0
  · rw [if_neg (by simpa using h1)] at h
    by_cases h2 : pu.2.field_set.testBit UF_HOST = true
    · rw [if_neg (by simpa using h2)] at h
      cases hsct : set_connection_target E c (List.drop pu.2.host_off data) pu.2.host_len
          port with
      | error f => simp [hsct] at h
      | ok r =>
        obtain ⟨c1, rc1, m⟩ := r
        obtain ⟨ht, hps⟩ := set_connection_target_frame E c c1 _ m _ _ rc1 hsct
        simp only [hsct] at h
        by_cases hrc : rc1 = 0
        · rw [if_neg (by simpa using hrc)] at h
          cases hp : pause_parser_of .source c1 true with
          | error f => simp [hp] at h
          | ok c3 =>
            simp only [hp, Except.ok.injEq, Prod.mk.injEq] at h
            obtain ⟨ht3, hps3, _⟩ := pause_parser_of_source_frame _ _ _ hp
            rw [← h.1]
            exact ⟨ht3.trans ht, hps3.trans hps⟩
        · rw [if_pos hrc] at h
          simp only [Except.ok.injEq, Prod.mk.injEq] at h
          rw [← h.1]
          exact ⟨ht, hps⟩
    · rw [if_pos (by simpa using h2)] at h
      simp only [Except.ok.injEq, Prod.mk.injEq] at h
      rw [← h.1]
      exact ⟨rfl, rfl⟩
  · rw [if_pos h1] at h
    simp only [Except.ok.injEq, Prod.mk.injEq] at h
    rw [← h.1]
    exact ⟨rfl, rfl⟩

/-- The function source_message_complete queues nothing on the origin and
leaves the parser settings alone. -/
theorem source_message_complete_frame (c c2 : pproxy_connection) (rc : Int)
    (h : source_message_complete .source c = .ok (c2, rc)) :
    c2.target_state.bev.map (fun b => b.output) = c.target_state.bev.map (fun b => b.output) ∧
    c2.source_state.parser_settings = c.source_state.parser_settings := by
  unfold source_message_complete at h
  have key : ∀ c1, (c1.target_state.bev.map (fun b => b.output)
        = c.target_state.bev.map (fun b => b.output) ∧
      c1.source_state.parser_settings = c.source_state.parser_settings) →
      (match pause_parser_of .source c1 true with
        | .error f => (.error f : Except Fault (pproxy_connection × Int))
        | .ok c => .ok (c, 0)) = .ok (c2, rc) →
      c2.target_state.bev.map (fun b => b.output)
        = c.target_state.bev.map (fun b => b.output) ∧
      c2.source_state.parser_settings = c.source_state.parser_settings := by
    intro c1 hc1 hm
    cases hp : pause_parser_of .source c1 true with
    | error f => simp [hp] at hm
    | ok c3 =>
      simp only [hp, Except.ok.injEq, Prod.mk.injEq] at hm
      obtain ⟨ht3, hps3, _⟩ := pause_parser_of_source_frame _ _ _ hp
      rw [← hm.1, ht3, hps3]
      exact hc1
  cases hs : c.state <;> simp only [hs] at h
  case CONN_RECV_FORWARD =>
    unfold set_connection_state_forward at h
    simp only [hs, ne_eq, not_true_eq_false, if_false] at h
    refine key _ ?_ h
    exact ⟨rfl, rfl⟩
  case CONN_DIRECT_PARSING =>
    unfold set_connection_state_direct at h
    simp only [hs, ne_eq, not_true_eq_false, if_false] at h
    cases hb : c.target_state.bev with
    | none => simp [hb] at h
    | some tb =>
      simp only [hb] at h
      have hk := key _ (by simp [hb, bufferevent_enable, bufferevent_setcb]) h
      rw [hb] at hk
      exact hk
  all_goals simp at h

/-- The byte loop of the request parser queues nothing on the origin and
leaves the parser settings alone. -/
theorem source_scan_frame (E : Env) (ext : List Byte) :
    ∀ (rest : List Byte) (p : Nat) (mark : Option Nat) (c c' : pproxy_connection) (n : Nat),
      c.source_state.parser_settings = source_parser_settings →
      http_parser_scan E .source ext rest p mark c = .ok (c', n) →
      c'.target_state.bev.map (fun b => b.output)
        = c.target_state.bev.map (fun b => b.output) := by
  intro rest
  induction rest with
  | nil =>
    intro p mark c c' n hset h
    unfold http_parser_scan at h
    cases mark with
    | none =>
      simp only [Except.ok.injEq, Prod.mk.injEq] at h
      rw [← h.1]
    | some m =>
      simp only [call_on_url, settings_of, hset, source_parser_settings] at h
      cases hu : url_cb E .source c (List.drop m ext) (p - m) with
      | error f => rw [hu] at h; cases h
      | ok r =>
        obtain ⟨c2, rc⟩ := r
        rw [hu] at h
        simp only [Except.ok.injEq, Prod.mk.injEq] at h
        obtain ⟨ht, _⟩ := url_cb_frame E c c2 _ _ rc hu
        rw [← h.1, ← ht]
        unfold note_callback_result
        split_ifs <;> rfl
  | cons b rest ih =>
    intro p mark c c' n hset h
    have hset1 : ∀ st, (parser_advance .source c st b).source_state.parser_settings
        = source_parser_settings := by
      intro st
      simpa [parser_advance, with_parser_of] using hset
    have htg1 : ∀ st, (parser_advance .source c st b).target_state = c.target_state := by
      intro st
      simp [parser_advance, with_parser_of]
    have hnote : ∀ (c2 : pproxy_connection) (rc : Int) (e : http_errno),
        (note_callback_result .source c2 rc e).target_state = c2.target_state ∧
        (note_callback_result .source c2 rc e).source_state.parser_settings
          = c2.source_state.parser_settings := by
      intro c2 rc e
      unfold note_callback_result
      split_ifs <;> exact ⟨rfl, rfl⟩
    cases hev : (E.step (parser_of .source c).type (parser_of .source c).state
        (parser_of .source c).method b).event with
    | pe_error code =>
      rw [http_parser_scan_error _ _ _ _ _ _ _ _ _ hev] at h
      simp only [Except.ok.injEq, Prod.mk.injEq] at h
      rw [← h.1]
      rfl
    | pe_none =>
      rw [http_parser_scan_none _ _ _ _ _ _ _ _ hev] at h
      rw [ih _ _ _ _ _ (hset1 _) h, htg1]
    | pe_url =>
      rw [http_parser_scan_url _ _ _ _ _ _ _ _ hev] at h
      simp only [call_on_url, settings_of, hset1, source_parser_settings] at h
      cases hu : url_cb E .source (parser_advance .source c (E.step (parser_of .source c).type
          (parser_of .source c).state (parser_of .source c).method b) b)
          (List.drop (mark.getD p) ext) (p - mark.getD p) with
      | error f => rw [hu] at h; cases h
      | ok r =>
        obtain ⟨c2, rc⟩ := r
        rw [hu] at h
        simp only at h
        obtain ⟨ht, hps⟩ := url_cb_frame E _ c2 _ _ rc hu
        obtain ⟨hnt, hnps⟩ := hnote c2 rc .HPE_CB_url
        split_ifs at h with hne
        · simp only [Except.ok.injEq, Prod.mk.injEq] at h
          rw [← h.1, hnt, ht, htg1]
        · rw [ih _ _ _ _ _ (hnps.trans (hps.trans (hset1 _))) h, hnt, ht, htg1]
    | pe_message_complete =>
      rw [http_parser_scan_message_complete _ _ _ _ _ _ _ _ hev] at h
      simp only [call_on_message_complete, settings_of, hset1, source_parser_settings] at h
      cases hu : source_message_complete .source (parser_advance .source c
          (E.step (parser_of .source c).type (parser_of .source c).state
            (parser_of .source c).method b) b) with
      | error f => rw [hu] at h; cases h
      | ok r =>
        obtain ⟨c2, rc⟩ := r
        rw [hu] at h
        simp only at h
        obtain ⟨ht, hps⟩ := source_message_complete_frame _ c2 rc hu
        obtain ⟨hnt, hnps⟩ := hnote c2 rc .HPE_CB_message_complete
        split_ifs at h with hne
        · simp only [Except.ok.injEq, Prod.mk.injEq] at h
          rw [← h.1, hnt, ht, htg1]
        · rw [ih _ _ _ _ _ (hnps.trans (hps.trans (hset1 _))) h, hnt, ht, htg1]

/-- A call of the request parser queues nothing on the origin. -/
theorem source_execute_frame (E : Env) (c c1 : pproxy_connection) (ext : List Byte)
    (parsed : Nat)
    (hset : c.source_state.parser_settings = source_parser_settings)
    (h : http_parser_execute E .source c ext = .ok (c1, parsed)) :
    c1.target_state.bev.map (fun b => b.output)
      = c.target_state.bev.map (fun b => b.output) := by
  unfold http_parser_execute at h
  simp only at h
  split_ifs at h with hne
  · simp only [Except.ok.injEq, Prod.mk.injEq] at h
    rw [← h.1]
  all_goals exact source_scan_frame E ext ext 0 _ c c1 parsed hset h

/-! ## What every call of the driver preserves -/

/-- Induction over the driver loop: a property of connections that holds
before the loop holds when it returns, if it survives every step a round
takes, a call of the request parser that leaves no error and a change of the
client buffer, of peek_offset and of what the origin has queued. -/
theorem drive_loop_preserves (E : Env) (Q : pproxy_connection → Prop)
    (hset : ∀ c, Q c → c.source_state.parser_settings = source_parser_settings)
    (hio : ∀ (c : pproxy_connection) (B : evbuffer) (po : Nat) (tbv : Option bufferevent),
      Q c → tbv.map without_output = c.target_state.bev.map without_output →
      Q { c with source_state := { c.source_state with buffer := B, peek_offset := po },
                 target_state := { c.target_state with bev := tbv } })
    (hran : ∀ (c c' : pproxy_connection) (bs : List Byte), Q c →
      c.source_state.parser.http_errno = .HPE_OK → SourceRan c bs c' →
      is_http_error c'.source_state.parser = 0 → Q c') :
    ∀ (fuel : Nat) (c : pproxy_connection) (peek : evbuffer_ptr) (skip : Nat)
      (c' : pproxy_connection) (skip' : Nat),
      Q c → drive_loop E fuel c peek skip = .ok (c', skip') → Q c' := by
  have hact : ∀ (c c2 : pproxy_connection) (peek pk : evbuffer_ptr) (skip sk : Nat)
      (ext0 : List Byte) (parsed : Nat) (lp : Bool), Q c →
      drive_act E c peek skip ext0 parsed = .ok (c2, pk, sk, lp) → Q c2 := by
    intro c c2 peek pk skip sk ext0 parsed lp hq hact
    obtain ⟨B, tbv, htbv, hc2⟩ := drive_act_frame E c c2 peek pk skip sk ext0 parsed lp hact
    rw [hc2]
    exact hio c B c.source_state.peek_offset tbv hq htbv
  intro fuel
  induction fuel with
  | zero => intro c peek skip c' skip' _ h; simp [drive_loop] at h
  | succ fuel ih =>
    intro c peek skip c' skip' hq h
    unfold drive_loop at h
    simp only at h
    by_cases he : (evbuffer_peek peek 1).1 = 0
    · rw [if_pos he] at h
      simp only [Outcome.ok.injEq, Prod.mk.injEq] at h
      rw [← h.1]
      exact hq
    · rw [if_neg he] at h
      by_cases hd : c.state = .CONN_DIRECT
      · rw [if_neg (by simpa using hd)] at h
        cases hact2 : drive_act E c peek skip (iovec (evbuffer_peek peek 1).2 0)
            (iovec (evbuffer_peek peek 1).2 0).length with
        | error f => simp [hact2] at h
        | ok q =>
          obtain ⟨c2, pk, sk, lp⟩ := q
          simp only [hact2] at h
          have hq2 := hact c c2 peek pk skip sk _ _ lp hq hact2
          cases lp with
          | false =>
            simp only [Bool.false_eq_true, if_false, Outcome.ok.injEq, Prod.mk.injEq] at h
            rw [← h.1]
            exact hq2
          | true =>
            simp only [if_true] at h
            exact ih c2 pk sk c' skip' hq2 h
      · rw [if_pos hd] at h
        cases hex : http_parser_execute E .source c (iovec (evbuffer_peek peek 1).2 0) with
        | error f => simp [hex] at h
        | ok r =>
          obtain ⟨c1, parsed⟩ := r
          simp only [hex] at h
          by_cases herr : is_http_error c1.source_state.parser = 0
          · rw [if_neg (by simpa using herr)] at h
            have hq1 : Q c1 := by
              rcases source_execute_spec E c c1 _ parsed (hset c hq) hex with
                ⟨_, rfl, _⟩ | ⟨hok, _, hran1, _⟩
              · exact hq
              · exact hran c c1 _ hq hok hran1 herr
            by_cases hd1 : c1.state = .CONN_DIRECT
            · rw [if_pos hd1] at h
              have hq2 := hio c1 (evbuffer_drain c1.source_state.buffer (parsed + skip))
                c1.source_state.peek_offset c1.target_state.bev hq1 rfl
              split_ifs at h with hr
              · simp only [Outcome.ok.injEq, Prod.mk.injEq] at h
                rw [← h.1]
                exact hq2
              · exact ih _ _ _ c' skip' hq2 h
            · rw [if_neg hd1] at h
              cases hact2 : drive_act E c1 peek skip (iovec (evbuffer_peek peek 1).2 0)
                  parsed with
              | error f => simp [hact2] at h
              | ok q =>
                obtain ⟨c2, pk, sk, lp⟩ := q
                simp only [hact2] at h
                have hq2 := hact c1 c2 peek pk skip sk _ _ lp hq1 hact2
                cases lp with
                | false =>
                  simp only [Bool.false_eq_true, if_false, Outcome.ok.injEq,
                    Prod.mk.injEq] at h
                  rw [← h.1]
                  exact hq2
                | true =>
                  simp only [if_true] at h
                  exact ih c2 pk sk c' skip' hq2 h
          · rw [if_pos herr] at h
            simp at h

/-- Induction over the driver: a property of connections that holds when
drive_request is entered holds when it returns, if it survives a call of the
request parser that leaves no error, a change of the client buffer, of
peek_offset and of what the origin has queued, and the queueing of kOk in
phase Direct. -/
theorem drive_request_preserves (E : Env) (Q : pproxy_connection → Prop)
    (hset : ∀ c, Q c → c.source_state.parser_settings = source_parser_settings)
    (hio : ∀ (c : pproxy_connection) (B : evbuffer) (po : Nat) (tbv : Option bufferevent),
      Q c → tbv.map without_output = c.target_state.bev.map without_output →
      Q { c with source_state := { c.source_state with buffer := B, peek_offset := po },
                 target_state := { c.target_state with bev := tbv } })
    (hran : ∀ (c c' : pproxy_connection) (bs : List Byte), Q c →
      c.source_state.parser.http_errno = .HPE_OK → SourceRan c bs c' →
      is_http_error c'.source_state.parser = 0 → Q c')
    (hkok : ∀ c, Q c → c.state = .CONN_DIRECT → Q (send_direct_ok_response c))
    (fuel : Nat) (c c' : pproxy_connection) (hq : Q c)
    (h : drive_request E fuel c = .ok c') : Q c' := by
  unfold drive_request at h
  cases hrep : drive_replay E fuel c with
  | freed => simp [hrep] at h
  | fault f => simp [hrep] at h
  | timeout => simp [hrep] at h
  | ok c0 =>
    have hq0 : Q c0 := by
      unfold drive_replay at hrep
      split_ifs at hrep with hpo hdir
      · unfold write_atmost at hrep
        cases hw : write_atmost_loop E fuel c.source_state.buffer c.source_state.peek_offset
            c.target_state.bev with
        | freed => simp [hw] at hrep
        | fault f => simp [hw] at hrep
        | timeout => simp [hw] at hrep
        | ok r =>
          obtain ⟨remain, buffer, bev⟩ := r
          have hfr := write_atmost_loop_frame E fuel _ _ _ _ hw
          simp only [hw] at hrep
          split_ifs at hrep with hne
          simp only [Outcome.ok.injEq] at hrep
          rw [← hrep]
          exact hio c buffer 0 bev hq hfr
      · simp only [Outcome.ok.injEq] at hrep
        rw [← hrep]
        exact hio c _ 0 c.target_state.bev hq rfl
      · simp only [Outcome.ok.injEq] at hrep
        rw [← hrep]
        exact hq
    simp only [hrep] at h
    cases hloop : drive_loop E fuel c0
        (evbuffer_ptr_set c0.source_state.buffer [] c0.source_state.peek_offset
          .EVBUFFER_PTR_SET).2 0 with
    | freed => simp [hloop] at h
    | fault f => simp [hloop] at h
    | timeout => simp [hloop] at h
    | ok r =>
      obtain ⟨c2, skip⟩ := r
      have hq2 := drive_loop_preserves E Q hset hio hran fuel c0 _ 0 c2 skip hq0 hloop
      have hq3 := hio c2 c2.source_state.buffer skip c2.target_state.bev hq2 rfl
      simp only [hloop] at h
      split_ifs at h with hd
      · simp only [Outcome.ok.injEq] at h
        rw [← h]
        exact hkok _ hq3 hd
      · simp only [Outcome.ok.injEq] at h
        rw [← h]
        exact hq3

/-- The function is_http_error returns 0 exactly for the error codes OK and
PAUSED. -/
theorem is_http_error_eq_zero (p : http_parser_t) :
    is_http_error p = 0 ↔ (p.http_errno = .HPE_OK ∨ p.http_errno = .HPE_PAUSED) := by
  unfold is_http_error
  cases p.http_errno <;> simp

/-- C12: is_http_error returns 0 exactly when the error code is OK or
PAUSED.  Take any round of the driver loop outside phase Direct, on the
extent ext0, in which the call of the request parser leaves another error
code: that call queued nothing on the origin, and the round frees the
connection at once, before the switch that writes; so does drive_request
when this is the first extent of a buffer with peek_offset 0.  And a call of
drive_request that is entered without a parse error and returns with the
connection alive leaves no parse error. -/
theorem C12_request_error_fatal (E : Env) (fuel : Nat) (c c1 : pproxy_connection)
    (tail : List (List Byte)) (skip : Nat) (ext0 : List Byte) (parsed : Nat)
    (hset : c.source_state.parser_settings = source_parser_settings)
    (hnd : c.state ≠ .CONN_DIRECT)
    (hex : http_parser_execute E .source c ext0 = .ok (c1, parsed))
    (herr : c1.source_state.parser.http_errno ≠ .HPE_OK ∧
      c1.source_state.parser.http_errno ≠ .HPE_PAUSED) :
    (∀ p : http_parser_t,
      is_http_error p = 0 ↔ (p.http_errno = .HPE_OK ∨ p.http_errno = .HPE_PAUSED)) ∧
    c1.target_state.bev.map (fun b => b.output)
      = c.target_state.bev.map (fun b => b.output) ∧
    drive_loop E (fuel + 1) c (ext0 :: tail) skip = .freed ∧
    (c.source_state.peek_offset = 0 →
      evbuffer_drain c.source_state.buffer 0 = ext0 :: tail →
      drive_request E (fuel + 1) c = .freed) ∧
    (∀ (n : Nat) (d d' : pproxy_connection),
      d.source_state.parser_settings = source_parser_settings →
      is_http_error d.source_state.parser = 0 →
      drive_request E n d = .ok d' → is_http_error d'.source_state.parser = 0) := by
  have hne : is_http_error c1.source_state.parser ≠ 0 := by
    rw [Ne, is_http_error_eq_zero]
    rintro (h | h)
    · exact herr.1 h
    · exact herr.2 h
  have hloop : ∀ sk, drive_loop E (fuel + 1) c (ext0 :: tail) sk = .freed := by
    intro sk
    unfold drive_loop
    simp only [evbuffer_peek, List.length_cons, Nat.add_one_ne_zero, if_false, hnd, ne_eq,
      not_false_eq_true, if_true, List.take_succ_cons, List.take_zero, iovec,
      List.getD_cons_zero, hex, hne]
  refine ⟨is_http_error_eq_zero, source_execute_frame E c c1 ext0 parsed hset hex, hloop skip,
    ?_, ?_⟩
  · intro hpo hpk
    unfold drive_request drive_replay
    simp only [hpo, gt_iff_lt, Nat.lt_irrefl, if_false, evbuffer_ptr_set_zero, hpk, hloop]
  · intro n d d' hd herr0 hrun
    have := drive_request_preserves E
      (fun x => x.source_state.parser_settings = source_parser_settings ∧
        is_http_error x.source_state.parser = 0)
      (fun x hx => hx.1)
      (fun x B po tbv hx _ => hx)
      (fun x x' bs hx hok hran he => by
        refine ⟨?_, he⟩
        cases hran with
        | more st m => exact hx.1
        | failed x' hf => exact absurd he hf
        | connecting st m a hs ha => exact hx.1
        | forward st m hs => exact hx.1
        | direct st m tb hs hb => exact hx.1)
      (fun x hx _ => hx)
      n d d' ⟨hd, herr0⟩ hrun
    exact this.2

/-- The request parser on a first byte that is no capital letter. -/
theorem step_rejected_execute :
    http_parser_execute sample_env .source sample_accepted [103]
      = .ok (sample_rejected, 0) := by rfl

/-- C12, on an input: the first byte of the request is a small g; the
request parser rejects it, nothing is queued on the origin, and the driver
frees the connection. -/
theorem C12_request_error_fatal_witness :
    sample_rejected.source_state.parser.http_errno = .HPE_INVALID 1 ∧
    sample_rejected.target_state.bev.map (fun b => b.output)
      = sample_accepted.target_state.bev.map (fun b => b.output) ∧
    drive_loop sample_env 1 sample_accepted [[103]] 0 = .freed ∧
    drive_request sample_env 1
      { sample_accepted with source_state := { sample_accepted.source_state with
          buffer := [[103]] } } = .freed :=
  ⟨rfl,
    (C12_request_error_fatal sample_env 0 sample_accepted sample_rejected [] 0 [103] 0
      rfl (by decide) step_rejected_execute (by decide)).2.1,
    (C12_request_error_fatal sample_env 0 sample_accepted sample_rejected [] 0 [103] 0
      rfl (by decide) step_rejected_execute (by decide)).2.2.1,
    (C12_request_error_fatal sample_env 0
      { sample_accepted with source_state := { sample_accepted.source_state with
          buffer := [[103]] } }
      { sample_rejected with source_state := { sample_rejected.source_state with
          buffer := [[103]] } } [] 0 [103] 0
      rfl (by decide) (by rfl) (by decide)).2.2.2.1 rfl rfl⟩

/-! ## The phase of every reachable connection -/

/-- Two optional bufferevents that agree but for what they have queued are
both there or both absent. -/
theorem without_output_none (a b : Option bufferevent)
    (h : a.map without_output = b.map without_output) : (a = none ↔ b = none) := by
  cases a <;> cases b <;> simp at h ⊢

/-- PhaseInv looks only at the phase, the request parser settings, whether
there is an origin bufferevent, and the error code of the request parser. -/
theorem phase_inv_frame (c c' : pproxy_connection) (hinv : PhaseInv c)
    (hst : c'.state = c.state)
    (hps : c'.source_state.parser_settings = c.source_state.parser_settings)
    (htg : c'.target_state.bev = none ↔ c.target_state.bev = none)
    (herr : c'.source_state.parser.http_errno = c.source_state.parser.http_errno) :
    PhaseInv c' where
  settings := hps.trans hinv.settings
  absent := fun hs => htg.mpr (hinv.absent (hst ▸ hs))
  present := by
    intro h1 h2
    obtain ⟨tb, hb⟩ := hinv.present (hst ▸ h1) (hst ▸ h2)
    cases hc : c'.target_state.bev with
    | none => rw [htg.mp hc] at hb; cases hb
    | some tb' => exact ⟨tb', rfl⟩
  running := fun hs => herr.trans (hinv.running (hst ▸ hs))
  paused := fun hs => herr.trans (hinv.paused (hst ▸ hs))

/-- PhaseInv survives every call of the driver. -/
theorem phase_inv_drive_request (E : Env) (fuel : Nat) (c c' : pproxy_connection)
    (hinv : PhaseInv c) (h : drive_request E fuel c = .ok c') : PhaseInv c' := by
  refine drive_request_preserves E PhaseInv (fun x hx => hx.settings) ?_ ?_ ?_ fuel c c' hinv h
  · intro x B po tbv hx htbv
    exact phase_inv_frame x _ hx rfl rfl (without_output_none _ _ htbv) rfl
  · intro x x' bs hx hok hran herr
    have hnp : ¬(x.state = .CONN_CONNECTING ∨ x.state = .CONN_FORWARD ∨
        x.state = .CONN_COMPLETE ∨ x.state = .CONN_DIRECT) := by
      intro hs
      have := hx.paused hs
      rw [hok] at this
      cases this
    cases hran with
    | more st m =>
      exact phase_inv_frame x _ hx rfl rfl Iff.rfl (by simp [parser_after, hok])
    | failed x' hf => exact absurd herr hf
    | connecting st m a hs ha =>
      exact {
        settings := hx.settings
        absent := fun _ => hx.absent (Or.inl hs)
        present := by intro _ h2; simp at h2
        running := by intro h; simp at h
        paused := fun _ => rfl }
    | forward st m hs =>
      exact {
        settings := hx.settings
        absent := by intro h; simp at h
        present := fun _ _ => hx.present (by simp [hs]) (by simp [hs])
        running := by intro h; simp at h
        paused := fun _ => rfl }
    | direct st m tb hs hb =>
      exact {
        settings := hx.settings
        absent := by intro h; simp at h
        present := fun _ _ => ⟨_, rfl⟩
        running := by intro h; simp at h
        paused := fun _ => rfl }
  · intro x hx _
    exact phase_inv_frame x _ hx rfl rfl Iff.rfl rfl

/-! ## The bound on peek_offset -/

/-- A call of the request parser that leaves no error leaves the client
buffer and the parser settings as they were and consumes at most the extent. -/
theorem source_execute_buffer (E : Env) (c c1 : pproxy_connection) (ext : List Byte)
    (parsed : Nat)
    (hset : c.source_state.parser_settings = source_parser_settings)
    (hex : http_parser_execute E .source c ext = .ok (c1, parsed))
    (herr : is_http_error c1.source_state.parser = 0) :
    c1.source_state.buffer = c.source_state.buffer ∧
    c1.source_state.parser_settings = c.source_state.parser_settings ∧
    parsed ≤ ext.length := by
  rcases source_execute_spec E c c1 ext parsed hset hex with ⟨_, rfl, rfl⟩ | ⟨_, hle, hran, _⟩
  · exact ⟨rfl, rfl, Nat.zero_le _⟩
  · cases hran with
    | more st m => exact ⟨rfl, rfl, hle⟩
    | failed c1 hf => exact absurd herr hf
    | connecting st m a hs ha => exact ⟨rfl, rfl, hle⟩
    | forward st m hs => exact ⟨rfl, rfl, hle⟩
    | direct st m tb hs hb => exact ⟨rfl, rfl, hle⟩

/-- One switch and write of the driver loop keeps the pointer skip bytes
into the client buffer, with skip at most the length of the buffer. -/
theorem drive_act_peek (E : Env) (c c2 : pproxy_connection) (tail : List (List Byte))
    (pk : evbuffer_ptr) (skip sk : Nat) (ext0 : List Byte) (parsed : Nat) (lp : Bool)
    (hpk : evbuffer_bytes (ext0 :: tail) = (evbuffer_bytes c.source_state.buffer).drop skip)
    (hsk : skip ≤ (evbuffer_bytes c.source_state.buffer).length)
    (hle : parsed ≤ ext0.length)
    (h : drive_act E c (ext0 :: tail) skip ext0 parsed = .ok (c2, pk, sk, lp)) :
    c2.source_state.parser_settings = c.source_state.parser_settings ∧
    evbuffer_bytes pk = (evbuffer_bytes c2.source_state.buffer).drop sk ∧
    sk ≤ (evbuffer_bytes c2.source_state.buffer).length := by
  unfold drive_act at h
  cases hsw : drive_switch c.state with
  | error f => simp [hsw] at h
  | ok r =>
    obtain ⟨wd, l⟩ := r
    simp only [hsw] at h
    cases wd with
    | true =>
      simp only [if_true] at h
      cases hb : c.target_state.bev with
      | none => simp [hb, bev_write] at h
      | some b =>
        simp only [hb, bev_write, evbuffer_ptr_set_zero, Except.ok.injEq, Prod.mk.injEq] at h
        obtain ⟨rfl, rfl, rfl, _⟩ := h
        exact ⟨rfl, by simp [evbuffer_bytes_drain_zero], Nat.zero_le _⟩
    | false =>
      have hlen : parsed ≤ (evbuffer_bytes (ext0 :: tail)).length := by
        rw [evbuffer_bytes_cons, List.length_append]
        omega
      simp only [Bool.false_eq_true, if_false, evbuffer_ptr_set_add _ _ _ hlen,
        Except.ok.injEq, Prod.mk.injEq] at h
      obtain ⟨rfl, rfl, rfl, _⟩ := h
      refine ⟨rfl, ?_, ?_⟩
      · rw [evbuffer_bytes_drain, hpk, List.drop_drop, Nat.add_comm]
      · have := congrArg List.length hpk
        rw [List.length_drop, evbuffer_bytes_cons, List.length_append] at this
        omega

/-- The driver loop, entered with the pointer skip bytes into the client
buffer: when it returns, skip is at most the length of the client buffer. -/
theorem drive_loop_peek (E : Env) :
    ∀ (fuel : Nat) (c : pproxy_connection) (peek : evbuffer_ptr) (skip : Nat)
      (c' : pproxy_connection) (skip' : Nat),
      c.source_state.parser_settings = source_parser_settings →
      evbuffer_bytes peek = (evbuffer_bytes c.source_state.buffer).drop skip →
      skip ≤ (evbuffer_bytes c.source_state.buffer).length →
      drive_loop E fuel c peek skip = .ok (c', skip') →
      skip' ≤ (evbuffer_bytes c'.source_state.buffer).length := by
  intro fuel
  induction fuel with
  | zero => intro c peek skip c' skip' _ _ _ h; simp [drive_loop] at h
  | succ fuel ih =>
    intro c peek skip c' skip' hset hpk hsk h
    cases peek with
    | nil =>
      unfold drive_loop at h
      simp only [evbuffer_peek, List.length_nil, if_true, Outcome.ok.injEq,
        Prod.mk.injEq] at h
      rw [← h.1, ← h.2]
      exact hsk
    | cons ext0 tail =>
      unfold drive_loop at h
      simp only [evbuffer_peek, List.length_cons, Nat.add_one_ne_zero, if_false,
        List.take_succ_cons, List.take_zero, iovec, List.getD_cons_zero] at h
      have hfin : ∀ (d d2 : pproxy_connection) (pk : evbuffer_ptr) (sk parsed : Nat)
          (lp : Bool),
          d.source_state.parser_settings = source_parser_settings →
          d.source_state.buffer = c.source_state.buffer → parsed ≤ ext0.length →
          drive_act E d (ext0 :: tail) skip ext0 parsed = .ok (d2, pk, sk, lp) →
          (if lp = true then drive_loop E fuel d2 pk sk else .ok (d2, sk)) = .ok (c', skip') →
          skip' ≤ (evbuffer_bytes c'.source_state.buffer).length := by
        intro d d2 pk sk parsed lp hd hbuf hle hact hres
        obtain ⟨hs2, hpk2, hsk2⟩ := drive_act_peek E d d2 tail pk skip sk ext0 parsed lp
          (by rw [hbuf]; exact hpk) (by rw [hbuf]; exact hsk) hle hact
        cases lp with
        | false =>
          simp only [Bool.false_eq_true, if_false, Outcome.ok.injEq, Prod.mk.injEq] at hres
          rw [← hres.1, ← hres.2]
          exact hsk2
        | true =>
          simp only [if_true] at hres
          exact ih d2 pk sk c' skip' (hs2.trans hd) hpk2 hsk2 hres
      by_cases hd : c.state = .CONN_DIRECT
      · rw [if_neg (by simpa using hd)] at h
        cases hact : drive_act E c (ext0 :: tail) skip ext0 ext0.length with
        | error f => simp [hact] at h
        | ok q =>
          obtain ⟨c2, pk, sk, lp⟩ := q
          simp only [hact] at h
          exact hfin c c2 pk sk _ lp hset rfl (Nat.le_refl _) hact h
      · rw [if_pos hd] at h
        cases hex : http_parser_execute E .source c ext0 with
        | error f => simp [hex] at h
        | ok r =>
          obtain ⟨c1, parsed⟩ := r
          simp only [hex] at h
          by_cases herr : is_http_error c1.source_state.parser = 0
          · rw [if_neg (by simpa using herr)] at h
            obtain ⟨hbuf, hps, hle⟩ := source_execute_buffer E c c1 ext0 parsed hset hex herr
            by_cases hd1 : c1.state = .CONN_DIRECT
            · rw [if_pos hd1] at h
              simp only [evbuffer_ptr_set_zero, ne_eq, not_true_eq_false, if_false] at h
              refine ih _ _ 0 c' skip' ?_ ?_ (Nat.zero_le _) h
              · exact hps.trans hset
              · simp [evbuffer_bytes_drain_zero]
            · rw [if_neg hd1] at h
              cases hact : drive_act E c1 (ext0 :: tail) skip ext0 parsed with
              | error f => simp [hact] at h
              | ok q =>
                obtain ⟨c2, pk, sk, lp⟩ := q
                simp only [hact] at h
                exact hfin c1 c2 pk sk _ lp (hps.trans hset) hbuf hle hact h
          · rw [if_pos herr] at h
            simp at h

/-- The driver returns with peek_offset at most the length of the client
buffer, whatever it was entered with. -/
theorem drive_request_peek (E : Env) (fuel : Nat) (c c' : pproxy_connection)
    (hset : c.source_state.parser_settings = source_parser_settings)
    (h : drive_request E fuel c = .ok c') : peek_within c' := by
  unfold drive_request at h
  cases hrep : drive_replay E fuel c with
  | freed => simp [hrep] at h
  | fault f => simp [hrep] at h
  | timeout => simp [hrep] at h
  | ok c0 =>
    have h0 : c0.source_state.parser_settings = source_parser_settings ∧
        c0.source_state.peek_offset = 0 := by
      unfold drive_replay at hrep
      split_ifs at hrep with hpo hdir
      · unfold write_atmost at hrep
        cases hw : write_atmost_loop E fuel c.source_state.buffer c.source_state.peek_offset
            c.target_state.bev with
        | freed => simp [hw] at hrep
        | fault f => simp [hw] at hrep
        | timeout => simp [hw] at hrep
        | ok r =>
          obtain ⟨remain, buffer, bev⟩ := r
          simp only [hw] at hrep
          split_ifs at hrep with hne
          simp only [Outcome.ok.injEq] at hrep
          rw [← hrep]
          exact ⟨hset, rfl⟩
      · simp only [Outcome.ok.injEq] at hrep
        rw [← hrep]
        exact ⟨hset, rfl⟩
      · simp only [Outcome.ok.injEq] at hrep
        rw [← hrep]
        exact ⟨hset, by omega⟩
    simp only [hrep, h0.2, evbuffer_ptr_set_zero] at h
    cases hloop : drive_loop E fuel c0 (evbuffer_drain c0.source_state.buffer 0) 0 with
    | freed => simp [hloop] at h
    | fault f => simp [hloop] at h
    | timeout => simp [hloop] at h
    | ok r =>
      obtain ⟨c2, skip⟩ := r
      have hsk := drive_loop_peek E fuel c0 _ 0 c2 skip h0.1
        (by simp [evbuffer_bytes_drain_zero]) (Nat.zero_le _) hloop
      simp only [hloop] at h
      split_ifs at h with hd
      · simp only [Outcome.ok.injEq] at h
        rw [← h]
        exact hsk
      · simp only [Outcome.ok.injEq] at h
        rw [← h]
        exact hsk

/-- PhaseInv and the bound on peek_offset survive connect_event_cb. -/
theorem reach_inv_connect_event_cb (E : Env) (fuel : Nat) (bev : bufferevent)
    (what : bev_event) (c c' : pproxy_connection) (hP : PhaseInv c) (hW : peek_within c)
    (h : connect_event_cb E fuel bev what c = .ok c') : PhaseInv c' ∧ peek_within c' := by
  cases what with
  | BEV_EVENT_CONNECTED =>
    simp only [connect_event_cb] at h
    have hcases : ∃ c2, (set_connection_state_direct_parsing c bev = .ok c2 ∨
        set_connection_state_recv_forward E c bev = .ok c2) ∧
        drive_request E fuel c2 = .ok c' := by
      cases hm : c.source_state.parser.method <;> simp only [hm] at h <;>
        first
        | (cases hr : set_connection_state_recv_forward E c bev with
           | error f => simp [hr] at h
           | ok c2 => exact ⟨c2, Or.inr rfl, by simpa [hr] using h⟩)
        | (cases hr : set_connection_state_direct_parsing c bev with
           | error f => simp [hr] at h
           | ok c2 => exact ⟨c2, Or.inl rfl, by simpa [hr] using h⟩)
    obtain ⟨c2, hc2, hdrive⟩ := hcases
    have hP2 : PhaseInv c2 := by
      rcases hc2 with hc2 | hc2
      · obtain ⟨_, rfl⟩ := set_connection_state_direct_parsing_spec c c2 bev hc2
        exact {
          settings := hP.settings
          absent := by intro hs; simp at hs
          present := fun _ _ => ⟨bev, rfl⟩
          running := fun _ => rfl
          paused := by intro hs; simp at hs }
      · have hc := set_connection_state_recv_forward_spec E c c2 bev hc2
        subst hc
        exact {
          settings := hP.settings
          absent := by intro hs; simp at hs
          present := fun _ _ => ⟨_, rfl⟩
          running := fun _ => rfl
          paused := by intro hs; simp at hs }
    exact ⟨phase_inv_drive_request E fuel c2 c' hP2 hdrive,
      drive_request_peek E fuel c2 c' hP2.settings hdrive⟩
  | BEV_EVENT_EOF =>
    simp only [connect_event_cb] at h
    split_ifs at h
  | BEV_EVENT_ERROR =>
    simp only [connect_event_cb] at h
    split_ifs at h
  | BEV_EVENT_TIMEOUT =>
    simp only [connect_event_cb, Outcome.ok.injEq] at h
    subst h
    exact ⟨hP, hW⟩

/-- PhaseInv and the bound on peek_offset survive every dispatch of the
event loop that leaves the connection alive. -/
theorem reach_inv_reactor_step (E : Env) (fuel : Nat) (ev : reactor_event)
    (c c' : pproxy_connection) (rx : List Byte) (hT : TunnelInv c rx) (hP : PhaseInv c)
    (hW : peek_within c) (h : reactor_step E fuel ev c = .ok c') :
    PhaseInv c' ∧ peek_within c' := by
  cases ev with
  | source_data data =>
    simp only [reactor_step] at h
    split_ifs at h with hcond
    · simp only [Outcome.ok.injEq] at h
      exact h ▸ ⟨hP, hW⟩
    · cases hr : c.source_state.bev.readcb with
      | source_read_cb =>
        simp only [hr] at h
        unfold source_read_cb at h
        refine ⟨phase_inv_drive_request E fuel _ c' ?_ h, drive_request_peek E fuel _ c' ?_ h⟩
        · exact phase_inv_frame c _ hP rfl rfl Iff.rfl rfl
        · exact hP.settings
      | direct_source_read_cb =>
        simp only [hr] at h
        unfold direct_source_read_cb at h
        cases hb : c.target_state.bev with
        | none => simp [hb] at h
        | some tb =>
          simp only [hb, Outcome.ok.injEq] at h
          subst h
          exact ⟨phase_inv_frame c _ hP rfl rfl (by simp [hb]) rfl, hW⟩
      | none =>
        simp only [hr, Outcome.ok.injEq] at h
        subst h
        exact ⟨phase_inv_frame c _ hP rfl rfl Iff.rfl rfl, hW⟩
      | target_read_cb =>
        simp only [hr, Outcome.ok.injEq] at h
        subst h
        exact ⟨phase_inv_frame c _ hP rfl rfl Iff.rfl rfl, hW⟩
      | direct_target_read_cb =>
        simp only [hr, Outcome.ok.injEq] at h
        subst h
        exact ⟨phase_inv_frame c _ hP rfl rfl Iff.rfl rfl, hW⟩
  | source_what what =>
    simp only [reactor_step] at h
    cases he : c.source_state.bev.eventcb <;> simp only [he] at h <;>
      first
      | (simp only [Outcome.ok.injEq] at h; exact h ▸ ⟨hP, hW⟩)
      | (cases what <;>
          simp [source_event_cb, direct_source_event_cb, close_event_cb] at h)
  | source_drained =>
    simp only [reactor_step] at h
    cases hw : c.source_state.bev.writecb with
    | none =>
      simp only [hw, Outcome.ok.injEq] at h
      exact h ▸ ⟨hP, hW⟩
    | source_last_write_cb => simp [hw, source_last_write_cb] at h
  | connect_what what =>
    simp only [reactor_step] at h
    cases hc : c.connecting with
    | none =>
      simp only [hc, Outcome.ok.injEq] at h
      exact h ▸ ⟨hP, hW⟩
    | some a =>
      simp only [hc] at h
      refine reach_inv_connect_event_cb E fuel a.bev what _ c' ?_ ?_ h
      · exact phase_inv_frame c _ hP rfl rfl Iff.rfl rfl
      · exact hW
  | target_what what =>
    simp only [reactor_step] at h
    cases hb : c.target_state.bev with
    | none =>
      simp only [hb, Outcome.ok.injEq] at h
      exact h ▸ ⟨hP, hW⟩
    | some tb =>
      simp only [hb] at h
      cases he : tb.eventcb <;> simp only [he] at h <;>
        first
        | (simp only [Outcome.ok.injEq] at h; exact h ▸ ⟨hP, hW⟩)
        | exact reach_inv_connect_event_cb E fuel tb what c c' hP hW h
        | (cases what <;>
            simp [target_event_cb, direct_target_event_cb, close_event_cb] at h)
  | target_data data =>
    simp only [reactor_step] at h
    cases hb : c.target_state.bev with
    | none =>
      simp only [hb, Outcome.ok.injEq] at h
      exact h ▸ ⟨hP, hW⟩
    | some tb =>
      simp only [hb] at h
      by_cases hcond : (!tb.ev_read || decide (evbuffer_get_length data = 0)) = true
      · rw [if_pos hcond] at h
        simp only [Outcome.ok.injEq] at h
        exact h ▸ ⟨hP, hW⟩
      · rw [if_neg hcond] at h
        cases hr : tb.readcb with
        | target_read_cb =>
          simp only [hr] at h
          have hspec := target_read_cb_spec E fuel
            { c with target_state := { c.target_state with
                bev := some { tb with input := tb.input ++ data, readcb := .target_read_cb } } }
            c' { tb with input := tb.input ++ data, readcb := .target_read_cb }
            (hT.response tb hb hr) rfl h
          obtain ⟨Q, be', hb', _, _, _, _, _, _, hph, _, hps, _, hbuf, hpo, hpar, _⟩ := hspec
          have hsame : c'.state ≠ .CONN_COMPLETE → c'.state = c.state := by
            intro hne
            rcases hph with hph | ⟨_, hph⟩
            · exact hph
            · exact absurd hph hne
          refine ⟨?_, ?_⟩
          · exact {
              settings := hps.trans hP.settings
              absent := by
                intro hs
                have hc : c.state = .CONN_RECV ∨ c.state = .CONN_CONNECTING := by
                  rw [← hsame (by rcases hs with hs | hs <;> simp [hs])]
                  exact hs
                have := hP.absent hc
                rw [hb] at this
                cases this
              present := fun _ _ => ⟨be', hb'⟩
              running := by
                intro hs
                have hc : c.state = .CONN_RECV ∨ c.state = .CONN_RECV_FORWARD ∨
                    c.state = .CONN_DIRECT_PARSING := by
                  rw [← hsame (by rcases hs with hs | hs | hs <;> simp [hs])]
                  exact hs
                rw [hpar]
                exact hP.running hc
              paused := by
                intro hs
                rw [hpar]
                rcases hph with hph | ⟨hf, _⟩
                · exact hP.paused (by rw [← show c'.state = c.state from hph]; exact hs)
                · exact hP.paused (Or.inr (Or.inl hf)) }
          · unfold peek_within
            rw [hbuf, hpo]
            exact hW
        | direct_target_read_cb =>
          simp only [hr] at h
          unfold direct_target_read_cb at h
          simp only [Outcome.ok.injEq] at h
          subst h
          exact ⟨phase_inv_frame c _ hP rfl rfl (by simp [hb]) rfl, hW⟩
        | none =>
          simp only [hr, Outcome.ok.injEq] at h
          subst h
          exact ⟨phase_inv_frame c _ hP rfl rfl (by simp [hb]) rfl, hW⟩
        | source_read_cb =>
          simp only [hr, Outcome.ok.injEq] at h
          subst h
          exact ⟨phase_inv_frame c _ hP rfl rfl (by simp [hb]) rfl, hW⟩
        | direct_source_read_cb =>
          simp only [hr, Outcome.ok.injEq] at h
          subst h
          exact ⟨phase_inv_frame c _ hP rfl rfl (by simp [hb]) rfl, hW⟩

/-- PhaseInv and the bound on peek_offset hold of the connection a run of the
event loop on a freshly accepted connection leaves alive. -/
theorem reach_inv_reactor_run (E : Env) (fuel : Nat) (evs : List reactor_event)
    (c : pproxy_connection) (hrun : reactor_run E fuel evs (accepted E) = .ok c) :
    PhaseInv c ∧ peek_within c := by
  have key : ∀ (evs : List reactor_event) (c0 c : pproxy_connection) (rx : List Byte),
      TunnelInv c0 rx → PhaseInv c0 → peek_within c0 →
      reactor_run E fuel evs (.ok c0) = .ok c → PhaseInv c ∧ peek_within c := by
    intro evs
    induction evs with
    | nil =>
      intro c0 c rx _ hP hW h
      simp only [reactor_run, Outcome.ok.injEq] at h
      exact h ▸ ⟨hP, hW⟩
    | cons ev evs ih =>
      intro c0 c rx hT hP hW h
      rw [reactor_run_cons] at h
      cases hstep : reactor_step E fuel ev c0 with
      | ok c1 =>
        rw [hstep] at h
        obtain ⟨hP1, hW1⟩ := reach_inv_reactor_step E fuel ev c0 c1 rx hT hP hW hstep
        exact ih c1 c _ (tunnel_inv_reactor_step E fuel ev c0 c1 rx hT hstep) hP1 hW1 h
      | freed =>
        rw [hstep] at h
        exact absurd h (reactor_run_gone E fuel evs _ c (by simp))
      | fault f =>
        rw [hstep] at h
        exact absurd h (reactor_run_gone E fuel evs _ c (by simp))
      | timeout =>
        rw [hstep] at h
        exact absurd h (reactor_run_gone E fuel evs _ c (by simp))
  obtain ⟨c0, hc0, hT0⟩ := tunnel_inv_accepted E
  rw [hc0] at hrun
  refine key evs c0 c [] hT0 ?_ ?_ hrun
  · have : c0 = set_connection_state_recv E
        { state := .CONN_RECV,
          source_state := reset_source_state E
            { bev := bufferevent_socket_new, buffer := [], peek_offset := 0,
              parser := http_parser_zero, parser_settings := http_parser_settings_zero },
          target_state := { bev := none, parser := http_parser_zero,
                            parser_settings := http_parser_settings_zero },
          connecting := none } := by
      have h2 : accepted E = .ok (set_connection_state_recv E _) := rfl
      rw [hc0] at h2
      exact Outcome.ok.inj h2
    subst this
    exact {
      settings := rfl
      absent := fun _ => rfl
      present := by intro h1; exact absurd rfl h1
      running := fun _ => rfl
      paused := by intro hs; simp [set_connection_state_recv] at hs }
  · have h2 : accepted E = .ok (set_connection_state_recv E _) := rfl
    rw [hc0] at h2
    rw [Outcome.ok.inj h2]
    exact Nat.zero_le _

/-! ## Sample runs of the event loop -/

/-- The run that reads the GET request: the connection is in Connecting. -/
theorem run_get_connecting :
    reactor_run sample_env 4 [.source_data [sample_get]] (accepted sample_env)
      = .ok sample_get_connecting := by
  rw [accepted_sample, reactor_run_cons, step_get_read, reactor_run_nil]

/-- The run that reads the GET request and sees the origin connect: the
connection is in Forward. -/
theorem run_get_forward :
    reactor_run sample_env 4
      [.source_data [sample_get], .connect_what .BEV_EVENT_CONNECTED] (accepted sample_env)
      = .ok sample_get_forward := by
  rw [accepted_sample, reactor_run_cons, step_get_read, reactor_run_cons, step_get_connect,
    reactor_run_nil]

set_option maxRecDepth 100000 in
/-- The read of the sample response from the origin. -/
theorem step_get_response :
    reactor_step sample_env 4 (.target_data sample_response) sample_get_forward
      = .ok sample_get_complete := by decide

/-- The run that reads the GET request, sees the origin connect and reads the
response: the connection is in Complete. -/
theorem run_get_complete :
    reactor_run sample_env 4
      [.source_data [sample_get], .connect_what .BEV_EVENT_CONNECTED,
        .target_data sample_response] (accepted sample_env)
      = .ok sample_get_complete := by
  rw [accepted_sample, reactor_run_cons, step_get_read, reactor_run_cons, step_get_connect,
    reactor_run_cons, step_get_response, reactor_run_nil]

set_option maxRecDepth 100000 in
/-- The connect attempt of the GET connection ends with EOF. -/
theorem step_get_connect_eof :
    reactor_step sample_env 4 (.connect_what .BEV_EVENT_EOF) sample_get_connecting
      = .fault (.assertion 409) := by decide

set_option maxRecDepth 100000 in
/-- The connect attempt of the GET connection ends with an error. -/
theorem step_get_connect_error :
    reactor_step sample_env 4 (.connect_what .BEV_EVENT_ERROR) sample_get_connecting
      = .fault (.assertion 409) := by decide

/-! ## Connect failure -/

/-- C11, the code at the failing input.  The GET request is read, the
connection is in Connecting with nothing queued on the client and no origin
bufferevent stored in target_state, and the connect attempt then reports EOF
or an error: connect_event_cb fails its assert on line 409 that
target_state.bev is set, so the run ends in that failed assertion and the
connection is not freed. -/
theorem C11_connect_failure_asserts :
    reactor_run sample_env 4 [.source_data [sample_get]] (accepted sample_env)
      = .ok sample_get_connecting ∧
    sample_get_connecting.state = .CONN_CONNECTING ∧
    sample_get_connecting.target_state.bev = none ∧
    sample_get_connecting.source_state.bev.output = [] ∧
    reactor_run sample_env 4 [.source_data [sample_get], .connect_what .BEV_EVENT_EOF]
      (accepted sample_env) = .fault (.assertion 409) ∧
    reactor_run sample_env 4 [.source_data [sample_get], .connect_what .BEV_EVENT_ERROR]
      (accepted sample_env) = .fault (.assertion 409) := by
  refine ⟨run_get_connecting, rfl, rfl, rfl, ?_, ?_⟩
  · rw [accepted_sample, reactor_run_cons, step_get_read, reactor_run_cons,
      step_get_connect_eof, reactor_run_nil]
  · rw [accepted_sample, reactor_run_cons, step_get_read, reactor_run_cons,
      step_get_connect_error, reactor_run_nil]

/-! ## Every reachable connection -/

/-- C16: take any run of the event loop on a freshly accepted connection,
with any parser automaton, that leaves the connection c alive.  Then
peek_offset is at most the length of the client buffer in c, so at the return
of every call of the driver in the run; it is so in the connection the driver
is entered with when a read brings data, and when that call returns; it is so
in the connection the driver is entered with after a connect, and when that
call returns; and every call of the driver on a connection with the constant
parser settings returns with peek_offset at most the length of the buffer. -/
theorem C16_peek_offset_within (E : Env) (fuel : Nat) (evs : List reactor_event)
    (c : pproxy_connection) (hrun : reactor_run E fuel evs (accepted E) = .ok c) :
    peek_within c ∧
    (∀ data : evbuffer,
      source_read_cb E fuel
          { c with source_state := { c.source_state with
              bev := { c.source_state.bev with input := c.source_state.bev.input ++ data } } }
        = drive_request E fuel
          { c with source_state := { c.source_state with
              bev := { c.source_state.bev with input := [] },
              buffer := c.source_state.buffer ++ (c.source_state.bev.input ++ data) } } ∧
      peek_within
        { c with source_state := { c.source_state with
            bev := { c.source_state.bev with input := [] },
            buffer := c.source_state.buffer ++ (c.source_state.bev.input ++ data) } } ∧
      ∀ c', source_read_cb E fuel
          { c with source_state := { c.source_state with
              bev := { c.source_state.bev with input := c.source_state.bev.input ++ data } } }
        = .ok c' → peek_within c') ∧
    (∀ (bev : bufferevent) (c2 : pproxy_connection),
      (set_connection_state_direct_parsing { c with connecting := none } bev = .ok c2 ∨
        set_connection_state_recv_forward E { c with connecting := none } bev = .ok c2) →
      peek_within c2 ∧ ∀ c', drive_request E fuel c2 = .ok c' → peek_within c') ∧
    (∀ (n : Nat) (d d' : pproxy_connection),
      d.source_state.parser_settings = source_parser_settings →
      drive_request E n d = .ok d' → peek_within d') := by
  obtain ⟨hP, hW⟩ := reach_inv_reactor_run E fuel evs c hrun
  refine ⟨hW, ?_, ?_, ?_⟩
  · intro data
    refine ⟨rfl, ?_, ?_⟩
    · unfold peek_within evbuffer_get_length at hW ⊢
      simp only [evbuffer_bytes_append, List.length_append]
      omega
    · intro c' h
      unfold source_read_cb at h
      refine drive_request_peek E fuel _ c' ?_ h
      exact hP.settings
  · intro bev c2 hc2
    have h2 : c2.source_state.parser_settings = source_parser_settings ∧ peek_within c2 := by
      rcases hc2 with hc2 | hc2
      · obtain ⟨_, rfl⟩ := set_connection_state_direct_parsing_spec _ c2 bev hc2
        exact ⟨hP.settings, hW⟩
      · have hc := set_connection_state_recv_forward_spec E _ c2 bev hc2
        subst hc
        exact ⟨hP.settings, hW⟩
    exact ⟨h2.2, fun c' h => drive_request_peek E fuel c2 c' h2.1 h⟩
  · intro n d d' hd h
    exact drive_request_peek E n d d' hd h

/-- C16, on an input: after the read of the GET request peek_offset is 14
and the client buffer holds 26 bytes. -/
theorem C16_peek_offset_within_witness :
    reactor_run sample_env 4 [.source_data [sample_get]] (accepted sample_env)
      = .ok sample_get_connecting ∧
    sample_get_connecting.source_state.peek_offset = 14 ∧
    evbuffer_get_length sample_get_connecting.source_state.buffer = 26 ∧
    peek_within sample_get_connecting :=
  ⟨run_get_connecting, rfl, rfl,
    (C16_peek_offset_within sample_env 4 [.source_data [sample_get]] sample_get_connecting
      run_get_connecting).1⟩

/-- C17, at an input: after the read of the GET request the
connection is in Connecting and has no origin bufferevent; the bufferevent of
the connect attempt is with the reactor only. -/
theorem C17_connecting_without_origin :
    reactor_run sample_env 4 [.source_data [sample_get]] (accepted sample_env)
      = .ok sample_get_connecting ∧
    sample_get_connecting.state = .CONN_CONNECTING ∧
    ¬ ∃ tb, sample_get_connecting.target_state.bev = some tb := by
  refine ⟨run_get_connecting, rfl, ?_⟩
  rintro ⟨tb, h⟩
  cases h

/-- C17, amended: take any run of the event loop on a freshly accepted
connection, with any parser automaton, that leaves the connection alive.  The
origin bufferevent of the connection is absent when the phase is Recv or
Connecting and present when the phase is RecvForward, Forward, Complete,
DirectParsing or Direct. -/
theorem C17_origin_presence (E : Env) (fuel : Nat) (evs : List reactor_event)
    (c : pproxy_connection) (hrun : reactor_run E fuel evs (accepted E) = .ok c) :
    (c.state = .CONN_RECV ∨ c.state = .CONN_CONNECTING → c.target_state.bev = none) ∧
    (c.state = .CONN_RECV_FORWARD ∨ c.state = .CONN_FORWARD ∨ c.state = .CONN_COMPLETE ∨
      c.state = .CONN_DIRECT_PARSING ∨ c.state = .CONN_DIRECT →
      ∃ tb, c.target_state.bev = some tb) := by
  obtain ⟨hP, _⟩ := reach_inv_reactor_run E fuel evs c hrun
  refine ⟨hP.absent, ?_⟩
  intro hs
  apply hP.present
  · rcases hs with h | h | h | h | h <;> simp [h]
  · rcases hs with h | h | h | h | h <;> simp [h]

/-- C17 amended, on an input: after the GET request and the connect the
connection is in Forward and has an origin bufferevent. -/
theorem C17_origin_presence_witness :
    reactor_run sample_env 4
      [.source_data [sample_get], .connect_what .BEV_EVENT_CONNECTED] (accepted sample_env)
      = .ok sample_get_forward ∧
    sample_get_forward.state = .CONN_FORWARD ∧
    ∃ tb, sample_get_forward.target_state.bev = some tb :=
  ⟨run_get_forward, rfl,
    (C17_origin_presence sample_env 4 _ sample_get_forward run_get_forward).2
      (Or.inr (Or.inl rfl))⟩

/-- C19, at an input: after the GET request, the connect and the
response the connection is alive in phase Complete with the request parser
paused, so paused is not the same as being in Connecting, Forward or
Direct. -/
theorem C19_paused_in_complete :
    reactor_run sample_env 4
      [.source_data [sample_get], .connect_what .BEV_EVENT_CONNECTED,
        .target_data sample_response] (accepted sample_env)
      = .ok sample_get_complete ∧
    sample_get_complete.state = .CONN_COMPLETE ∧
    sample_get_complete.source_state.parser.http_errno = .HPE_PAUSED ∧
    ¬ (sample_get_complete.source_state.parser.http_errno = .HPE_PAUSED ↔
      (sample_get_complete.state = .CONN_CONNECTING ∨
        sample_get_complete.state = .CONN_FORWARD ∨
        sample_get_complete.state = .CONN_DIRECT)) := by
  refine ⟨run_get_complete, rfl, rfl, ?_⟩
  intro h
  have := h.mp rfl
  rcases this with h | h | h <;> cases h

/-- C19, amended: take any run of the event loop on a freshly accepted
connection, with any parser automaton, that leaves the connection alive, so
that control is back in the reactor.  The request parser is paused if and
only if the phase is Connecting, Forward, Complete or Direct, and it runs
(error code OK) if and only if the phase is Recv, RecvForward or
DirectParsing. -/
theorem C19_paused_phases (E : Env) (fuel : Nat) (evs : List reactor_event)
    (c : pproxy_connection) (hrun : reactor_run E fuel evs (accepted E) = .ok c) :
    (c.source_state.parser.http_errno = .HPE_PAUSED ↔
      (c.state = .CONN_CONNECTING ∨ c.state = .CONN_FORWARD ∨ c.state = .CONN_COMPLETE ∨
        c.state = .CONN_DIRECT)) ∧
    (c.source_state.parser.http_errno = .HPE_OK ↔
      (c.state = .CONN_RECV ∨ c.state = .CONN_RECV_FORWARD ∨
        c.state = .CONN_DIRECT_PARSING)) := by
  obtain ⟨hP, _⟩ := reach_inv_reactor_run E fuel evs c hrun
  have hcases : (c.state = .CONN_CONNECTING ∨ c.state = .CONN_FORWARD ∨
      c.state = .CONN_COMPLETE ∨ c.state = .CONN_DIRECT) ∨
      (c.state = .CONN_RECV ∨ c.state = .CONN_RECV_FORWARD ∨
        c.state = .CONN_DIRECT_PARSING) := by
    cases c.state <;> simp
  constructor
  · constructor
    · intro hp
      rcases hcases with h | h
      · exact h
      · have := hP.running h
        rw [hp] at this
        cases this
    · exact hP.paused
  · constructor
    · intro hp
      rcases hcases with h | h
      · have := hP.paused h
        rw [hp] at this
        cases this
      · exact h
    · exact hP.running

/-- C19 amended, on an input: after the GET request and the connect the
connection is in Forward with the request parser paused. -/
theorem C19_paused_phases_witness :
    reactor_run sample_env 4
      [.source_data [sample_get], .connect_what .BEV_EVENT_CONNECTED] (accepted sample_env)
      = .ok sample_get_forward ∧
    sample_get_forward.state = .CONN_FORWARD ∧
    sample_get_forward.source_state.parser.http_errno = .HPE_PAUSED :=
  ⟨run_get_forward, rfl,
    (C19_paused_phases sample_env 4 _ sample_get_forward run_get_forward).1.mpr
      (Or.inr (Or.inl rfl))⟩

/-! ## Evaluations at further inputs -/

set_option maxRecDepth 100000 in
/-- The read of the first two bytes of the GET request. -/
theorem step_ge_read :
    reactor_step sample_env 4 (.source_data [[71, 69]]) sample_accepted = .ok sample_ge_recv := by
  decide

set_option maxRecDepth 100000 in
/-- The read of the third byte of the GET request, T. -/
theorem step_ge_next :
    reactor_step sample_env 4 (.source_data [[84]]) sample_ge_recv
      = .fault .null_bufferevent := by decide

set_option maxRecDepth 100000 in
/-- One more byte from the client in phase Forward. -/
theorem step_forward_more :
    reactor_step sample_env 4 (.source_data [[120]]) sample_get_forward
      = .ok sample_get_forward_more := by decide

set_option maxRecDepth 100000 in
/-- The read that ends inside the url. -/
theorem step_url_a_read :
    reactor_step sample_env 4 (.source_data [sample_url_a]) sample_accepted
      = .ok sample_url_a_connecting := by decide

set_option maxRecDepth 100000 in
/-- The connect after the read that ended inside the url. -/
theorem step_url_a_connect :
    reactor_step sample_env 4 (.connect_what .BEV_EVENT_CONNECTED) sample_url_a_connecting
      = .ok sample_url_a_forward := by decide

set_option maxRecDepth 100000 in
/-- The read of the rest of the url. -/
theorem step_url_b_read :
    reactor_step sample_env 4 (.source_data [sample_url_b]) sample_url_a_forward
      = .fault (.assertion 185) := by decide

set_option maxRecDepth 100000 in
/-- The read of the first part of the CONNECT request. -/
theorem step_head_read :
    reactor_step sample_env 4 (.source_data [sample_connect_head]) sample_accepted
      = .ok sample_head_connecting := by decide

set_option maxRecDepth 100000 in
/-- The connect after the first part of the CONNECT request. -/
theorem step_head_connect :
    reactor_step sample_env 4 (.connect_what .BEV_EVENT_CONNECTED) sample_head_connecting
      = .ok sample_head_parsing := by decide

set_option maxRecDepth 100000 in
/-- The empty line of the CONNECT request arrives in DirectParsing. -/
theorem step_head_rest :
    reactor_step sample_env 4 (.source_data [[13, 10]]) sample_head_parsing
      = .ok sample_head_parsing := by decide

/-! ## A second read before the url is complete -/

/-- C22, the code at the failing input.  The client sends G E in one read and
T in the next.  After the first read the connection is in Recv with no origin
bufferevent, both bytes buffered and peek_offset 2.  On the second read the
driver starts in Recv with peek_offset positive, so its replay pass calls
write_atmost on the origin bufferevent, which is still null: the call is a
write through a null pointer, where the driver should have left the bytes
buffered and returned with peek_offset 3. -/
theorem C22_second_read_in_recv_writes_null :
    reactor_run sample_env 4 [.source_data [[71, 69]]] (accepted sample_env)
      = .ok sample_ge_recv ∧
    sample_ge_recv.state = .CONN_RECV ∧
    sample_ge_recv.source_state.peek_offset = 2 ∧
    sample_ge_recv.source_state.buffer = [[71, 69]] ∧
    sample_ge_recv.target_state.bev = none ∧
    reactor_step sample_env 4 (.source_data [[84]]) sample_ge_recv
      = .fault .null_bufferevent ∧
    drive_request sample_env 4
      { sample_ge_recv with
        source_state := { sample_ge_recv.source_state with buffer := [[71, 69], [84]] } }
      = .fault .null_bufferevent := by
  refine ⟨?_, rfl, rfl, rfl, rfl, step_ge_next, by decide⟩
  rw [accepted_sample, reactor_run_cons, step_ge_read, reactor_run_nil]

/-! ## Client reads in phase Forward -/

/-- C23, the code at the failing input.  After the GET request and the
connect the connection is in Forward, and reading is still enabled on the
client bufferevent with source_read_cb as its read callback: neither
source_message_complete nor set_connection_state_forward disables it.  One
more byte from the client runs the driver again in Forward; the byte ends up
in the client buffer. -/
theorem C23_forward_keeps_client_reads :
    reactor_run sample_env 4
      [.source_data [sample_get], .connect_what .BEV_EVENT_CONNECTED]
      (accepted sample_env) = .ok sample_get_forward ∧
    sample_get_forward.state = .CONN_FORWARD ∧
    sample_get_forward.source_state.bev.ev_read = true ∧
    sample_get_forward.source_state.bev.readcb = .source_read_cb ∧
    reactor_step sample_env 4 (.source_data [[120]]) sample_get_forward
      = .ok sample_get_forward_more ∧
    source_read_cb sample_env 4
      { sample_get_forward with
        source_state := { sample_get_forward.source_state with
          bev := { sample_get_forward.source_state.bev with input := [[120]] } } }
      = .ok sample_get_forward_more ∧
    sample_get_forward_more.source_state.buffer = [[120]] := by
  refine ⟨run_get_forward, rfl, rfl, rfl, step_forward_more, by decide, rfl⟩

/-! ## The replay pass on two extents -/

/-- C25, the code at the failing input.  write_atmost on a buffer of the two
extents PROPFIND-blank and http://h-blank-HTTP/1.1-CR-LF-CR-LF with len 18
returns 18 and drains 18 bytes, but what it appends to the bufferevent is the
first extent twice: the second piece is read at extents[0].iov_base.  The
first 18 bytes of the buffer are the first extent and then http://h and a
blank. -/
theorem C25_write_atmost_repeats_first_extent :
    write_atmost sample_env 2 [sample_req_head, sample_req_tail] 18
        (some bufferevent_socket_new)
      = .ok (18, [sample_req_tail.drop 9],
          some { bufferevent_socket_new with output := sample_req_head ++ sample_req_head }) ∧
    (evbuffer_bytes [sample_req_head, sample_req_tail]).take
        (min 18 (evbuffer_get_length [sample_req_head, sample_req_tail]))
      = sample_req_head ++ sample_req_tail.take 9 ∧
    sample_req_head ++ sample_req_head ≠ sample_req_head ++ sample_req_tail.take 9 := by
  refine ⟨by decide, by decide, by decide⟩

/-! ## A url that arrives in two reads -/

/-- C28, the code at the failing input.  The client sends GET http://a/ in
one read and http://b/ HTTP/1.1 with the empty line in the next.  The first
read ends inside the url, so the parser hands url_cb the part it has, and the
connection goes to Connecting and, on connect, to RecvForward.  The second
read ends the url: url_cb runs again, reaches set_connection_state_connecting
in phase RecvForward, and the assertion on its entry phase (line 185)
fails. -/
theorem C28_second_url_event_asserts :
    reactor_run sample_env 4
      [.source_data [sample_url_a], .connect_what .BEV_EVENT_CONNECTED]
      (accepted sample_env) = .ok sample_url_a_forward ∧
    sample_url_a_forward.state = .CONN_RECV_FORWARD ∧
    reactor_step sample_env 4 (.source_data [sample_url_b]) sample_url_a_forward
      = .fault (.assertion 185) ∧
    reactor_run sample_env 4
      [.source_data [sample_url_a], .connect_what .BEV_EVENT_CONNECTED,
       .source_data [sample_url_b]]
      (accepted sample_env) = .fault (.assertion 185) := by
  refine ⟨?_, rfl, step_url_b_read, ?_⟩
  · rw [accepted_sample, reactor_run_cons, step_url_a_read, reactor_run_cons,
      step_url_a_connect, reactor_run_nil]
  · rw [accepted_sample, reactor_run_cons, step_url_a_read, reactor_run_cons,
      step_url_a_connect, reactor_run_cons, step_url_b_read, reactor_run_nil]

/-! ## Client reads in phase DirectParsing -/

/-- C29, the code at the failing input.  The client sends the request line
of a CONNECT request and the empty line only later.  url_cb disables reading
on the client; after the connect the driver returns in DirectParsing with the
request incomplete, and reading on the client is still disabled, since
set_connection_state_direct_parsing does not enable it.  The empty line is
never read, and the connection stays as it is.  In RecvForward, after the
same kind of split, reading is enabled. -/
theorem C29_direct_parsing_reads_disabled :
    reactor_run sample_env 4
      [.source_data [sample_connect_head], .connect_what .BEV_EVENT_CONNECTED]
      (accepted sample_env) = .ok sample_head_parsing ∧
    sample_head_parsing.state = .CONN_DIRECT_PARSING ∧
    sample_head_parsing.source_state.bev.ev_read = false ∧
    reactor_step sample_env 4 (.source_data [[13, 10]]) sample_head_parsing
      = .ok sample_head_parsing ∧
    sample_url_a_forward.state = .CONN_RECV_FORWARD ∧
    sample_url_a_forward.source_state.bev.ev_read = true := by
  refine ⟨?_, rfl, rfl, step_head_rest, rfl, rfl⟩
  rw [accepted_sample, reactor_run_cons, step_head_read, reactor_run_cons,
    step_head_connect, reactor_run_nil]

/-! ## The memory under set_connection_target -/

/-- Writing NUL at a position and then the saved byte back leaves the memory
as it was. -/
theorem list_set_restore (mem : List Byte) (n : Nat) :
    (mem.set n 0).set n (mem.getD n 0) = mem := by
  induction mem generalizing n with
  | nil => simp
  | cons a rest ih =>
    cases n with
    | zero => simp
    | succ n =>
      have h := ih n
      simp only [List.set_cons_succ, List.getD_cons_succ] at h ⊢
      rw [h]

/-- C26: set_connection_target, called on any memory mem at the host pointer
with any host length and port.  In phase Recv it returns, and the memory it
leaves is mem: the byte behind the host, overwritten with NUL for the call,
has its old value again.  Whenever it returns, with return code 0 (the connect
attempt started) or not (it failed), the memory is mem and the client buffer
and the pending input of the client are as they were. -/
theorem C26_set_connection_target_restores (E : Env) (c : pproxy_connection)
    (mem : List Byte) (host_len port : Nat) :
    (c.state = .CONN_RECV →
      ∃ c1 rc, set_connection_target E c mem host_len port = .ok (c1, rc, mem)) ∧
    (∀ c1 rc m, set_connection_target E c mem host_len port = .ok (c1, rc, m) →
      m = mem ∧ c1.source_state.buffer = c.source_state.buffer ∧
      c1.source_state.bev.input = c.source_state.bev.input) := by
  constructor
  · intro hs
    unfold set_connection_target set_connection_state_connecting
    simp only [hs, ne_eq, not_true_eq_false, if_false, list_set_restore]
    split_ifs
    · exact ⟨_, _, rfl⟩
    · exact ⟨_, _, rfl⟩
  · intro c1 rc m h
    unfold set_connection_target set_connection_state_connecting at h
    simp only [list_set_restore] at h
    split_ifs at h with h3 h4
    · simp only [Except.ok.injEq, Prod.mk.injEq] at h
      rw [← h.1, ← h.2.2]
      exact ⟨rfl, rfl, rfl⟩
    · simp only [Except.ok.injEq, Prod.mk.injEq] at h
      rw [← h.1, ← h.2.2]
      exact ⟨rfl, rfl, rfl⟩

/-- C26, on an input: the freshly accepted sample connection and the memory
h / blank H, host length 1: the call returns with the memory unchanged. -/
theorem C26_set_connection_target_restores_witness :
    sample_accepted.state = .CONN_RECV ∧
    ∃ c1 rc, set_connection_target sample_env sample_accepted [104, 47, 32, 72] 1 80
      = .ok (c1, rc, [104, 47, 32, 72]) :=
  ⟨rfl, (C26_set_connection_target_restores sample_env sample_accepted [104, 47, 32, 72]
    1 80).1 rfl⟩

/-! ## How many bytes write_atmost takes -/

/-- The function xplat_min is the minimum. -/
theorem xplat_min_eq (x y : Nat) : xplat_min x y = min x y := by
  unfold xplat_min
  split_ifs <;> omega

/-- Bytes left after a drain. -/
theorem evbuffer_get_length_drain (b : evbuffer) (n : Nat) :
    evbuffer_get_length (evbuffer_drain b n) = evbuffer_get_length b - n := by
  simp [evbuffer_get_length, evbuffer_bytes_drain]

/-- The first two extents a peek reports hold no more bytes than the
buffer. -/
theorem peek_two_length (buffer : evbuffer) :
    (iovec (evbuffer_peek buffer 2).2 0).length + (iovec (evbuffer_peek buffer 2).2 1).length
      ≤ evbuffer_get_length buffer := by
  cases buffer with
  | nil => simp [evbuffer_peek, iovec]
  | cons e0 rest =>
    cases rest with
    | nil => simp [evbuffer_peek, iovec, evbuffer_get_length, evbuffer_bytes]
    | cons e1 rest =>
      simp [evbuffer_peek, iovec, evbuffer_get_length, evbuffer_bytes]

/-- A buffer of one extent holds the bytes of that extent. -/
theorem peek_one_length (buffer : evbuffer) (h : (evbuffer_peek buffer 2).1 = 1) :
    (iovec (evbuffer_peek buffer 2).2 0).length = evbuffer_get_length buffer := by
  cases buffer with
  | nil => simp [evbuffer_peek] at h
  | cons e0 rest =>
    cases rest with
    | nil => simp [evbuffer_peek, iovec, evbuffer_get_length, evbuffer_bytes]
    | cons e1 rest => simp [evbuffer_peek] at h

/-- The loop of write_atmost, when it returns: remain has gone down by the
bytes the buffer held, or to 0, and the buffer has lost that many bytes at its
front. -/
theorem write_atmost_loop_count (E : Env) :
    ∀ (fuel : Nat) (buffer : evbuffer) (remain : Nat) (bev : Option bufferevent)
      (r : Nat × evbuffer × Option bufferevent),
      write_atmost_loop E fuel buffer remain bev = .ok r →
      r.1 = remain - evbuffer_get_length buffer ∧
      evbuffer_bytes r.2.1 = (evbuffer_bytes buffer).drop remain := by
  intro fuel
  induction fuel with
  | zero =>
    intro buffer remain bev r h
    unfold write_atmost_loop at h
    split_ifs at h with h0
    simp only [Outcome.ok.injEq] at h
    subst h
    simp [h0]
  | succ fuel ih =>
    intro buffer remain bev r h
    unfold write_atmost_loop at h
    by_cases h0 : remain = 0
    · rw [if_pos h0] at h
      simp only [Outcome.ok.injEq] at h
      subst h
      simp [h0]
    · rw [if_neg h0] at h
      simp only at h
      by_cases h1 : (evbuffer_peek buffer 2).1 = 0
      · rw [if_pos h1] at h
        simp only [Outcome.ok.injEq] at h
        subst h
        have hb : buffer = [] := by
          cases buffer with
          | nil => rfl
          | cons e rest => simp [evbuffer_peek] at h1
        subst hb
        simp [evbuffer_get_length, evbuffer_bytes]
      · rw [if_neg h1] at h
        by_cases h2 : (evbuffer_peek buffer 2).1 = 1 ∧
            (iovec (evbuffer_peek buffer 2).2 0).length ≤ remain
        · rw [if_pos h2] at h
          cases bev with
          | none => simp at h
          | some b =>
            simp only [Outcome.ok.injEq] at h
            subst h
            have hl := peek_one_length buffer h2.1
            refine ⟨by simp only; rw [hl], ?_⟩
            simp only [bufferevent_write_buffer]
            rw [List.drop_eq_nil_of_le]
            · rfl
            · have := h2.2
              rw [hl] at this
              exact this
        · rw [if_neg h2] at h
          have hp := peek_two_length buffer
          cases bev with
          | none => simp [bev_write] at h
          | some b =>
            simp only [bev_write, xplat_min_eq] at h
            split_ifs at h with h3
            · obtain ⟨ha, hb⟩ := ih _ _ _ _ h
              rw [evbuffer_get_length_drain] at ha
              rw [evbuffer_bytes_drain, List.drop_drop] at hb
              refine ⟨by omega, ?_⟩
              rw [hb]
              congr 1
              omega
            · obtain ⟨ha, hb⟩ := ih _ _ _ _ h
              rw [evbuffer_get_length_drain] at ha
              rw [evbuffer_bytes_drain, List.drop_drop] at hb
              refine ⟨by omega, ?_⟩
              rw [hb]
              congr 1
              omega

/-- The loop of write_atmost stops only at a null bufferevent. -/
theorem write_atmost_loop_fault (E : Env) :
    ∀ (fuel : Nat) (buffer : evbuffer) (remain : Nat) (bev : Option bufferevent) (f : Fault),
      write_atmost_loop E fuel buffer remain bev = .fault f →
      f = .null_bufferevent ∧ bev = none := by
  intro fuel
  induction fuel with
  | zero =>
    intro buffer remain bev f h
    unfold write_atmost_loop at h
    split_ifs at h
  | succ fuel ih =>
    intro buffer remain bev f h
    unfold write_atmost_loop at h
    by_cases h0 : remain = 0
    · rw [if_pos h0] at h
      simp at h
    · rw [if_neg h0] at h
      simp only at h
      by_cases h1 : (evbuffer_peek buffer 2).1 = 0
      · rw [if_pos h1] at h
        simp at h
      · rw [if_neg h1] at h
        by_cases h2 : (evbuffer_peek buffer 2).1 = 1 ∧
            (iovec (evbuffer_peek buffer 2).2 0).length ≤ remain
        · rw [if_pos h2] at h
          cases bev with
          | none =>
            simp only [Outcome.fault.injEq] at h
            exact ⟨h.symm, rfl⟩
          | some b => simp at h
        · rw [if_neg h2] at h
          cases bev with
          | none =>
            simp only [bev_write, Outcome.fault.injEq] at h
            exact ⟨h.symm, rfl⟩
          | some b =>
            simp only [bev_write] at h
            split_ifs at h with h3
            · exact absurd (ih _ _ _ _ h).2 (by simp)
            · exact absurd (ih _ _ _ _ h).2 (by simp)

/-- The loop of write_atmost never frees the connection. -/
theorem write_atmost_loop_not_freed (E : Env) :
    ∀ (fuel : Nat) (buffer : evbuffer) (remain : Nat) (bev : Option bufferevent),
      write_atmost_loop E fuel buffer remain bev ≠ .freed := by
  intro fuel
  induction fuel with
  | zero =>
    intro buffer remain bev h
    unfold write_atmost_loop at h
    split_ifs at h
  | succ fuel ih =>
    intro buffer remain bev h
    unfold write_atmost_loop at h
    by_cases h0 : remain = 0
    · rw [if_pos h0] at h
      simp at h
    · rw [if_neg h0] at h
      simp only at h
      by_cases h1 : (evbuffer_peek buffer 2).1 = 0
      · rw [if_pos h1] at h
        simp at h
      · rw [if_neg h1] at h
        by_cases h2 : (evbuffer_peek buffer 2).1 = 1 ∧
            (iovec (evbuffer_peek buffer 2).2 0).length ≤ remain
        · rw [if_pos h2] at h
          cases bev with
          | none => simp at h
          | some b => simp at h
        · rw [if_neg h2] at h
          cases bev with
          | none => simp [bev_write] at h
          | some b =>
            simp only [bev_write] at h
            split_ifs at h with h3
            · exact ih _ _ _ h
            · exact ih _ _ _ h

/-- A round of write_atmost that goes on to another round has taken the first
two extents whole. -/
theorem drain_two_length (buffer : evbuffer) (remain : Nat)
    (h1 : (evbuffer_peek buffer 2).1 ≠ 0)
    (h2 : ¬((evbuffer_peek buffer 2).1 = 1 ∧
      (iovec (evbuffer_peek buffer 2).2 0).length ≤ remain))
    (h3 : remain - min (iovec (evbuffer_peek buffer 2).2 0).length remain ≠ 0)
    (h4 : remain - min (iovec (evbuffer_peek buffer 2).2 0).length remain
      - min (iovec (evbuffer_peek buffer 2).2 1).length
          (remain - min (iovec (evbuffer_peek buffer 2).2 0).length remain) ≠ 0) :
    (evbuffer_drain buffer
      (remain - (remain - min (iovec (evbuffer_peek buffer 2).2 0).length remain
        - min (iovec (evbuffer_peek buffer 2).2 1).length
            (remain - min (iovec (evbuffer_peek buffer 2).2 0).length remain)))).length + 1
      ≤ buffer.length := by
  cases buffer with
  | nil => simp [evbuffer_peek] at h1
  | cons e0 rest =>
    cases rest with
    | nil =>
      simp only [evbuffer_peek, List.length_singleton, true_and, iovec, List.take,
        List.getD_cons_zero, not_le] at h2 h3
      omega
    | cons e1 rest =>
      simp only [evbuffer_peek, iovec, List.take, List.getD_cons_zero, List.getD_cons_succ]
        at h3 h4 ⊢
      have hd : remain - (remain - min e0.length remain
          - min e1.length (remain - min e0.length remain)) = e0.length + e1.length := by
        omega
      rw [hd]
      unfold evbuffer_drain
      rw [if_pos (by omega)]
      unfold evbuffer_drain
      rw [if_pos (by omega)]
      have := evbuffer_drain_length_le rest (e0.length + e1.length - e0.length - e1.length)
      simp only [List.length_cons]
      omega

/-- With one unit of fuel per extent and one more the loop of write_atmost
does not run out of fuel. -/
theorem write_atmost_loop_total (E : Env) :
    ∀ (fuel : Nat) (buffer : evbuffer) (remain : Nat) (bev : Option bufferevent),
      buffer.length + 1 ≤ fuel →
      write_atmost_loop E fuel buffer remain bev ≠ .timeout := by
  intro fuel
  induction fuel with
  | zero => intro buffer remain bev hf; omega
  | succ fuel ih =>
    intro buffer remain bev hf h
    unfold write_atmost_loop at h
    by_cases h0 : remain = 0
    · rw [if_pos h0] at h
      simp at h
    · rw [if_neg h0] at h
      simp only at h
      by_cases h1 : (evbuffer_peek buffer 2).1 = 0
      · rw [if_pos h1] at h
        simp at h
      · rw [if_neg h1] at h
        by_cases h2 : (evbuffer_peek buffer 2).1 = 1 ∧
            (iovec (evbuffer_peek buffer 2).2 0).length ≤ remain
        · rw [if_pos h2] at h
          cases bev with
          | none => simp at h
          | some b => simp at h
        · rw [if_neg h2] at h
          cases bev with
          | none => simp [bev_write] at h
          | some b =>
            simp only [bev_write, xplat_min_eq] at h
            split_ifs at h with h3
            · unfold write_atmost_loop at h
              rw [if_pos h3] at h
              simp at h
            · by_cases h4 : remain - min (iovec (evbuffer_peek buffer 2).2 0).length remain
                  - min (iovec (evbuffer_peek buffer 2).2 1).length
                    (remain - min (iovec (evbuffer_peek buffer 2).2 0).length remain) = 0
              · unfold write_atmost_loop at h
                rw [if_pos h4] at h
                simp at h
              · have hl := drain_two_length buffer remain h1 h2 h3 h4
                exact ih _ _ _ (by omega) h

/-- What write_atmost returns on a bufferevent that is there: the count
min len length, a buffer that has lost as many bytes at its front, and a
bufferevent. -/
theorem write_atmost_some (E : Env) (fuel : Nat) (buffer : evbuffer) (len : Nat)
    (b : bufferevent) (hfuel : buffer.length + 1 ≤ fuel) :
    ∃ buffer' b', write_atmost E fuel buffer len (some b)
        = .ok (min len (evbuffer_get_length buffer), buffer', some b') ∧
      evbuffer_bytes buffer'
        = (evbuffer_bytes buffer).drop (min len (evbuffer_get_length buffer)) := by
  unfold write_atmost
  cases h : write_atmost_loop E fuel buffer len (some b) with
  | timeout => exact absurd h (write_atmost_loop_total E fuel buffer len _ hfuel)
  | freed => exact absurd h (write_atmost_loop_not_freed E fuel buffer len _)
  | fault f => exact absurd (write_atmost_loop_fault E fuel buffer len _ f h).2 (by simp)
  | ok r =>
    obtain ⟨rem, buffer', bev'⟩ := r
    obtain ⟨h1, h2⟩ := write_atmost_loop_count E fuel buffer len _ _ h
    have h3 := write_atmost_loop_frame E fuel buffer len _ _ h
    simp only at h1 h2 h3
    cases bev' with
    | none => simp at h3
    | some b' =>
      refine ⟨buffer', b', ?_, ?_⟩
      · simp only [Outcome.ok.injEq, Prod.mk.injEq, and_true]
        omega
      · rw [h2]
        by_cases hl : len ≤ evbuffer_get_length buffer
        · rw [Nat.min_eq_left hl]
        · rw [Nat.min_eq_right (by omega), List.drop_eq_nil_of_le, List.drop_eq_nil_of_le]
          · exact Nat.le_refl _
          · unfold evbuffer_get_length at hl
            omega

/-- The assertion of the replay pass holds whenever peek_offset counts bytes
of the client buffer. -/
theorem drive_replay_assertion (E : Env) (fuel : Nat) (c : pproxy_connection)
    (hw : peek_within c) : drive_replay E fuel c ≠ .fault (.assertion 627) := by
  intro h
  unfold drive_replay at h
  split_ifs at h with h1 h2
  unfold write_atmost at h
  cases hl : write_atmost_loop E fuel c.source_state.buffer c.source_state.peek_offset
      c.target_state.bev with
  | timeout => simp [hl] at h
  | freed => simp [hl] at h
  | fault f =>
    simp only [hl, Outcome.fault.injEq] at h
    have := (write_atmost_loop_fault E fuel _ _ _ f hl).1
    rw [h] at this
    exact absurd this (by simp)
  | ok r =>
    obtain ⟨rem, buffer', bev'⟩ := r
    obtain ⟨h3, _⟩ := write_atmost_loop_count E fuel _ _ _ _ hl
    simp only [hl] at h
    simp only at h3
    unfold peek_within at hw
    split_ifs at h with h4
    exact h4 (by omega)

/-- C27: write_atmost on any buffer, any len and a bufferevent that is there,
with one unit of fuel per extent and one more.  It returns min len length,
and the buffer it leaves holds the bytes of the old one without the first
min len length of them.  So the assertion written == peek_offset of the
replay pass (line 627) fails for no connection whose peek_offset is at most
the number of bytes in the client buffer, and with an origin bufferevent the
replay pass returns. -/
theorem C27_write_atmost_count (E : Env) (fuel : Nat) (buffer : evbuffer) (len : Nat)
    (b : bufferevent) (hfuel : buffer.length + 1 ≤ fuel) :
    (∃ buffer' b', write_atmost E fuel buffer len (some b)
        = .ok (min len (evbuffer_get_length buffer), buffer', some b') ∧
      evbuffer_bytes buffer'
        = (evbuffer_bytes buffer).drop (min len (evbuffer_get_length buffer))) ∧
    (∀ (c : pproxy_connection) (fuel' : Nat), peek_within c →
      drive_replay E fuel' c ≠ .fault (.assertion 627)) ∧
    (∀ c : pproxy_connection, c.source_state.buffer = buffer → c.target_state.bev = some b →
      peek_within c → ∃ c', drive_replay E fuel c = .ok c') := by
  refine ⟨write_atmost_some E fuel buffer len b hfuel,
    fun c fuel' hw => drive_replay_assertion E fuel' c hw, ?_⟩
  intro c hbuf hb hw
  unfold drive_replay
  split_ifs with h1 h2
  · obtain ⟨buffer', b', hwa, _⟩ :=
      write_atmost_some E fuel buffer c.source_state.peek_offset b hfuel
    rw [hbuf, hb, hwa]
    simp only
    unfold peek_within at hw
    rw [hbuf] at hw
    rw [if_neg (by simp only [ne_eq, not_not]; omega)]
    exact ⟨_, rfl⟩
  · exact ⟨_, rfl⟩
  · exact ⟨_, rfl⟩

set_option maxRecDepth 100000 in
/-- C27, on an input: the sample connection after the connect attempt of the
GET request, given the origin bufferevent; the replay pass takes the 14 bytes
peek_offset counts. -/
theorem C27_write_atmost_count_witness :
    [sample_get].length + 1 ≤ 2 ∧
    (∃ buffer' b', write_atmost sample_env 2 [sample_get] 14 (some sample_attempt.bev)
        = .ok (min 14 (evbuffer_get_length [sample_get]), buffer', some b') ∧
      evbuffer_bytes buffer'
        = (evbuffer_bytes [sample_get]).drop (min 14 (evbuffer_get_length [sample_get]))) :=
  ⟨by decide, (C27_write_atmost_count sample_env 2 [sample_get] 14 sample_attempt.bev
    (by decide)).1⟩

/-! ## Termination of the driver -/

/-- The loop of write_atmost leaves a buffer of at most as many extents. -/
theorem write_atmost_loop_length (E : Env) :
    ∀ (fuel : Nat) (buffer : evbuffer) (remain : Nat) (bev : Option bufferevent)
      (r : Nat × evbuffer × Option bufferevent),
      write_atmost_loop E fuel buffer remain bev = .ok r → r.2.1.length ≤ buffer.length := by
  intro fuel
  induction fuel with
  | zero =>
    intro buffer remain bev r h
    unfold write_atmost_loop at h
    split_ifs at h with h0
    simp only [Outcome.ok.injEq] at h
    subst h
    exact Nat.le_refl _
  | succ fuel ih =>
    intro buffer remain bev r h
    unfold write_atmost_loop at h
    by_cases h0 : remain = 0
    · rw [if_pos h0] at h
      simp only [Outcome.ok.injEq] at h
      subst h
      exact Nat.le_refl _
    · rw [if_neg h0] at h
      simp only at h
      by_cases h1 : (evbuffer_peek buffer 2).1 = 0
      · rw [if_pos h1] at h
        simp only [Outcome.ok.injEq] at h
        subst h
        exact Nat.le_refl _
      · rw [if_neg h1] at h
        by_cases h2 : (evbuffer_peek buffer 2).1 = 1 ∧
            (iovec (evbuffer_peek buffer 2).2 0).length ≤ remain
        · rw [if_pos h2] at h
          cases bev with
          | none => simp at h
          | some b =>
            simp only [Outcome.ok.injEq] at h
            subst h
            simp [bufferevent_write_buffer]
        · rw [if_neg h2] at h
          cases bev with
          | none => simp [bev_write] at h
          | some b =>
            simp only [bev_write] at h
            split_ifs at h with h3
            · exact (ih _ _ _ _ h).trans (evbuffer_drain_length_le _ _)
            · exact (ih _ _ _ _ h).trans (evbuffer_drain_length_le _ _)

/-- What the replay pass leaves when it returns: peek_offset is 0, the
client buffer has at most as many extents, and phase, request parser and its
settings are as before. -/
theorem drive_replay_shape (E : Env) (fuel : Nat) (c c0 : pproxy_connection)
    (h : drive_replay E fuel c = .ok c0) :
    c0.source_state.peek_offset = 0 ∧
    c0.source_state.buffer.length ≤ c.source_state.buffer.length ∧
    c0.state = c.state ∧ c0.source_state.parser = c.source_state.parser ∧
    c0.source_state.parser_settings = c.source_state.parser_settings := by
  unfold drive_replay at h
  split_ifs at h with h1 h2
  · unfold write_atmost at h
    cases hl : write_atmost_loop E fuel c.source_state.buffer c.source_state.peek_offset
        c.target_state.bev with
    | timeout => simp [hl] at h
    | freed => simp [hl] at h
    | fault f => simp [hl] at h
    | ok r =>
      obtain ⟨rem, buffer', bev'⟩ := r
      have hlen := write_atmost_loop_length E fuel _ _ _ _ hl
      simp only [hl] at h
      split_ifs at h with h4
      simp only [Outcome.ok.injEq] at h
      subst h
      exact ⟨rfl, hlen, rfl, rfl, rfl⟩
  · simp only [Outcome.ok.injEq] at h
    subst h
    exact ⟨rfl, evbuffer_drain_length_le _ _, rfl, rfl, rfl⟩
  · simp only [Outcome.ok.injEq] at h
    subst h
    exact ⟨by omega, Nat.le_refl _, rfl, rfl, rfl⟩

/-- With one unit of fuel per extent of the client buffer and one more the
replay pass does not run out of fuel. -/
theorem drive_replay_total (E : Env) (fuel : Nat) (c : pproxy_connection)
    (hf : c.source_state.buffer.length + 1 ≤ fuel) : drive_replay E fuel c ≠ .timeout := by
  intro h
  unfold drive_replay at h
  split_ifs at h with h1 h2
  unfold write_atmost at h
  cases hl : write_atmost_loop E fuel c.source_state.buffer c.source_state.peek_offset
      c.target_state.bev with
  | timeout => exact write_atmost_loop_total E fuel _ _ _ hf hl
  | freed => simp [hl] at h
  | fault f => simp [hl] at h
  | ok r =>
    obtain ⟨rem, buffer', bev'⟩ := r
    simp only [hl] at h
    split_ifs at h

/-- A round of the driver loop that asks for another round: the pointer has
moved on by parsed bytes and is skip bytes into the buffer again, the phase is
one in which the loop goes on, and phase, request parser and settings are as
before. -/
theorem drive_act_next (E : Env) (c c2 : pproxy_connection) (peek pk : evbuffer_ptr)
    (skip sk : Nat) (ext0 : List Byte) (parsed : Nat)
    (hpeek : peek = evbuffer_drain c.source_state.buffer skip)
    (h : drive_act E c peek skip ext0 parsed = .ok (c2, pk, sk, true)) :
    pk = evbuffer_drain peek parsed ∧ pk = evbuffer_drain c2.source_state.buffer sk ∧
    c2.state = c.state ∧ c2.source_state.parser = c.source_state.parser ∧
    c2.source_state.parser_settings = c.source_state.parser_settings ∧
    (c.state = .CONN_RECV ∨ c.state = .CONN_RECV_FORWARD ∨ c.state = .CONN_DIRECT_PARSING ∨
      c.state = .CONN_DIRECT) := by
  unfold drive_act at h
  cases hsw : drive_switch c.state with
  | error f => simp [hsw] at h
  | ok r =>
    obtain ⟨wd, l⟩ := r
    simp only [hsw] at h
    have hl : l = true → (c.state = .CONN_RECV ∨ c.state = .CONN_RECV_FORWARD ∨
        c.state = .CONN_DIRECT_PARSING ∨ c.state = .CONN_DIRECT) := by
      intro hlt
      subst hlt
      cases hs : c.state <;> simp [hs, drive_switch] at hsw ⊢
    cases wd with
    | true =>
      simp only [if_true] at h
      cases hb : bev_write c.target_state.bev (mem_read E ext0 parsed) with
      | error f => simp [hb] at h
      | ok b =>
        simp only [hb, evbuffer_ptr_set_zero, ne_eq, not_true_eq_false, if_false,
          Except.ok.injEq, Prod.mk.injEq] at h
        obtain ⟨h1, h2, h3, h4⟩ := h
        subst h1 h2 h3
        refine ⟨?_, rfl, rfl, rfl, rfl, hl h4⟩
        rw [hpeek, evbuffer_drain_drain, evbuffer_drain_drain, Nat.add_zero]
    | false =>
      simp only [Bool.false_eq_true, if_false, Except.ok.injEq, Prod.mk.injEq] at h
      obtain ⟨h1, h2, h3, h4⟩ := h
      subst h1 h3
      unfold evbuffer_ptr_set at h2 h4
      simp only at h2 h4
      by_cases hp : parsed ≤ evbuffer_get_length peek
      · rw [if_pos hp] at h2 h4
        simp only [ne_eq, not_true_eq_false, if_false] at h4
        simp only at h2
        refine ⟨h2.symm, ?_, rfl, rfl, rfl, hl h4⟩
        rw [← h2, hpeek, evbuffer_drain_drain]
      · rw [if_neg hp] at h4
        simp at h4

/-- A request parser call that leaves no error and a phase in which the
driver loop parses again has left the parser running, having taken the whole
extent. -/
theorem source_execute_running (E : Env) (c c1 : pproxy_connection) (ext : List Byte)
    (parsed : Nat)
    (hset : c.source_state.parser_settings = source_parser_settings)
    (hrun : c.state = .CONN_RECV ∨ c.state = .CONN_RECV_FORWARD ∨
      c.state = .CONN_DIRECT_PARSING → c.source_state.parser.http_errno = .HPE_OK)
    (hex : http_parser_execute E .source c ext = .ok (c1, parsed))
    (herr : is_http_error c1.source_state.parser = 0)
    (hs : c1.state = .CONN_RECV ∨ c1.state = .CONN_RECV_FORWARD ∨
      c1.state = .CONN_DIRECT_PARSING) :
    c1.source_state.parser.http_errno = .HPE_OK ∧ parsed = ext.length := by
  rcases source_execute_spec E c c1 ext parsed hset hex with ⟨_, rfl, rfl⟩ | ⟨_, _, hran, hall⟩
  · exact absurd (hrun hs) (by assumption)
  · have hok : c1.source_state.parser.http_errno = .HPE_OK := by
      cases hran with
      | more st m => rfl
      | failed c1 hf => exact absurd herr hf
      | connecting st m a hs' ha => simp at hs
      | forward st m hs' => simp at hs
      | direct st m tb hs' hb => simp at hs
    exact ⟨hok, hall hok⟩

/-- The driver loop ends.  With the request parser settings in place, the
parser running in the phases in which the loop parses on, and the pointer skip
bytes into the buffer, it does not run out of fuel when it has one unit per
extent behind the pointer and one more in phase Direct, and twice that
otherwise. -/
theorem drive_loop_total (E : Env) :
    ∀ (fuel : Nat) (c : pproxy_connection) (peek : evbuffer_ptr) (skip : Nat),
      c.source_state.parser_settings = source_parser_settings →
      (c.state = .CONN_RECV ∨ c.state = .CONN_RECV_FORWARD ∨
        c.state = .CONN_DIRECT_PARSING → c.source_state.parser.http_errno = .HPE_OK) →
      peek = evbuffer_drain c.source_state.buffer skip →
      (if c.state = .CONN_DIRECT then peek.length + 1 else 2 * peek.length + 2) ≤ fuel →
      drive_loop E fuel c peek skip ≠ .timeout := by
  intro fuel
  induction fuel with
  | zero =>
    intro c peek skip _ _ _ hf
    split_ifs at hf <;> omega
  | succ fuel ih =>
    intro c peek skip hset hrun hpeek hf h
    cases peek with
    | nil =>
      unfold drive_loop at h
      simp [evbuffer_peek] at h
    | cons ext0 tail =>
      unfold drive_loop at h
      simp only [evbuffer_peek, List.length_cons, Nat.add_one_ne_zero, if_false,
        List.take_succ_cons, List.take_zero, iovec, List.getD_cons_zero] at h
      have hhead := evbuffer_drain_head_length ext0 tail
      by_cases hd : c.state = .CONN_DIRECT
      · rw [if_neg (by simpa using hd)] at h
        rw [if_pos hd] at hf
        cases hact : drive_act E c (ext0 :: tail) skip ext0 ext0.length with
        | error f => simp [hact] at h
        | ok q =>
          obtain ⟨c2, pk, sk, lp⟩ := q
          simp only [hact] at h
          cases lp with
          | false => simp at h
          | true =>
            simp only [if_true] at h
            obtain ⟨hpk1, hpk2, hst, hpar, hset2, _⟩ :=
              drive_act_next E c c2 _ pk skip sk ext0 _ hpeek hact
            refine ih c2 pk sk (hset2.trans hset) ?_ hpk2 ?_ h
            · rw [hst, hd]
              intro hx
              rcases hx with hx | hx | hx <;> cases hx
            · rw [if_pos (hst.trans hd), hpk1]
              simp only [List.length_cons] at hf
              omega
      · rw [if_pos hd] at h
        rw [if_neg hd] at hf
        simp only [List.length_cons] at hf
        cases hex : http_parser_execute E .source c ext0 with
        | error f => simp [hex] at h
        | ok r =>
          obtain ⟨c1, parsed⟩ := r
          simp only [hex] at h
          by_cases herr : is_http_error c1.source_state.parser = 0
          · rw [if_neg (by simpa using herr)] at h
            obtain ⟨hbuf, hset1, hple⟩ := source_execute_buffer E c c1 ext0 parsed hset hex herr
            by_cases hd1 : c1.state = .CONN_DIRECT
            · rw [if_pos hd1] at h
              simp only [evbuffer_ptr_set_zero, ne_eq, not_true_eq_false, if_false] at h
              refine ih { c1 with source_state := { c1.source_state with
                  buffer := evbuffer_drain c1.source_state.buffer (parsed + skip) } }
                _ 0 (hset1.trans hset) ?_ rfl ?_ h
              · simp only [hd1]
                intro hx
                rcases hx with hx | hx | hx <;> cases hx
              · simp only [hd1, if_true]
                have hx : evbuffer_drain (evbuffer_drain c.source_state.buffer (parsed + skip)) 0
                    = evbuffer_drain (ext0 :: tail) parsed := by
                  rw [hpeek, evbuffer_drain_drain, evbuffer_drain_drain, Nat.add_zero,
                    Nat.add_comm]
                rw [hbuf, hx]
                have := evbuffer_drain_length_le (ext0 :: tail) parsed
                simp only [List.length_cons] at this
                omega
            · rw [if_neg hd1] at h
              cases hact : drive_act E c1 (ext0 :: tail) skip ext0 parsed with
              | error f => simp [hact] at h
              | ok q =>
                obtain ⟨c2, pk, sk, lp⟩ := q
                simp only [hact] at h
                cases lp with
                | false => simp at h
                | true =>
                  simp only [if_true] at h
                  obtain ⟨hpk1, hpk2, hst, hpar, hset2, hphase⟩ :=
                    drive_act_next E c1 c2 _ pk skip sk ext0 _ (hbuf ▸ hpeek) hact
                  have hphase1 : c1.state = .CONN_RECV ∨ c1.state = .CONN_RECV_FORWARD ∨
                      c1.state = .CONN_DIRECT_PARSING := by
                    rcases hphase with hx | hx | hx | hx
                    · exact Or.inl hx
                    · exact Or.inr (Or.inl hx)
                    · exact Or.inr (Or.inr hx)
                    · exact absurd hx hd1
                  obtain ⟨hok1, hall⟩ :=
                    source_execute_running E c c1 ext0 parsed hset hrun hex herr hphase1
                  refine ih c2 pk sk (hset2.trans (hset1.trans hset)) ?_ hpk2 ?_ h
                  · intro _
                    rw [hpar]
                    exact hok1
                  · rw [if_neg (by rw [hst]; exact hd1), hpk1, hall]
                    omega
          · rw [if_pos herr] at h
            simp at h

/-- The driver ends.  With the request parser settings in place and the
parser running in Recv, RecvForward and DirectParsing, drive_request does not
run out of fuel when it has two units per extent of the client buffer and two
more. -/
theorem drive_request_total (E : Env) (fuel : Nat) (c : pproxy_connection)
    (hset : c.source_state.parser_settings = source_parser_settings)
    (hrun : c.state = .CONN_RECV ∨ c.state = .CONN_RECV_FORWARD ∨
      c.state = .CONN_DIRECT_PARSING → c.source_state.parser.http_errno = .HPE_OK)
    (hf : 2 * c.source_state.buffer.length + 2 ≤ fuel) :
    drive_request E fuel c ≠ .timeout := by
  intro h
  unfold drive_request at h
  cases hrep : drive_replay E fuel c with
  | timeout => exact drive_replay_total E fuel c (by omega) hrep
  | freed => simp [hrep] at h
  | fault f => simp [hrep] at h
  | ok c0 =>
    obtain ⟨hpo, hlen, hst, hpar, hset0⟩ := drive_replay_shape E fuel c c0 hrep
    simp only [hrep, hpo, evbuffer_ptr_set_zero] at h
    have htot := drive_loop_total E fuel c0 (evbuffer_drain c0.source_state.buffer 0) 0
      (hset0.trans hset) (by rw [hst, hpar]; exact hrun) rfl (by
        have := evbuffer_drain_length_le c0.source_state.buffer 0
        split_ifs <;> omega)
    cases hl : drive_loop E fuel c0 (evbuffer_drain c0.source_state.buffer 0) 0 with
    | timeout => exact htot hl
    | freed => simp [hl] at h
    | fault f => simp [hl] at h
    | ok r =>
      obtain ⟨c1, sk⟩ := r
      simp only [hl] at h
      split_ifs at h

/-- The function write_atmost ends. -/
theorem write_atmost_total (E : Env) (fuel : Nat) (buffer : evbuffer) (len : Nat)
    (bev : Option bufferevent) (hf : buffer.length + 1 ≤ fuel) :
    write_atmost E fuel buffer len bev ≠ .timeout := by
  intro h
  unfold write_atmost at h
  cases hl : write_atmost_loop E fuel buffer len bev with
  | timeout => exact write_atmost_loop_total E fuel buffer len bev hf hl
  | freed => simp [hl] at h
  | fault f => simp [hl] at h
  | ok r =>
    obtain ⟨rem, buffer', bev'⟩ := r
    simp [hl] at h

/-- C30: take any run of the event loop on a freshly accepted connection,
with any parser automaton, that leaves the connection alive in c, in any phase.
The parser of the model takes every byte of an extent unless it pauses or
reports an error.  Every call of drive_request ends, with the loop of the
driver making at most two rounds per extent of the client buffer and two more:
the call source_read_cb makes when a read brings data; the call
connect_event_cb makes after a connect; and a call on c with any client
bufferevent, any finite client buffer B and any peek_offset in their place.
And write_atmost ends on every buffer, every len and every bufferevent, with
at most one round of its loop per extent and one more. -/
theorem C30_drive_request_terminates (E : Env) (f0 fuel : Nat) (evs : List reactor_event)
    (c : pproxy_connection) (hrun : reactor_run E f0 evs (accepted E) = .ok c) :
    (∀ data : evbuffer,
      2 * (c.source_state.buffer ++ (c.source_state.bev.input ++ data)).length + 2 ≤ fuel →
      source_read_cb E fuel
          { c with source_state := { c.source_state with
              bev := { c.source_state.bev with input := c.source_state.bev.input ++ data } } }
        ≠ .timeout) ∧
    (∀ (bev : bufferevent) (c2 : pproxy_connection),
      (set_connection_state_direct_parsing { c with connecting := none } bev = .ok c2 ∨
        set_connection_state_recv_forward E { c with connecting := none } bev = .ok c2) →
      2 * c2.source_state.buffer.length + 2 ≤ fuel → drive_request E fuel c2 ≠ .timeout) ∧
    (∀ (sb : bufferevent) (B : evbuffer) (po : Nat), 2 * B.length + 2 ≤ fuel →
      drive_request E fuel
          { c with source_state := { c.source_state with
              bev := sb, buffer := B, peek_offset := po } }
        ≠ .timeout) ∧
    (∀ (B : evbuffer) (len : Nat) (bev : Option bufferevent), B.length + 1 ≤ fuel →
      write_atmost E fuel B len bev ≠ .timeout) := by
  obtain ⟨hP, _⟩ := reach_inv_reactor_run E f0 evs c hrun
  refine ⟨?_, ?_, ?_, fun B len bev hf => write_atmost_total E fuel B len bev hf⟩
  · intro data hf
    unfold source_read_cb bufferevent_read_buffer
    exact drive_request_total E fuel _ hP.settings hP.running hf
  · intro bev c2 hc2 hf
    rcases hc2 with hc2 | hc2
    · obtain ⟨_, rfl⟩ := set_connection_state_direct_parsing_spec _ c2 bev hc2
      exact drive_request_total E fuel _ hP.settings (fun _ => rfl) hf
    · have hc := set_connection_state_recv_forward_spec E _ c2 bev hc2
      subst hc
      exact drive_request_total E fuel _ hP.settings (fun _ => rfl) hf
  · intro sb B po hf
    exact drive_request_total E fuel _ hP.settings hP.running hf

/-- C30, on an input: the sample connection after the GET request and the
connect; a call of the driver on it with the client buffer x y in two extents
ends within six rounds. -/
theorem C30_drive_request_terminates_witness :
    reactor_run sample_env 4
      [.source_data [sample_get], .connect_what .BEV_EVENT_CONNECTED]
      (accepted sample_env) = .ok sample_get_forward ∧
    drive_request sample_env 6
        { sample_get_forward with source_state := { sample_get_forward.source_state with
            bev := sample_get_forward.source_state.bev, buffer := [[120], [121]],
            peek_offset := 0 } }
      ≠ .timeout :=
  ⟨run_get_forward,
    (C30_drive_request_terminates sample_env 4 6 _ sample_get_forward run_get_forward).2.2.1
      sample_get_forward.source_state.bev [[120], [121]] 0 (by decide)⟩

/-! ## Bytes behind the end of the response -/

/-- A message ends after at least one byte. -/
theorem message_end_pos (E : Env) (t : http_parser_type) :
    ∀ (bs : List Byte) (st : Nat) (m : http_method) (k : Nat),
      message_end E t st m bs = some k → 0 < k := by
  intro bs
  induction bs with
  | nil => intro st m k h; simp [message_end] at h
  | cons b rest ih =>
    intro st m k h
    unfold message_end at h
    cases hev : (E.step t st m b).event with
    | pe_message_complete =>
      simp only [hev, Option.some.injEq] at h
      omega
    | pe_error code => simp [hev] at h
    | pe_none =>
      simp only [hev, Option.map_eq_some'] at h
      obtain ⟨k', _, rfl⟩ := h
      omega
    | pe_url =>
      simp only [hev, Option.map_eq_some'] at h
      obtain ⟨k', _, rfl⟩ := h
      omega

/-- The callback target_message_complete in phase Forward, called by the
running response parser. -/
theorem target_message_complete_forward (c : pproxy_connection) (tb : bufferevent)
    (hs : c.state = .CONN_FORWARD) (hb : c.target_state.bev = some tb)
    (hok : c.target_state.parser.http_errno = .HPE_OK) :
    target_message_complete .target c
      = .ok ({ c with
          state := .CONN_COMPLETE,
          target_state := { c.target_state with
            bev := some (bufferevent_disable tb true true),
            parser := { c.target_state.parser with http_errno := .HPE_PAUSED } } }, 0) := by
  unfold target_message_complete set_connection_state_complete
  simp only [hs, if_true, ne_eq, not_true_eq_false, if_false, hb]
  rw [pause_parser_of_ok .target _ true (Or.inl (by exact hok))]
  rfl

/-- The byte loop of the response parser in phase Forward, on the part rest
of an extent, when the message ends k bytes into rest followed by more: if the
end lies in rest the loop stops there, k bytes on, in phase Complete; else it
takes all of rest, stays in Forward with the parser running, and the message
ends in more. -/
theorem target_scan_end (E : Env) (ext : List Byte) :
    ∀ (rest : List Byte) (p : Nat) (mark : Option Nat) (c : pproxy_connection)
      (more : List Byte) (k : Nat) (tb : bufferevent),
      c.target_state.parser_settings = target_parser_settings →
      c.target_state.parser.http_errno = .HPE_OK →
      c.state = .CONN_FORWARD → c.target_state.bev = some tb →
      message_end E c.target_state.parser.type c.target_state.parser.state
        c.target_state.parser.method (rest ++ more) = some k →
      ∃ c' n, http_parser_scan E .target ext rest p mark c = .ok (c', n) ∧
        ((k ≤ rest.length ∧ n = p + k ∧ c'.state = .CONN_COMPLETE) ∨
         (rest.length < k ∧ n = p + rest.length ∧ c'.state = .CONN_FORWARD ∧
          c'.target_state.parser.http_errno = .HPE_OK ∧
          message_end E c'.target_state.parser.type c'.target_state.parser.state
            c'.target_state.parser.method more = some (k - rest.length))) := by
  intro rest
  induction rest with
  | nil =>
    intro p mark c more k tb hset hok hs hb hme
    have hk := message_end_pos E _ _ _ _ _ hme
    simp only [List.nil_append] at hme
    refine ⟨c, p, ?_, Or.inr ⟨by simpa using hk, rfl, hs, hok, by simpa using hme⟩⟩
    unfold http_parser_scan
    cases mark with
    | none => rfl
    | some m =>
      simp only [call_on_url, settings_of, hset, target_parser_settings,
        note_callback_result_zero]
  | cons b rest ih =>
    intro p mark c more k tb hset hok hs hb hme
    have hset1 : ∀ st, (parser_advance .target c st b).target_state.parser_settings
        = target_parser_settings := by
      intro st
      simpa [parser_advance, with_parser_of] using hset
    have hok1 : ∀ st, (parser_advance .target c st b).target_state.parser.http_errno
        = .HPE_OK := by
      intro st
      simpa [parser_advance, with_parser_of, parser_of] using hok
    have hs1 : ∀ st, (parser_advance .target c st b).state = .CONN_FORWARD := by
      intro st
      simpa [parser_advance, with_parser_of] using hs
    have hb1 : ∀ st, (parser_advance .target c st b).target_state.bev = some tb := by
      intro st
      simpa [parser_advance, with_parser_of] using hb
    simp only [List.cons_append] at hme
    unfold message_end at hme
    cases hev : (E.step (parser_of .target c).type (parser_of .target c).state
        (parser_of .target c).method b).event with
    | pe_error code =>
      simp only [parser_of] at hev
      simp [hev] at hme
    | pe_none =>
      rw [http_parser_scan_none _ _ _ _ _ _ _ _ hev]
      simp only [parser_of] at hev
      simp only [hev, Option.map_eq_some'] at hme
      obtain ⟨k', hk', rfl⟩ := hme
      obtain ⟨c', n, hscan, hcase⟩ := ih (p + 1) _ (parser_advance .target c _ b) more k' tb
        (hset1 _) (hok1 _) (hs1 _) (hb1 _)
        (by simpa [parser_advance, with_parser_of, parser_of] using hk')
      refine ⟨c', n, hscan, ?_⟩
      rcases hcase with ⟨h1, h2, h3⟩ | ⟨h1, h2, h3, h4, h5⟩
      · exact Or.inl ⟨by simp only [List.length_cons]; omega, by omega, h3⟩
      · refine Or.inr ⟨by simp only [List.length_cons]; omega,
          by simp only [List.length_cons]; omega, h3, h4, ?_⟩
        rw [h5]
        simp only [List.length_cons, Option.some.injEq]
        omega
    | pe_url =>
      rw [http_parser_scan_url _ _ _ _ _ _ _ _ hev]
      simp only [call_on_url, settings_of, hset1, target_parser_settings,
        note_callback_result_zero]
      rw [if_neg (by simpa [parser_of] using hok1 _)]
      simp only [parser_of] at hev
      simp only [hev, Option.map_eq_some'] at hme
      obtain ⟨k', hk', rfl⟩ := hme
      obtain ⟨c', n, hscan, hcase⟩ := ih (p + 1) none (parser_advance .target c _ b) more k' tb
        (hset1 _) (hok1 _) (hs1 _) (hb1 _)
        (by simpa [parser_advance, with_parser_of, parser_of] using hk')
      refine ⟨c', n, hscan, ?_⟩
      rcases hcase with ⟨h1, h2, h3⟩ | ⟨h1, h2, h3, h4, h5⟩
      · exact Or.inl ⟨by simp only [List.length_cons]; omega, by omega, h3⟩
      · refine Or.inr ⟨by simp only [List.length_cons]; omega,
          by simp only [List.length_cons]; omega, h3, h4, ?_⟩
        rw [h5]
        simp only [List.length_cons, Option.some.injEq]
        omega
    | pe_message_complete =>
      rw [http_parser_scan_message_complete _ _ _ _ _ _ _ _ hev]
      simp only [call_on_message_complete, settings_of, hset1, target_parser_settings]
      rw [target_message_complete_forward _ tb (hs1 _) (hb1 _) (hok1 _)]
      simp only [note_callback_result_zero, parser_of, ne_eq, reduceCtorEq,
        not_false_eq_true, if_true]
      simp only [parser_of] at hev
      simp only [hev, Option.some.injEq] at hme
      subst hme
      exact ⟨_, _, rfl, Or.inl ⟨by simp, rfl, rfl⟩⟩

/-- The response parser on one extent in phase Forward, when the message
ends k bytes into the extent followed by more. -/
theorem target_execute_end (E : Env) (c : pproxy_connection) (ext more : List Byte) (k : Nat)
    (tb : bufferevent)
    (hset : c.target_state.parser_settings = target_parser_settings)
    (hok : c.target_state.parser.http_errno = .HPE_OK)
    (hs : c.state = .CONN_FORWARD) (hb : c.target_state.bev = some tb)
    (hme : message_end E c.target_state.parser.type c.target_state.parser.state
      c.target_state.parser.method (ext ++ more) = some k) :
    ∃ c' parsed, http_parser_execute E .target c ext = .ok (c', parsed) ∧
      ((k ≤ ext.length ∧ parsed = k ∧ c'.state = .CONN_COMPLETE) ∨
       (ext.length < k ∧ parsed = ext.length ∧ c'.state = .CONN_FORWARD ∧
        c'.target_state.parser.http_errno = .HPE_OK ∧
        message_end E c'.target_state.parser.type c'.target_state.parser.state
          c'.target_state.parser.method more = some (k - ext.length))) := by
  unfold http_parser_execute
  simp only [parser_of]
  rw [if_neg (by simpa using hok)]
  obtain ⟨c', n, hscan, hcase⟩ := target_scan_end E ext ext 0
    (if E.in_url c.target_state.parser.state then some 0 else none) c more k tb hset hok hs hb hme
  refine ⟨c', n, hscan, ?_⟩
  simpa using hcase

/-- The loop of target_read_cb in phase Forward, when the message ends k
bytes into the pending origin input: with one unit of fuel per extent it
returns with the connection alive in phase Complete, and the response parser
has consumed k bytes. -/
theorem target_read_loop_end (E : Env) :
    ∀ (fuel : Nat) (c : pproxy_connection) (ext0 : List Byte) (tail : evbuffer)
      (be : bufferevent) (k : Nat),
      c.target_state.parser_settings = target_parser_settings →
      c.target_state.bev = some be →
      evbuffer_bytes be.input = evbuffer_bytes (ext0 :: tail) →
      c.state = .CONN_FORWARD →
      c.target_state.parser.http_errno = .HPE_OK →
      is_http_error c.source_state.parser = 0 →
      message_end E c.target_state.parser.type c.target_state.parser.state
        c.target_state.parser.method (evbuffer_bytes (ext0 :: tail)) = some k →
      (ext0 :: tail).length ≤ fuel →
      ∃ c', target_read_loop E fuel c (ext0 :: tail) ext0 = .ok c' ∧
        c'.state = .CONN_COMPLETE ∧
        c'.target_state.parser.consumed.length = c.target_state.parser.consumed.length + k := by
  intro fuel
  induction fuel with
  | zero => intro c ext0 tail be k _ _ _ _ _ _ _ h; simp at h
  | succ fuel ih =>
    intro c ext0 tail be k hset hb hbytes hs hok hsrc hme hfuel
    unfold target_read_loop
    rw [evbuffer_bytes_cons] at hme
    obtain ⟨c1, parsed, hex, hend⟩ :=
      target_execute_end E c ext0 (evbuffer_bytes tail) k be hset hok hs hb hme
    rw [hex]
    simp only
    obtain ⟨hple, hcons, hsrc1, hconn, hsets, hcase, _⟩ :=
      target_execute_frame E c c1 ext0 parsed be hset hb hex
    have hbe1 : ∃ be1 : bufferevent, c1.target_state.bev = some be1 ∧ be1.input = be.input := by
      rcases hcase with ⟨h1, h2⟩ | ⟨h1, h2, h3⟩
      · exact ⟨be, h2, rfl⟩
      · exact ⟨_, h3, rfl⟩
    obtain ⟨be1, hb1, hin1⟩ := hbe1
    rw [if_neg (by rw [hsrc1]; simpa using hsrc)]
    have hshort : ¬(parsed < ext0.length ∧ c1.state ≠ .CONN_COMPLETE) := by
      rcases hend with ⟨_, _, h3⟩ | ⟨_, h2, _⟩
      · exact fun h => h.2 h3
      · exact fun h => by omega
    rw [if_neg hshort, hb1]
    simp only
    have hlenp : parsed ≤ (evbuffer_bytes (ext0 :: tail)).length := by
      rw [evbuffer_bytes_cons, List.length_append]
      omega
    rw [evbuffer_ptr_set_add _ _ _ hlenp]
    simp only [if_true, evbuffer_peek]
    have hbytes1 : evbuffer_bytes be1.input = evbuffer_bytes (ext0 :: tail) := by
      rw [hin1, hbytes]
    obtain ⟨be2, hb2, hin2, hsplit, hout2, hrcb2, hecb2, hsout, hst2, hconn2, htp2, hts2,
      hss2, hbuf2, hpo2, hsp2, hsin2⟩ :=
      target_forward_spec E c1 be1 ext0 tail parsed hple hbytes1
    obtain ⟨c2, hc2⟩ : ∃ c2, c2 = target_forward E c1 be1 ext0 parsed
        (evbuffer_drain (ext0 :: tail) parsed).length := ⟨_, rfl⟩
    rw [← hc2] at hb2 hst2 hts2 htp2 hsp2 ⊢
    have hlen1 : c1.target_state.parser.consumed.length
        = c.target_state.parser.consumed.length + parsed := by
      rw [hcons, List.length_append, List.length_take, Nat.min_eq_left hple]
    rcases hend with ⟨hk, hp, hcomp⟩ | ⟨hk, hp, hfw, hok1, hme1⟩
    · rw [if_pos (hst2.trans hcomp)]
      refine ⟨c2, rfl, hst2.trans hcomp, ?_⟩
      rw [htp2, hlen1, hp]
    · rw [if_neg (by rw [hst2, hfw]; simp)]
      have hbt : evbuffer_bytes (evbuffer_drain (ext0 :: tail) parsed) = evbuffer_bytes tail := by
        rw [evbuffer_bytes_drain, evbuffer_bytes_cons, hp]
        simp
      cases hP : evbuffer_drain (ext0 :: tail) parsed with
      | nil =>
        rw [hP] at hbt
        rw [← hbt] at hme1
        simp [evbuffer_bytes, message_end] at hme1
      | cons e' t' =>
        rw [hP] at hin2 hbt
        simp only [List.length_cons, ne_eq, Nat.add_one_ne_zero, not_false_eq_true, if_true,
          List.take_succ_cons, List.take_zero, iovec, List.getD_cons_zero]
        have hl : (e' :: t').length ≤ fuel := by
          rw [← hP, hp]
          have := evbuffer_drain_head_length ext0 tail
          simp only [List.length_cons] at hfuel
          omega
        obtain ⟨c', hloop, hcomp', hlen'⟩ := ih c2 e' t' be2 (k - ext0.length)
          (by rw [hts2, hsets, hset]) hb2 hin2 (hst2.trans hfw) (by rw [htp2]; exact hok1)
          (by rw [hsp2, hsrc1]; exact hsrc) (by rw [htp2, hbt]; exact hme1) hl
        refine ⟨c', hloop, hcomp', ?_⟩
        rw [hlen', htp2, hlen1, hp]
        omega

/-- C24: target_read_cb in phase Forward, with the response parser running
and no error on the request parser, on an origin bufferevent be whose pending
input, in any number of extents, holds the end of the response message k
bytes in (message_end), whatever follows it in the same extent or in later
ones, and with fuel for one round per extent.  The callback returns with the
connection alive in phase Complete; what it has queued on the client is
exactly the first k pending bytes, the bytes up to the end of the message; and
the bytes behind the end of the message are all still in the origin input,
none of them queued on the client. -/
theorem C24_excess_not_forwarded (E : Env) (fuel : Nat) (c : pproxy_connection)
    (be : bufferevent) (k : Nat)
    (hs : c.state = .CONN_FORWARD) (hb : c.target_state.bev = some be)
    (hset : c.target_state.parser_settings = target_parser_settings)
    (hok : c.target_state.parser.http_errno = .HPE_OK)
    (hsrc : is_http_error c.source_state.parser = 0)
    (hend : message_end E c.target_state.parser.type c.target_state.parser.state
      c.target_state.parser.method (evbuffer_bytes be.input) = some k)
    (hfuel : be.input.length ≤ fuel) :
    ∃ (c' : pproxy_connection) (be' : bufferevent),
      target_read_cb E fuel c = .ok c' ∧ c'.state = .CONN_COMPLETE ∧
      c'.target_state.bev = some be' ∧
      c'.source_state.bev.output
        = c.source_state.bev.output ++ (evbuffer_bytes be.input).take k ∧
      evbuffer_bytes be'.input = (evbuffer_bytes be.input).drop k := by
  have hkey : ∃ c', target_read_cb E fuel c = .ok c' ∧ c'.state = .CONN_COMPLETE ∧
      c'.target_state.parser.consumed.length = c.target_state.parser.consumed.length + k := by
    unfold target_read_cb
    rw [hb]
    simp only [evbuffer_ptr_set_zero, evbuffer_peek]
    have hbytes0 := evbuffer_bytes_drain_zero be.input
    cases hP : evbuffer_drain be.input 0 with
    | nil =>
      rw [hP] at hbytes0
      rw [← hbytes0] at hend
      simp [evbuffer_bytes, message_end] at hend
    | cons ext0 tail =>
      rw [hP] at hbytes0
      simp only [List.length_cons, Nat.add_one_ne_zero, if_false, List.take_succ_cons,
        List.take_zero, iovec, List.getD_cons_zero]
      have hl : (ext0 :: tail).length ≤ fuel := by
        rw [← hP]
        exact (evbuffer_drain_length_le _ _).trans hfuel
      obtain ⟨c1, hloop, hcomp, hlen⟩ := target_read_loop_end E fuel c ext0 tail be k hset hb
        hbytes0.symm hs hok hsrc (by rw [hbytes0]; exact hend) hl
      rw [hloop]
      simp only
      rw [if_pos hcomp]
      exact ⟨_, rfl, hcomp, hlen⟩
  obtain ⟨c', hcb, hcomp, hlen⟩ := hkey
  obtain ⟨Q, be', h1, h2, h3, h4, _⟩ := target_read_cb_spec E fuel c c' be hset hb hcb
  have hQ : Q.length = k := by
    rw [h4, List.length_append] at hlen
    omega
  refine ⟨c', be', hcb, hcomp, h1, ?_, ?_⟩
  · rw [h3, h2, ← hQ, List.take_left']
    rfl
  · rw [h2, ← hQ, List.drop_left']
    rfl

set_option maxRecDepth 100000 in
/-- The sample response ends 16 bytes in, counted by the response parser of
the sample connection. -/
theorem sample_response_end :
    message_end sample_env sample_get_pending.target_state.parser.type
      sample_get_pending.target_state.parser.state
      sample_get_pending.target_state.parser.method
      (evbuffer_bytes sample_response_bev.input) = some 16 := by decide

/-- C24, on an input: the sample connection in phase Forward with the sample
response pending in two extents, z z behind its end in the second; the
callback returns in Complete with the 16 bytes of the response queued on the
client and z z left in the origin input. -/
theorem C24_excess_not_forwarded_witness :
    sample_get_pending.state = .CONN_FORWARD ∧
    (evbuffer_bytes sample_response_bev.input).drop 16 = [122, 122] ∧
    ∃ (c' : pproxy_connection) (be' : bufferevent),
      target_read_cb sample_env 2 sample_get_pending = .ok c' ∧
      c'.state = .CONN_COMPLETE ∧ c'.target_state.bev = some be' ∧
      c'.source_state.bev.output
        = sample_get_pending.source_state.bev.output
          ++ (evbuffer_bytes sample_response_bev.input).take 16 ∧
      evbuffer_bytes be'.input = (evbuffer_bytes sample_response_bev.input).drop 16 :=
  ⟨rfl, by decide,
    C24_excess_not_forwarded sample_env 2 sample_get_pending sample_response_bev 16 rfl rfl rfl
      (by decide) (by decide) sample_response_end (by decide)⟩

/-! ## The assertion in the Complete arm of the driver -/

/-- Pausing a parser stops only at a parser in an error state. -/
theorem pause_parser_of_fault (side : Side) (c : pproxy_connection) (paused : Bool) (f : Fault)
    (h : pause_parser_of side c paused = .error f) : f = .pause_in_error_state := by
  unfold pause_parser_of http_parser_pause at h
  split_ifs at h
  simp only [Except.error.injEq] at h
  exact h.symm

/-- The callback url_cb stops only at the assertion of
set_connection_state_connecting or in http_parser_pause. -/
theorem url_cb_fault (E : Env) (side : Side) (c : pproxy_connection) (d : List Byte) (l : Nat)
    (f : Fault) (h : url_cb E side c d l = .error f) :
    f = .assertion 185 ∨ f = .pause_in_error_state := by
  unfold url_cb at h
  simp only at h
  generalize (E.parse_url (List.take l d)
    (decide ((parser_of side c).method = http_method.HTTP_CONNECT))) = pu at h
  by_cases h1 : pu.1 = 0
  · rw [if_neg (by simpa using h1)] at h
    by_cases h2 : pu.2.field_set.testBit UF_HOST = true
    · rw [if_neg (by simpa using h2)] at h
      unfold set_connection_target at h
      simp only at h
      generalize (if pu.2.field_set.testBit UF_PORT = true then
        atoi (List.drop pu.2.port_off d) % 65536 else 80) = port at h
      generalize c_string ((List.drop pu.2.host_off d).set pu.2.host_len 0) = host at h
      cases hc : set_connection_state_connecting E c host port with
      | error f' =>
        rw [hc] at h
        simp only [Except.error.injEq] at h
        subst h
        unfold set_connection_state_connecting at hc
        split_ifs at hc
        simp only [Except.error.injEq] at hc
        exact Or.inl hc.symm
      | ok r =>
        obtain ⟨c1, rc1⟩ := r
        rw [hc] at h
        simp only at h
        by_cases h3 : rc1 = 0
        · rw [if_neg (by simpa using h3)] at h
          cases hp : pause_parser_of side c1 true with
          | error f' =>
            rw [hp] at h
            simp only [Except.error.injEq] at h
            subst h
            exact Or.inr (pause_parser_of_fault side c1 true f' hp)
          | ok c2 => rw [hp] at h; cases h
        · rw [if_pos (by simpa using h3)] at h
          cases h
    · rw [if_pos (by simpa using h2)] at h
      cases h
  · rw [if_pos (by simpa using h1)] at h
    cases h

/-- The callback source_message_complete stops only at its own assertions,
those of the setters it calls, or in http_parser_pause. -/
theorem source_message_complete_fault (side : Side) (c : pproxy_connection) (f : Fault)
    (h : source_message_complete side c = .error f) :
    f = .assertion 242 ∨ f = .assertion 271 ∨ f = .assertion 272 ∨ f = .assertion 329 ∨
      f = .pause_in_error_state := by
  unfold source_message_complete at h
  simp only at h
  cases hs : c.state <;> simp only [hs] at h
  all_goals first
    | (simp only [Except.error.injEq] at h
       exact Or.inr (Or.inr (Or.inr (Or.inl h.symm))))
    | (cases hr : set_connection_state_forward c with
       | error f' =>
         rw [hr] at h
         simp only [Except.error.injEq] at h
         subst h
         unfold set_connection_state_forward at hr
         split_ifs at hr
         simp only [Except.error.injEq] at hr
         exact Or.inl hr.symm
       | ok c1 =>
         rw [hr] at h
         simp only at h
         cases hp : pause_parser_of side c1 true with
         | error f' =>
           rw [hp] at h
           simp only [Except.error.injEq] at h
           subst h
           exact Or.inr (Or.inr (Or.inr (Or.inr (pause_parser_of_fault side c1 true f' hp))))
         | ok c2 => rw [hp] at h; cases h)
    | (cases hr : set_connection_state_direct c with
       | error f' =>
         rw [hr] at h
         simp only [Except.error.injEq] at h
         subst h
         unfold set_connection_state_direct at hr
         split_ifs at hr
         · simp only [Except.error.injEq] at hr
           exact Or.inr (Or.inl hr.symm)
         · cases hb : c.target_state.bev with
           | none =>
             rw [hb] at hr
             simp only [Except.error.injEq] at hr
             exact Or.inr (Or.inr (Or.inl hr.symm))
           | some tb => rw [hb] at hr; cases hr
       | ok c1 =>
         rw [hr] at h
         simp only at h
         cases hp : pause_parser_of side c1 true with
         | error f' =>
           rw [hp] at h
           simp only [Except.error.injEq] at h
           subst h
           exact Or.inr (Or.inr (Or.inr (Or.inr (pause_parser_of_fault side c1 true f' hp))))
         | ok c2 => rw [hp] at h; cases h)

/-- The callback target_message_complete stops only at its own assertion, in
set_connection_state_complete, or in http_parser_pause. -/
theorem target_message_complete_fault (side : Side) (c : pproxy_connection) (f : Fault)
    (h : target_message_complete side c = .error f) :
    f = .assertion 249 ∨ f = .null_bufferevent ∨ f = .assertion 312 ∨
      f = .pause_in_error_state := by
  unfold target_message_complete at h
  split_ifs at h with h1 h2
  · cases hr : set_connection_state_complete c with
    | error f' =>
      rw [hr] at h
      simp only [Except.error.injEq] at h
      subst h
      unfold set_connection_state_complete at hr
      split_ifs at hr
      · simp only [Except.error.injEq] at hr
        exact Or.inl hr.symm
      · cases hb : c.target_state.bev with
        | none =>
          rw [hb] at hr
          simp only [Except.error.injEq] at hr
          exact Or.inr (Or.inl hr.symm)
        | some tb => rw [hb] at hr; cases hr
    | ok c1 =>
      rw [hr] at h
      simp only at h
      cases hp : pause_parser_of side c1 true with
      | error f' =>
        rw [hp] at h
        simp only [Except.error.injEq] at h
        subst h
        exact Or.inr (Or.inr (Or.inr (pause_parser_of_fault side c1 true f' hp)))
      | ok c2 => rw [hp] at h; cases h
  · simp only [Except.error.injEq] at h
    exact Or.inr (Or.inr (Or.inl h.symm))

/-- No parser callback stops at the assertion of the driver (line 705). -/
theorem call_on_url_fault (E : Env) (side : Side) (c : pproxy_connection) (d : List Byte)
    (l : Nat) (f : Fault) (h : call_on_url E side c d l = .error f) : f ≠ .assertion 705 := by
  unfold call_on_url at h
  cases hu : (settings_of side c).on_url with
  | none => rw [hu] at h; cases h
  | some cb =>
    cases cb
    rw [hu] at h
    simp only at h
    rcases url_cb_fault E side c d l f h with rfl | rfl <;> simp

/-- No message-complete callback stops at the assertion of the driver. -/
theorem call_on_message_complete_fault (side : Side) (c : pproxy_connection) (f : Fault)
    (h : call_on_message_complete side c = .error f) : f ≠ .assertion 705 := by
  unfold call_on_message_complete at h
  cases hu : (settings_of side c).on_message_complete with
  | none => rw [hu] at h; cases h
  | some cb =>
    cases cb with
    | source_message_complete =>
      rw [hu] at h
      simp only at h
      rcases source_message_complete_fault side c f h with rfl | rfl | rfl | rfl | rfl <;> simp
    | target_message_complete =>
      rw [hu] at h
      simp only at h
      rcases target_message_complete_fault side c f h with rfl | rfl | rfl | rfl <;> simp

/-- The byte loop of the parser never stops at the assertion of the
driver. -/
theorem http_parser_scan_fault (E : Env) (side : Side) (ext : List Byte) :
    ∀ (rest : List Byte) (p : Nat) (mark : Option Nat) (c : pproxy_connection) (f : Fault),
      http_parser_scan E side ext rest p mark c = .error f → f ≠ .assertion 705 := by
  intro rest
  induction rest with
  | nil =>
    intro p mark c f h
    unfold http_parser_scan at h
    cases mark with
    | none => cases h
    | some m =>
      simp only at h
      cases hu : call_on_url E side c (ext.drop m) (p - m) with
      | error f' =>
        rw [hu] at h
        simp only [Except.error.injEq] at h
        subst h
        exact call_on_url_fault E side c _ _ f' hu
      | ok r => obtain ⟨c1, rc⟩ := r; rw [hu] at h; cases h
  | cons b rest ih =>
    intro p mark c f h
    cases hev : (E.step (parser_of side c).type (parser_of side c).state
        (parser_of side c).method b).event with
    | pe_error code =>
      rw [http_parser_scan_error _ _ _ _ _ _ _ _ _ hev] at h
      cases h
    | pe_none =>
      rw [http_parser_scan_none _ _ _ _ _ _ _ _ hev] at h
      exact ih _ _ _ _ h
    | pe_url =>
      rw [http_parser_scan_url _ _ _ _ _ _ _ _ hev] at h
      cases hu : call_on_url E side (parser_advance side c (E.step (parser_of side c).type
          (parser_of side c).state (parser_of side c).method b) b)
          (ext.drop (mark.getD p)) (p - mark.getD p) with
      | error f' =>
        rw [hu] at h
        simp only [Except.error.injEq] at h
        subst h
        exact call_on_url_fault E side _ _ _ f' hu
      | ok r =>
        obtain ⟨c1, rc⟩ := r
        rw [hu] at h
        simp only at h
        split_ifs at h
        exact ih _ _ _ _ h
    | pe_message_complete =>
      rw [http_parser_scan_message_complete _ _ _ _ _ _ _ _ hev] at h
      cases hu : call_on_message_complete side (parser_advance side c (E.step
          (parser_of side c).type (parser_of side c).state (parser_of side c).method b) b) with
      | error f' =>
        rw [hu] at h
        simp only [Except.error.injEq] at h
        subst h
        exact call_on_message_complete_fault side _ f' hu
      | ok r =>
        obtain ⟨c1, rc⟩ := r
        rw [hu] at h
        simp only at h
        split_ifs at h
        exact ih _ _ _ _ h

/-- A parser call never stops at the assertion of the driver. -/
theorem http_parser_execute_fault (E : Env) (side : Side) (c : pproxy_connection)
    (ext : List Byte) (f : Fault) (h : http_parser_execute E side c ext = .error f) :
    f ≠ .assertion 705 := by
  unfold http_parser_execute at h
  simp only at h
  split_ifs at h
  all_goals exact http_parser_scan_fault E side ext _ _ _ _ f h

/-- The switch and write of one round of the driver loop stop at the
assertion of the Complete arm only in phase Complete. -/
theorem drive_act_fault (E : Env) (c : pproxy_connection) (peek : evbuffer_ptr) (skip : Nat)
    (ext0 : List Byte) (parsed : Nat) (f : Fault) (hs : c.state ≠ .CONN_COMPLETE)
    (h : drive_act E c peek skip ext0 parsed = .error f) : f ≠ .assertion 705 := by
  unfold drive_act at h
  cases hsw : drive_switch c.state with
  | error f' =>
    exfalso
    cases hst : c.state <;> simp [hst, drive_switch] at hsw hs
  | ok r =>
    obtain ⟨wd, l⟩ := r
    simp only [hsw] at h
    cases wd with
    | false => simp at h
    | true =>
      simp only [if_true] at h
      cases hb : c.target_state.bev with
      | none =>
        simp only [hb, bev_write, Except.error.injEq] at h
        subst h
        simp
      | some b => simp [hb, bev_write] at h

/-- A request parser call that leaves no error does not lead into phase
Complete. -/
theorem source_execute_phase (E : Env) (c c1 : pproxy_connection) (ext : List Byte)
    (parsed : Nat)
    (hset : c.source_state.parser_settings = source_parser_settings)
    (hs : c.state ≠ .CONN_COMPLETE)
    (hex : http_parser_execute E .source c ext = .ok (c1, parsed))
    (herr : is_http_error c1.source_state.parser = 0) : c1.state ≠ .CONN_COMPLETE := by
  rcases source_execute_spec E c c1 ext parsed hset hex with ⟨_, rfl, _⟩ | ⟨_, _, hran, _⟩
  · exact hs
  · cases hran with
    | more st m => exact hs
    | failed c1 hf => exact absurd herr hf
    | connecting st m a hs' ha => simp
    | forward st m hs' => simp
    | direct st m tb hs' hb => simp

/-- The driver loop, entered outside phase Complete, never stops at the
assertion of the Complete arm. -/
theorem drive_loop_fault (E : Env) :
    ∀ (fuel : Nat) (c : pproxy_connection) (peek : evbuffer_ptr) (skip : Nat) (f : Fault),
      c.source_state.parser_settings = source_parser_settings →
      c.state ≠ .CONN_COMPLETE →
      drive_loop E fuel c peek skip = .fault f → f ≠ .assertion 705 := by
  intro fuel
  induction fuel with
  | zero => intro c peek skip f _ _ h; simp [drive_loop] at h
  | succ fuel ih =>
    intro c peek skip f hset hs h
    unfold drive_loop at h
    simp only at h
    by_cases he : (evbuffer_peek peek 1).1 = 0
    · rw [if_pos he] at h
      cases h
    · rw [if_neg he] at h
      by_cases hd : c.state = .CONN_DIRECT
      · rw [if_neg (by simpa using hd)] at h
        cases hact : drive_act E c peek skip (iovec (evbuffer_peek peek 1).2 0)
            (iovec (evbuffer_peek peek 1).2 0).length with
        | error f' =>
          simp only [hact, Outcome.fault.injEq] at h
          subst h
          exact drive_act_fault E c peek skip _ _ f' hs hact
        | ok q =>
          obtain ⟨c2, pk, sk, lp⟩ := q
          simp only [hact] at h
          obtain ⟨B, tbv, _, hc2⟩ := drive_act_frame E c c2 peek pk skip sk _ _ lp hact
          cases lp with
          | false => simp at h
          | true =>
            simp only [if_true] at h
            exact ih c2 pk sk f (by rw [hc2]; exact hset) (by rw [hc2]; exact hs) h
      · rw [if_pos hd] at h
        cases hex : http_parser_execute E .source c (iovec (evbuffer_peek peek 1).2 0) with
        | error f' =>
          simp only [hex, Outcome.fault.injEq] at h
          subst h
          exact http_parser_execute_fault E .source c _ f' hex
        | ok r =>
          obtain ⟨c1, parsed⟩ := r
          simp only [hex] at h
          by_cases herr : is_http_error c1.source_state.parser = 0
          · rw [if_neg (by simpa using herr)] at h
            obtain ⟨_, hset1, _⟩ := source_execute_buffer E c c1 _ parsed hset hex herr
            have hs1 := source_execute_phase E c c1 _ parsed hset hs hex herr
            by_cases hd1 : c1.state = .CONN_DIRECT
            · rw [if_pos hd1] at h
              split_ifs at h with hr
              exact ih { c1 with source_state := { c1.source_state with
                  buffer := evbuffer_drain c1.source_state.buffer (parsed + skip) } }
                _ 0 f (hset1.trans hset) hs1 h
            · rw [if_neg hd1] at h
              cases hact : drive_act E c1 peek skip (iovec (evbuffer_peek peek 1).2 0)
                  parsed with
              | error f' =>
                simp only [hact, Outcome.fault.injEq] at h
                subst h
                exact drive_act_fault E c1 peek skip _ _ f' hs1 hact
              | ok q =>
                obtain ⟨c2, pk, sk, lp⟩ := q
                simp only [hact] at h
                obtain ⟨B, tbv, _, hc2⟩ := drive_act_frame E c1 c2 peek pk skip sk _ _ lp hact
                cases lp with
                | false => simp at h
                | true =>
                  simp only [if_true] at h
                  exact ih c2 pk sk f (by rw [hc2]; exact hset1.trans hset)
                    (by rw [hc2]; exact hs1) h
          · rw [if_pos herr] at h
            cases h

/-- The driver, entered outside phase Complete, never stops at the assertion
of the Complete arm. -/
theorem drive_request_fault (E : Env) (fuel : Nat) (c : pproxy_connection) (f : Fault)
    (hset : c.source_state.parser_settings = source_parser_settings)
    (hs : c.state ≠ .CONN_COMPLETE)
    (h : drive_request E fuel c = .fault f) : f ≠ .assertion 705 := by
  unfold drive_request at h
  cases hrep : drive_replay E fuel c with
  | timeout => simp [hrep] at h
  | freed => simp [hrep] at h
  | fault f' =>
    simp only [hrep, Outcome.fault.injEq] at h
    subst h
    unfold drive_replay at hrep
    split_ifs at hrep with h1 h2
    unfold write_atmost at hrep
    cases hl : write_atmost_loop E fuel c.source_state.buffer c.source_state.peek_offset
        c.target_state.bev with
    | timeout => simp [hl] at hrep
    | freed => simp [hl] at hrep
    | fault f2 =>
      simp only [hl, Outcome.fault.injEq] at hrep
      subst hrep
      rw [(write_atmost_loop_fault E fuel _ _ _ f2 hl).1]
      simp
    | ok r =>
      obtain ⟨rem, buffer', bev'⟩ := r
      simp only [hl] at hrep
      split_ifs at hrep
      simp only [Outcome.fault.injEq] at hrep
      subst hrep
      simp
  | ok c0 =>
    obtain ⟨hpo, _, hst, _, hset0⟩ := drive_replay_shape E fuel c c0 hrep
    simp only [hrep] at h
    cases hl : drive_loop E fuel c0
        (evbuffer_ptr_set c0.source_state.buffer [] c0.source_state.peek_offset
          .EVBUFFER_PTR_SET).2 0 with
    | timeout => simp [hl] at h
    | freed => simp [hl] at h
    | fault f' =>
      simp only [hl, Outcome.fault.injEq] at h
      subst h
      exact drive_loop_fault E fuel c0 _ 0 f' (hset0.trans hset) (by rw [hst]; exact hs) hl
    | ok r =>
      obtain ⟨c1, sk⟩ := r
      simp only [hl] at h
      split_ifs at h

/-- The driver, entered outside phase Complete on a connection with
CallbackInv, returns outside phase Complete on a connection with
CallbackInv. -/
theorem callback_inv_drive_request (E : Env) (fuel : Nat) (c c' : pproxy_connection)
    (hset : c.source_state.parser_settings = source_parser_settings)
    (hs : c.state ≠ .CONN_COMPLETE) (hI : CallbackInv c)
    (h : drive_request E fuel c = .ok c') : c'.state ≠ .CONN_COMPLETE ∧ CallbackInv c' := by
  have key := drive_request_preserves E
    (fun x => x.source_state.parser_settings = source_parser_settings ∧
      x.state ≠ .CONN_COMPLETE ∧ CallbackInv x)
    (fun x hx => hx.1) ?_ ?_ ?_ fuel c c' ⟨hset, hs, hI⟩ h
  · exact ⟨key.2.1, key.2.2⟩
  · intro x B po tbv hx htbv
    refine ⟨hx.1, hx.2.1, ?_⟩
    exact {
      detached := fun hc => absurd hc hx.2.1
      replaced := by
        intro hst
        obtain ⟨tb, hb, he⟩ := hx.2.2.replaced hst
        simp only at hst ⊢
        rw [hb] at htbv
        cases tbv with
        | none => simp at htbv
        | some tb' =>
          simp only [Option.map_some', Option.some.injEq] at htbv
          refine ⟨tb', rfl, ?_⟩
          have := congrArg (fun b => b.eventcb) htbv
          simp only [without_output] at this
          rw [this]
          exact he
      pending := hx.2.2.pending }
  · intro x x' bs hx hok hran herr
    cases hran with
    | more st m =>
      exact ⟨hx.1, hx.2.1,
        { detached := fun hc => absurd hc hx.2.1
          replaced := hx.2.2.replaced
          pending := hx.2.2.pending }⟩
    | failed x' hf => exact absurd herr hf
    | connecting st m a hs' ha =>
      exact ⟨hx.1, by simp,
        { detached := by intro hc; simp at hc
          replaced := by intro hc; simp at hc
          pending := fun _ _ => rfl }⟩
    | forward st m hs' =>
      exact ⟨hx.1, by simp,
        { detached := by intro hc; simp at hc
          replaced := fun _ => hx.2.2.replaced (Or.inl hs')
          pending := by
            intro a ha
            have := hx.2.2.pending a ha
            rw [hs'] at this
            cases this }⟩
    | direct st m tb hs' hb =>
      exact ⟨hx.1, by simp,
        { detached := by intro hc; simp at hc
          replaced := by intro hc; simp at hc
          pending := by
            intro a ha
            have := hx.2.2.pending a ha
            rw [hs'] at this
            cases this }⟩
  · intro x hx hd
    exact ⟨hx.1, hx.2.1,
      { detached := fun hc => absurd hc hx.2.1
        replaced := hx.2.2.replaced
        pending := hx.2.2.pending }⟩

/-- When target_read_cb returns in phase Complete, the client bufferevent has
no read callback. -/
theorem target_read_cb_detaches (E : Env) (fuel : Nat) (c c' : pproxy_connection)
    (h : target_read_cb E fuel c = .ok c') (hc : c'.state = .CONN_COMPLETE) :
    c'.source_state.bev.readcb = .none := by
  unfold target_read_cb at h
  cases hb : c.target_state.bev with
  | none => simp [hb] at h
  | some be =>
    simp only [hb] at h
    split_ifs at h with h0
    cases hl : target_read_loop E fuel c
        (evbuffer_ptr_set be.input [] 0 .EVBUFFER_PTR_SET).2
        (iovec (evbuffer_peek (evbuffer_ptr_set be.input [] 0 .EVBUFFER_PTR_SET).2 1).2 0)
      with
    | freed => simp [hl] at h
    | fault f => simp [hl] at h
    | timeout => simp [hl] at h
    | ok c1 =>
      simp only [hl] at h
      split_ifs at h with h1
      · simp only [Outcome.ok.injEq] at h
        subst h
        rfl
      · simp only [Outcome.ok.injEq] at h
        subst h
        exact absurd hc h1

/-- CallbackInv survives connect_event_cb, called on a connection with no
connect attempt left with the reactor. -/
theorem callback_inv_connect_event_cb (E : Env) (fuel : Nat) (bev : bufferevent)
    (what : bev_event) (c c' : pproxy_connection) (hI : CallbackInv c)
    (hset : c.source_state.parser_settings = source_parser_settings)
    (hcn : c.connecting = none)
    (h : connect_event_cb E fuel bev what c = .ok c') : CallbackInv c' := by
  cases what with
  | BEV_EVENT_CONNECTED =>
    simp only [connect_event_cb] at h
    have hcases : ∃ c2, (set_connection_state_direct_parsing c bev = .ok c2 ∨
        set_connection_state_recv_forward E c bev = .ok c2) ∧
        drive_request E fuel c2 = .ok c' := by
      cases hm : c.source_state.parser.method <;> simp only [hm] at h <;>
        first
        | (cases hr : set_connection_state_recv_forward E c bev with
           | error f => simp [hr] at h
           | ok c2 => exact ⟨c2, Or.inr rfl, by simpa [hr] using h⟩)
        | (cases hr : set_connection_state_direct_parsing c bev with
           | error f => simp [hr] at h
           | ok c2 => exact ⟨c2, Or.inl rfl, by simpa [hr] using h⟩)
    obtain ⟨c2, hc2, hdrive⟩ := hcases
    rcases hc2 with hc2 | hc2
    · obtain ⟨_, hc2eq⟩ := set_connection_state_direct_parsing_spec c c2 bev hc2
      refine (callback_inv_drive_request E fuel c2 c' ?_ ?_ ?_ hdrive).2
      · rw [hc2eq]; exact hset
      · rw [hc2eq]; simp
      · rw [hc2eq]
        exact {
          detached := by intro hc; simp at hc
          replaced := by intro hc; simp at hc
          pending := by intro a ha; simp [hcn] at ha }
    · have hc2eq := set_connection_state_recv_forward_spec E c c2 bev hc2
      refine (callback_inv_drive_request E fuel c2 c' ?_ ?_ ?_ hdrive).2
      · rw [hc2eq]; exact hset
      · rw [hc2eq]; simp
      · rw [hc2eq]
        exact {
          detached := by intro hc; simp at hc
          replaced := fun _ => ⟨_, rfl, rfl⟩
          pending := by intro a ha; simp [hcn] at ha }
  | BEV_EVENT_EOF =>
    simp only [connect_event_cb] at h
    split_ifs at h
  | BEV_EVENT_ERROR =>
    simp only [connect_event_cb] at h
    split_ifs at h
  | BEV_EVENT_TIMEOUT =>
    simp only [connect_event_cb, Outcome.ok.injEq] at h
    exact h ▸ hI

/-- CallbackInv survives every dispatch of the event loop that leaves the
connection alive. -/
theorem callback_inv_reactor_step (E : Env) (fuel : Nat) (ev : reactor_event)
    (c c' : pproxy_connection) (rx : List Byte) (hT : TunnelInv c rx) (hP : PhaseInv c)
    (hI : CallbackInv c) (h : reactor_step E fuel ev c = .ok c') : CallbackInv c' := by
  have hframe : ∀ sb : bufferevent, sb.readcb = c.source_state.bev.readcb →
      CallbackInv { c with source_state := { c.source_state with bev := sb } } := by
    intro sb hsb
    exact {
      detached := fun hc => hsb.trans (hI.detached hc)
      replaced := hI.replaced
      pending := hI.pending }
  cases ev with
  | source_data data =>
    simp only [reactor_step] at h
    split_ifs at h with hcond
    · simp only [Outcome.ok.injEq] at h
      exact h ▸ hI
    · cases hr : c.source_state.bev.readcb with
      | source_read_cb =>
        simp only [hr] at h
        unfold source_read_cb bufferevent_read_buffer at h
        have hs : c.state ≠ .CONN_COMPLETE := by
          intro hc
          have := hI.detached hc
          rw [hr] at this
          cases this
        refine (callback_inv_drive_request E fuel _ c' ?_ ?_ ?_ h).2
        · exact hP.settings
        · exact hs
        · exact {
            detached := fun hc => absurd hc hs
            replaced := hI.replaced
            pending := hI.pending }
      | direct_source_read_cb =>
        simp only [hr] at h
        unfold direct_source_read_cb at h
        cases hb : c.target_state.bev with
        | none => simp [hb] at h
        | some tb =>
          simp only [hb, Outcome.ok.injEq] at h
          subst h
          exact {
            detached := by
              intro hc
              have := hI.detached hc
              rw [hr] at this
              cases this
            replaced := by
              intro hc
              obtain ⟨tb', hb', he⟩ := hI.replaced hc
              rw [hb] at hb'
              cases hb'
              exact ⟨_, rfl, by simpa [move_buffers, bufferevent_write_buffer] using he⟩
            pending := hI.pending }
      | none =>
        simp only [hr, Outcome.ok.injEq] at h
        subst h
        exact hframe _ hr.symm
      | target_read_cb =>
        simp only [hr, Outcome.ok.injEq] at h
        subst h
        exact hframe _ hr.symm
      | direct_target_read_cb =>
        simp only [hr, Outcome.ok.injEq] at h
        subst h
        exact hframe _ hr.symm
  | source_what what =>
    simp only [reactor_step] at h
    cases he : c.source_state.bev.eventcb <;> simp only [he] at h <;>
      first
      | (simp only [Outcome.ok.injEq] at h; exact h ▸ hI)
      | (cases what <;>
          simp [source_event_cb, direct_source_event_cb, close_event_cb] at h)
  | source_drained =>
    simp only [reactor_step] at h
    cases hw : c.source_state.bev.writecb with
    | none =>
      simp only [hw, Outcome.ok.injEq] at h
      exact h ▸ hI
    | source_last_write_cb => simp [hw, source_last_write_cb] at h
  | connect_what what =>
    simp only [reactor_step] at h
    cases hc : c.connecting with
    | none =>
      simp only [hc, Outcome.ok.injEq] at h
      exact h ▸ hI
    | some a =>
      simp only [hc] at h
      refine callback_inv_connect_event_cb E fuel a.bev what _ c' ?_ ?_ ?_ h
      · exact {
          detached := hI.detached
          replaced := hI.replaced
          pending := by intro a' ha'; simp at ha' }
      · exact hP.settings
      · rfl
  | target_data data =>
    simp only [reactor_step] at h
    cases hb : c.target_state.bev with
    | none =>
      simp only [hb, Outcome.ok.injEq] at h
      exact h ▸ hI
    | some tb =>
      simp only [hb] at h
      split_ifs at h with hcond
      · simp only [Outcome.ok.injEq] at h
        exact h ▸ hI
      · have hin : ∀ tb2 : bufferevent, tb2.eventcb = tb.eventcb →
            CallbackInv { c with target_state := { c.target_state with bev := some tb2 } } := by
          intro tb2 htb2
          exact {
            detached := hI.detached
            replaced := by
              intro hc
              obtain ⟨tb', hb', he⟩ := hI.replaced hc
              rw [hb] at hb'
              cases hb'
              exact ⟨_, rfl, htb2.trans he⟩
            pending := hI.pending }
        cases hr : tb.readcb with
        | target_read_cb =>
          simp only [hr] at h
          have hts := hT.response tb hb hr
          have hrel := target_read_cb_spec E fuel
            { c with target_state := { c.target_state with
                bev := some { tb with input := tb.input ++ data, readcb := .target_read_cb } } }
            c' { tb with input := tb.input ++ data, readcb := .target_read_cb } hts rfl h
          obtain ⟨Q, be', h1, _, _, _, _, _, h7, h8, h9, _⟩ := hrel
          exact {
            detached := fun hc => target_read_cb_detaches E fuel _ c' h hc
            replaced := by
              intro hc
              refine ⟨be', h1, ?_⟩
              rw [h7]
              have hc0 : c.state = .CONN_RECV_FORWARD ∨ c.state = .CONN_FORWARD ∨
                  c.state = .CONN_COMPLETE := by
                rcases h8 with h8 | ⟨h8, _⟩
                · simp only at h8
                  rw [← h8]
                  exact hc
                · exact Or.inr (Or.inl h8)
              obtain ⟨tb', hb', he⟩ := hI.replaced hc0
              rw [hb] at hb'
              cases hb'
              exact he
            pending := by
              intro a ha
              rw [h9] at ha
              have hst := hI.pending a ha
              rcases h8 with h8 | ⟨h8, _⟩
              · simp only at h8
                rw [h8]
                exact hst
              · simp only at h8
                rw [hst] at h8
                cases h8 }
        | direct_target_read_cb =>
          simp only [hr] at h
          unfold direct_target_read_cb at h
          simp only [Outcome.ok.injEq] at h
          subst h
          exact {
            detached := by
              intro hc
              simpa [move_buffers, bufferevent_write_buffer] using hI.detached hc
            replaced := by
              intro hc
              obtain ⟨tb', hb', he⟩ := hI.replaced hc
              rw [hb] at hb'
              cases hb'
              exact ⟨_, rfl, by simpa [move_buffers, bufferevent_write_buffer] using he⟩
            pending := hI.pending }
        | none =>
          simp only [hr, Outcome.ok.injEq] at h
          subst h
          exact hin _ rfl
        | source_read_cb =>
          simp only [hr, Outcome.ok.injEq] at h
          subst h
          exact hin _ rfl
        | direct_source_read_cb =>
          simp only [hr, Outcome.ok.injEq] at h
          subst h
          exact hin _ rfl
  | target_what what =>
    simp only [reactor_step] at h
    cases hb : c.target_state.bev with
    | none =>
      simp only [hb, Outcome.ok.injEq] at h
      exact h ▸ hI
    | some tb =>
      simp only [hb] at h
      cases he : tb.eventcb with
      | connect_event_cb =>
        simp only [he] at h
        have hcn : c.connecting = none := by
          cases hcc : c.connecting with
          | none => rfl
          | some a =>
            have := hP.absent (Or.inr (hI.pending a hcc))
            rw [hb] at this
            cases this
        exact callback_inv_connect_event_cb E fuel tb what c c' hI hP.settings hcn h
      | target_event_cb =>
        simp only [he] at h
        cases what <;> simp [target_event_cb, close_event_cb] at h
      | direct_target_event_cb =>
        simp only [he] at h
        cases what <;> simp [direct_target_event_cb, close_event_cb] at h
      | none =>
        simp only [he, Outcome.ok.injEq] at h
        exact h ▸ hI
      | source_event_cb =>
        simp only [he, Outcome.ok.injEq] at h
        exact h ▸ hI
      | direct_source_event_cb =>
        simp only [he, Outcome.ok.injEq] at h
        exact h ▸ hI

/-- TunnelInv, PhaseInv and CallbackInv hold of the connection a run of the
event loop on a freshly accepted connection leaves alive. -/
theorem callback_inv_reactor_run (E : Env) (fuel : Nat) (evs : List reactor_event)
    (c : pproxy_connection) (hrun : reactor_run E fuel evs (accepted E) = .ok c) :
    PhaseInv c ∧ CallbackInv c := by
  have key : ∀ (evs : List reactor_event) (c0 c : pproxy_connection) (rx : List Byte),
      TunnelInv c0 rx → PhaseInv c0 → peek_within c0 → CallbackInv c0 →
      reactor_run E fuel evs (.ok c0) = .ok c → PhaseInv c ∧ CallbackInv c := by
    intro evs
    induction evs with
    | nil =>
      intro c0 c rx _ hP _ hI h
      simp only [reactor_run, Outcome.ok.injEq] at h
      exact h ▸ ⟨hP, hI⟩
    | cons ev evs ih =>
      intro c0 c rx hT hP hW hI h
      rw [reactor_run_cons] at h
      cases hstep : reactor_step E fuel ev c0 with
      | ok c1 =>
        rw [hstep] at h
        obtain ⟨hP1, hW1⟩ := reach_inv_reactor_step E fuel ev c0 c1 rx hT hP hW hstep
        exact ih c1 c _ (tunnel_inv_reactor_step E fuel ev c0 c1 rx hT hstep) hP1 hW1
          (callback_inv_reactor_step E fuel ev c0 c1 rx hT hP hI hstep) h
      | freed =>
        rw [hstep] at h
        exact absurd h (reactor_run_gone E fuel evs _ c (by simp))
      | fault f =>
        rw [hstep] at h
        exact absurd h (reactor_run_gone E fuel evs _ c (by simp))
      | timeout =>
        rw [hstep] at h
        exact absurd h (reactor_run_gone E fuel evs _ c (by simp))
  obtain ⟨c0, hc0, hT0⟩ := tunnel_inv_accepted E
  rw [hc0] at hrun
  have hc0' : c0 = set_connection_state_recv E
      { state := .CONN_RECV,
        source_state := reset_source_state E
          { bev := bufferevent_socket_new, buffer := [], peek_offset := 0,
            parser := http_parser_zero, parser_settings := http_parser_settings_zero },
        target_state := { bev := none, parser := http_parser_zero,
                          parser_settings := http_parser_settings_zero },
        connecting := none } := by
    have : accepted E = .ok (set_connection_state_recv E
      { state := .CONN_RECV,
        source_state := reset_source_state E
          { bev := bufferevent_socket_new, buffer := [], peek_offset := 0,
            parser := http_parser_zero, parser_settings := http_parser_settings_zero },
        target_state := { bev := none, parser := http_parser_zero,
                          parser_settings := http_parser_settings_zero },
        connecting := none }) := rfl
    rw [this] at hc0
    simp only [Outcome.ok.injEq] at hc0
    exact hc0.symm
  obtain ⟨hP0, hW0⟩ := reach_inv_reactor_run E fuel [] c0 (by rw [hc0]; rfl)
  refine key evs c0 c [] hT0 hP0 hW0 ?_ hrun
  subst hc0'
  exact {
    detached := by intro hc; simp [set_connection_state_recv] at hc
    replaced := by intro hc; simp [set_connection_state_recv] at hc
    pending := by intro a ha; simp [set_connection_state_recv] at ha }

/-- The loop of target_read_cb never stops at the assertion of the driver. -/
theorem target_read_loop_fault (E : Env) :
    ∀ (fuel : Nat) (c : pproxy_connection) (peek : evbuffer_ptr) (ext0 : List Byte) (f : Fault),
      target_read_loop E fuel c peek ext0 = .fault f → f ≠ .assertion 705 := by
  intro fuel
  induction fuel with
  | zero => intro c peek ext0 f h; simp [target_read_loop] at h
  | succ fuel ih =>
    intro c peek ext0 f h
    unfold target_read_loop at h
    cases hex : http_parser_execute E .target c ext0 with
    | error f' =>
      simp only [hex, Outcome.fault.injEq] at h
      subst h
      exact http_parser_execute_fault E .target c ext0 f' hex
    | ok r =>
      obtain ⟨c1, parsed⟩ := r
      simp only [hex] at h
      split_ifs at h with h1 h2
      cases hb : c1.target_state.bev with
      | none =>
        simp only [hb, Outcome.fault.injEq] at h
        subst h
        simp
      | some be =>
        simp only [hb] at h
        split_ifs at h with h3 h4 h5 h6
        · exact ih _ _ _ _ h
        · exact ih _ _ _ _ h

/-- The callback target_read_cb never stops at the assertion of the
driver. -/
theorem target_read_cb_fault (E : Env) (fuel : Nat) (c : pproxy_connection) (f : Fault)
    (h : target_read_cb E fuel c = .fault f) : f ≠ .assertion 705 := by
  unfold target_read_cb at h
  cases hb : c.target_state.bev with
  | none =>
    simp only [hb, Outcome.fault.injEq] at h
    subst h
    simp
  | some be =>
    simp only [hb] at h
    split_ifs at h with h0
    · simp only [Outcome.fault.injEq] at h
      subst h
      simp
    · cases hl : target_read_loop E fuel c
          (evbuffer_ptr_set be.input [] 0 .EVBUFFER_PTR_SET).2
          (iovec (evbuffer_peek (evbuffer_ptr_set be.input [] 0 .EVBUFFER_PTR_SET).2 1).2 0)
        with
      | freed => simp [hl] at h
      | timeout => simp [hl] at h
      | fault f' =>
        simp only [hl, Outcome.fault.injEq] at h
        subst h
        exact target_read_loop_fault E fuel c _ _ f' hl
      | ok c1 =>
        simp only [hl] at h
        split_ifs at h

/-- The callback connect_event_cb never stops at the assertion of the
driver: the driver is entered in RecvForward or DirectParsing. -/
theorem connect_event_cb_fault (E : Env) (fuel : Nat) (bev : bufferevent) (what : bev_event)
    (c : pproxy_connection) (f : Fault)
    (hset : c.source_state.parser_settings = source_parser_settings)
    (h : connect_event_cb E fuel bev what c = .fault f) : f ≠ .assertion 705 := by
  cases what with
  | BEV_EVENT_CONNECTED =>
    simp only [connect_event_cb] at h
    have hcases : (∃ f', (set_connection_state_direct_parsing c bev = .error f' ∨
          set_connection_state_recv_forward E c bev = .error f') ∧ f = f') ∨
        ∃ c2, (set_connection_state_direct_parsing c bev = .ok c2 ∨
          set_connection_state_recv_forward E c bev = .ok c2) ∧
          drive_request E fuel c2 = .fault f := by
      cases hm : c.source_state.parser.method <;> simp only [hm] at h <;>
        first
        | (cases hr : set_connection_state_recv_forward E c bev with
           | error f' =>
             simp only [hr, Outcome.fault.injEq] at h
             exact Or.inl ⟨f', Or.inr rfl, h.symm⟩
           | ok c2 => exact Or.inr ⟨c2, Or.inr rfl, by simpa [hr] using h⟩)
        | (cases hr : set_connection_state_direct_parsing c bev with
           | error f' =>
             simp only [hr, Outcome.fault.injEq] at h
             exact Or.inl ⟨f', Or.inl rfl, h.symm⟩
           | ok c2 => exact Or.inr ⟨c2, Or.inl rfl, by simpa [hr] using h⟩)
    rcases hcases with ⟨f', hf', rfl⟩ | ⟨c2, hc2, hdrive⟩
    · rcases hf' with hf' | hf'
      · unfold set_connection_state_direct_parsing at hf'
        split_ifs at hf' with h1 h2
        · simp only [Except.error.injEq] at hf'
          rw [← hf']
          simp
        · simp only [Except.error.injEq] at hf'
          rw [← hf']
          simp
        · rw [pause_parser_of_fault _ _ _ _ hf']
          simp
      · unfold set_connection_state_recv_forward at hf'
        split_ifs at hf' with h1
        · simp only [Except.error.injEq] at hf'
          rw [← hf']
          simp
        · simp only at hf'
          cases hp : pause_parser_of .source
              { c with target_state := init_target_state E bev, state := .CONN_RECV_FORWARD }
              false with
          | error f2 =>
            rw [hp] at hf'
            simp only [Except.error.injEq] at hf'
            rw [← hf', pause_parser_of_fault _ _ _ _ hp]
            simp
          | ok c3 => rw [hp] at hf'; cases hf'
    · rcases hc2 with hc2 | hc2
      · obtain ⟨_, hc2eq⟩ := set_connection_state_direct_parsing_spec c c2 bev hc2
        refine drive_request_fault E fuel c2 f ?_ ?_ hdrive
        · rw [hc2eq]; exact hset
        · rw [hc2eq]; simp
      · have hc2eq := set_connection_state_recv_forward_spec E c c2 bev hc2
        refine drive_request_fault E fuel c2 f ?_ ?_ hdrive
        · rw [hc2eq]; exact hset
        · rw [hc2eq]; simp
  | BEV_EVENT_EOF =>
    simp only [connect_event_cb] at h
    split_ifs at h
    simp only [Outcome.fault.injEq] at h
    rw [← h]
    simp
  | BEV_EVENT_ERROR =>
    simp only [connect_event_cb] at h
    split_ifs at h
    simp only [Outcome.fault.injEq] at h
    rw [← h]
    simp
  | BEV_EVENT_TIMEOUT =>
    simp [connect_event_cb] at h

/-- No dispatch of the event loop on a connection with PhaseInv and
CallbackInv stops at the assertion of the driver. -/
theorem reactor_step_fault (E : Env) (fuel : Nat) (ev : reactor_event) (c : pproxy_connection)
    (hP : PhaseInv c) (hI : CallbackInv c) :
    reactor_step E fuel ev c ≠ .fault (.assertion 705) := by
  intro h
  cases ev with
  | source_data data =>
    simp only [reactor_step] at h
    split_ifs at h with hcond
    cases hr : c.source_state.bev.readcb with
    | source_read_cb =>
      simp only [hr] at h
      unfold source_read_cb bufferevent_read_buffer at h
      have hs : c.state ≠ .CONN_COMPLETE := by
        intro hc
        have := hI.detached hc
        rw [hr] at this
        cases this
      refine drive_request_fault E fuel _ _ ?_ ?_ h rfl
      · exact hP.settings
      · exact hs
    | direct_source_read_cb =>
      simp only [hr] at h
      unfold direct_source_read_cb at h
      cases hb : c.target_state.bev with
      | none => simp [hb] at h
      | some tb => simp [hb] at h
    | none => simp [hr] at h
    | target_read_cb => simp [hr] at h
    | direct_target_read_cb => simp [hr] at h
  | source_what what =>
    simp only [reactor_step] at h
    cases he : c.source_state.bev.eventcb <;> simp only [he] at h <;>
      first
      | (cases h)
      | (cases what <;>
          simp [source_event_cb, direct_source_event_cb, close_event_cb] at h)
  | source_drained =>
    simp only [reactor_step] at h
    cases hw : c.source_state.bev.writecb with
    | none => simp [hw] at h
    | source_last_write_cb => simp [hw, source_last_write_cb] at h
  | connect_what what =>
    simp only [reactor_step] at h
    cases hc : c.connecting with
    | none => simp [hc] at h
    | some a =>
      simp only [hc] at h
      refine connect_event_cb_fault E fuel a.bev what _ _ ?_ h rfl
      exact hP.settings
  | target_data data =>
    simp only [reactor_step] at h
    cases hb : c.target_state.bev with
    | none => simp [hb] at h
    | some tb =>
      simp only [hb] at h
      split_ifs at h with hcond
      cases hr : tb.readcb with
      | target_read_cb =>
        simp only [hr] at h
        exact target_read_cb_fault E fuel _ _ h rfl
      | direct_target_read_cb =>
        simp only [hr] at h
        unfold direct_target_read_cb at h
        simp at h
      | none => simp [hr] at h
      | source_read_cb => simp [hr] at h
      | direct_source_read_cb => simp [hr] at h
  | target_what what =>
    simp only [reactor_step] at h
    cases hb : c.target_state.bev with
    | none => simp [hb] at h
    | some tb =>
      simp only [hb] at h
      cases he : tb.eventcb with
      | connect_event_cb =>
        simp only [he] at h
        exact connect_event_cb_fault E fuel tb what c _ hP.settings h rfl
      | target_event_cb =>
        simp only [he] at h
        cases what <;> simp [target_event_cb, close_event_cb] at h
      | direct_target_event_cb =>
        simp only [he] at h
        cases what <;> simp [direct_target_event_cb, close_event_cb] at h
      | none => simp [he] at h
      | source_event_cb => simp [he] at h
      | direct_source_event_cb => simp [he] at h

/-- C21: take any run of the event loop on a freshly accepted connection,
with any parser automaton, that leaves the connection alive in c.  When the
phase of c is Complete, the client bufferevent has no read callback, no
connect attempt is left with the reactor, and the event callback of the origin
bufferevent is target_event_cb, not connect_event_cb any more; so a client
bufferevent that still has source_read_cb belongs to a connection outside
Complete, and the driver is entered after a connect in RecvForward or
DirectParsing.  A call of the driver that starts outside Complete never stops
at the assertion in the CONN_COMPLETE arm (line 705) and returns outside
Complete.  And no dispatch of the event loop on c, whatever the event, stops at
that assertion. -/
theorem C21_driver_never_in_complete (E : Env) (f0 : Nat) (evs : List reactor_event)
    (c : pproxy_connection) (hrun : reactor_run E f0 evs (accepted E) = .ok c) :
    (c.state = .CONN_COMPLETE →
      c.source_state.bev.readcb = .none ∧ c.connecting = none ∧
      ∃ tb, c.target_state.bev = some tb ∧ tb.eventcb = .target_event_cb) ∧
    (c.source_state.bev.readcb = .source_read_cb → c.state ≠ .CONN_COMPLETE) ∧
    (∀ (bev : bufferevent) (c2 : pproxy_connection),
      (set_connection_state_direct_parsing { c with connecting := none } bev = .ok c2 ∨
        set_connection_state_recv_forward E { c with connecting := none } bev = .ok c2) →
      c2.state = .CONN_DIRECT_PARSING ∨ c2.state = .CONN_RECV_FORWARD) ∧
    (∀ (fuel : Nat) (c0 : pproxy_connection),
      c0.source_state.parser_settings = source_parser_settings →
      c0.state ≠ .CONN_COMPLETE →
      drive_request E fuel c0 ≠ .fault (.assertion 705) ∧
      ∀ c', drive_request E fuel c0 = .ok c' → c'.state ≠ .CONN_COMPLETE) ∧
    (∀ (fuel : Nat) (ev : reactor_event),
      reactor_step E fuel ev c ≠ .fault (.assertion 705)) := by
  obtain ⟨hP, hI⟩ := callback_inv_reactor_run E f0 evs c hrun
  refine ⟨?_, ?_, ?_, ?_, fun fuel ev => reactor_step_fault E fuel ev c hP hI⟩
  · intro hc
    refine ⟨hI.detached hc, ?_, hI.replaced (Or.inr (Or.inr hc))⟩
    cases hcn : c.connecting with
    | none => rfl
    | some a =>
      have := hI.pending a hcn
      rw [hc] at this
      cases this
  · intro hr hc
    have := hI.detached hc
    rw [hr] at this
    cases this
  · intro bev c2 hc2
    rcases hc2 with hc2 | hc2
    · obtain ⟨_, hc2eq⟩ := set_connection_state_direct_parsing_spec _ c2 bev hc2
      rw [hc2eq]
      exact Or.inl rfl
    · have hc2eq := set_connection_state_recv_forward_spec E _ c2 bev hc2
      rw [hc2eq]
      exact Or.inr rfl
  · intro fuel c0 hset hs
    refine ⟨fun h => drive_request_fault E fuel c0 _ hset hs h rfl, ?_⟩
    intro c' h
    have key := drive_request_preserves E
      (fun x => x.source_state.parser_settings = source_parser_settings ∧
        x.state ≠ .CONN_COMPLETE)
      (fun x hx => hx.1) ?_ ?_ ?_ fuel c0 c' ⟨hset, hs⟩ h
    · exact key.2
    · intro x B po tbv hx _
      exact ⟨hx.1, hx.2⟩
    · intro x x' bs hx hok hran herr
      cases hran with
      | more st m => exact ⟨hx.1, hx.2⟩
      | failed x' hf => exact absurd herr hf
      | connecting st m a hs' ha => exact ⟨hx.1, by simp⟩
      | forward st m hs' => exact ⟨hx.1, by simp⟩
      | direct st m tb hs' hb => exact ⟨hx.1, by simp⟩
    · intro x hx _
      exact ⟨hx.1, hx.2⟩

/-- C21, on an input: the run of the sample connection through the GET
request, the connect and the response ends in Complete; there the client has
no read callback, the origin event callback is target_event_cb, and a further
read from the client does not run the driver. -/
theorem C21_driver_never_in_complete_witness :
    reactor_run sample_env 4
      [.source_data [sample_get], .connect_what .BEV_EVENT_CONNECTED,
       .target_data sample_response] (accepted sample_env) = .ok sample_get_complete ∧
    sample_get_complete.state = .CONN_COMPLETE ∧
    (sample_get_complete.source_state.bev.readcb = .none ∧
      sample_get_complete.connecting = none ∧
      ∃ tb, sample_get_complete.target_state.bev = some tb ∧
        tb.eventcb = .target_event_cb) ∧
    reactor_step sample_env 4 (.source_data [[120]]) sample_get_complete
      ≠ .fault (.assertion 705) :=
  ⟨run_get_complete, rfl,
    (C21_driver_never_in_complete sample_env 4 _ sample_get_complete run_get_complete).1 rfl,
    (C21_driver_never_in_complete sample_env 4 _ sample_get_complete run_get_complete).2.2.2.2
      4 (.source_data [[120]])⟩

/-! ## The response relay on every input -/

/-- Shifting a span twice. -/
theorem option_map_add_add (x : Option Nat) (a : Nat) :
    (x.map (· + a)).map (· + 1) = x.map (· + (a + 1)) := by
  cases x with
  | none => rfl
  | some v => simp only [Option.map_some', Option.some.injEq]; omega

/-- Shifting a span by nothing. -/
theorem option_map_add_zero (x : Option Nat) : x.map (· + 0) = x := by
  cases x <;> rfl

/-- The byte loop of the response parser in phase RecvForward (stop unset) or
Forward (stop set), on the part rest of an extent followed by more.  It
returns, having stopped between p and the end of rest, in one of three ways:
in phase Complete, behind the byte response_span stops at; with all of rest
taken, the phase kept and the parser running, where the span of rest and more
is the span of more from the new parser state, moved by the length of rest; or
short of the end of rest with the phase kept, where response_span is none. -/
theorem target_scan_span (E : Env) (ext : List Byte) :
    ∀ (rest : List Byte) (p : Nat) (mark : Option Nat) (c : pproxy_connection)
      (more : List Byte) (tb : bufferevent) (stop : Bool),
      c.target_state.parser_settings = target_parser_settings →
      c.target_state.parser.http_errno = .HPE_OK →
      ((c.state = .CONN_RECV_FORWARD ∧ stop = false) ∨
        (c.state = .CONN_FORWARD ∧ stop = true)) →
      c.target_state.bev = some tb →
      ∃ c' n, http_parser_scan E .target ext rest p mark c = .ok (c', n) ∧
        p ≤ n ∧ n ≤ p + rest.length ∧
        ((c'.state = .CONN_COMPLETE ∧
          response_span E c.target_state.parser.type stop c.target_state.parser.state
            c.target_state.parser.method (rest ++ more) = some (n - p)) ∨
         (c'.state = c.state ∧ c'.target_state.parser.http_errno = .HPE_OK ∧
          n = p + rest.length ∧ c'.target_state.parser.type = c.target_state.parser.type ∧
          response_span E c.target_state.parser.type stop c.target_state.parser.state
            c.target_state.parser.method (rest ++ more)
            = (response_span E c.target_state.parser.type stop c'.target_state.parser.state
                c'.target_state.parser.method more).map (· + rest.length)) ∨
         (c'.state = c.state ∧ n < p + rest.length ∧
          response_span E c.target_state.parser.type stop c.target_state.parser.state
            c.target_state.parser.method (rest ++ more) = none)) := by
  intro rest
  induction rest with
  | nil =>
    intro p mark c more tb stop hset hok hph hb
    refine ⟨c, p, ?_, Nat.le_refl _, by simp, Or.inr (Or.inl ⟨rfl, hok, rfl, rfl, ?_⟩)⟩
    · unfold http_parser_scan
      cases mark with
      | none => rfl
      | some m =>
        simp only [call_on_url, settings_of, hset, target_parser_settings,
          note_callback_result_zero]
    · simp only [List.nil_append, List.length_nil]
      exact (option_map_add_zero _).symm
  | cons b rest ih =>
    intro p mark c more tb stop hset hok hph hb
    have hset1 : ∀ st, (parser_advance .target c st b).target_state.parser_settings
        = target_parser_settings := by
      intro st
      simpa [parser_advance, with_parser_of] using hset
    have hok1 : ∀ st, (parser_advance .target c st b).target_state.parser.http_errno
        = .HPE_OK := by
      intro st
      simpa [parser_advance, with_parser_of, parser_of] using hok
    have hph1 : ∀ st, ((parser_advance .target c st b).state = .CONN_RECV_FORWARD ∧ stop = false) ∨
        ((parser_advance .target c st b).state = .CONN_FORWARD ∧ stop = true) := by
      intro st
      simpa [parser_advance, with_parser_of] using hph
    have hb1 : ∀ st, (parser_advance .target c st b).target_state.bev = some tb := by
      intro st
      simpa [parser_advance, with_parser_of] using hb
    have lift : ∀ (mk : Option Nat),
        response_span E c.target_state.parser.type stop c.target_state.parser.state
          c.target_state.parser.method (b :: (rest ++ more))
          = (response_span E c.target_state.parser.type stop
              (E.step c.target_state.parser.type c.target_state.parser.state
                c.target_state.parser.method b).state
              (E.step c.target_state.parser.type c.target_state.parser.state
                c.target_state.parser.method b).method (rest ++ more)).map (· + 1) →
        ∃ c' n, http_parser_scan E .target ext rest (p + 1) mk
            (parser_advance .target c (E.step (parser_of .target c).type
              (parser_of .target c).state (parser_of .target c).method b) b) = .ok (c', n) ∧
          p ≤ n ∧ n ≤ p + (b :: rest).length ∧
          ((c'.state = .CONN_COMPLETE ∧
            response_span E c.target_state.parser.type stop c.target_state.parser.state
              c.target_state.parser.method (b :: rest ++ more) = some (n - p)) ∨
           (c'.state = c.state ∧ c'.target_state.parser.http_errno = .HPE_OK ∧
            n = p + (b :: rest).length ∧
            c'.target_state.parser.type = c.target_state.parser.type ∧
            response_span E c.target_state.parser.type stop c.target_state.parser.state
              c.target_state.parser.method (b :: rest ++ more)
              = (response_span E c.target_state.parser.type stop c'.target_state.parser.state
                  c'.target_state.parser.method more).map (· + (b :: rest).length)) ∨
           (c'.state = c.state ∧ n < p + (b :: rest).length ∧
            response_span E c.target_state.parser.type stop c.target_state.parser.state
              c.target_state.parser.method (b :: rest ++ more) = none)) := by
      intro mk hspan
      obtain ⟨c', n, hscan, hpn, hnl, hcase⟩ := ih (p + 1) mk
        (parser_advance .target c (E.step (parser_of .target c).type
          (parser_of .target c).state (parser_of .target c).method b) b) more tb stop
        (hset1 _) (hok1 _) (hph1 _) (hb1 _)
      simp only [parser_advance, with_parser_of, parser_of] at hcase
      simp only [List.cons_append]
      rw [hspan]
      refine ⟨c', n, hscan, by omega, by simp only [List.length_cons]; omega, ?_⟩
      rcases hcase with ⟨h1, h2⟩ | ⟨h1, h2, h3, h4, h5⟩ | ⟨h1, h2, h3⟩
      · refine Or.inl ⟨h1, ?_⟩
        rw [h2]
        simp only [Option.map_some', Option.some.injEq]
        omega
      · refine Or.inr (Or.inl ⟨h1, h2, by simp only [List.length_cons]; omega, h4, ?_⟩)
        rw [h5, option_map_add_add]
        rfl
      · refine Or.inr (Or.inr ⟨h1, by simp only [List.length_cons]; omega, ?_⟩)
        rw [h3]
        rfl
    cases hev : (E.step (parser_of .target c).type (parser_of .target c).state
        (parser_of .target c).method b).event with
    | pe_error code =>
      rw [http_parser_scan_error _ _ _ _ _ _ _ _ _ hev]
      simp only [parser_of] at hev
      refine ⟨_, p, rfl, Nat.le_refl _, by omega,
        Or.inr (Or.inr ⟨by simp [with_parser_of], by simp, ?_⟩)⟩
      simp only [List.cons_append]
      unfold response_span
      simp only [hev]
    | pe_none =>
      rw [http_parser_scan_none _ _ _ _ _ _ _ _ hev]
      simp only [parser_of] at hev
      refine lift _ ?_
      conv_lhs => unfold response_span
      simp only [hev]
    | pe_url =>
      rw [http_parser_scan_url _ _ _ _ _ _ _ _ hev]
      simp only [call_on_url, settings_of, hset1, target_parser_settings,
        note_callback_result_zero]
      rw [if_neg (by simpa [parser_of] using hok1 _)]
      simp only [parser_of] at hev
      refine lift _ ?_
      conv_lhs => unfold response_span
      simp only [hev]
    | pe_message_complete =>
      rw [http_parser_scan_message_complete _ _ _ _ _ _ _ _ hev]
      simp only [call_on_message_complete, settings_of, hset1, target_parser_settings]
      rcases hph with ⟨hs, hst⟩ | ⟨hs, hst⟩
      · have hmc : target_message_complete .target (parser_advance .target c
            (E.step (parser_of .target c).type (parser_of .target c).state
              (parser_of .target c).method b) b)
            = .ok (parser_advance .target c
            (E.step (parser_of .target c).type (parser_of .target c).state
              (parser_of .target c).method b) b, 0) := by
          unfold target_message_complete
          simp [parser_advance, with_parser_of, hs]
        rw [hmc]
        simp only [note_callback_result_zero]
        rw [if_neg (by simpa [parser_of] using hok1 _)]
        simp only [parser_of] at hev
        refine lift _ ?_
        conv_lhs => unfold response_span
        simp only [hev, hst, Bool.false_eq_true, if_false]
      · have hs1 : ∀ st, (parser_advance .target c st b).state = .CONN_FORWARD := by
          intro st
          simpa [parser_advance, with_parser_of] using hs
        rw [target_message_complete_forward _ tb (hs1 _) (hb1 _) (hok1 _)]
        simp only [note_callback_result_zero, parser_of, ne_eq, reduceCtorEq,
          not_false_eq_true, if_true]
        simp only [parser_of] at hev
        refine ⟨_, _, rfl, by omega, by simp, Or.inl ⟨rfl, ?_⟩⟩
        simp only [List.cons_append]
        unfold response_span
        simp only [hev, hst, if_true, Nat.add_sub_cancel_left]

/-- The response parser on one extent in phase RecvForward or Forward,
followed by more: the three ways of target_scan_span, counted from the start
of the extent. -/
theorem target_execute_span (E : Env) (c : pproxy_connection) (ext more : List Byte)
    (tb : bufferevent) (stop : Bool)
    (hset : c.target_state.parser_settings = target_parser_settings)
    (hok : c.target_state.parser.http_errno = .HPE_OK)
    (hph : (c.state = .CONN_RECV_FORWARD ∧ stop = false) ∨
      (c.state = .CONN_FORWARD ∧ stop = true))
    (hb : c.target_state.bev = some tb) :
    ∃ c' parsed, http_parser_execute E .target c ext = .ok (c', parsed) ∧
      parsed ≤ ext.length ∧
      ((c'.state = .CONN_COMPLETE ∧
        response_span E c.target_state.parser.type stop c.target_state.parser.state
          c.target_state.parser.method (ext ++ more) = some parsed) ∨
       (c'.state = c.state ∧ c'.target_state.parser.http_errno = .HPE_OK ∧
        parsed = ext.length ∧ c'.target_state.parser.type = c.target_state.parser.type ∧
        response_span E c.target_state.parser.type stop c.target_state.parser.state
          c.target_state.parser.method (ext ++ more)
          = (response_span E c.target_state.parser.type stop c'.target_state.parser.state
              c'.target_state.parser.method more).map (· + ext.length)) ∨
       (c'.state = c.state ∧ parsed < ext.length ∧
        response_span E c.target_state.parser.type stop c.target_state.parser.state
          c.target_state.parser.method (ext ++ more) = none)) := by
  unfold http_parser_execute
  simp only [parser_of]
  rw [if_neg (by simpa using hok)]
  obtain ⟨c', n, hscan, _, hnl, hcase⟩ := target_scan_span E ext ext 0
    (if E.in_url c.target_state.parser.state then some 0 else none) c more tb stop hset hok hph hb
  refine ⟨c', n, hscan, by omega, ?_⟩
  simpa using hcase

/-- The loop of target_read_cb in phase RecvForward or Forward, with the
response parser running, no error on the request parser and one unit of fuel
per extent of the pending origin input.  When response_span gives k for the
pending bytes, the loop returns with the connection alive and the response
parser has consumed k bytes; when it gives none, the loop frees the
connection. -/
theorem target_read_loop_span (E : Env) :
    ∀ (fuel : Nat) (c : pproxy_connection) (ext0 : List Byte) (tail : evbuffer)
      (be : bufferevent) (stop : Bool) (o : Outcome pproxy_connection),
      c.target_state.parser_settings = target_parser_settings →
      c.target_state.bev = some be →
      evbuffer_bytes be.input = evbuffer_bytes (ext0 :: tail) →
      ((c.state = .CONN_RECV_FORWARD ∧ stop = false) ∨
        (c.state = .CONN_FORWARD ∧ stop = true)) →
      c.target_state.parser.http_errno = .HPE_OK →
      is_http_error c.source_state.parser = 0 →
      (ext0 :: tail).length ≤ fuel →
      target_read_loop E fuel c (ext0 :: tail) ext0 = o →
      (∀ k, response_span E c.target_state.parser.type stop c.target_state.parser.state
          c.target_state.parser.method (evbuffer_bytes (ext0 :: tail)) = some k →
        ∃ c', o = .ok c' ∧
          c'.target_state.parser.consumed.length
            = c.target_state.parser.consumed.length + k) ∧
      (response_span E c.target_state.parser.type stop c.target_state.parser.state
          c.target_state.parser.method (evbuffer_bytes (ext0 :: tail)) = none →
        o = .freed) := by
  intro fuel
  induction fuel with
  | zero => intro c ext0 tail be stop o _ _ _ _ _ _ h; simp at h
  | succ fuel ih =>
    intro c ext0 tail be stop o hset hb hbytes hph hok hsrc hfuel ho
    unfold target_read_loop at ho
    rw [evbuffer_bytes_cons]
    obtain ⟨c1, parsed, hex, hple, hspan⟩ :=
      target_execute_span E c ext0 (evbuffer_bytes tail) be stop hset hok hph hb
    rw [hex] at ho
    simp only at ho
    obtain ⟨_, hcons, hsrc1, hconn, hsets, hcase, _⟩ :=
      target_execute_frame E c c1 ext0 parsed be hset hb hex
    have hbe1 : ∃ be1 : bufferevent, c1.target_state.bev = some be1 ∧ be1.input = be.input := by
      rcases hcase with ⟨h1, h2⟩ | ⟨h1, h2, h3⟩
      · exact ⟨be, h2, rfl⟩
      · exact ⟨_, h3, rfl⟩
    obtain ⟨be1, hb1, hin1⟩ := hbe1
    rw [if_neg (by rw [hsrc1]; simpa using hsrc)] at ho
    have hnc : c.state ≠ .CONN_COMPLETE := by
      rcases hph with ⟨h, _⟩ | ⟨h, _⟩ <;> rw [h] <;> simp
    have hlen1 : c1.target_state.parser.consumed.length
        = c.target_state.parser.consumed.length + parsed := by
      rw [hcons, List.length_append, List.length_take, Nat.min_eq_left hple]
    rcases hspan with ⟨hcomp, hsp⟩ | ⟨hst, hok1, hp, hty, hsp⟩ | ⟨hst, hlt, hsp⟩
    · -- the message completed in this extent
      rw [if_neg (fun h => h.2 hcomp), hb1] at ho
      simp only at ho
      have hlenp : parsed ≤ (evbuffer_bytes (ext0 :: tail)).length := by
        rw [evbuffer_bytes_cons, List.length_append]
        omega
      rw [evbuffer_ptr_set_add _ _ _ hlenp] at ho
      simp only [if_true, evbuffer_peek] at ho
      have hbytes1 : evbuffer_bytes be1.input = evbuffer_bytes (ext0 :: tail) := by
        rw [hin1, hbytes]
      obtain ⟨be2, hb2, hin2, hsplit, hout2, hrcb2, hecb2, hsout, hst2, hconn2, htp2, hts2,
        hss2, hbuf2, hpo2, hsp2, hsin2⟩ :=
        target_forward_spec E c1 be1 ext0 tail parsed hple hbytes1
      obtain ⟨c2, hc2⟩ : ∃ c2, c2 = target_forward E c1 be1 ext0 parsed
          (evbuffer_drain (ext0 :: tail) parsed).length := ⟨_, rfl⟩
      rw [← hc2] at hb2 hst2 hts2 htp2 hsp2 ho
      rw [if_pos (hst2.trans hcomp)] at ho
      rw [hsp]
      refine ⟨?_, fun h => by cases h⟩
      intro k hk
      simp only [Option.some.injEq] at hk
      refine ⟨c2, ho.symm, ?_⟩
      rw [htp2, hlen1, hk]
    · -- the whole extent was taken
      rw [if_neg (fun h => by omega), hb1] at ho
      simp only at ho
      have hlenp : parsed ≤ (evbuffer_bytes (ext0 :: tail)).length := by
        rw [evbuffer_bytes_cons, List.length_append]
        omega
      rw [evbuffer_ptr_set_add _ _ _ hlenp] at ho
      simp only [if_true, evbuffer_peek] at ho
      have hbytes1 : evbuffer_bytes be1.input = evbuffer_bytes (ext0 :: tail) := by
        rw [hin1, hbytes]
      obtain ⟨be2, hb2, hin2, hsplit, hout2, hrcb2, hecb2, hsout, hst2, hconn2, htp2, hts2,
        hss2, hbuf2, hpo2, hsp2, hsin2⟩ :=
        target_forward_spec E c1 be1 ext0 tail parsed hple hbytes1
      obtain ⟨c2, hc2⟩ : ∃ c2, c2 = target_forward E c1 be1 ext0 parsed
          (evbuffer_drain (ext0 :: tail) parsed).length := ⟨_, rfl⟩
      rw [← hc2] at hb2 hst2 hts2 htp2 hsp2 ho
      rw [if_neg (by rw [hst2, hst]; exact hnc)] at ho
      have hbt : evbuffer_bytes (evbuffer_drain (ext0 :: tail) parsed) = evbuffer_bytes tail := by
        rw [evbuffer_bytes_drain, evbuffer_bytes_cons, hp]
        simp
      rw [hsp]
      cases hP : evbuffer_drain (ext0 :: tail) parsed with
      | nil =>
        rw [hP] at hbt ho
        simp only [List.length_nil, ne_eq, not_true_eq_false, if_false] at ho
        have hnil : evbuffer_bytes tail = [] := by rw [← hbt]; rfl
        rw [hnil]
        unfold response_span
        simp only [Option.map_some', Nat.zero_add]
        refine ⟨?_, fun h => by cases h⟩
        intro k hk
        simp only [Option.some.injEq] at hk
        refine ⟨c2, ho.symm, ?_⟩
        rw [htp2, hlen1, hp, hk]
      | cons e' t' =>
        rw [hP] at hin2 hbt ho
        simp only [List.length_cons, ne_eq, Nat.add_one_ne_zero, not_false_eq_true, if_true,
          List.take_succ_cons, List.take_zero, iovec, List.getD_cons_zero] at ho
        have hl : (e' :: t').length ≤ fuel := by
          rw [← hP, hp]
          have := evbuffer_drain_head_length ext0 tail
          simp only [List.length_cons] at hfuel
          omega
        obtain ⟨ih1, ih2⟩ := ih c2 e' t' be2 stop o (by rw [hts2, hsets, hset]) hb2 hin2
          (by rw [hst2, hst]; exact hph) (by rw [htp2]; exact hok1)
          (by rw [hsp2, hsrc1]; exact hsrc) hl ho
        rw [htp2, hbt, hty] at ih1 ih2
        constructor
        · intro k hk
          simp only [Option.map_eq_some'] at hk
          obtain ⟨k', hk', rfl⟩ := hk
          obtain ⟨c', hc', hlen'⟩ := ih1 k' hk'
          refine ⟨c', hc', ?_⟩
          rw [hlen', hlen1, hp]
          omega
        · intro hn
          simp only [Option.map_eq_none'] at hn
          exact ih2 hn
    · -- the parser stopped short of the end of the extent
      rw [if_pos ⟨hlt, by rw [hst]; exact hnc⟩] at ho
      rw [hsp]
      exact ⟨fun k hk => (by cases hk), fun _ => ho.symm⟩

/-- The first extent a pointer at the start of a buffer sees holds a byte. -/
theorem evbuffer_drain_zero_head (b : evbuffer) (e : List Byte) (t : evbuffer)
    (h : evbuffer_drain b 0 = e :: t) : 0 < e.length := by
  induction b with
  | nil => simp [evbuffer_drain] at h
  | cons a rest ih =>
    unfold evbuffer_drain at h
    by_cases ha : a.length ≤ 0
    · rw [if_pos ha] at h
      exact ih (by simpa using h)
    · rw [if_neg ha] at h
      simp only [List.drop_zero, List.cons.injEq] at h
      rw [← h.1]
      omega

/-- The callback target_read_cb in terms of its loop: with bytes pending on the
origin bufferevent the loop runs on the extents from the start of the input;
the callback frees the connection when the loop does, and returns with the
connection alive and the origin side as the loop left it when the loop
returns. -/
theorem target_read_cb_of_loop (E : Env) (fuel : Nat) (c : pproxy_connection)
    (be : bufferevent) (hb : c.target_state.bev = some be)
    (hdata : evbuffer_get_length be.input ≠ 0) :
    ∃ ext0 tail, evbuffer_drain be.input 0 = ext0 :: tail ∧
      (target_read_loop E fuel c (ext0 :: tail) ext0 = .freed →
        target_read_cb E fuel c = .freed) ∧
      (∀ c1, target_read_loop E fuel c (ext0 :: tail) ext0 = .ok c1 →
        ∃ c', target_read_cb E fuel c = .ok c' ∧ c'.target_state = c1.target_state) := by
  unfold target_read_cb
  rw [hb]
  simp only [evbuffer_ptr_set_zero, evbuffer_peek]
  cases hP : evbuffer_drain be.input 0 with
  | nil =>
    have h0 := evbuffer_bytes_drain_zero be.input
    rw [hP] at h0
    exact absurd (by rw [evbuffer_get_length, ← h0]; rfl) hdata
  | cons ext0 tail =>
    simp only [List.length_cons, Nat.add_one_ne_zero, if_false, List.take_succ_cons,
      List.take_zero, iovec, List.getD_cons_zero]
    refine ⟨ext0, tail, rfl, ?_, ?_⟩
    · intro h
      rw [h]
    · intro c1 h
      rw [h]
      simp only
      split_ifs
      · exact ⟨_, rfl, rfl⟩
      · exact ⟨_, rfl, rfl⟩

/-- The loop of target_read_cb frees the connection at once when the request
parser is in an error state, or when the response parser is not running. -/
theorem target_read_loop_entry_error (E : Env) (fuel : Nat) (c : pproxy_connection)
    (ext0 : List Byte) (tail : evbuffer) (be : bufferevent)
    (hset : c.target_state.parser_settings = target_parser_settings)
    (hb : c.target_state.bev = some be)
    (hs : c.state = .CONN_RECV_FORWARD ∨ c.state = .CONN_FORWARD)
    (hne : 0 < ext0.length)
    (herr : is_http_error c.source_state.parser ≠ 0 ∨
      c.target_state.parser.http_errno ≠ .HPE_OK) :
    target_read_loop E (fuel + 1) c (ext0 :: tail) ext0 = .freed := by
  unfold target_read_loop
  obtain ⟨r, hex⟩ := target_execute_total E c ext0 hset hs (by simp [hb])
  obtain ⟨c1, parsed⟩ := r
  rw [hex]
  simp only
  obtain ⟨_, _, hsrc1, _, _, hcase, _⟩ := target_execute_frame E c c1 ext0 parsed be hset hb hex
  by_cases hsrc : is_http_error c.source_state.parser ≠ 0
  · rw [if_pos (by rw [hsrc1]; exact hsrc)]
  · rw [if_neg (by rw [hsrc1]; exact hsrc)]
    have hno : c.target_state.parser.http_errno ≠ .HPE_OK := by
      rcases herr with h | h
      · exact absurd h hsrc
      · exact h
    rcases target_execute_spec E c c1 ext0 parsed hset hex with ⟨_, hc1, hp⟩ | ⟨hok, _⟩
    · rw [if_pos ⟨by omega, by
        rw [hc1]
        rcases hs with h | h <;> rw [h] <;> simp⟩]
    · exact absurd hok hno

/-- C2: target_read_cb on a connection in phase RecvForward or Forward whose
origin bufferevent be holds pending input, in any number of extents, with fuel
for one round per extent.  It either frees the connection or returns with it
alive, and then a first part Q of the pending origin bytes is what the
response parser consumed in this call, exactly Q has been queued on the client
behind what was queued before, and exactly Q has been removed from the front
of the origin input.  Which of the two happens is fixed by the input.  With
the response parser running and no error on the request parser, let
response_span run the parser automaton over the pending bytes, stopping
behind message-complete in phase Forward only: when it takes k bytes without
rejecting one, the callback returns with the connection alive and the consumed,
queued and removed bytes are exactly the first k pending bytes in order; when
it rejects a byte, the callback frees the connection.  The callback also frees
the connection when the request parser is in an error state or the response
parser is not running on entry. -/
theorem C2_response_relay (E : Env) (fuel : Nat) (c : pproxy_connection) (be : bufferevent)
    (hs : c.state = .CONN_RECV_FORWARD ∨ c.state = .CONN_FORWARD)
    (hb : c.target_state.bev = some be)
    (hset : c.target_state.parser_settings = target_parser_settings)
    (hdata : evbuffer_get_length be.input ≠ 0)
    (hfuel : be.input.length ≤ fuel) :
    (target_read_cb E fuel c = .freed ∨
     ∃ (c' : pproxy_connection) (Q : List Byte) (be' : bufferevent),
      target_read_cb E fuel c = .ok c' ∧
      c'.target_state.bev = some be' ∧
      c'.target_state.parser.consumed = c.target_state.parser.consumed ++ Q ∧
      c'.source_state.bev.output = c.source_state.bev.output ++ Q ∧
      evbuffer_bytes be.input = Q ++ evbuffer_bytes be'.input) ∧
    (c.target_state.parser.http_errno = .HPE_OK → is_http_error c.source_state.parser = 0 →
      (∀ k, response_span E c.target_state.parser.type (decide (c.state = .CONN_FORWARD))
          c.target_state.parser.state c.target_state.parser.method (evbuffer_bytes be.input)
          = some k →
        ∃ (c' : pproxy_connection) (be' : bufferevent),
          target_read_cb E fuel c = .ok c' ∧
          c'.target_state.bev = some be' ∧
          c'.target_state.parser.consumed
            = c.target_state.parser.consumed ++ (evbuffer_bytes be.input).take k ∧
          c'.source_state.bev.output
            = c.source_state.bev.output ++ (evbuffer_bytes be.input).take k ∧
          evbuffer_bytes be'.input = (evbuffer_bytes be.input).drop k) ∧
      (response_span E c.target_state.parser.type (decide (c.state = .CONN_FORWARD))
          c.target_state.parser.state c.target_state.parser.method (evbuffer_bytes be.input)
          = none →
        target_read_cb E fuel c = .freed)) ∧
    (is_http_error c.source_state.parser ≠ 0 → target_read_cb E fuel c = .freed) ∧
    (c.target_state.parser.http_errno ≠ .HPE_OK → target_read_cb E fuel c = .freed) := by
  obtain ⟨ext0, tail, hP, hfreed, hret⟩ := target_read_cb_of_loop E fuel c be hb hdata
  have hbytes : evbuffer_bytes be.input = evbuffer_bytes (ext0 :: tail) := by
    rw [← hP, evbuffer_bytes_drain_zero]
  have hl : (ext0 :: tail).length ≤ fuel := by
    rw [← hP]
    exact Nat.le_trans (evbuffer_drain_length_le _ _) hfuel
  have hne := evbuffer_drain_zero_head be.input ext0 tail hP
  have hph : (c.state = .CONN_RECV_FORWARD ∧ decide (c.state = .CONN_FORWARD) = false) ∨
      (c.state = .CONN_FORWARD ∧ decide (c.state = .CONN_FORWARD) = true) := by
    rcases hs with h | h
    · exact Or.inl ⟨h, by simp [h]⟩
    · exact Or.inr ⟨h, by simp [h]⟩
  have hentry : is_http_error c.source_state.parser ≠ 0 ∨
      c.target_state.parser.http_errno ≠ .HPE_OK → target_read_cb E fuel c = .freed := by
    intro herr
    cases fuel with
    | zero => simp at hl
    | succ f =>
      exact hfreed (target_read_loop_entry_error E f c ext0 tail be hset hb hs hne herr)
  refine ⟨?_, ?_, fun h => hentry (Or.inl h), fun h => hentry (Or.inr h)⟩
  · rcases target_read_loop_total E fuel c ext0 tail be hset hb hbytes hs hl with h | ⟨c2, h⟩
    · exact Or.inl (hfreed h)
    · obtain ⟨c', hc', _⟩ := hret c2 h
      obtain ⟨Q, be', h1, h2, h3, h4, _⟩ := target_read_cb_spec E fuel c c' be hset hb hc'
      exact Or.inr ⟨c', Q, be', hc', h1, h4, h3, h2⟩
  · intro hok hsrc
    obtain ⟨hsome, hnone⟩ := target_read_loop_span E fuel c ext0 tail be
      (decide (c.state = .CONN_FORWARD)) _ hset hb hbytes hph hok hsrc hl rfl
    rw [← hbytes] at hsome hnone
    constructor
    · intro k hk
      obtain ⟨c1, hloop, hlen⟩ := hsome k hk
      obtain ⟨c', hc', htgt⟩ := hret c1 hloop
      obtain ⟨Q, be', h1, h2, h3, h4, _⟩ := target_read_cb_spec E fuel c c' be hset hb hc'
      have hQ : Q.length = k := by
        have := congrArg List.length h4
        rw [htgt, List.length_append, hlen] at this
        omega
      refine ⟨c', be', hc', h1, ?_, ?_, ?_⟩
      · rw [h4, h2, ← hQ, List.take_left']
        rfl
      · rw [h3, h2, ← hQ, List.take_left']
        rfl
      · rw [h2, ← hQ, List.drop_left']
        rfl
    · intro hn
      exact hfreed (hnone hn)

set_option maxRecDepth 100000 in
/-- The response parser of the sample connection takes the 16 bytes of the
sample response and stops there. -/
theorem sample_response_span :
    response_span sample_env sample_get_pending.target_state.parser.type
      (decide (sample_get_pending.state = .CONN_FORWARD))
      sample_get_pending.target_state.parser.state
      sample_get_pending.target_state.parser.method
      (evbuffer_bytes sample_response_bev.input) = some 16 := by decide

set_option maxRecDepth 100000 in
/-- The response parser of the sample connection rejects the third byte of
A CR X. -/
theorem sample_garbled_span :
    response_span sample_env sample_get_garbled.target_state.parser.type
      (decide (sample_get_garbled.state = .CONN_FORWARD))
      sample_get_garbled.target_state.parser.state
      sample_get_garbled.target_state.parser.method
      (evbuffer_bytes [[65, 13, 88]]) = none := by decide

set_option maxRecDepth 100000 in
/-- The response parser of the sample connection takes both bytes of H T and
has not reached the end of the message. -/
theorem sample_begun_span :
    response_span sample_env sample_get_begun.target_state.parser.type
      (decide (sample_get_begun.state = .CONN_FORWARD))
      sample_get_begun.target_state.parser.state
      sample_get_begun.target_state.parser.method
      (evbuffer_bytes [[72, 84]]) = some 2 := by decide

/-- C2, on three inputs.  The response of 16 bytes arrives in two extents with
z z behind it: the callback returns with the connection alive, the 16 bytes are
consumed, queued on the client and removed, z z stays in the origin input.
Only the first two bytes H T of a response arrive: the callback returns with
the connection alive in Forward, and both bytes are consumed, queued on the
client and removed.  The broken response A CR X arrives: the callback frees
the connection. -/
theorem C2_response_relay_witness :
    target_read_cb sample_env 2 sample_get_pending = .ok sample_get_complete ∧
    sample_get_complete.source_state.bev.output = sample_response.flatten.take 16 ∧
    sample_get_complete.target_state.bev.map (fun b => b.input) = some [[122, 122]] ∧
    (∃ (c' : pproxy_connection) (be' : bufferevent),
      target_read_cb sample_env 2 sample_get_pending = .ok c' ∧
      c'.target_state.bev = some be' ∧
      c'.target_state.parser.consumed
        = sample_get_pending.target_state.parser.consumed
          ++ (evbuffer_bytes sample_response_bev.input).take 16 ∧
      c'.source_state.bev.output
        = sample_get_pending.source_state.bev.output
          ++ (evbuffer_bytes sample_response_bev.input).take 16 ∧
      evbuffer_bytes be'.input = (evbuffer_bytes sample_response_bev.input).drop 16) ∧
    (∃ (c' : pproxy_connection) (be' : bufferevent),
      target_read_cb sample_env 2 sample_get_begun = .ok c' ∧
      c'.target_state.bev = some be' ∧
      c'.target_state.parser.consumed
        = sample_get_begun.target_state.parser.consumed ++ [72, 84] ∧
      c'.source_state.bev.output = sample_get_begun.source_state.bev.output ++ [72, 84] ∧
      evbuffer_bytes be'.input = []) ∧
    target_read_cb sample_env 2 sample_get_garbled = .freed :=
  ⟨step_response_read, rfl, rfl,
    ((C2_response_relay sample_env 2 sample_get_pending sample_response_bev
      (Or.inr rfl) rfl rfl (by decide) (by decide)).2.1 (by decide) (by decide)).1 16
      sample_response_span,
    ((C2_response_relay sample_env 2 sample_get_begun
      { sample_response_bev with input := [[72, 84]] }
      (Or.inr rfl) rfl rfl (by decide) (by decide)).2.1 (by decide) (by decide)).1 2
      sample_begun_span,
    ((C2_response_relay sample_env 2 sample_get_garbled
      { sample_response_bev with input := [[65, 13, 88]] }
      (Or.inr rfl) rfl rfl (by decide) (by decide)).2.1 (by decide) (by decide)).2
      sample_garbled_span⟩

end Pproxy
